import Mathlib

/-!
# SafeGC: a shallow embedding of `memory.c`

The conservative mark-and-sweep collector of `memory.c` is embedded as Lean
functions over an explicit machine state.

* Memory is one flat byte-addressed space (`Mem`, read through `Mem.get`);
  multi-byte values are little-endian.  The segment metadata of the C `union` (the `Size[]` table
  overlapping the `OtherMetadata` record) lives in that same memory, so the
  overlap of the two views is part of the model.
* `noaccess` records the pages that are `PROT_NONE`; a load or store through a
  heap pointer on such a page is a fault.
* A function that can abort (failed `assert`, `exit`, fault) or loop returns
  `Option`; `none` stands for "no result".  Loops whose trip count is not
  known from their bounds take a `fuel` argument.
* `size_t` arithmetic is taken modulo `2^64`, `unsigned` stores modulo `2^32`,
  `unsigned short` stores modulo `2^16`.
-/

namespace SafeGC

set_option linter.all false

/-! ## Constants -/

def SEGMENT_SIZE : Nat := 4294967296
def PAGE_SIZE : Nat := 4096
def METADATA_SIZE : Nat := (SEGMENT_SIZE / PAGE_SIZE) * 2
def NUM_PAGES_IN_SEG : Nat := METADATA_SIZE / 2
def OTHER_METADATA_SIZE : Nat := (METADATA_SIZE / PAGE_SIZE) * 2
def COMMIT_SIZE : Nat := PAGE_SIZE
def FREE : Nat := 1
def MARK : Nat := 2
def GC_THRESHOLD : Nat := 33554432
def OBJ_HEADER_SIZE : Nat := 16
def MAGIC_ADDR : Nat := 0x12abcdef
def WORD : Nat := 18446744073709551616

/-- The macro `Align(x, y)`: `((x) + (y - 1)) & ~(y - 1)` on 64-bit values. -/
def Align (x y : Nat) : Nat := ((x + (y - 1)) % WORD) &&& (WORD - y)

/-- The macro `ADDR_TO_PAGE(x)`: `x & ~(PAGE_SIZE - 1)`. -/
def ADDR_TO_PAGE (x : Nat) : Nat := x &&& (WORD - PAGE_SIZE)

/-- The macro `ADDR_TO_SEGMENT(x)`: `x & ~(SEGMENT_SIZE - 1)`. -/
def ADDR_TO_SEGMENT (x : Nat) : Nat := x &&& (WORD - SEGMENT_SIZE)

/-! ## Byte memory -/

/-- One store: the `len` low bytes of `v`, little-endian, at address `a`; or `len` zero
bytes at `a`. -/
inductive Store where
  | val (a len v : Nat)
  | zero (a len : Nat)

/-- Byte memory: the contents at process start and the stores made since, latest first.
The meaning of a memory is the function `Mem.get`. -/
structure Mem where
  init : Nat → Nat
  stores : List Store

/-- The byte at `x` after the stores `l` over the contents `init`. -/
def byteOf : List Store → (Nat → Nat) → Nat → Nat
  | [], init, x => init x
  | Store.val a len v :: l, init, x =>
    if a ≤ x ∧ x < a + len then v / 256 ^ (x - a) % 256 else byteOf l init x
  | Store.zero a len :: l, init, x =>
    if a ≤ x ∧ x < a + len then 0 else byteOf l init x

def Mem.get (m : Mem) (x : Nat) : Nat := byteOf m.stores m.init x

def read8 (m : Mem) (a : Nat) : Nat := m.get a % 256
def read16 (m : Mem) (a : Nat) : Nat := read8 m a + 256 * read8 m (a + 1)
def read32 (m : Mem) (a : Nat) : Nat := read16 m a + 65536 * read16 m (a + 2)
def read64 (m : Mem) (a : Nat) : Nat := read32 m a + 4294967296 * read32 m (a + 4)

def write16 (m : Mem) (a v : Nat) : Mem := { m with stores := Store.val a 2 v :: m.stores }
def write32 (m : Mem) (a v : Nat) : Mem := { m with stores := Store.val a 4 v :: m.stores }
def write64 (m : Mem) (a v : Nat) : Mem := { m with stores := Store.val a 8 v :: m.stores }

/-- Fill `[a, a + len)` with zero bytes (a fresh anonymous mapping). -/
def zeroRange (m : Mem) (a len : Nat) : Mem := { m with stores := Store.zero a len :: m.stores }

/-- Set the protection bit of the pages of `[addr, addr + size)`. -/
def setProt (p : Nat → Bool) (addr size : Nat) (v : Bool) : Nat → Bool :=
  fun pg => if addr / PAGE_SIZE ≤ pg ∧ pg < (addr + size) / PAGE_SIZE then v else p pg

/-! ## State -/

/-- The C `struct UnscannedListNode`; `Next` is the index of a node in the node store. -/
structure UnscannedListNode where
  Object : Nat
  Next : Option Nat
  deriving DecidableEq

/-- The C `struct UnscannedList`. -/
structure UnscannedList where
  Head : Option Nat
  Tail : Option Nat
  deriving DecidableEq

/-- The process state: memory, page protections and the globals and statics of `memory.c`. -/
structure State where
  mem : Mem
  noaccess : Nat → Bool
  Segments : List Nat
  Unscanned : Option UnscannedList
  nodes : List UnscannedListNode
  NumGCTriggered : Int
  NumBytesFreed : Int
  NumBytesAllocated : Int
  unscannedListCount : Int
  CurSegSmall : Option Nat
  CurSegBig : Option Nat
  TotalAlloc : Nat
  mmapRet : List Nat

/-- What `_runGC` learns from its environment: the linker symbols, the result of
`getDataSecSz`, the stack bounds and the address of its local `Lvar`. -/
structure RootEnv where
  etext : Nat
  edata : Nat
  end_ : Nat
  DataSecSz : Option Nat
  stack : Option (Nat × Nat)
  Lvar : Nat

/-- A process that has not allocated yet; `bases` are the addresses later `mmap` calls return. -/
def initState (m : Mem) (bases : List Nat) : State :=
  { mem := m, noaccess := fun _ => false, Segments := [], Unscanned := none, nodes := [],
    NumGCTriggered := 0, NumBytesFreed := 0, NumBytesAllocated := 0, unscannedListCount := 0,
    CurSegSmall := none, CurSegBig := none, TotalAlloc := 0, mmapRet := bases }

/-! ## Checked loads and stores -/

def accessible (s : State) (a len : Nat) : Bool :=
  !s.noaccess (a / PAGE_SIZE) && !s.noaccess ((a + len - 1) / PAGE_SIZE)

def load16 (s : State) (a : Nat) : Option Nat :=
  if accessible s a 2 then some (read16 s.mem a) else none
def load32 (s : State) (a : Nat) : Option Nat :=
  if accessible s a 4 then some (read32 s.mem a) else none
def load64 (s : State) (a : Nat) : Option Nat :=
  if accessible s a 8 then some (read64 s.mem a) else none
def store16 (s : State) (a v : Nat) : Option State :=
  if accessible s a 2 then some { s with mem := write16 s.mem a v } else none
def store32 (s : State) (a v : Nat) : Option State :=
  if accessible s a 4 then some { s with mem := write32 s.mem a v } else none
def store64 (s : State) (a v : Nat) : Option State :=
  if accessible s a 8 then some { s with mem := write64 s.mem a v } else none

/-! ## Segment metadata accessors -/

def setAllocPtr (s : State) (Seg Ptr : Nat) : State := { s with mem := write64 s.mem Seg Ptr }
def setCommitPtr (s : State) (Seg Ptr : Nat) : State := { s with mem := write64 s.mem (Seg + 8) Ptr }
def setReservePtr (s : State) (Seg Ptr : Nat) : State := { s with mem := write64 s.mem (Seg + 16) Ptr }
def setDataPtr (s : State) (Seg Ptr : Nat) : State := { s with mem := write64 s.mem (Seg + 24) Ptr }
def getAllocPtr (s : State) (Seg : Nat) : Nat := read64 s.mem Seg
def getCommitPtr (s : State) (Seg : Nat) : Nat := read64 s.mem (Seg + 8)
def getReservePtr (s : State) (Seg : Nat) : Nat := read64 s.mem (Seg + 16)
def getDataPtr (s : State) (Seg : Nat) : Nat := read64 s.mem (Seg + 24)
def setBigAlloc (s : State) (Seg BigAlloc : Nat) : State :=
  { s with mem := write32 s.mem (Seg + 32) BigAlloc }
def getBigAlloc (s : State) (Seg : Nat) : Nat := read32 s.mem (Seg + 32)

def addToSegmentList (s : State) (Seg : Nat) : State := { s with Segments := Seg :: s.Segments }

/-- The C `addToUnscannedList`: a fresh node is appended at the tail. -/
def addToUnscannedList (s : State) (Object : Nat) : Option State :=
  let Node := s.nodes.length
  let s := { s with nodes := s.nodes ++ [UnscannedListNode.mk Object none] }
  match s.Unscanned with
  | none => some { s with Unscanned := some { Head := some Node, Tail := some Node } }
  | some U =>
    match U.Head, U.Tail with
    | some _, some t =>
      if t < s.nodes.length then
        some { s with
          nodes := s.nodes.modify (fun n => { n with Next := some Node }) t
          Unscanned := some { U with Tail := some Node } }
      else none
    | _, _ => some { s with Unscanned := some { Head := some Node, Tail := some Node } }

/-- The C `allowAccess`: `mprotect(Ptr, Size, PROT_READ | PROT_WRITE)`. -/
def allowAccess (s : State) (Ptr Size : Nat) : Option State :=
  if Size % PAGE_SIZE = 0 ∧ Ptr &&& (PAGE_SIZE - 1) = 0 then
    some { s with noaccess := setProt s.noaccess Ptr Size false }
  else none

/-- The C `allocateSegment`: the next `mmap` result is taken from `mmapRet`; the
mapping is `2 * SEGMENT_SIZE` zero bytes with `PROT_NONE`. -/
def allocateSegment (BigAlloc : Nat) (s : State) : Option (Nat × State) :=
  match s.mmapRet with
  | [] => none
  | Base :: rest => do
    let s := { s with mmapRet := rest
                      mem := zeroRange s.mem Base (SEGMENT_SIZE * 2)
                      noaccess := setProt s.noaccess Base (SEGMENT_SIZE * 2) true }
    let Segment := Align Base SEGMENT_SIZE
    let s ← allowAccess s Segment METADATA_SIZE
    let AllocPtr := Segment + METADATA_SIZE
    let ReservePtr := Segment + SEGMENT_SIZE
    let s := setAllocPtr s Segment AllocPtr
    let s := setReservePtr s Segment ReservePtr
    let s := setCommitPtr s Segment AllocPtr
    let s := setDataPtr s Segment AllocPtr
    let s := setBigAlloc s Segment BigAlloc
    let s := addToSegmentList s Segment
    some (Segment, s)

/-- The C `extendCommitSpace`. -/
def extendCommitSpace (s : State) (Seg : Nat) : Option State :=
  let AllocPtr := getAllocPtr s Seg
  let CommitPtr := getCommitPtr s Seg
  let ReservePtr := getReservePtr s Seg
  let NewCommitPtr := CommitPtr + COMMIT_SIZE
  if AllocPtr = CommitPtr then
    if NewCommitPtr ≤ ReservePtr then do
      let s ← allowAccess s CommitPtr COMMIT_SIZE
      some (setCommitPtr s Seg NewCommitPtr)
    else if CommitPtr = ReservePtr then some s else none
  else none

/-- The C `getSizeMetadata`: the address of the page counter of `Ptr`. -/
def getSizeMetadata (Ptr : Nat) : Nat :=
  let Page := ADDR_TO_PAGE Ptr
  let Seg := ADDR_TO_SEGMENT Ptr
  let PageNo := (Page - Seg) / PAGE_SIZE
  Seg + 2 * PageNo

/-- The C `reclaimMemory`: `mprotect(PROT_NONE)` followed by `madvise(MADV_DONTNEED)`. -/
def reclaimMemory (s : State) (Ptr Size : Nat) : Option State :=
  if Size % PAGE_SIZE = 0 ∧ Ptr &&& (PAGE_SIZE - 1) = 0 then
    some { s with noaccess := setProt s.noaccess Ptr Size true }
  else none

/-- The loop of `myfree` over the pages of a large object: `SzMeta[0] = PAGE_SIZE`. -/
def myfreeBigLoop : Nat → Nat → State → Option State
  | 0, _, s => some s
  | k + 1, Addr, s => do
    let s ← store16 s (getSizeMetadata Addr) PAGE_SIZE
    myfreeBigLoop k (Addr + PAGE_SIZE) s

/-- The C `myfree`. -/
def myfree (s : State) (Ptr : Nat) : Option State := do
  let Header := Ptr - OBJ_HEADER_SIZE
  let Status ← load32 s (Header + 4)
  if Status &&& FREE ≠ 0 then none else
  let Size ← load32 s Header
  let s := { s with NumBytesFreed := s.NumBytesFreed + Size }
  if Size > COMMIT_SIZE then
    if Size % PAGE_SIZE = 0 ∧ Header &&& (PAGE_SIZE - 1) = 0 then do
      let s ← myfreeBigLoop ((Size + PAGE_SIZE - 1) / PAGE_SIZE) Header s
      let s ← store32 s (Header + 4) FREE
      let Size' ← load32 s Header
      reclaimMemory s Header Size'
    else none
  else do
    let SzMeta := getSizeMetadata Header
    let old ← load16 s SzMeta
    let s ← store16 s SzMeta (old + Size)
    let cur ← load16 s SzMeta
    if cur ≤ PAGE_SIZE then do
      let s ← store32 s (Header + 4) FREE
      let cur ← load16 s SzMeta
      if cur = PAGE_SIZE then reclaimMemory s (ADDR_TO_PAGE Ptr) PAGE_SIZE else some s
    else none

/-- The C `createHole`. -/
def createHole (s : State) (Seg : Nat) : Option State :=
  let AllocPtr := getAllocPtr s Seg
  let CommitPtr := getCommitPtr s Seg
  let HoleSz := (CommitPtr + WORD - AllocPtr) % WORD
  if HoleSz > 0 then
    if HoleSz ≥ 8 then do
      let s ← store32 s AllocPtr HoleSz
      let s ← store32 s (AllocPtr + 4) 0
      let s := setAllocPtr s Seg CommitPtr
      let s ← myfree s (AllocPtr + OBJ_HEADER_SIZE)
      some { s with NumBytesFreed := s.NumBytesFreed - HoleSz }
    else none
  else some s

/-! ## Conservative pointer classification -/

/-- The `while` loop of `retrieveObjectHeader` for a small segment.  Each round is one
execution of the loop body followed by the loop test. -/
def retrieveWalk (s : State) (W pageForObject : Nat) : Nat → Nat → Option Nat
  | 0, _ => none
  | fuel + 1, currentObject => do
    let Size ← load32 s currentObject
    let currentObject := currentObject + Size
    let Size ← load32 s currentObject
    let endAddress := currentObject + Size
    let startAddress := currentObject + OBJ_HEADER_SIZE
    let pageBounds := pageForObject + PAGE_SIZE
    let withinObjectBounds := decide (W ≤ endAddress ∧ W ≥ startAddress)
    let withinPageBounds := decide (W ≤ pageBounds)
    if !withinObjectBounds && withinPageBounds then
      retrieveWalk s W pageForObject fuel currentObject
    else some currentObject

/-- The `for` loop of `retrieveObjectHeader` for a large segment: step the page number
down while `Size[pageNo] != 1`.  Stepping below page 0 leaves the table. -/
def retrieveBack (s : State) (foundSegment : Nat) : Nat → Nat → Option Nat
  | 0, pageForObject => do
    let c ← load16 s foundSegment
    if c ≠ 1 then none else some pageForObject
  | pageNo + 1, pageForObject => do
    let c ← load16 s (foundSegment + 2 * (pageNo + 1))
    if c ≠ 1 then retrieveBack s foundSegment pageNo (pageForObject - PAGE_SIZE)
    else some pageForObject

/-- The C `retrieveObjectHeader`.  The outer `Option` is "no result", the inner one is
the returned pointer (`none` for `NULL`).  `W` lies at or above `foundSegment` at every
call, so the page number is computed without a sign. -/
def retrieveObjectHeader (fuel : Nat) (s : State) (isBigAlloc W foundSegment : Nat) :
    Option (Option Nat) := do
  let sizeMetadata ← load16 s (getSizeMetadata W)
  if sizeMetadata = PAGE_SIZE then some none else
  let pageForObject := ADDR_TO_PAGE W
  let pageNoForObject := (pageForObject - foundSegment) / PAGE_SIZE
  if isBigAlloc = 0 then do
    let currentObject := pageForObject
    let Size ← load32 s currentObject
    let endAddress := currentObject + Size
    let startAddress := currentObject + OBJ_HEADER_SIZE
    let pageBounds := pageForObject + PAGE_SIZE
    let withinObjectBounds := decide (W ≤ endAddress ∧ W ≥ startAddress)
    let withinPageBounds := decide (W ≤ pageBounds)
    if !withinObjectBounds && withinPageBounds then do
      let r ← retrieveWalk s W pageForObject fuel currentObject
      some (some r)
    else some (some currentObject)
  else do
    let r ← retrieveBack s foundSegment pageNoForObject pageForObject
    some (some r)

/-- The segment search of `markValidObject`: the first segment of the list with
`DataPtr <= W <= AllocPtr`. -/
def findSegment (s : State) (W : Nat) : List Nat → Option Nat
  | [] => none
  | curSeg :: L =>
    if getDataPtr s curSeg ≤ W ∧ W ≤ getAllocPtr s curSeg then some curSeg
    else findSegment s W L

/-- The C `markValidObject`. -/
def markValidObject (fuel : Nat) (s : State) (pointer : Nat) : Option State := do
  let W ← load64 s pointer
  match findSegment s W s.Segments with
  | none => some s
  | some foundSegment =>
    let isBigAlloc := getBigAlloc s foundSegment
    match ← retrieveObjectHeader fuel s isBigAlloc W foundSegment with
    | none => some s
    | some objectHeader => do
      let Status ← load32 s (objectHeader + 4)
      if Status = 0 then do
        let s ← store32 s (objectHeader + 4) MARK
        let s ← addToUnscannedList s objectHeader
        some { s with unscannedListCount := s.unscannedListCount + 1 }
      else some s

/-- Call `markValidObject` on `count` consecutive byte addresses starting at `pointer`. -/
def scanRange (fuel : Nat) : Nat → Nat → State → Option State
  | 0, _, s => some s
  | count + 1, pointer, s => do
    let s ← markValidObject fuel s pointer
    scanRange fuel count (pointer + 1) s

/-- The counting loops of `scanner` (they feed `printf`). -/
def countList (nodes : List UnscannedListNode) : Nat → Option Nat → Option Nat
  | _, none => some 0
  | 0, some _ => none
  | fuel + 1, some temp => do
    let node ← nodes[temp]?
    let c ← countList nodes fuel node.Next
    some (c + 1)

/-- The main loop of `scanner`. -/
def scannerLoop : Nat → Option Nat → State → Option State
  | _, none, s => some s
  | 0, some _, _ => none
  | fuel + 1, some currentNode, s => do
    let node ← s.nodes[currentNode]?
    let currentObject := node.Object
    let objectStart := currentObject + OBJ_HEADER_SIZE
    let Size ← load32 s currentObject
    let objectEnd := currentObject + Size
    let s ← scanRange fuel (objectEnd + 1 - (objectStart + 8)) objectStart s
    let U ← s.Unscanned
    let Head ← U.Head
    let headNode ← s.nodes[Head]?
    let s := { s with Unscanned := some { U with Head := headNode.Next } }
    let node ← s.nodes[currentNode]?
    scannerLoop fuel node.Next s

/-- The C `scanner`.  `Unscanned` is dereferenced without a `NULL` test. -/
def scanner (fuel : Nat) (s : State) : Option State := do
  let U ← s.Unscanned
  let _ ← countList s.nodes fuel U.Head
  let s ← scannerLoop fuel U.Head s
  let U ← s.Unscanned
  let s := if U.Head = none then { s with Unscanned := some { Head := none, Tail := none } } else s
  let U ← s.Unscanned
  let _ ← countList s.nodes fuel U.Head
  some s

/-! ## Sweep -/

/-- The C `markOrFreeObject`: the new state and the object to be freed, if any. -/
def markOrFreeObject (s : State) (currentObjectHeader : Nat) : Option (State × Option Nat) := do
  let Status ← load32 s (currentObjectHeader + 4)
  if Status = MARK then do
    let s ← store32 s (currentObjectHeader + 4) 0
    some (s, none)
  else if Status = 0 then some (s, some currentObjectHeader)
  else some (s, none)

/-- The `for` loop of `sweepBigAllocation`.  Every round advances `currentPage` by at
least a page, so the first argument bounds the number of rounds. -/
def sweepBigLoop (allocPtr : Nat) : Nat → Nat → State → Option State
  | 0, _, s => some s
  | k + 1, currentPage, s =>
    if currentPage < allocPtr then do
      let sizeMetadata ← load16 s (getSizeMetadata currentPage)
      if sizeMetadata = PAGE_SIZE then
        sweepBigLoop allocPtr k (currentPage + PAGE_SIZE) s
      else do
        let currentObjectHeader := currentPage
        let sizeToBeFreed ← load32 s currentObjectHeader
        if sizeMetadata = 1 then do
          let (s, objectToBeFreed) ← markOrFreeObject s currentObjectHeader
          let s ← match objectToBeFreed with
            | some o => myfree s (o + OBJ_HEADER_SIZE)
            | none => some s
          sweepBigLoop allocPtr k (currentPage + sizeToBeFreed + PAGE_SIZE) s
        else sweepBigLoop allocPtr k (currentPage + PAGE_SIZE) s
    else some s

/-- The C `sweepBigAllocation`. -/
def sweepBigAllocation (s : State) (curSeg currentPage : Nat) : Option State :=
  let allocPtr := getAllocPtr s curSeg
  sweepBigLoop allocPtr ((allocPtr - currentPage + PAGE_SIZE - 1) / PAGE_SIZE) currentPage s

/-- The `while` loop of `traversePageForNormalAllocation`. -/
def traverseLoop (curSeg sizeMetadata pageBoundary : Nat) : Nat → Nat → State → Option State
  | 0, _, _ => none
  | fuel + 1, currentObject, s => do
    let c ← load16 s sizeMetadata
    if c ≠ PAGE_SIZE ∧ (currentObject < pageBoundary ∧ currentObject < getAllocPtr s curSeg) then do
      let currentObjectHeader := currentObject
      let (s, objectToFree) ← markOrFreeObject s currentObjectHeader
      let Size ← load32 s currentObjectHeader
      let currentObject := currentObject + Size
      let s ← match objectToFree with
        | some o => myfree s (o + OBJ_HEADER_SIZE)
        | none => some s
      traverseLoop curSeg sizeMetadata pageBoundary fuel currentObject s
    else some s

/-- The C `traversePageForNormalAllocation`.  A round with a nonzero `Size` moves
`currentObject` forward inside the page, so more than `PAGE_SIZE` rounds mean that the
loop is stuck on a header of size 0. -/
def traversePageForNormalAllocation (s : State) (currentPage sizeMetadata curSeg : Nat) :
    Option State :=
  traverseLoop curSeg sizeMetadata (currentPage + PAGE_SIZE) (PAGE_SIZE + 1) currentPage s

/-- The `for` loop of `sweepNormalAllocation`. -/
def sweepNormalLoop (curSeg allocPtr : Nat) : Nat → Nat → State → Option State
  | 0, _, s => some s
  | k + 1, currentPage, s =>
    if currentPage < allocPtr then do
      let sizeMetadata := getSizeMetadata currentPage
      let c ← load16 s sizeMetadata
      if c = PAGE_SIZE then sweepNormalLoop curSeg allocPtr k (currentPage + PAGE_SIZE) s
      else do
        let s ← traversePageForNormalAllocation s currentPage sizeMetadata curSeg
        sweepNormalLoop curSeg allocPtr k (currentPage + PAGE_SIZE) s
    else some s

/-- The C `sweepNormalAllocation`. -/
def sweepNormalAllocation (s : State) (curSeg currentPage : Nat) : Option State :=
  let allocPtr := getAllocPtr s curSeg
  sweepNormalLoop curSeg allocPtr ((allocPtr - currentPage + PAGE_SIZE - 1) / PAGE_SIZE)
    currentPage s

/-- The loop of `sweep` over the segment list. -/
def sweepSegments : List Nat → State → Option State
  | [], s => some s
  | curSeg :: L, s => do
    let currentPage := getDataPtr s curSeg
    let isBigAlloc := getBigAlloc s curSeg
    let s ←
      if isBigAlloc = 0 then sweepNormalAllocation s curSeg currentPage
      else if isBigAlloc = 1 then sweepBigAllocation s curSeg currentPage
      else some s
    sweepSegments L s

/-- The C `sweep`. -/
def sweep (s : State) : Option State := sweepSegments s.Segments s

/-! ## Root scanning and the collection cycle -/

/-- The C `scanRoots`: every address of `[Top, Bottom - 8]`. -/
def scanRoots (fuel : Nat) (s : State) (Top Bottom : Nat) : Option State :=
  let s := { s with unscannedListCount := 0 }
  scanRange fuel (Bottom + 1 - (Top + 8)) Top s

/-- The loop of `_runGC` that skips the collector's own frame: advance `Top` until the
word `MAGIC_ADDR` is seen, asserting `Top < Bottom` on the way. -/
def skipGCFrame (s : State) (Bottom : Nat) : Nat → Nat → Option Nat
  | 0, _ => none
  | k + 1, Top => do
    let v ← load32 s Top
    if v ≠ MAGIC_ADDR then
      if Top < Bottom then skipGCFrame s Bottom k (Top + 1) else none
    else some Top

/-- The C `_runGC`. -/
def _runGC (fuel : Nat) (env : RootEnv) (s : State) : Option State := do
  let s := { s with NumGCTriggered := s.NumGCTriggered + 1 }
  let DataStart := match env.DataSecSz with
    | none => env.etext
    | some DataSecSz => env.edata - DataSecSz
  let DataEnd := env.edata
  let s ← scanRoots fuel s DataStart DataEnd
  let UnDataStart := env.edata
  let UnDataEnd := env.end_
  let s ← scanRoots fuel s UnDataStart UnDataEnd
  match env.stack with
  | none => some s
  | some (Base, Size) => do
    let Bottom := Base + Size
    let Top ← skipGCFrame s Bottom (Bottom + 2 - env.Lvar) env.Lvar
    let s ← scanRoots fuel s Top Bottom
    let s ← scanner fuel s
    sweep s

/-- The C `checkAndRunGC`. -/
def checkAndRunGC (fuel : Nat) (env : RootEnv) (s : State) (Sz : Nat) : Option State :=
  let s := { s with TotalAlloc := (s.TotalAlloc + Sz) % WORD }
  if s.TotalAlloc < GC_THRESHOLD then some s
  else _runGC fuel env { s with TotalAlloc := 0 }

/-! ## Allocation -/

/-- The body of `BigAlloc` once the segment has room: account for the object, commit its
pages, advance both pointers, set the first page's counter to 1 and write the header. -/
def bigCommit (s : State) (CurSeg AllocPtr CommitPtr AlignedSize : Nat) : Option (Nat × State) := do
  let NewAllocPtr := AllocPtr + AlignedSize
  let s := { s with NumBytesAllocated := s.NumBytesAllocated + AlignedSize }
  if AllocPtr = CommitPtr then do
    let s ← allowAccess s CommitPtr AlignedSize
    let s := setAllocPtr s CurSeg NewAllocPtr
    let s := setCommitPtr s CurSeg NewAllocPtr
    let s ← store16 s (getSizeMetadata AllocPtr) 1
    let s ← store32 s AllocPtr AlignedSize
    let s ← store32 s (AllocPtr + 4) 0
    let s ← store64 s (AllocPtr + 8) 0
    some (AllocPtr + OBJ_HEADER_SIZE, s)
  else none

/-- The C `BigAlloc`. -/
def BigAlloc : Nat → Nat → State → Option (Nat × State)
  | 0, _, _ => none
  | fuel + 1, Size, s => do
    let AlignedSize := Align ((Size + OBJ_HEADER_SIZE) % WORD) PAGE_SIZE
    if AlignedSize ≤ SEGMENT_SIZE - METADATA_SIZE then do
      let (CurSeg, s) ← match s.CurSegBig with
        | some CurSeg => some (CurSeg, s)
        | none => do
          let (Seg, s) ← allocateSegment 1 s
          some (Seg, { s with CurSegBig := some Seg })
      let AllocPtr := getAllocPtr s CurSeg
      let CommitPtr := getCommitPtr s CurSeg
      let NewAllocPtr := AllocPtr + AlignedSize
      let ReservePtr := getReservePtr s CurSeg
      if NewAllocPtr > ReservePtr then do
        let (Seg, s) ← allocateSegment 1 s
        BigAlloc fuel Size { s with CurSegBig := some Seg }
      else bigCommit s CurSeg AllocPtr CommitPtr AlignedSize
    else none

/-- The block of `_mymalloc` guarded by `NewAllocPtr > CommitPtr`: close the page with a
hole, commit one more page and test again.  The result is the state and, unless the
segment is full, `AllocPtr` and `NewAllocPtr`. -/
def makeRoom (s : State) (CurSeg AlignedSize : Nat) : Option (State × Option (Nat × Nat)) :=
  let AllocPtr := getAllocPtr s CurSeg
  let CommitPtr := getCommitPtr s CurSeg
  let NewAllocPtr := AllocPtr + AlignedSize
  if NewAllocPtr > CommitPtr then do
    let s ← if AllocPtr ≠ CommitPtr then createHole s CurSeg else some s
    let s ← extendCommitSpace s CurSeg
    let AllocPtr := getAllocPtr s CurSeg
    let NewAllocPtr := AllocPtr + AlignedSize
    let CommitPtr := getCommitPtr s CurSeg
    if NewAllocPtr > CommitPtr then some (s, none)
    else some (s, some (AllocPtr, NewAllocPtr))
  else some (s, some (AllocPtr, NewAllocPtr))

/-- The end of `_mymalloc`: account for the object, bump `AllocPtr` and write the header. -/
def writeObject (s : State) (CurSeg AllocPtr NewAllocPtr AlignedSize : Nat) :
    Option (Nat × State) := do
  let s := { s with NumBytesAllocated := s.NumBytesAllocated + AlignedSize }
  let s := setAllocPtr s CurSeg NewAllocPtr
  let s ← store32 s AllocPtr AlignedSize
  let s ← store32 s (AllocPtr + 4) 0
  let s ← store64 s (AllocPtr + 8) 0
  some (AllocPtr + OBJ_HEADER_SIZE, s)

/-- The C `_mymalloc`. -/
def _mymalloc : Nat → RootEnv → Nat → State → Option (Nat × State)
  | 0, _, _, _ => none
  | fuel + 1, env, Size, s => do
    let AlignedSize := (Align Size 8 + OBJ_HEADER_SIZE) % WORD
    let s ← checkAndRunGC fuel env s AlignedSize
    if AlignedSize > COMMIT_SIZE then BigAlloc (fuel + 1) Size s
    else if Size ≠ 0 then do
      let (CurSeg, s) ← match s.CurSegSmall with
        | some CurSeg => some (CurSeg, s)
        | none => do
          let (Seg, s) ← allocateSegment 0 s
          some (Seg, { s with CurSegSmall := some Seg })
      match ← makeRoom s CurSeg AlignedSize with
      | (s, none) => do
        let (Seg, s) ← allocateSegment 0 s
        _mymalloc fuel env Size { s with CurSegSmall := some Seg }
      | (s, some (AllocPtr, NewAllocPtr)) =>
        writeObject s CurSeg AllocPtr NewAllocPtr AlignedSize
    else none

/-! ## A scan that skips runs of zero bytes

`scanRangeFast` is `scanRange` with one shortcut: when every byte still to be read is
known to be zero, the memory is accessible and the word 0 lies in no segment, nothing is left to
mark.  It is proved equal to `scanRange` and is used to evaluate concrete runs. -/

/-- A sufficient test that `[lo, hi)` holds only zero bytes: going back through the
stores, every store met lies outside the range until a zero fill covers it. -/
def zeroOn : List Store → Nat → Nat → Bool
  | [], _, _ => false
  | Store.val a len _ :: l, lo, hi =>
    if a + len ≤ lo ∨ hi ≤ a then zeroOn l lo hi else false
  | Store.zero a len :: l, lo, hi =>
    if a ≤ lo ∧ hi ≤ a + len then true
    else if a + len ≤ lo ∨ hi ≤ a then zeroOn l lo hi else false

/-- None of the `k` pages starting at page number `pg` is `PROT_NONE`. -/
def pagesAccessible (s : State) : Nat → Nat → Bool
  | 0, _ => true
  | k + 1, pg => !s.noaccess pg && pagesAccessible s k (pg + 1)

def scanRangeFast (fuel : Nat) : Nat → Nat → State → Option State
  | 0, _, s => some s
  | count + 1, pointer, s =>
    if zeroOn s.mem.stores pointer (pointer + count + 8)
        && pagesAccessible s ((pointer + count + 7) / PAGE_SIZE + 1 - pointer / PAGE_SIZE)
            (pointer / PAGE_SIZE)
        && (findSegment s 0 s.Segments).isNone then some s
    else do
      let s ← markValidObject fuel s pointer
      scanRangeFast fuel count (pointer + 1) s

def scannerLoopFast : Nat → Option Nat → State → Option State
  | _, none, s => some s
  | 0, some _, _ => none
  | fuel + 1, some currentNode, s => do
    let node ← s.nodes[currentNode]?
    let currentObject := node.Object
    let objectStart := currentObject + OBJ_HEADER_SIZE
    let Size ← load32 s currentObject
    let objectEnd := currentObject + Size
    let s ← scanRangeFast fuel (objectEnd + 1 - (objectStart + 8)) objectStart s
    let U ← s.Unscanned
    let Head ← U.Head
    let headNode ← s.nodes[Head]?
    let s := { s with Unscanned := some { U with Head := headNode.Next } }
    let node ← s.nodes[currentNode]?
    scannerLoopFast fuel node.Next s

def scannerFast (fuel : Nat) (s : State) : Option State := do
  let U ← s.Unscanned
  let _ ← countList s.nodes fuel U.Head
  let s ← scannerLoopFast fuel U.Head s
  let U ← s.Unscanned
  let s := if U.Head = none then { s with Unscanned := some { Head := none, Tail := none } } else s
  let U ← s.Unscanned
  let _ ← countList s.nodes fuel U.Head
  some s

def scanRootsFast (fuel : Nat) (s : State) (Top Bottom : Nat) : Option State :=
  let s := { s with unscannedListCount := 0 }
  scanRangeFast fuel (Bottom + 1 - (Top + 8)) Top s

def _runGCFast (fuel : Nat) (env : RootEnv) (s : State) : Option State := do
  let s := { s with NumGCTriggered := s.NumGCTriggered + 1 }
  let DataStart := match env.DataSecSz with
    | none => env.etext
    | some DataSecSz => env.edata - DataSecSz
  let DataEnd := env.edata
  let s ← scanRootsFast fuel s DataStart DataEnd
  let UnDataStart := env.edata
  let UnDataEnd := env.end_
  let s ← scanRootsFast fuel s UnDataStart UnDataEnd
  match env.stack with
  | none => some s
  | some (Base, Size) => do
    let Bottom := Base + Size
    let Top ← skipGCFrame s Bottom (Bottom + 2 - env.Lvar) env.Lvar
    let s ← scanRootsFast fuel s Top Bottom
    let s ← scannerFast fuel s
    sweep s

/-! ## Concrete runs -/

/-- A small process image: one global word at `8184`, an empty `.bss`, a 16-byte stack
whose entry frame holds `MAGIC_ADDR` at `16388`. -/
def gcEnv : RootEnv :=
  { etext := 4096, edata := 8192, end_ := 8192, DataSecSz := some 8,
    stack := some (16384, 16), Lvar := 16384 }

/-- A fresh process: zero memory but for the magic word; three `mmap` results to come. -/
def freshState : State :=
  initState (write32 { init := fun _ => 0, stores := [] } 16388 MAGIC_ADDR)
    [0x7f0000001000, 0x7e0000001000, 0x7d0000001000]

/-- The first segment created from `freshState` and its first data byte. -/
def seg1 : Nat := 0x7f0100000000
def seg1Data : Nat := seg1 + METADATA_SIZE
/-- The second segment created from `freshState` and its first data byte. -/
def seg2 : Nat := 0x7e0100000000
def seg2Data : Nat := seg2 + METADATA_SIZE

/-- Two adjacent large objects `A` (header at `seg1Data`) and `B` (header at
`seg1Data + 8192`), each from a request of 5000 bytes. -/
def twoLarge : Option State := do
  let (_, s) ← _mymalloc 1 gcEnv 5000 freshState
  let (_, s) ← _mymalloc 1 gcEnv 5000 s
  some s

/-- `twoLarge` with the address of `B`'s payload stored in the global word. -/
def twoLargeRootB : Option State := do
  let s ← twoLarge
  some { s with mem := write64 s.mem 8184 (seg1Data + 8192 + 16) }

/-- `twoLarge` followed by an 8-byte object `X` (header at `seg2Data`) whose address is
stored in the global word; `A` and `B` are referenced from nowhere. -/
def twoLargeRootX : Option State := do
  let s ← twoLarge
  let (pX, s) ← _mymalloc 1 gcEnv 8 s
  some { s with mem := write64 s.mem 8184 pX }

/-- `twoLarge` followed by an 8-byte object `X`; the global word holds the address of
`B`'s payload and the first word of `B`'s payload holds the address of `X`'s payload. -/
def chainRootBX : Option State := do
  let s ← twoLarge
  let (pX, s) ← _mymalloc 1 gcEnv 8 s
  some { s with mem := write64 (write64 s.mem (seg1Data + 8192 + 16) pX) 8184 (seg1Data + 8192 + 16) }

/-- A page filled exactly by a 4080-byte object followed by the 16-byte object that the
request `SIZE_MAX` produces. -/
def fullPage : Option State := do
  let (_, s) ← _mymalloc 1 gcEnv 4064 freshState
  let (_, s) ← _mymalloc 1 gcEnv (WORD - 1) s
  some s

/-- The state after one 8-byte allocation in a fresh process: a small segment whose
first page is committed and holds one object. -/
def oneSmall : State :=
  match _mymalloc 1 gcEnv 8 freshState with
  | some (_, s) => s
  | none => freshState

/-- The state after one 5000-byte allocation in a fresh process: a large segment holding
one two-page object. -/
def oneLarge : State :=
  match _mymalloc 1 gcEnv 5000 freshState with
  | some (_, s) => s
  | none => freshState

/-- A 4096-byte object (request 4080) filling the first page of the small segment, an
8-byte object at the start of the second page, and the global word holding the address
of the first byte of the first page. -/
def pageStartRoot : State :=
  match (do
    let (_, s) ← _mymalloc 1 gcEnv 4080 freshState
    let (_, s) ← _mymalloc 1 gcEnv 8 s
    some { s with mem := write64 s.mem 8184 seg1Data }) with
  | some s => s
  | none => freshState

/-- An 8-byte object `X` (small segment `seg1`) and a 5000-byte object `A` (large segment
`seg2`, two pages); a first collection cycle runs with the global word holding the
address of `X`, so `X` is kept and `A` is freed; then the global word is set to
`AllocPtr` of the large segment, the address one past the freed `A`. -/
def freedLargeRoot : Option State := do
  let (pX, s) ← _mymalloc 1 gcEnv 8 freshState
  let (_, s) ← _mymalloc 1 gcEnv 5000 s
  let s ← _runGC 5 gcEnv { s with mem := write64 s.mem 8184 pX }
  some { s with mem := write64 s.mem 8184 (seg2Data + 8192) }

/-- The state after one 3000-byte allocation in a fresh process: a 3016-byte object at
the start of the first page of the small segment. -/
def after3000 : State :=
  match _mymalloc 1 gcEnv 3000 freshState with
  | some (_, s) => s
  | none => freshState

/-- The state after a 3000-byte and a 2000-byte allocation in a fresh process: the first
page of the small segment holds a 3016-byte object and a hole of 1080 bytes, the second
page holds a 2016-byte object and `AllocPtr` lies in it. -/
def holePages : State :=
  match _mymalloc 1 gcEnv 2000 after3000 with
  | some (_, s) => s
  | none => freshState

/-- `holePages` followed by a 5000-byte allocation (large segment `seg2`) whose address is
stored in the global word; the two small objects are referenced from nowhere. -/
def holePagesRootLarge : Option State := do
  let (pL, s) ← _mymalloc 1 gcEnv 5000 holePages
  some { s with mem := write64 s.mem 8184 pL }

/-- The state after one 256-byte allocation in a fresh process: a 272-byte object with
header at `seg1Data`, payload at `p = seg1Data + 16`. -/
def after256 : State :=
  match _mymalloc 1 gcEnv 256 freshState with
  | some (_, s) => s
  | none => freshState

/-- `after256` with the interior pointer `p + 40` stored in the global word. -/
def interiorRoot : State := { after256 with mem := write64 after256.mem 8184 (seg1Data + 16 + 40) }

/-- `after256` with the address one past the object's last byte stored in the global word. -/
def onePastRoot : State := { after256 with mem := write64 after256.mem 8184 (seg1Data + 272) }

/-- A 4096-byte object (request 4080) filling the first page of the small segment, an
8-byte object at the start of the second page, and the global word holding the address
one past the last byte of the first object, which is the start of the second page. -/
def pageEndRoot : State :=
  { pageStartRoot with mem := write64 pageStartRoot.mem 8184 (seg1Data + PAGE_SIZE) }

/-- `holePagesRootLarge` with the running total of `checkAndRunGC` 8 bytes below the
threshold. -/
def nearThreshold : State :=
  match holePagesRootLarge with
  | some s => { s with TotalAlloc := GC_THRESHOLD - 8 }
  | none => freshState

/-- An 8-byte object `X` with header at `seg1Data` whose payload word holds the address
`seg1Data + 8`, which lies inside the header of `X`; the address of the payload is in the
global word, and the roots have been scanned, so `X` is marked and is the one node of the
Unscanned list. -/
def headerPointerMarked : State :=
  match (do
    let (pX, s) ← _mymalloc 1 gcEnv 8 freshState
    let s := { s with mem := write64 (write64 s.mem pX (seg1Data + 8)) 8184 pX }
    scanRoots 1 s 8184 8192) with
  | some s => s
  | none => freshState

/-- `holePages` followed by a 5000-byte allocation: a two-page object at the start of the
large segment `seg2`. -/
def holePagesLarge : State :=
  match _mymalloc 1 gcEnv 5000 holePages with
  | some (_, s) => s
  | none => freshState

/-- `holePagesLarge` with the address of the large object stored in the global word. -/
def holePagesRooted : State :=
  { holePagesLarge with mem := write64 holePagesLarge.mem 8184 (seg2Data + 16) }

/-- The state after a collection cycle on `holePagesRooted`: the two small objects have
been freed and the large object is kept. -/
def holePagesSwept : State := (_runGC 5 gcEnv holePagesRooted).getD freshState

/-! ## Notions used to state the claims -/

/-- The mathematical `round_up(x, y)` of the specification: the least multiple of `y`
that is at least `x`. -/
def roundUp (x y : Nat) : Nat := (x + (y - 1)) / y * y

/-- The memory after `writeObject`. -/
def headerMem (m : Mem) (seg A NA sz : Nat) : Mem :=
  write64 (write32 (write32 (write64 m seg NA) A sz) (A + 4) 0) (A + 8) 0

/-- The memory after `bigCommit`. -/
def bigMem (m : Mem) (seg A NA sz : Nat) : Mem :=
  write64 (write32 (write32 (write16 (write64 (write64 m seg NA) (seg + 8) NA)
    (getSizeMetadata A) 1) A sz) (A + 4) 0) (A + 8) 0

/-- The memory after `allocateSegment`: the fresh mapping at `Base` and the five fields
of the segment at `seg`. -/
def segMem (m : Mem) (Base seg B : Nat) : Mem :=
  write32 (write64 (write64 (write64 (write64 (zeroRange m Base (SEGMENT_SIZE * 2))
    seg (seg + METADATA_SIZE)) (seg + 16) (seg + SEGMENT_SIZE)) (seg + 8) (seg + METADATA_SIZE))
    (seg + 24) (seg + METADATA_SIZE)) (seg + 32) B

/-- The memory after `createHole`: a header of size `H` and status `FREE` at `A`,
`AllocPtr = C`, and the page counter at `c` set to `v`. -/
def holeMem (m : Mem) (g A C H c v : Nat) : Mem :=
  write32 (write16 (write64 (write32 (write32 m A H) (A + 4) 0) g C) c v) (A + 4) FREE

/-! ## Heap structure and reachable states -/

/-- The `Size` field of the header at `h`. -/
def hSize (m : Mem) (h : Nat) : Nat := read32 m h

/-- The `Status` field of the header at `h`. -/
def hStatus (m : Mem) (h : Nat) : Nat := read32 m (h + 4)

/-- The size of the object at `h` if its status is not `FREE`, else 0. -/
def liveSize (m : Mem) (h : Nat) : Nat := if hStatus m h = FREE then 0 else hSize m h

/-- The page counter `Size[page]` of the page of `x`, read where `getSizeMetadata` points. -/
def counterOf (m : Mem) (x : Nat) : Nat := read16 m (getSizeMetadata x)

/-- `Tiled m a lim t`: starting at `a` and advancing by each header's `Size`, the headers
cover `[a, lim)` exactly and no object crosses a page boundary; `t` is the sum of the
sizes of those that are not `FREE`. -/
inductive Tiled (m : Mem) : Nat → Nat → Nat → Prop
  | nil (a : Nat) : Tiled m a a 0
  | cons (a lim t : Nat) : 8 ≤ hSize m a → a + hSize m a ≤ lim →
      a / PAGE_SIZE = (a + hSize m a - 1) / PAGE_SIZE →
      Tiled m (a + hSize m a) lim t → Tiled m a lim (liveSize m a + t)

/-- `IsHeader m a lim h`: `h` is met below `lim` when advancing from `a` by each
header's `Size`. -/
inductive IsHeader (m : Mem) : Nat → Nat → Nat → Prop
  | here (a lim : Nat) : a < lim → IsHeader m a lim a
  | next (a lim h : Nat) : a < lim → IsHeader m (a + hSize m a) lim h → IsHeader m a lim h

/-- `Chain m a lim`: advancing from `a` by each header's `Size` lands exactly on `lim`. -/
inductive Chain (m : Mem) : Nat → Nat → Prop
  | nil (a : Nat) : Chain m a a
  | cons (a lim : Nat) : 8 ≤ hSize m a → a + hSize m a ≤ lim →
      Chain m (a + hSize m a) lim → Chain m a lim

/-- `LargeTiled m P lim t`: `[P, lim)` is covered by large objects, each a whole number
of pages: a live one has the counter of its first page 1 and the counters of its other
pages neither 1 nor `PAGE_SIZE`; a freed one has status `FREE` and every counter
`PAGE_SIZE`.  `t` is the sum of the sizes of the live ones. -/
inductive LargeTiled (m : Mem) : Nat → Nat → Nat → Prop
  | nil (P : Nat) : LargeTiled m P P 0
  | live (P lim t : Nat) : PAGE_SIZE < hSize m P → hSize m P % PAGE_SIZE = 0 →
      P + hSize m P ≤ lim → hStatus m P ≠ FREE → counterOf m P = 1 →
      (∀ i, 1 ≤ i → i < hSize m P / PAGE_SIZE →
        counterOf m (P + i * PAGE_SIZE) ≠ 1 ∧ counterOf m (P + i * PAGE_SIZE) ≠ PAGE_SIZE) →
      LargeTiled m (P + hSize m P) lim t → LargeTiled m P lim (hSize m P + t)
  | freed (P lim t : Nat) : PAGE_SIZE < hSize m P → hSize m P % PAGE_SIZE = 0 →
      P + hSize m P ≤ lim → hStatus m P = FREE →
      (∀ i, i < hSize m P / PAGE_SIZE → counterOf m (P + i * PAGE_SIZE) = PAGE_SIZE) →
      LargeTiled m (P + hSize m P) lim t → LargeTiled m P lim t

/-- The facts about the pointers of the segment at `seg`: the order of C10 and what goes
with it.  The pages from `CommitPtr` to the end of the segment, and the page after it,
are `PROT_NONE`. -/
structure SegGeom (m : Mem) (na : Nat → Bool) (seg : Nat) : Prop where
  aligned : seg % SEGMENT_SIZE = 0
  inWord : seg + SEGMENT_SIZE < WORD
  data : read64 m (seg + 24) = seg + METADATA_SIZE
  reserve : read64 m (seg + 16) = seg + SEGMENT_SIZE
  dataAlloc : seg + METADATA_SIZE ≤ read64 m seg
  allocCommit : read64 m seg ≤ read64 m (seg + 8)
  commitReserve : read64 m (seg + 8) ≤ seg + SEGMENT_SIZE
  commitPage : read64 m (seg + 8) % PAGE_SIZE = 0
  flag : read32 m (seg + 32) = 0 ∨ read32 m (seg + 32) = 1
  large : read32 m (seg + 32) = 1 → read64 m seg = read64 m (seg + 8)
  uncommitted : ∀ q, read64 m (seg + 8) / PAGE_SIZE ≤ q → q ≤ (seg + SEGMENT_SIZE) / PAGE_SIZE →
    na q = true

/-- The objects of a small segment: `[DataPtr, AllocPtr)` is tiled by objects and holes;
`t` is the total size of the objects that are not `FREE`. -/
def SmallObjs (m : Mem) (seg t : Nat) : Prop :=
  Tiled m (seg + METADATA_SIZE) (read64 m seg) t

/-- The objects of a large segment: `[DataPtr, AllocPtr)` is tiled by large objects, the
counters of the pages from `AllocPtr` on are neither 1 nor `PAGE_SIZE`, and no entry
17 .. 511 of the table is 1. -/
def LargeObjs (m : Mem) (seg t : Nat) : Prop :=
  LargeTiled m (seg + METADATA_SIZE) (read64 m seg) t ∧
  (∀ i, (read64 m seg - seg) / PAGE_SIZE ≤ i → i < NUM_PAGES_IN_SEG →
    read16 m (seg + 2 * i) ≠ 1 ∧ read16 m (seg + 2 * i) ≠ PAGE_SIZE) ∧
  (∀ j, 17 ≤ j → j < 512 → read16 m (seg + 2 * j) ≠ 1)

/-- The invariant of one segment; `t` is the total size of its objects that are not `FREE`. -/
def SegInv (m : Mem) (na : Nat → Bool) (seg t : Nat) : Prop :=
  SegGeom m na seg ∧ (read32 m (seg + 32) = 0 → SmallObjs m seg t) ∧
    (read32 m (seg + 32) = 1 → LargeObjs m seg t)

/-- What `mmap` guarantees about the addresses it will return: page-aligned ranges of
`2 * SEGMENT_SIZE` bytes inside the address space, disjoint from each other and from the
mappings of the segments that exist. -/
def MmapOK (segs bases : List Nat) : Prop :=
  (∀ b ∈ bases, b % PAGE_SIZE = 0 ∧ b + 2 * SEGMENT_SIZE < WORD ∧
    ∀ g ∈ segs, g + SEGMENT_SIZE + PAGE_SIZE ≤ b ∨ b + 2 * SEGMENT_SIZE ≤ g) ∧
  bases.Pairwise (fun b b' => b + 2 * SEGMENT_SIZE ≤ b' ∨ b' + 2 * SEGMENT_SIZE ≤ b)

/-- The invariant over the parts of the state it depends on.  `tot seg` is the total
size of the objects of `seg` that are not `FREE`. -/
structure InvCore (m : Mem) (na : Nat → Bool) (segs : List Nat) (cs cb : Option Nat)
    (bases : List Nat) (allocated freed : Int) (tot : Nat → Nat) : Prop where
  segInv : ∀ seg ∈ segs, SegInv m na seg (tot seg)
  gap : ∀ seg ∈ segs, read32 m (seg + 32) = 0 → read64 m (seg + 8) - read64 m seg < PAGE_SIZE
  apart : segs.Pairwise (fun g g' => g + 2 * SEGMENT_SIZE ≤ g' ∨ g' + 2 * SEGMENT_SIZE ≤ g)
  curSmall : ∀ g, cs = some g → g ∈ segs ∧ read32 m (g + 32) = 0
  curBig : ∀ g, cb = some g → g ∈ segs ∧ read32 m (g + 32) = 1
  mmap : MmapOK segs bases
  account : allocated - freed = (((segs.map tot).sum : Nat) : Int)

/-- The invariant of the allocator state. -/
def Inv (s : State) (tot : Nat → Nat) : Prop :=
  InvCore s.mem s.noaccess s.Segments s.CurSegSmall s.CurSegBig s.mmapRet
    s.NumBytesAllocated s.NumBytesFreed tot

/-- The bytes the program may write: outside every segment, or in the payload
`[h + 16, h + Size)` of an object of a segment. -/
def MutatorOK (s : State) (x : Nat) : Prop :=
  (∀ g ∈ s.Segments, x < g ∨ g + SEGMENT_SIZE ≤ x) ∨
  ∃ g ∈ s.Segments, ∃ h, IsHeader s.mem (g + METADATA_SIZE) (read64 s.mem g) h ∧
    h + 16 ≤ x ∧ x < h + hSize s.mem h

/-- The states a process can be in: it starts with no segment, and then allocates, runs
collection cycles and writes to its own data and to the payloads of its objects. -/
inductive Reachable : State → Prop
  | init (m : Mem) (bases : List Nat) : MmapOK [] bases → Reachable (initState m bases)
  | malloc (s s' : State) (fuel : Nat) (env : RootEnv) (n p : Nat) : Reachable s → n < WORD →
      _mymalloc fuel env n s = some (p, s') → Reachable s'
  | gc (s s' : State) (fuel : Nat) (env : RootEnv) : Reachable s →
      _runGC fuel env s = some s' → Reachable s'
  | write (s : State) (m' : Mem) : Reachable s →
      (∀ x, m'.get x ≠ s.mem.get x → MutatorOK s x) → Reachable { s with mem := m' }

/-- Walk the headers from `a` while below `lim`, adding the `Size` of each one that is
not `FREE`. -/
def walkLive (m : Mem) (lim : Nat) : Nat → Nat → Nat
  | 0, _ => 0
  | fuel + 1, a =>
    if a < lim then liveSize m a + walkLive m lim fuel (a + hSize m a) else 0

/-- The total size of the objects of the segment `seg` that are not `FREE`: the walk over
`[DataPtr, AllocPtr)`.  Every object has at least 8 bytes, which bounds the walk. -/
def liveBytesSeg (m : Mem) (seg : Nat) : Nat :=
  walkLive m (read64 m seg) ((read64 m seg - read64 m (seg + 24)) / 8 + 1) (read64 m (seg + 24))

/-- The sum of the header `Size` over all objects of all segments that are not `FREE`. -/
def liveBytes (s : State) : Nat := (s.Segments.map (liveBytesSeg s.mem)).sum

/-- `Frame g s s'`: from `s` to `s'` memory changed inside the segment `g` only, no page
outside it lost its protection, and the segment list, the current segments, the pending
`mmap` results and the kind of `g` are the same. -/
structure Frame (g : Nat) (s s' : State) : Prop where
  mem : ∀ x, x < g ∨ g + SEGMENT_SIZE ≤ x → s'.mem.get x = s.mem.get x
  na : ∀ q, q < g / PAGE_SIZE ∨ (g + SEGMENT_SIZE) / PAGE_SIZE < q →
    s.noaccess q = true → s'.noaccess q = true
  segs : s'.Segments = s.Segments
  cs : s'.CurSegSmall = s.CurSegSmall
  cb : s'.CurSegBig = s.CurSegBig
  bases : s'.mmapRet = s.mmapRet
  flag : read32 s'.mem (g + 32) = read32 s.mem (g + 32)

/-- `GCSame s s'`: the segment list, the current segments, the pending `mmap` results,
`NumBytesAllocated`, `NumGCTriggered` and the running total of `checkAndRunGC` are the
same in `s` and `s'`. -/
structure GCSame (s s' : State) : Prop where
  segs : s'.Segments = s.Segments
  cs : s'.CurSegSmall = s.CurSegSmall
  cb : s'.CurSegBig = s.CurSegBig
  bases : s'.mmapRet = s.mmapRet
  alloc : s'.NumBytesAllocated = s.NumBytesAllocated
  gcs : s'.NumGCTriggered = s.NumGCTriggered
  total : s'.TotalAlloc = s.TotalAlloc

/-! ## Relations between the states of a collection cycle -/

/-- `HeapSame s s'`: the page protections, the segment list, the current segments, the
pending `mmap` results and the two byte counters are the same in `s` and `s'`. -/
structure HeapSame (s s' : State) : Prop where
  na : s'.noaccess = s.noaccess
  segs : s'.Segments = s.Segments
  cs : s'.CurSegSmall = s.CurSegSmall
  cb : s'.CurSegBig = s.CurSegBig
  bases : s'.mmapRet = s.mmapRet
  alloc : s'.NumBytesAllocated = s.NumBytesAllocated
  freed : s'.NumBytesFreed = s.NumBytesFreed

/-- `SegStep g s s' t t'`: from `s` to `s'` only the segment `g` changed, its two bump
pointers are the same, its invariant holds again with live total `t'` instead of `t`,
and the byte counters moved by the same amount as the live total. -/
structure SegStep (g : Nat) (s s' : State) (t t' : Nat) : Prop where
  frame : Frame g s s'
  inv : SegInv s'.mem s'.noaccess g t'
  alloc : read64 s'.mem g = read64 s.mem g
  commit : read64 s'.mem (g + 8) = read64 s.mem (g + 8)
  account : s'.NumBytesAllocated - s'.NumBytesFreed + (t : Int) =
    s.NumBytesAllocated - s.NumBytesFreed + (t' : Int)

/-- The memory after `myfreeBigLoop k Addr`: the counters of `k` pages from the page of
`Addr` on are `PAGE_SIZE`. -/
def bigLoopMem : Nat → Nat → Mem → Mem
  | 0, _, m => m
  | k + 1, Addr, m => bigLoopMem k (Addr + PAGE_SIZE) (write16 m (getSizeMetadata Addr) PAGE_SIZE)

/-- The test program of the threshold scenario: `k` successive calls `_mymalloc(n)`,
each with the given fuel; the result is the state after the last one. -/
def mallocMany (fuel : Nat) (env : RootEnv) (n : Nat) : Nat → State → Option State
  | 0, s => some s
  | k + 1, s => do
    let s ← mallocMany fuel env n k s
    let (_, s) ← _mymalloc fuel env n s
    some s

/-- `SmallReady s g`: the small segment `g` is ready for a bump allocation: its pointers
are in order and aligned, its metadata pages are accessible, the page of `AllocPtr` is
accessible when `AllocPtr < CommitPtr`, and the counters of the pages from the one of
`AllocPtr` on are 0. -/
structure SmallReady (s : State) (g : Nat) : Prop where
  aligned : g % SEGMENT_SIZE = 0
  inWord : g + SEGMENT_SIZE < WORD
  reserve : read64 s.mem (g + 16) = g + SEGMENT_SIZE
  dataAlloc : g + METADATA_SIZE ≤ read64 s.mem g
  allocCommit : read64 s.mem g ≤ read64 s.mem (g + 8)
  commitReserve : read64 s.mem (g + 8) ≤ g + SEGMENT_SIZE
  commitPage : read64 s.mem (g + 8) % PAGE_SIZE = 0
  gap : read64 s.mem (g + 8) - read64 s.mem g ≤ PAGE_SIZE
  align8 : read64 s.mem g % 8 = 0
  metaAcc : ∀ q, g / PAGE_SIZE ≤ q → q < (g + METADATA_SIZE) / PAGE_SIZE → s.noaccess q = false
  pageAcc : read64 s.mem g < read64 s.mem (g + 8) →
    s.noaccess (read64 s.mem g / PAGE_SIZE) = false
  counters : ∀ x, read64 s.mem g ≤ x → x < g + SEGMENT_SIZE → counterOf s.mem x = 0

/-! ## Root ranges without candidates -/

/-- None of the `count` words at `pointer`, `pointer + 1`, ... is a candidate: each can be
read and lies in `[DataPtr, AllocPtr]` of no segment. -/
def noCandidate (s : State) : Nat → Nat → Bool
  | 0, _ => true
  | count + 1, pointer =>
    (match load64 s pointer with
      | some W => (findSegment s W s.Segments).isNone
      | none => false) && noCandidate s count (pointer + 1)

/-- The three root ranges that `_runGC` scans in the state `s` (initialised data,
uninitialised data, the stack above the collector's frame) hold no candidate. -/
def rootsNoCandidate (env : RootEnv) (s : State) : Bool :=
  let DataStart := match env.DataSecSz with
    | none => env.etext
    | some DataSecSz => env.edata - DataSecSz
  noCandidate s (env.edata + 1 - (DataStart + 8)) DataStart &&
  noCandidate s (env.end_ + 1 - (env.edata + 8)) env.edata &&
  match env.stack with
  | none => true
  | some (Base, Size) =>
    match skipGCFrame s (Base + Size) (Base + Size + 2 - env.Lvar) env.Lvar with
    | none => true
    | some Top => noCandidate s (Base + Size + 1 - (Top + 8)) Top

/-! ## The history of returned addresses -/

/-- `Grows s s'`: every segment of `s` is a segment of `s'` and its `AllocPtr` has not
moved back. -/
structure Grows (s s' : State) : Prop where
  segs : ∀ g ∈ s.Segments, g ∈ s'.Segments
  alloc : ∀ g ∈ s.Segments, read64 s.mem g ≤ read64 s'.mem g

/-- `Placed s s' p`: in `s'` the object returned as `p` lies in the data area of one
segment, from its header at `p - 16` to at most `AllocPtr`, at or above the `AllocPtr`
that this segment had in `s` if it was a segment of `s`, and apart from every other
object and hole of the segment. -/
def Placed (s s' : State) (p : Nat) : Prop :=
  16 ≤ p ∧ ∃ g ∈ s'.Segments, g + METADATA_SIZE ≤ p - 16 ∧
    p - 16 + hSize s'.mem (p - 16) ≤ read64 s'.mem g ∧
    (g ∈ s.Segments → read64 s.mem g ≤ p - 16) ∧
    (∀ h, IsHeader s'.mem (g + METADATA_SIZE) (read64 s'.mem g) h → h ≠ p - 16 →
      h + hSize s'.mem h ≤ p - 16 ∨ p - 16 + hSize s'.mem (p - 16) ≤ h)

/-- `History s hist`: the process has reached the state `s`, and `hist` lists, newest
first, every address that `_mymalloc` has returned together with the state in which it
was returned. -/
inductive History : State → List (Nat × State) → Prop
  | init (m : Mem) (bases : List Nat) : MmapOK [] bases → History (initState m bases) []
  | malloc (s s' : State) (hist : List (Nat × State)) (fuel : Nat) (env : RootEnv) (n p : Nat) :
      History s hist → n < WORD → _mymalloc fuel env n s = some (p, s') →
      History s' ((p, s') :: hist)
  | gc (s s' : State) (hist : List (Nat × State)) (fuel : Nat) (env : RootEnv) :
      History s hist → _runGC fuel env s = some s' → History s' hist
  | write (s : State) (hist : List (Nat × State)) (m' : Mem) : History s hist →
      (∀ x, m'.get x ≠ s.mem.get x → MutatorOK s x) → History { s with mem := m' } hist

/-- The header address of the object returned as `e.1` in the state `e.2`. -/
def objStart (e : Nat × State) : Nat := e.1 - OBJ_HEADER_SIZE

/-- One past the last byte of the object returned as `e.1` in the state `e.2`: its header
address plus the `Size` of its header in that state. -/
def objEnd (e : Nat × State) : Nat := e.1 - OBJ_HEADER_SIZE + hSize e.2.mem (e.1 - OBJ_HEADER_SIZE)

/-- One more call `_mymalloc(n)` of a test program: the new state, and the history with
the returned address and the state of its return put in front.  A call that does not
return leaves both as they are. -/
def recordMalloc (fuel : Nat) (env : RootEnv) (n : Nat) (x : State × List (Nat × State)) :
    State × List (Nat × State) :=
  match _mymalloc fuel env n x.1 with
  | some (p, s') => (s', (p, s') :: x.2)
  | none => x

/-- Three allocations in a fresh process with their history: 3000 bytes, 2000 bytes (the
first page is closed with a hole) and 5000 bytes (a large object of two pages). -/
def threeAllocs : State × List (Nat × State) :=
  recordMalloc 1 gcEnv 5000 (recordMalloc 1 gcEnv 2000 (recordMalloc 1 gcEnv 3000 (freshState, [])))

/-- `threeAllocs` with the address of the large object stored in the global word. -/
def threeAllocsRooted : State × List (Nat × State) :=
  ({ threeAllocs.1 with mem := write64 threeAllocs.1.mem 8184 (seg2Data + 16) }, threeAllocs.2)

/-- `threeAllocsRooted`, a collection cycle (it frees the two small objects) and a fourth
allocation of 1000 bytes. -/
def fourAllocs : State × List (Nat × State) :=
  recordMalloc 1 gcEnv 1000
    ((_runGC 5 gcEnv threeAllocsRooted.1).getD threeAllocsRooted.1, threeAllocsRooted.2)

/-! ## The contents of the Unscanned list -/

/-- The list read from the node `cur` along `Next`, as `scanner` walks it: the index and
the `Object` of every node, in order.  There is no result if a link leaves the node store
or the fuel runs out. -/
def listCells (nodes : List UnscannedListNode) : Nat → Option Nat → Option (List (Nat × Nat))
  | _, none => some []
  | 0, some _ => none
  | fuel + 1, some i => do
    let node ← nodes[i]?
    let rest ← listCells nodes fuel node.Next
    some ((i, node.Object) :: rest)

/-- The value of `Unscanned->Head`; `none` also while `Unscanned` is `NULL`. -/
def listHead (s : State) : Option Nat :=
  match s.Unscanned with
  | none => none
  | some U => U.Head

/-- The value of `Unscanned->Tail`; `none` also while `Unscanned` is `NULL`. -/
def listTail (s : State) : Option Nat :=
  match s.Unscanned with
  | none => none
  | some U => U.Tail

/-! ## Bit masks as remainders -/

theorem land_mask (x k : Nat) (hx : x < 2 ^ 64) (hk : k ≤ 64) :
    x &&& (2 ^ 64 - 2 ^ k) = x - x % 2 ^ k := by
  have hpos : 0 < 2 ^ k := Nat.two_pow_pos k
  have hle : 2 ^ k ≤ 2 ^ 64 := Nat.pow_le_pow_right (by norm_num) hk
  have h1 : 2 ^ 64 - 2 ^ k = 2 ^ 64 - ((2 ^ k - 1) + 1) := by omega
  have h2 : x - x % 2 ^ k = 2 ^ k * (x / 2 ^ k) := by
    have := Nat.div_add_mod x (2 ^ k)
    omega
  apply Nat.eq_of_testBit_eq
  intro i
  rw [Nat.testBit_and, h1, Nat.testBit_two_pow_sub_succ (by omega), h2, Nat.testBit_mul_pow_two,
    Nat.testBit_two_pow_sub_one, ← Nat.shiftRight_eq_div_pow, Nat.testBit_shiftRight]
  by_cases hik : i < k
  · have : ¬ (i ≥ k) := by omega
    simp [hik, this]
  · have hge : i ≥ k := by omega
    have hki : k + (i - k) = i := by omega
    rw [hki]
    by_cases hi : i < 64
    · simp [hik, hge, hi]
    · have : x < 2 ^ i := lt_of_lt_of_le hx (Nat.pow_le_pow_right (by norm_num) (by omega))
      simp [hik, hge, hi, Nat.testBit_lt_two_pow this]

theorem ADDR_TO_PAGE_eq (x : Nat) (hx : x < WORD) : ADDR_TO_PAGE x = x - x % 4096 := by
  have := land_mask x 12 (by simpa [WORD] using hx) (by norm_num)
  simpa [ADDR_TO_PAGE, WORD, PAGE_SIZE] using this

theorem ADDR_TO_SEGMENT_eq (x : Nat) (hx : x < WORD) : ADDR_TO_SEGMENT x = x - x % 4294967296 := by
  have := land_mask x 32 (by simpa [WORD] using hx) (by norm_num)
  simpa [ADDR_TO_SEGMENT, WORD, SEGMENT_SIZE] using this

theorem Align_8_eq (x : Nat) : Align x 8 = (x + 7) % WORD - (x + 7) % WORD % 8 := by
  have := land_mask ((x + 7) % WORD) 3 (by simpa [WORD] using Nat.mod_lt (x + 7) (by norm_num)) (by norm_num)
  simpa [Align, WORD] using this

theorem Align_page_eq (x : Nat) : Align x PAGE_SIZE = (x + 4095) % WORD - (x + 4095) % WORD % 4096 := by
  have := land_mask ((x + 4095) % WORD) 12 (by simpa [WORD] using Nat.mod_lt (x + 4095) (by norm_num)) (by norm_num)
  simpa [Align, WORD, PAGE_SIZE] using this

theorem Align_segment_eq (x : Nat) :
    Align x SEGMENT_SIZE = (x + 4294967295) % WORD - (x + 4294967295) % WORD % 4294967296 := by
  have := land_mask ((x + 4294967295) % WORD) 32
    (by simpa [WORD] using Nat.mod_lt (x + 4294967295) (by norm_num)) (by norm_num)
  simpa [Align, WORD, SEGMENT_SIZE] using this

theorem land_page_mask (x : Nat) : x &&& (PAGE_SIZE - 1) = x % 4096 := by
  have := Nat.and_pow_two_sub_one_eq_mod x 12
  simpa [PAGE_SIZE] using this

/-! ## Reads and writes of the byte memory -/

theorem get_write16 (m : Mem) (a v x : Nat) :
    (write16 m a v).get x = if a ≤ x ∧ x < a + 2 then v / 256 ^ (x - a) % 256 else m.get x := rfl

theorem get_write32 (m : Mem) (a v x : Nat) :
    (write32 m a v).get x = if a ≤ x ∧ x < a + 4 then v / 256 ^ (x - a) % 256 else m.get x := rfl

theorem get_write64 (m : Mem) (a v x : Nat) :
    (write64 m a v).get x = if a ≤ x ∧ x < a + 8 then v / 256 ^ (x - a) % 256 else m.get x := rfl

theorem get_zeroRange (m : Mem) (a len x : Nat) :
    (zeroRange m a len).get x = if a ≤ x ∧ x < a + len then 0 else m.get x := rfl

theorem write16_ne (m : Mem) (a v x : Nat) (h : x < a ∨ a + 2 ≤ x) :
    (write16 m a v).get x = m.get x := by
  rw [get_write16, if_neg (by omega)]

theorem write32_ne (m : Mem) (a v x : Nat) (h : x < a ∨ a + 4 ≤ x) :
    (write32 m a v).get x = m.get x := by
  rw [get_write32, if_neg (by omega)]

theorem write64_ne (m : Mem) (a v x : Nat) (h : x < a ∨ a + 8 ≤ x) :
    (write64 m a v).get x = m.get x := by
  rw [get_write64, if_neg (by omega)]

theorem zeroRange_ne (m : Mem) (a len x : Nat) (h : x < a ∨ a + len ≤ x) :
    (zeroRange m a len).get x = m.get x := by
  rw [get_zeroRange, if_neg (by omega)]

theorem read8_congr (m m' : Mem) (a : Nat) (h : m'.get a = m.get a) : read8 m' a = read8 m a := by
  simp [read8, h]

theorem read16_congr (m m' : Mem) (a : Nat) (h : ∀ x, a ≤ x → x < a + 2 → m'.get x = m.get x) :
    read16 m' a = read16 m a := by
  unfold read16
  rw [read8_congr m m' a (h _ (by omega) (by omega)),
    read8_congr m m' (a + 1) (h _ (by omega) (by omega))]

theorem read32_congr (m m' : Mem) (a : Nat) (h : ∀ x, a ≤ x → x < a + 4 → m'.get x = m.get x) :
    read32 m' a = read32 m a := by
  unfold read32
  rw [read16_congr m m' a (fun x h1 h2 => h x (by omega) (by omega)),
    read16_congr m m' (a + 2) (fun x h1 h2 => h x (by omega) (by omega))]

theorem read64_congr (m m' : Mem) (a : Nat) (h : ∀ x, a ≤ x → x < a + 8 → m'.get x = m.get x) :
    read64 m' a = read64 m a := by
  unfold read64
  rw [read32_congr m m' a (fun x h1 h2 => h x (by omega) (by omega)),
    read32_congr m m' (a + 4) (fun x h1 h2 => h x (by omega) (by omega))]

theorem read8_lt (m : Mem) (a : Nat) : read8 m a < 256 := Nat.mod_lt _ (by norm_num)

theorem read16_lt (m : Mem) (a : Nat) : read16 m a < 65536 := by
  have h1 := read8_lt m a
  have h2 := read8_lt m (a + 1)
  unfold read16; omega

theorem read32_lt (m : Mem) (a : Nat) : read32 m a < 4294967296 := by
  have h1 := read16_lt m a
  have h2 := read16_lt m (a + 2)
  unfold read32; omega

theorem read64_lt (m : Mem) (a : Nat) : read64 m a < WORD := by
  have h1 := read32_lt m a
  have h2 := read32_lt m (a + 4)
  unfold read64 WORD; omega

theorem read16_write16 (m : Mem) (a v : Nat) : read16 (write16 m a v) a = v % 65536 := by
  simp only [read16, read8, get_write16]
  rw [if_pos (by omega), if_pos (by omega)]
  have e1 : a - a = 0 := by omega
  have e2 : a + 1 - a = 1 := by omega
  rw [e1, e2]
  norm_num
  omega

theorem read32_write32 (m : Mem) (a v : Nat) : read32 (write32 m a v) a = v % 4294967296 := by
  simp only [read32, read16, read8, get_write32]
  rw [if_pos (by omega), if_pos (by omega), if_pos (by omega), if_pos (by omega)]
  have e1 : a - a = 0 := by omega
  have e2 : a + 1 - a = 1 := by omega
  have e3 : a + 2 - a = 2 := by omega
  have e4 : a + 2 + 1 - a = 3 := by omega
  rw [e1, e2, e3, e4]
  norm_num
  omega

theorem read64_write64 (m : Mem) (a v : Nat) : read64 (write64 m a v) a = v % WORD := by
  simp only [read64, read32, read16, read8, get_write64]
  rw [if_pos (by omega), if_pos (by omega), if_pos (by omega), if_pos (by omega),
    if_pos (by omega), if_pos (by omega), if_pos (by omega), if_pos (by omega)]
  have e1 : a - a = 0 := by omega
  have e2 : a + 1 - a = 1 := by omega
  have e3 : a + 2 - a = 2 := by omega
  have e4 : a + 2 + 1 - a = 3 := by omega
  have e5 : a + 4 - a = 4 := by omega
  have e6 : a + 4 + 1 - a = 5 := by omega
  have e7 : a + 4 + 2 - a = 6 := by omega
  have e8 : a + 4 + 2 + 1 - a = 7 := by omega
  rw [e1, e2, e3, e4, e5, e6, e7, e8]
  norm_num [WORD]
  omega

/-! ## The zero-skipping scan agrees with the scan -/

theorem zeroOn_sound (init : Nat → Nat) (lo hi : Nat) :
    ∀ l : List Store, zeroOn l lo hi = true → ∀ x, lo ≤ x → x < hi → byteOf l init x = 0 := by
  intro l
  induction l with
  | nil => intro h; simp [zeroOn] at h
  | cons st l ih =>
    intro h x hlo hhi
    cases st with
    | val a len v =>
      simp only [zeroOn] at h
      by_cases hc : a + len ≤ lo ∨ hi ≤ a
      · rw [if_pos hc] at h
        simp only [byteOf]
        rw [if_neg (by omega)]
        exact ih h x hlo hhi
      · rw [if_neg hc] at h
        exact absurd h (by simp)
    | zero a len =>
      simp only [zeroOn] at h
      simp only [byteOf]
      by_cases hc : a ≤ lo ∧ hi ≤ a + len
      · rw [if_pos (by omega)]
      · rw [if_neg hc] at h
        by_cases hd : a + len ≤ lo ∨ hi ≤ a
        · rw [if_pos hd] at h
          rw [if_neg (by omega)]
          exact ih h x hlo hhi
        · rw [if_neg hd] at h
          exact absurd h (by simp)

theorem pagesAccessible_sound (s : State) :
    ∀ k pg, pagesAccessible s k pg = true → ∀ q, pg ≤ q → q < pg + k → s.noaccess q = false := by
  intro k
  induction k with
  | zero => intro pg _ q h1 h2; omega
  | succ k ih =>
    intro pg h q h1 h2
    simp only [pagesAccessible, Bool.and_eq_true, Bool.not_eq_true'] at h
    by_cases hq : q = pg
    · rw [hq]; exact h.1
    · exact ih (pg + 1) h.2 q (by omega) (by omega)

theorem read64_zero (m : Mem) (a : Nat) (h : ∀ x, a ≤ x → x < a + 8 → m.get x = 0) :
    read64 m a = 0 := by
  simp only [read64, read32, read16, read8]
  rw [h a (by omega) (by omega), h (a + 1) (by omega) (by omega),
    h (a + 2) (by omega) (by omega), h (a + 2 + 1) (by omega) (by omega),
    h (a + 4) (by omega) (by omega), h (a + 4 + 1) (by omega) (by omega),
    h (a + 4 + 2) (by omega) (by omega), h (a + 4 + 2 + 1) (by omega) (by omega)]

theorem markValidObject_zero (fuel : Nat) (s : State) (p : Nat)
    (hl : load64 s p = some 0) (hf : findSegment s 0 s.Segments = none) :
    markValidObject fuel s p = some s := by
  simp [markValidObject, hl, hf]

theorem scanRange_zero (fuel : Nat) (s : State) (hf : findSegment s 0 s.Segments = none) :
    ∀ count p, (∀ x, p ≤ x → x < p + count + 7 → s.mem.get x = 0) →
      (∀ q, p / PAGE_SIZE ≤ q → q ≤ (p + count + 6) / PAGE_SIZE → s.noaccess q = false) →
      scanRange fuel count p s = some s := by
  intro count
  induction count with
  | zero => intro p _ _; rfl
  | succ n ih =>
    intro p hz ha
    have hdiv1 : p / PAGE_SIZE ≤ (p + 8 - 1) / PAGE_SIZE := Nat.div_le_div_right (by omega)
    have hdiv2 : (p + 8 - 1) / PAGE_SIZE ≤ (p + (n + 1) + 6) / PAGE_SIZE :=
      Nat.div_le_div_right (by omega)
    have hl : load64 s p = some 0 := by
      have h1 : s.noaccess (p / PAGE_SIZE) = false := ha _ (le_refl _) (le_trans hdiv1 hdiv2)
      have h2 : s.noaccess ((p + 8 - 1) / PAGE_SIZE) = false := ha _ hdiv1 hdiv2
      simp only [load64, accessible, h1, h2]
      simp
      exact read64_zero _ _ (fun x h1 h2 => hz x h1 (by omega))
    simp only [scanRange]
    rw [markValidObject_zero fuel s p hl hf]
    simp only [Option.bind_eq_bind, Option.some_bind]
    apply ih
    · intro x h1 h2; exact hz x (by omega) (by omega)
    · intro q h1 h2
      apply ha q
      · exact le_trans (Nat.div_le_div_right (by omega)) h1
      · have : p + 1 + n + 6 = p + (n + 1) + 6 := by omega
        rw [this] at h2; exact h2

theorem scanRangeFast_eq (fuel : Nat) :
    ∀ count p s, scanRangeFast fuel count p s = scanRange fuel count p s := by
  intro count
  induction count with
  | zero => intro p s; rfl
  | succ n ih =>
    intro p s
    simp only [scanRangeFast]
    split
    · rename_i h
      simp only [Bool.and_eq_true, Option.isNone_iff_eq_none] at h
      obtain ⟨⟨hz, hp⟩, hf⟩ := h
      symm
      apply scanRange_zero fuel s hf
      · intro x h1 h2
        exact zeroOn_sound s.mem.init _ _ _ hz x h1 (by omega)
      · intro q h1 h2
        apply pagesAccessible_sound s _ _ hp q h1
        have : (p + (n + 1) + 6) / PAGE_SIZE = (p + n + 7) / PAGE_SIZE := by
          congr 1
        have h3 : p / PAGE_SIZE ≤ (p + n + 7) / PAGE_SIZE := Nat.div_le_div_right (by omega)
        omega
    · simp only [scanRange]
      congr 1
      funext s'
      exact ih (p + 1) s'

theorem scannerLoopFast_eq :
    ∀ fuel cur s, scannerLoopFast fuel cur s = scannerLoop fuel cur s := by
  intro fuel
  induction fuel with
  | zero => intro cur s; cases cur <;> rfl
  | succ n ih =>
    intro cur s
    cases cur with
    | none => rfl
    | some c =>
      simp only [scannerLoopFast, scannerLoop, scanRangeFast_eq, ih]

theorem scannerFast_eq (fuel : Nat) (s : State) : scannerFast fuel s = scanner fuel s := by
  simp only [scannerFast, scanner, scannerLoopFast_eq]

theorem scanRootsFast_eq (fuel : Nat) (s : State) (Top Bottom : Nat) :
    scanRootsFast fuel s Top Bottom = scanRoots fuel s Top Bottom := by
  simp only [scanRootsFast, scanRoots, scanRangeFast_eq]

theorem _runGCFast_eq (fuel : Nat) (env : RootEnv) (s : State) :
    _runGCFast fuel env s = _runGC fuel env s := by
  simp only [_runGCFast, _runGC, scanRootsFast_eq, scannerFast_eq]

/-! ## The two allocation paths, symbolically -/

theorem Align_8_small (n : Nat) (h : n + 7 < WORD) : Align n 8 = roundUp n 8 := by
  rw [Align_8_eq, Nat.mod_eq_of_lt h]
  unfold roundUp
  omega

theorem accessible_of_16 (s : State) (A : Nat) (h : accessible s A 16 = true) (hA : A % 8 = 0) :
    accessible s A 4 = true ∧ accessible s (A + 4) 4 = true ∧ accessible s (A + 8) 8 = true := by
  simp only [accessible, PAGE_SIZE, Bool.and_eq_true, Bool.not_eq_true'] at *
  have e1 : (A + 4 - 1) / 4096 = A / 4096 := by omega
  have e2 : (A + 4) / 4096 = A / 4096 := by omega
  have e3 : (A + 4 + 4 - 1) / 4096 = A / 4096 := by omega
  have e5 : (A + 8 + 8 - 1) / 4096 = (A + 16 - 1) / 4096 := by omega
  rw [e1, e2, e3, e5]
  refine ⟨⟨h.1, h.1⟩, ⟨h.1, h.1⟩, ?_, h.2⟩
  by_cases hc : A % 4096 = 4088
  · have e4 : (A + 8) / 4096 = (A + 16 - 1) / 4096 := by omega
    rw [e4]; exact h.2
  · have e4 : (A + 8) / 4096 = A / 4096 := by omega
    rw [e4]; exact h.1

theorem store16_some (s : State) (a v : Nat) (h : accessible s a 2 = true) :
    store16 s a v = some { s with mem := write16 s.mem a v } := by
  simp [store16, h]

theorem store32_some (s : State) (a v : Nat) (h : accessible s a 4 = true) :
    store32 s a v = some { s with mem := write32 s.mem a v } := by
  simp [store32, h]

theorem store64_some (s : State) (a v : Nat) (h : accessible s a 8 = true) :
    store64 s a v = some { s with mem := write64 s.mem a v } := by
  simp [store64, h]

theorem writeObject_eq (s : State) (seg A NA sz : Nat)
    (hacc : accessible s A 16 = true) (hA : A % 8 = 0) :
    writeObject s seg A NA sz = some (A + 16,
      { s with NumBytesAllocated := s.NumBytesAllocated + sz
               mem := headerMem s.mem seg A NA sz }) := by
  obtain ⟨a1, a2, a3⟩ := accessible_of_16 s A hacc hA
  have b1 : accessible (setAllocPtr { s with NumBytesAllocated := s.NumBytesAllocated + sz } seg NA)
      A 4 = true := a1
  simp only [writeObject, Option.bind_eq_bind]
  rw [store32_some _ _ _ b1]
  simp only [Option.some_bind]
  rw [store32_some _ _ _ (by exact a2)]
  simp only [Option.some_bind]
  rw [store64_some _ _ _ (by exact a3)]
  rfl

theorem headerMem_get (m : Mem) (seg A NA sz x : Nat)
    (h1 : ¬ (seg ≤ x ∧ x < seg + 8)) (h2 : ¬ (A ≤ x ∧ x < A + 16)) :
    (headerMem m seg A NA sz).get x = m.get x := by
  unfold headerMem
  rw [write64_ne _ _ _ _ (by omega), write32_ne _ _ _ _ (by omega), write32_ne _ _ _ _ (by omega),
    write64_ne _ _ _ _ (by omega)]

theorem headerMem_alloc (m : Mem) (seg A NA sz : Nat) (hd : seg + 8 ≤ A ∨ A + 16 ≤ seg)
    (hNA : NA < WORD) : read64 (headerMem m seg A NA sz) seg = NA := by
  have : read64 (headerMem m seg A NA sz) seg = read64 (write64 m seg NA) seg := by
    apply read64_congr
    intro x h1 h2
    unfold headerMem
    rw [write64_ne _ _ _ _ (by omega), write32_ne _ _ _ _ (by omega),
      write32_ne _ _ _ _ (by omega)]
  rw [this, read64_write64, Nat.mod_eq_of_lt hNA]

theorem headerMem_size (m : Mem) (seg A NA sz : Nat) (hsz : sz < 4294967296) :
    read32 (headerMem m seg A NA sz) A = sz := by
  have : read32 (headerMem m seg A NA sz) A = read32 (write32 (write64 m seg NA) A sz) A := by
    apply read32_congr
    intro x h1 h2
    unfold headerMem
    rw [write64_ne _ _ _ _ (by omega), write32_ne _ _ _ _ (by omega)]
  rw [this, read32_write32, Nat.mod_eq_of_lt hsz]

theorem headerMem_status (m : Mem) (seg A NA sz : Nat) :
    read32 (headerMem m seg A NA sz) (A + 4) = 0 := by
  have : read32 (headerMem m seg A NA sz) (A + 4)
      = read32 (write32 (write32 (write64 m seg NA) A sz) (A + 4) 0) (A + 4) := by
    apply read32_congr
    intro x h1 h2
    unfold headerMem
    rw [write64_ne _ _ _ _ (by omega)]
  rw [this, read32_write32]

theorem headerMem_type (m : Mem) (seg A NA sz : Nat) :
    read64 (headerMem m seg A NA sz) (A + 8) = 0 := by
  unfold headerMem
  rw [read64_write64]
  rfl

theorem Align_page_small (x : Nat) (h : x + 4095 < WORD) : Align x PAGE_SIZE = roundUp x PAGE_SIZE := by
  rw [Align_page_eq, Nat.mod_eq_of_lt h]
  unfold roundUp PAGE_SIZE
  omega

theorem getSizeMetadata_eq (seg x : Nat) (hseg : seg % SEGMENT_SIZE = 0) (h1 : seg ≤ x)
    (h2 : x < seg + SEGMENT_SIZE) (hw : seg + SEGMENT_SIZE ≤ WORD) :
    getSizeMetadata x = seg + 2 * ((x - seg) / PAGE_SIZE) := by
  simp only [SEGMENT_SIZE, WORD, PAGE_SIZE] at *
  have hx : x < WORD := by unfold WORD; omega
  simp only [getSizeMetadata, ADDR_TO_PAGE_eq x hx, ADDR_TO_SEGMENT_eq x hx, PAGE_SIZE]
  have e1 : x - x % 4294967296 = seg := by omega
  rw [e1]
  omega

theorem bigMem_get (m : Mem) (seg A NA sz x : Nat)
    (h1 : ¬ (seg ≤ x ∧ x < seg + 16)) (h2 : ¬ (A ≤ x ∧ x < A + 16))
    (h3 : ¬ (getSizeMetadata A ≤ x ∧ x < getSizeMetadata A + 2)) :
    (bigMem m seg A NA sz).get x = m.get x := by
  unfold bigMem
  rw [write64_ne _ _ _ _ (by omega), write32_ne _ _ _ _ (by omega), write32_ne _ _ _ _ (by omega),
    write16_ne _ _ _ _ (by omega), write64_ne _ _ _ _ (by omega), write64_ne _ _ _ _ (by omega)]

theorem bigCommit_eq (s : State) (seg A sz : Nat) (hA : A % PAGE_SIZE = 0)
    (hsz : sz % PAGE_SIZE = 0) (hpos : PAGE_SIZE ≤ sz)
    (hmeta : accessible s (getSizeMetadata A) 2 = true) :
    bigCommit s seg A A sz = some (A + 16,
      { s with NumBytesAllocated := s.NumBytesAllocated + sz
               noaccess := setProt s.noaccess A sz false
               mem := bigMem s.mem seg A (A + sz) sz }) := by
  simp only [accessible, Bool.and_eq_true, Bool.not_eq_true'] at hmeta
  have m1 : setProt s.noaccess A sz false (getSizeMetadata A / PAGE_SIZE) = false := by
    simp only [setProt]; split
    · rfl
    · exact hmeta.1
  have m2 : setProt s.noaccess A sz false ((getSizeMetadata A + 2 - 1) / PAGE_SIZE) = false := by
    simp only [setProt]; split
    · rfl
    · exact hmeta.2
  have hin : setProt s.noaccess A sz false (A / PAGE_SIZE) = false := by
    simp only [setProt, PAGE_SIZE] at *
    rw [if_pos (by omega)]
  have hc : sz % PAGE_SIZE = 0 ∧ A % 4096 = 0 := ⟨hsz, by simpa [PAGE_SIZE] using hA⟩
  simp only [PAGE_SIZE] at hA hsz hpos
  have e1 : (A + 4 - 1) / PAGE_SIZE = A / PAGE_SIZE := by simp only [PAGE_SIZE]; omega
  have e2 : (A + 4) / PAGE_SIZE = A / PAGE_SIZE := by simp only [PAGE_SIZE]; omega
  have e3 : (A + 4 + 4 - 1) / PAGE_SIZE = A / PAGE_SIZE := by simp only [PAGE_SIZE]; omega
  have e4 : (A + 8) / PAGE_SIZE = A / PAGE_SIZE := by simp only [PAGE_SIZE]; omega
  have e5 : (A + 8 + 8 - 1) / PAGE_SIZE = A / PAGE_SIZE := by simp only [PAGE_SIZE]; omega
  simp only [bigCommit, if_true, allowAccess, land_page_mask, Option.bind_eq_bind, if_pos hc,
    Option.some_bind, store16, store32, store64, accessible, setAllocPtr, setCommitPtr,
    m1, m2, hin, e1, e2, e3, e4, e5, Bool.not_false, Bool.and_self, bigMem, OBJ_HEADER_SIZE]

/-! ## Tilings -/

theorem hSize_congr (m m' : Mem) (h : Nat) (hh : ∀ x, h ≤ x → x < h + 4 → m'.get x = m.get x) :
    hSize m' h = hSize m h := read32_congr m m' h hh

theorem hStatus_congr (m m' : Mem) (h : Nat)
    (hh : ∀ x, h + 4 ≤ x → x < h + 8 → m'.get x = m.get x) :
    hStatus m' h = hStatus m h :=
  read32_congr m m' (h + 4) (fun x h1 h2 => hh x h1 (by omega))

theorem liveSize_congr (m m' : Mem) (h : Nat) (hh : ∀ x, h ≤ x → x < h + 8 → m'.get x = m.get x) :
    liveSize m' h = liveSize m h := by
  unfold liveSize
  rw [hSize_congr m m' h (fun x h1 h2 => hh x h1 (by omega)),
    hStatus_congr m m' h (fun x h1 h2 => hh x (by omega) h2)]

theorem Tiled_le {m : Mem} {a lim t : Nat} (h : Tiled m a lim t) : a ≤ lim := by
  induction h with
  | nil a => exact le_refl a
  | cons a lim t h8 hle _ _ ih => omega

theorem Tiled_congr {m m' : Mem} {a lim t : Nat} (h : Tiled m a lim t)
    (hh : ∀ x, a ≤ x → x < lim → m'.get x = m.get x) : Tiled m' a lim t := by
  induction h with
  | nil a => exact Tiled.nil a
  | cons a lim t h8 hle hpg htl ih =>
    have hs : hSize m' a = hSize m a := hSize_congr m m' a (fun x h1 h2 => hh x h1 (by omega))
    have hl : liveSize m' a = liveSize m a :=
      liveSize_congr m m' a (fun x h1 h2 => hh x h1 (by omega))
    rw [← hl]
    apply Tiled.cons
    · rw [hs]; exact h8
    · rw [hs]; exact hle
    · rw [hs]; exact hpg
    · rw [hs]; exact ih (fun x h1 h2 => hh x (by omega) h2)

theorem Tiled_append {m : Mem} {a b c t u : Nat} (h1 : Tiled m a b t) (h2 : Tiled m b c u) :
    Tiled m a c (t + u) := by
  induction h1 with
  | nil a => simpa using h2
  | cons a lim t h8 hle hpg htl ih =>
    have := Tiled_le h2
    rw [Nat.add_assoc]
    exact Tiled.cons a c (t + u) h8 (by omega) hpg (ih h2)

theorem Tiled_single (m : Mem) (a : Nat) (h8 : 8 ≤ hSize m a)
    (hpg : a / PAGE_SIZE = (a + hSize m a - 1) / PAGE_SIZE) :
    Tiled m a (a + hSize m a) (liveSize m a) := by
  have := Tiled.cons a (a + hSize m a) 0 h8 (le_refl _) hpg (Tiled.nil _)
  simpa using this

/-- Growing the limit does not matter while the tiling stays below the old one. -/
theorem Tiled_unique {m : Mem} {a lim t u : Nat} (h1 : Tiled m a lim t) (h2 : Tiled m a lim u) :
    t = u := by
  induction h1 generalizing u with
  | nil a =>
    cases h2 with
    | nil => rfl
    | cons _ _ t' h8 hle _ htl => omega
  | cons a lim t h8 hle hpg htl ih =>
    cases h2 with
    | nil => omega
    | cons _ _ t' h8' hle' _ htl' => rw [ih htl']

theorem IsHeader_range {m : Mem} {a lim h : Nat} (hh : IsHeader m a lim h) : a ≤ h ∧ h < lim := by
  induction hh with
  | here a lim hlt => exact ⟨le_refl a, hlt⟩
  | next a lim h hlt _ ih => exact ⟨by omega, ih.2⟩

/-- A header of a tiling starts a tiling of the rest, and the part before it is tiled. -/
theorem Tiled_split {m : Mem} {a lim t h : Nat} (ht : Tiled m a lim t) (hh : IsHeader m a lim h) :
    ∃ t1 t2, Tiled m a h t1 ∧ Tiled m h lim t2 ∧ t = t1 + t2 ∧ 8 ≤ hSize m h ∧
      h + hSize m h ≤ lim := by
  induction hh generalizing t with
  | here a lim hlt =>
    cases ht with
    | nil => omega
    | cons _ _ t' h8 hle hpg htl =>
      exact ⟨0, _, Tiled.nil a, Tiled.cons a lim t' h8 hle hpg htl, by omega, h8, hle⟩
  | next a lim h hlt hn ih =>
    cases ht with
    | nil => omega
    | cons _ _ t' h8 hle hpg htl =>
      obtain ⟨t1, t2, p1, p2, e, g1, g2⟩ := ih htl
      refine ⟨liveSize m a + t1, t2, ?_, p2, by omega, g1, g2⟩
      have hr := IsHeader_range hn
      exact Tiled.cons a h t1 h8 hr.1 hpg p1

theorem IsHeader_congr {m m' : Mem} {a lim h t : Nat} (ht : Tiled m a lim t)
    (hh : IsHeader m a lim h) (he : ∀ x, a ≤ x → x < lim → m'.get x = m.get x) :
    IsHeader m' a lim h := by
  induction hh generalizing t with
  | here a lim hlt => exact IsHeader.here a lim hlt
  | next a lim h hlt hn ih =>
    cases ht with
    | nil => omega
    | cons _ _ t' h8 hle hpg htl =>
      have hs : hSize m' a = hSize m a := hSize_congr m m' a (fun x h1 h2 => he x h1 (by omega))
      apply IsHeader.next a lim h hlt
      rw [hs]
      exact ih htl (fun x h1 h2 => he x (by omega) h2)

theorem Tiled_status {m m' : Mem} {a lim t h : Nat} (ht : Tiled m a lim t)
    (hh : IsHeader m a lim h)
    (he : ∀ x, a ≤ x → x < lim → ¬ (h + 4 ≤ x ∧ x < h + 8) → m'.get x = m.get x) :
    ∃ r, t = r + liveSize m h ∧ Tiled m' a lim (r + liveSize m' h) := by
  obtain ⟨t1, t2, p1, p2, e, g1, g2⟩ := Tiled_split ht hh
  have hr := IsHeader_range hh
  cases p2 with
  | nil => omega
  | cons _ _ t' h8 hle hpg htl =>
    have hs : hSize m' h = hSize m h :=
      hSize_congr m m' h (fun x h1 h2 => he x (by omega) (by omega) (by omega))
    have q1 : Tiled m' a h t1 := Tiled_congr p1 (fun x h1 h2 => he x h1 (by omega) (by omega))
    have q2 : Tiled m' (h + hSize m h) lim t' :=
      Tiled_congr htl (fun x h1 h2 => he x (by omega) h2 (by omega))
    refine ⟨t1 + t', by omega, ?_⟩
    have q3 : Tiled m' h lim (liveSize m' h + t') := by
      apply Tiled.cons
      · rw [hs]; exact h8
      · rw [hs]; exact hle
      · rw [hs]; exact hpg
      · rw [hs]; exact q2
    have := Tiled_append q1 q3
    have e2 : t1 + (liveSize m' h + t') = t1 + t' + liveSize m' h := by omega
    rw [e2] at this
    exact this

theorem LargeTiled_le {m : Mem} {P lim t : Nat} (h : LargeTiled m P lim t) : P ≤ lim := by
  induction h with
  | nil P => exact le_refl P
  | live P lim t _ _ hle _ _ _ _ ih => omega
  | freed P lim t _ _ hle _ _ _ ih => omega

theorem LargeTiled_congr {m m' : Mem} {P lim t : Nat} (h : LargeTiled m P lim t)
    (hb : ∀ x, P ≤ x → x < lim → m'.get x = m.get x)
    (hc : ∀ Q, P ≤ Q → Q < lim → counterOf m' Q = counterOf m Q ∨
      (counterOf m Q ≠ 1 ∧ counterOf m Q ≠ PAGE_SIZE ∧
        counterOf m' Q ≠ 1 ∧ counterOf m' Q ≠ PAGE_SIZE)) :
    LargeTiled m' P lim t := by
  induction h with
  | nil P => exact LargeTiled.nil P
  | live P lim t hgt hmod hle hst hc1 hin htl ih =>
    have hs : hSize m' P = hSize m P := by
      apply hSize_congr; intro x h1 h2; apply hb x h1
      simp only [PAGE_SIZE] at hgt; omega
    have hst' : hStatus m' P = hStatus m P := by
      apply hStatus_congr; intro x h1 h2; apply hb x (by omega)
      simp only [PAGE_SIZE] at hgt; omega
    have hpos : P < lim := by simp only [PAGE_SIZE] at hgt; omega
    have hlt : ∀ i, i < hSize m P / PAGE_SIZE → P + i * PAGE_SIZE < lim := by
      intro i hi
      simp only [PAGE_SIZE] at *
      omega
    rw [← hs]
    apply LargeTiled.live
    · rw [hs]; exact hgt
    · rw [hs]; exact hmod
    · rw [hs]; exact hle
    · rw [hst']; exact hst
    · rcases hc P (le_refl P) hpos with h1 | h1
      · rw [h1]; exact hc1
      · exact absurd hc1 h1.1
    · intro i h1 h2
      rw [hs] at h2
      rcases hc (P + i * PAGE_SIZE) (by omega) (hlt i h2) with h3 | h3
      · rw [h3]; exact hin i h1 h2
      · exact ⟨h3.2.2.1, h3.2.2.2⟩
    · rw [hs]
      exact ih (fun x h1 h2 => hb x (by omega) h2) (fun Q h1 h2 => hc Q (by omega) h2)
  | freed P lim t hgt hmod hle hst hall htl ih =>
    have hs : hSize m' P = hSize m P := by
      apply hSize_congr; intro x h1 h2; apply hb x h1
      simp only [PAGE_SIZE] at hgt; omega
    have hst' : hStatus m' P = hStatus m P := by
      apply hStatus_congr; intro x h1 h2; apply hb x (by omega)
      simp only [PAGE_SIZE] at hgt; omega
    have hlt : ∀ i, i < hSize m P / PAGE_SIZE → P + i * PAGE_SIZE < lim := by
      intro i hi
      simp only [PAGE_SIZE] at *
      omega
    apply LargeTiled.freed
    · rw [hs]; exact hgt
    · rw [hs]; exact hmod
    · rw [hs]; exact hle
    · rw [hst']; exact hst
    · intro i h2
      rw [hs] at h2
      rcases hc (P + i * PAGE_SIZE) (by omega) (hlt i h2) with h3 | h3
      · rw [h3]; exact hall i h2
      · exact absurd (hall i h2) h3.2.1
    · rw [hs]
      exact ih (fun x h1 h2 => hb x (by omega) h2) (fun Q h1 h2 => hc Q (by omega) h2)

theorem LargeTiled_append {m : Mem} {a b c t u : Nat} (h1 : LargeTiled m a b t)
    (h2 : LargeTiled m b c u) : LargeTiled m a c (t + u) := by
  induction h1 with
  | nil a => simpa using h2
  | live P lim t hgt hmod hle hst hc1 hin htl ih =>
    have := LargeTiled_le h2
    rw [Nat.add_assoc]
    exact LargeTiled.live P c (t + u) hgt hmod (by omega) hst hc1 hin (ih h2)
  | freed P lim t hgt hmod hle hst hall htl ih =>
    have := LargeTiled_le h2
    exact LargeTiled.freed P c (t + u) hgt hmod (by omega) hst hall (ih h2)

/-- A page of a tiled range whose counter is 1 is the first page of a live object. -/
theorem LargeTiled_find {m : Mem} {P lim t Q : Nat} (h : LargeTiled m P lim t)
    (h1 : P ≤ Q) (h2 : Q < lim) (hal : (Q - P) % PAGE_SIZE = 0) (hc : counterOf m Q = 1) :
    ∃ t1 t2, LargeTiled m P Q t1 ∧ LargeTiled m (Q + hSize m Q) lim t2 ∧
      t = t1 + (hSize m Q + t2) ∧ PAGE_SIZE < hSize m Q ∧ hSize m Q % PAGE_SIZE = 0 ∧
      Q + hSize m Q ≤ lim ∧ hStatus m Q ≠ FREE ∧
      (∀ i, 1 ≤ i → i < hSize m Q / PAGE_SIZE →
        counterOf m (Q + i * PAGE_SIZE) ≠ 1 ∧ counterOf m (Q + i * PAGE_SIZE) ≠ PAGE_SIZE) := by
  induction h with
  | nil P => omega
  | live P lim t hgt hmod hle hst hc1 hin htl ih =>
    by_cases hQ : Q = P
    · subst hQ
      exact ⟨0, t, LargeTiled.nil Q, htl, by omega, hgt, hmod, hle, hst, hin⟩
    · by_cases hQ2 : Q < P + hSize m P
      · exfalso
        have e : Q = P + ((Q - P) / PAGE_SIZE) * PAGE_SIZE := by
          simp only [PAGE_SIZE] at *; omega
        have := hin ((Q - P) / PAGE_SIZE) (by simp only [PAGE_SIZE] at *; omega)
          (by simp only [PAGE_SIZE] at *; omega)
        rw [← e] at this
        exact this.1 hc
      · obtain ⟨t1, t2, p1, p2, e, r⟩ := ih (by omega) h2 (by simp only [PAGE_SIZE] at *; omega)
        refine ⟨hSize m P + t1, t2, ?_, p2, by omega, r⟩
        exact LargeTiled.live P Q t1 hgt hmod (by omega) hst hc1 hin p1
  | freed P lim t hgt hmod hle hst hall htl ih =>
    by_cases hQ2 : Q < P + hSize m P
    · exfalso
      have e : Q = P + ((Q - P) / PAGE_SIZE) * PAGE_SIZE := by
        simp only [PAGE_SIZE] at *; omega
      have := hall ((Q - P) / PAGE_SIZE) (by simp only [PAGE_SIZE] at *; omega)
      rw [← e, hc] at this
      simp [PAGE_SIZE] at this
    · obtain ⟨t1, t2, p1, p2, e, r⟩ := ih (by omega) h2 (by simp only [PAGE_SIZE] at *; omega)
      refine ⟨t1, t2, ?_, p2, by omega, r⟩
      exact LargeTiled.freed P Q t1 hgt hmod (by omega) hst hall p1
/-! ## Chains of headers -/

theorem Tiled_chain {m : Mem} {a lim t : Nat} (h : Tiled m a lim t) : Chain m a lim := by
  induction h with
  | nil a => exact Chain.nil a
  | cons a lim t h8 hle _ _ ih => exact Chain.cons a lim h8 hle ih

theorem LargeTiled_chain {m : Mem} {a lim t : Nat} (h : LargeTiled m a lim t) : Chain m a lim := by
  induction h with
  | nil a => exact Chain.nil a
  | live P lim t hgt _ hle _ _ _ _ ih =>
    exact Chain.cons P lim (by simp only [PAGE_SIZE] at hgt; omega) hle ih
  | freed P lim t hgt _ hle _ _ _ ih =>
    exact Chain.cons P lim (by simp only [PAGE_SIZE] at hgt; omega) hle ih

theorem Chain_header {m : Mem} {a lim h : Nat} (hc : Chain m a lim) (hh : IsHeader m a lim h) :
    8 ≤ hSize m h ∧ h + hSize m h ≤ lim := by
  induction hh with
  | here a lim hlt =>
    cases hc with
    | nil => omega
    | cons _ _ h8 hle _ => exact ⟨h8, hle⟩
  | next a lim h hlt hn ih =>
    cases hc with
    | nil => omega
    | cons _ _ h8 hle htl => exact ih htl

theorem Chain_before {m : Mem} {a lim h h2 : Nat} (hc : Chain m a lim)
    (hh : IsHeader m a lim h) (hh2 : IsHeader m a lim h2) (hlt : h2 < h) :
    h2 + hSize m h2 ≤ h := by
  induction hh2 with
  | here a lim hl =>
    cases hh with
    | here => omega
    | next _ _ _ _ hn => exact (IsHeader_range hn).1
  | next a lim h2 hl hn ih =>
    cases hc with
    | nil => omega
    | cons _ _ h8 hle htl =>
      cases hh with
      | here =>
        have := (IsHeader_range hn).1
        omega
      | next _ _ _ _ hn' => exact ih htl hn' hlt

/-- A byte of the payload of one header is not among the first 8 bytes of any header. -/
theorem Chain_payload {m : Mem} {a lim h h2 x : Nat} (hc : Chain m a lim)
    (hh : IsHeader m a lim h) (hh2 : IsHeader m a lim h2)
    (h1 : h + 16 ≤ x) (h2x : x < h + hSize m h) : x < h2 ∨ h2 + 8 ≤ x := by
  rcases Nat.lt_trichotomy h2 h with hlt | heq | hgt
  · have := Chain_before hc hh hh2 hlt
    have := (Chain_header hc hh2).1
    omega
  · omega
  · have := Chain_before hc hh2 hh hgt
    omega

theorem Tiled_congr_headers {m m' : Mem} {a lim t : Nat} (h : Tiled m a lim t)
    (hh : ∀ h, IsHeader m a lim h → ∀ x, h ≤ x → x < h + 8 → m'.get x = m.get x) :
    Tiled m' a lim t := by
  induction h with
  | nil a => exact Tiled.nil a
  | cons a lim t h8 hle hpg htl ih =>
    have ha : IsHeader m a lim a := IsHeader.here a lim (by omega)
    have hs : hSize m' a = hSize m a :=
      hSize_congr m m' a (fun x h1 h2 => hh a ha x h1 (by omega))
    have hl : liveSize m' a = liveSize m a := liveSize_congr m m' a (fun x h1 h2 => hh a ha x h1 h2)
    rw [← hl]
    apply Tiled.cons
    · rw [hs]; exact h8
    · rw [hs]; exact hle
    · rw [hs]; exact hpg
    · rw [hs]
      exact ih (fun h hh' => hh h (IsHeader.next a lim h (by omega) hh'))

theorem LargeTiled_congr_headers {m m' : Mem} {P lim t : Nat} (h : LargeTiled m P lim t)
    (hh : ∀ h, IsHeader m P lim h → ∀ x, h ≤ x → x < h + 8 → m'.get x = m.get x)
    (hc : ∀ Q, P ≤ Q → Q < lim → counterOf m' Q = counterOf m Q ∨
      (counterOf m Q ≠ 1 ∧ counterOf m Q ≠ PAGE_SIZE ∧
        counterOf m' Q ≠ 1 ∧ counterOf m' Q ≠ PAGE_SIZE)) :
    LargeTiled m' P lim t := by
  induction h with
  | nil P => exact LargeTiled.nil P
  | live P lim t hgt hmod hle hst hc1 hin htl ih =>
    have hpos : P < lim := by simp only [PAGE_SIZE] at hgt; omega
    have ha : IsHeader m P lim P := IsHeader.here P lim hpos
    have hs : hSize m' P = hSize m P :=
      hSize_congr m m' P (fun x h1 h2 => hh P ha x h1 (by omega))
    have hst' : hStatus m' P = hStatus m P :=
      hStatus_congr m m' P (fun x h1 h2 => hh P ha x (by omega) h2)
    have hlt : ∀ i, i < hSize m P / PAGE_SIZE → P + i * PAGE_SIZE < lim := by
      intro i hi
      simp only [PAGE_SIZE] at *
      omega
    rw [← hs]
    apply LargeTiled.live
    · rw [hs]; exact hgt
    · rw [hs]; exact hmod
    · rw [hs]; exact hle
    · rw [hst']; exact hst
    · rcases hc P (le_refl P) hpos with h1 | h1
      · rw [h1]; exact hc1
      · exact absurd hc1 h1.1
    · intro i h1 h2
      rw [hs] at h2
      rcases hc (P + i * PAGE_SIZE) (by omega) (hlt i h2) with h3 | h3
      · rw [h3]; exact hin i h1 h2
      · exact ⟨h3.2.2.1, h3.2.2.2⟩
    · rw [hs]
      exact ih (fun h hh' => hh h (IsHeader.next P lim h hpos hh'))
        (fun Q h1 h2 => hc Q (by omega) h2)
  | freed P lim t hgt hmod hle hst hall htl ih =>
    have hpos : P < lim := by simp only [PAGE_SIZE] at hgt; omega
    have ha : IsHeader m P lim P := IsHeader.here P lim hpos
    have hs : hSize m' P = hSize m P :=
      hSize_congr m m' P (fun x h1 h2 => hh P ha x h1 (by omega))
    have hst' : hStatus m' P = hStatus m P :=
      hStatus_congr m m' P (fun x h1 h2 => hh P ha x (by omega) h2)
    have hlt : ∀ i, i < hSize m P / PAGE_SIZE → P + i * PAGE_SIZE < lim := by
      intro i hi
      simp only [PAGE_SIZE] at *
      omega
    apply LargeTiled.freed
    · rw [hs]; exact hgt
    · rw [hs]; exact hmod
    · rw [hs]; exact hle
    · rw [hst']; exact hst
    · intro i h2
      rw [hs] at h2
      rcases hc (P + i * PAGE_SIZE) (by omega) (hlt i h2) with h3 | h3
      · rw [h3]; exact hall i h2
      · exact absurd (hall i h2) h3.2.1
    · rw [hs]
      exact ih (fun h hh' => hh h (IsHeader.next P lim h hpos hh'))
        (fun Q h1 h2 => hc Q (by omega) h2)

/-! ## Addresses inside a segment -/

theorem METADATA_SIZE_eq : METADATA_SIZE = 2097152 := by
  norm_num [METADATA_SIZE, SEGMENT_SIZE, PAGE_SIZE]

theorem NUM_PAGES_IN_SEG_eq : NUM_PAGES_IN_SEG = 1048576 := by
  norm_num [NUM_PAGES_IN_SEG, METADATA_SIZE_eq]

theorem counterOf_eq (m : Mem) (seg x : Nat) (hseg : seg % SEGMENT_SIZE = 0) (h1 : seg ≤ x)
    (h2 : x < seg + SEGMENT_SIZE) (hw : seg + SEGMENT_SIZE ≤ WORD) :
    counterOf m x = read16 m (seg + 2 * ((x - seg) / PAGE_SIZE)) := by
  unfold counterOf
  rw [getSizeMetadata_eq seg x hseg h1 h2 hw]

theorem getSizeMetadata_range (seg x : Nat) (hseg : seg % SEGMENT_SIZE = 0) (h1 : seg ≤ x)
    (h2 : x < seg + SEGMENT_SIZE) (hw : seg + SEGMENT_SIZE ≤ WORD) :
    seg + 2 * ((x - seg) / PAGE_SIZE) = getSizeMetadata x ∧
      seg ≤ getSizeMetadata x ∧ getSizeMetadata x + 2 ≤ seg + METADATA_SIZE := by
  rw [getSizeMetadata_eq seg x hseg h1 h2 hw]
  simp only [SEGMENT_SIZE, PAGE_SIZE, METADATA_SIZE_eq] at *
  refine ⟨trivial, ?_, ?_⟩ <;> omega

/-- Whatever `x` is, `getSizeMetadata x` lies in the metadata area of the 4 GiB block of `x`. -/
theorem getSizeMetadata_block (x : Nat) (hx : x < WORD) :
    x - x % SEGMENT_SIZE ≤ getSizeMetadata x ∧
      getSizeMetadata x + 2 ≤ x - x % SEGMENT_SIZE + METADATA_SIZE := by
  simp only [getSizeMetadata, ADDR_TO_PAGE_eq x hx, ADDR_TO_SEGMENT_eq x hx, PAGE_SIZE,
    SEGMENT_SIZE, METADATA_SIZE_eq]
  omega

/-! ## Frames -/

theorem SegGeom_frame {m m' : Mem} {na na' : Nat → Bool} {seg : Nat} (h : SegGeom m na seg)
    (hm : ∀ x, seg ≤ x → x < seg + 36 → m'.get x = m.get x)
    (hna : ∀ q, seg / PAGE_SIZE ≤ q → q ≤ (seg + SEGMENT_SIZE) / PAGE_SIZE →
      na q = true → na' q = true) : SegGeom m' na' seg := by
  have eA : read64 m' seg = read64 m seg :=
    read64_congr _ _ _ (fun x h1 h2 => hm x h1 (by omega))
  have eC : read64 m' (seg + 8) = read64 m (seg + 8) :=
    read64_congr _ _ _ (fun x h1 h2 => hm x (by omega) (by omega))
  have eR : read64 m' (seg + 16) = read64 m (seg + 16) :=
    read64_congr _ _ _ (fun x h1 h2 => hm x (by omega) (by omega))
  have eD : read64 m' (seg + 24) = read64 m (seg + 24) :=
    read64_congr _ _ _ (fun x h1 h2 => hm x (by omega) (by omega))
  have eF : read32 m' (seg + 32) = read32 m (seg + 32) :=
    read32_congr _ _ _ (fun x h1 h2 => hm x (by omega) (by omega))
  have hge : seg / PAGE_SIZE ≤ read64 m (seg + 8) / PAGE_SIZE := by
    apply Nat.div_le_div_right
    have := h.dataAlloc
    have := h.allocCommit
    omega
  constructor
  · exact h.aligned
  · exact h.inWord
  · rw [eD]; exact h.data
  · rw [eR]; exact h.reserve
  · rw [eA]; exact h.dataAlloc
  · rw [eA, eC]; exact h.allocCommit
  · rw [eC]; exact h.commitReserve
  · rw [eC]; exact h.commitPage
  · rw [eF]; exact h.flag
  · rw [eF, eA, eC]; exact h.large
  · rw [eC]
    intro q h1 h2
    exact hna q (le_trans hge h1) h2 (h.uncommitted q h1 h2)

theorem SegInv_chain {m : Mem} {na : Nat → Bool} {g t : Nat} (h : SegInv m na g t) :
    Chain m (g + METADATA_SIZE) (read64 m g) := by
  rcases h.1.flag with hf | hf
  · exact Tiled_chain (h.2.1 hf)
  · exact LargeTiled_chain (h.2.2 hf).1

/-- The invariant of a segment depends on its metadata and on the first 8 bytes of the
headers of its objects only. -/
theorem SegInv_congr {m m' : Mem} {na na' : Nat → Bool} {g t : Nat} (h : SegInv m na g t)
    (hmeta : ∀ x, g ≤ x → x < g + METADATA_SIZE → m'.get x = m.get x)
    (hhdr : ∀ h2, IsHeader m (g + METADATA_SIZE) (read64 m g) h2 →
      ∀ x, h2 ≤ x → x < h2 + 8 → m'.get x = m.get x)
    (hna : ∀ q, g / PAGE_SIZE ≤ q → q ≤ (g + SEGMENT_SIZE) / PAGE_SIZE →
      na q = true → na' q = true) : SegInv m' na' g t := by
  obtain ⟨hg, hs, hl⟩ := h
  have hM : (36 : Nat) ≤ METADATA_SIZE := by simp [METADATA_SIZE_eq]
  have eA : read64 m' g = read64 m g :=
    read64_congr _ _ _ (fun x h1 h2 => hmeta x h1 (by omega))
  have eF : read32 m' (g + 32) = read32 m (g + 32) :=
    read32_congr _ _ _ (fun x h1 h2 => hmeta x (by omega) (by omega))
  have hA1 := hg.dataAlloc
  have hA2 := hg.allocCommit
  have hA3 := hg.commitReserve
  have hw := hg.inWord
  have hal := hg.aligned
  refine ⟨SegGeom_frame hg (fun x h1 h2 => hmeta x h1 (by omega)) hna, ?_, ?_⟩
  · rw [eF]
    intro hf
    have h1 := hs hf
    unfold SmallObjs at h1 ⊢
    rw [eA]
    exact Tiled_congr_headers h1 hhdr
  · rw [eF]
    intro hf
    obtain ⟨h1, h2, h3⟩ := hl hf
    refine ⟨?_, ?_, ?_⟩
    · rw [eA]
      apply LargeTiled_congr_headers h1 hhdr
      intro Q hQ1 hQ2
      left
      have hQa : g ≤ Q := by omega
      have hQb : Q < g + SEGMENT_SIZE := by omega
      have r := getSizeMetadata_range g Q hal hQa hQb (le_of_lt hw)
      unfold counterOf
      apply read16_congr
      intro x hx1 hx2
      apply hmeta x
      · omega
      · omega
    · rw [eA]
      intro i hi1 hi2
      have : read16 m' (g + 2 * i) = read16 m (g + 2 * i) := by
        apply read16_congr
        intro x hx1 hx2
        apply hmeta x
        · omega
        · simp only [NUM_PAGES_IN_SEG_eq, METADATA_SIZE_eq] at *; omega
      rw [this]; exact h2 i hi1 hi2
    · intro j hj1 hj2
      have : read16 m' (g + 2 * j) = read16 m (g + 2 * j) := by
        apply read16_congr
        intro x hx1 hx2
        apply hmeta x
        · omega
        · simp only [METADATA_SIZE_eq] at *; omega
      rw [this]; exact h3 j hj1 hj2

theorem SegInv_frame {m m' : Mem} {na na' : Nat → Bool} {seg t : Nat} (h : SegInv m na seg t)
    (hm : ∀ x, seg ≤ x → x < seg + SEGMENT_SIZE → m'.get x = m.get x)
    (hna : ∀ q, seg / PAGE_SIZE ≤ q → q ≤ (seg + SEGMENT_SIZE) / PAGE_SIZE →
      na q = true → na' q = true) : SegInv m' na' seg t := by
  have hc := SegInv_chain h
  have hcr := h.1.commitReserve
  have hac := h.1.allocCommit
  apply SegInv_congr h _ _ hna
  · intro x h1 h2
    exact hm x h1 (by simp only [SEGMENT_SIZE, METADATA_SIZE_eq] at *; omega)
  · intro h2 hh2 x h1 h2x
    have hd := Chain_header hc hh2
    have hr := IsHeader_range hh2
    exact hm x (by omega) (by omega)

/-! ## The invariant under a change confined to one segment -/

theorem apart_of_mem {segs : List Nat}
    (h : segs.Pairwise (fun g g' => g + 2 * SEGMENT_SIZE ≤ g' ∨ g' + 2 * SEGMENT_SIZE ≤ g))
    {a b : Nat} (ha : a ∈ segs) (hb : b ∈ segs) (hne : a ≠ b) :
    a + 2 * SEGMENT_SIZE ≤ b ∨ b + 2 * SEGMENT_SIZE ≤ a := by
  have hsym : Symmetric (fun g g' : Nat => g + 2 * SEGMENT_SIZE ≤ g' ∨ g' + 2 * SEGMENT_SIZE ≤ g) := by
    intro x y hxy
    exact hxy.symm
  exact List.Pairwise.forall hsym h ha hb hne

theorem nodup_of_apart {segs : List Nat}
    (h : segs.Pairwise (fun g g' => g + 2 * SEGMENT_SIZE ≤ g' ∨ g' + 2 * SEGMENT_SIZE ≤ g)) :
    segs.Nodup := by
  apply List.Pairwise.imp _ h
  intro a b hab
  simp only [SEGMENT_SIZE] at hab
  omega

theorem sum_map_update (segs : List Nat) (tot : Nat → Nat) (g t' : Nat) (hn : segs.Nodup)
    (hg : g ∈ segs) :
    (segs.map (Function.update tot g t')).sum + tot g = (segs.map tot).sum + t' := by
  induction segs with
  | nil => simp at hg
  | cons a l ih =>
    have hn' := List.nodup_cons.mp hn
    by_cases ha : a = g
    · subst ha
      have : l.map (Function.update tot a t') = l.map tot := by
        apply List.map_congr_left
        intro x hx
        have : x ≠ a := fun e => hn'.1 (e ▸ hx)
        simp [Function.update, this]
      simp only [List.map_cons, List.sum_cons, this, Function.update_same]
      omega
    · have hg' : g ∈ l := by
        rcases List.mem_cons.mp hg with e | e
        · exact absurd e.symm ha
        · exact e
      have := ih hn'.2 hg'
      simp only [List.map_cons, List.sum_cons, Function.update_noteq ha]
      omega

theorem sum_map_update_not_mem (segs : List Nat) (tot : Nat → Nat) (g t' : Nat) (hg : g ∉ segs) :
    segs.map (Function.update tot g t') = segs.map tot := by
  apply List.map_congr_left
  intro x hx
  have : x ≠ g := fun e => hg (e ▸ hx)
  simp [Function.update, this]

theorem InvCore_update {m m' : Mem} {na na' : Nat → Bool} {segs : List Nat} {cs cb : Option Nat}
    {bases : List Nat} {al fr al' fr' : Int} {tot : Nat → Nat} (g t' : Nat)
    (h : InvCore m na segs cs cb bases al fr tot) (hg : g ∈ segs)
    (hm : ∀ x, x < g ∨ g + SEGMENT_SIZE ≤ x → m'.get x = m.get x)
    (hna : ∀ q, q < g / PAGE_SIZE ∨ (g + SEGMENT_SIZE) / PAGE_SIZE < q →
      na q = true → na' q = true)
    (hs : SegInv m' na' g t')
    (hgap : read32 m' (g + 32) = 0 → read64 m' (g + 8) - read64 m' g < PAGE_SIZE)
    (hflag : read32 m' (g + 32) = read32 m (g + 32))
    (hacc : al' - fr' + tot g = al - fr + t') :
    InvCore m' na' segs cs cb bases al' fr' (Function.update tot g t') := by
  have hother : ∀ g' ∈ segs, g' ≠ g →
      (∀ x, g' ≤ x → x < g' + SEGMENT_SIZE → m'.get x = m.get x) ∧
      (∀ q, g' / PAGE_SIZE ≤ q → q ≤ (g' + SEGMENT_SIZE) / PAGE_SIZE →
        na q = true → na' q = true) := by
    intro g' hg' hne
    have hap := apart_of_mem h.apart hg' hg hne
    have hal := (h.segInv g hg).1.aligned
    have hal' := (h.segInv g' hg').1.aligned
    constructor
    · intro x h1 h2
      apply hm
      simp only [SEGMENT_SIZE] at *
      omega
    · intro q h1 h2
      apply hna
      simp only [SEGMENT_SIZE, PAGE_SIZE] at *
      omega
  have hfl : ∀ g' ∈ segs, read32 m' (g' + 32) = read32 m (g' + 32) := by
    intro g' hg'
    by_cases hne : g' = g
    · rw [hne]; exact hflag
    · apply read32_congr
      intro x h1 h2
      apply (hother g' hg' hne).1 x (by omega)
      simp only [SEGMENT_SIZE]; omega
  constructor
  · intro g' hg'
    by_cases hne : g' = g
    · rw [hne, Function.update_same]; exact hs
    · rw [Function.update_noteq hne]
      exact SegInv_frame (h.segInv g' hg') (hother g' hg' hne).1 (hother g' hg' hne).2
  · intro g' hg'
    by_cases hne : g' = g
    · rw [hne]; exact hgap
    · have e1 : read64 m' g' = read64 m g' := by
        apply read64_congr
        intro x h1 h2
        apply (hother g' hg' hne).1 x (by omega)
        simp only [SEGMENT_SIZE]; omega
      have e2 : read64 m' (g' + 8) = read64 m (g' + 8) := by
        apply read64_congr
        intro x h1 h2
        apply (hother g' hg' hne).1 x (by omega)
        simp only [SEGMENT_SIZE]; omega
      rw [hfl g' hg', e1, e2]
      exact h.gap g' hg'
  · exact h.apart
  · intro g' hc
    have := h.curSmall g' hc
    exact ⟨this.1, by rw [hfl g' this.1]; exact this.2⟩
  · intro g' hc
    have := h.curBig g' hc
    exact ⟨this.1, by rw [hfl g' this.1]; exact this.2⟩
  · exact h.mmap
  · have := sum_map_update segs tot g t' (nodup_of_apart h.apart) hg
    have hacc0 := h.account
    omega

/-! ## Writes by the program -/

theorem Inv_write {s : State} {tot : Nat → Nat} (m' : Mem) (h : Inv s tot)
    (hw : ∀ x, m'.get x ≠ s.mem.get x → MutatorOK s x) : Inv { s with mem := m' } tot := by
  have key : ∀ g ∈ s.Segments, ∀ x, g ≤ x → x < g + SEGMENT_SIZE →
      (x < g + METADATA_SIZE ∨
        ∃ h2, IsHeader s.mem (g + METADATA_SIZE) (read64 s.mem g) h2 ∧ h2 ≤ x ∧ x < h2 + 8) →
      m'.get x = s.mem.get x := by
    intro g hg x hx1 hx2 halt
    by_contra hne
    rcases hw x hne with ho | ⟨g3, hg3, h3, hh3, p1, p2⟩
    · have := ho g hg
      omega
    · have hc3 := SegInv_chain (h.segInv g3 hg3)
      have hd := Chain_header hc3 hh3
      have hr := IsHeader_range hh3
      have hcr := (h.segInv g3 hg3).1.commitReserve
      have hac := (h.segInv g3 hg3).1.allocCommit
      by_cases hgg : g3 = g
      · subst hgg
        rcases halt with ha | ⟨h2, hh2, q1, q2⟩
        · omega
        · have := Chain_payload hc3 hh3 hh2 p1 p2
          omega
      · have hap := apart_of_mem h.apart hg3 hg hgg
        simp only [SEGMENT_SIZE, METADATA_SIZE_eq] at *
        omega
  have hseg : ∀ g ∈ s.Segments, SegInv m' s.noaccess g (tot g) := by
    intro g hg
    have hS := h.segInv g hg
    have hc := SegInv_chain hS
    apply SegInv_congr hS
    · intro x h1 h2
      exact key g hg x h1 (by simp only [SEGMENT_SIZE, METADATA_SIZE_eq] at *; omega) (Or.inl h2)
    · intro h2 hh2 x h1 h2x
      have hd := Chain_header hc hh2
      have hr := IsHeader_range hh2
      have hcr := hS.1.commitReserve
      have hac := hS.1.allocCommit
      exact key g hg x (by omega) (by omega) (Or.inr ⟨h2, hh2, h1, h2x⟩)
    · intro q _ _ hq; exact hq
  have e32 : ∀ g ∈ s.Segments, read32 m' (g + 32) = read32 s.mem (g + 32) := by
    intro g hg
    apply read32_congr
    intro x h1 h2
    exact key g hg x (by omega) (by simp only [SEGMENT_SIZE]; omega)
      (Or.inl (by simp only [METADATA_SIZE_eq]; omega))
  have e0 : ∀ g ∈ s.Segments, read64 m' g = read64 s.mem g := by
    intro g hg
    apply read64_congr
    intro x h1 h2
    exact key g hg x (by omega) (by simp only [SEGMENT_SIZE]; omega)
      (Or.inl (by simp only [METADATA_SIZE_eq]; omega))
  have e8 : ∀ g ∈ s.Segments, read64 m' (g + 8) = read64 s.mem (g + 8) := by
    intro g hg
    apply read64_congr
    intro x h1 h2
    exact key g hg x (by omega) (by simp only [SEGMENT_SIZE]; omega)
      (Or.inl (by simp only [METADATA_SIZE_eq]; omega))
  constructor
  · exact hseg
  · intro g hg
    show read32 m' (g + 32) = 0 → read64 m' (g + 8) - read64 m' g < PAGE_SIZE
    rw [e32 g hg, e0 g hg, e8 g hg]
    exact h.gap g hg
  · exact h.apart
  · intro g hc
    have := h.curSmall g hc
    exact ⟨this.1, (e32 g this.1).trans this.2⟩
  · intro g hc
    have := h.curBig g hc
    exact ⟨this.1, (e32 g this.1).trans this.2⟩
  · exact h.mmap
  · exact h.account

/-! ## Inversion of the checked loads and stores -/

theorem load16_inv {s : State} {a v : Nat} (h : load16 s a = some v) :
    v = read16 s.mem a ∧ accessible s a 2 = true := by
  unfold load16 at h
  split at h
  · rename_i hc
    exact ⟨(Option.some.inj h).symm, hc⟩
  · exact absurd h (by simp)

theorem load32_inv {s : State} {a v : Nat} (h : load32 s a = some v) :
    v = read32 s.mem a ∧ accessible s a 4 = true := by
  unfold load32 at h
  split at h
  · rename_i hc
    exact ⟨(Option.some.inj h).symm, hc⟩
  · exact absurd h (by simp)

theorem load64_inv {s : State} {a v : Nat} (h : load64 s a = some v) :
    v = read64 s.mem a ∧ accessible s a 8 = true := by
  unfold load64 at h
  split at h
  · rename_i hc
    exact ⟨(Option.some.inj h).symm, hc⟩
  · exact absurd h (by simp)

theorem store16_inv {s s' : State} {a v : Nat} (h : store16 s a v = some s') :
    s' = { s with mem := write16 s.mem a v } ∧ accessible s a 2 = true := by
  unfold store16 at h
  split at h
  · rename_i hc
    exact ⟨(Option.some.inj h).symm, hc⟩
  · exact absurd h (by simp)

theorem store32_inv {s s' : State} {a v : Nat} (h : store32 s a v = some s') :
    s' = { s with mem := write32 s.mem a v } ∧ accessible s a 4 = true := by
  unfold store32 at h
  split at h
  · rename_i hc
    exact ⟨(Option.some.inj h).symm, hc⟩
  · exact absurd h (by simp)

theorem store64_inv {s s' : State} {a v : Nat} (h : store64 s a v = some s') :
    s' = { s with mem := write64 s.mem a v } ∧ accessible s a 8 = true := by
  unfold store64 at h
  split at h
  · rename_i hc
    exact ⟨(Option.some.inj h).symm, hc⟩
  · exact absurd h (by simp)

theorem accessible_page {s : State} {a len : Nat} (h : accessible s a len = true) :
    s.noaccess (a / PAGE_SIZE) = false := by
  simp only [accessible, Bool.and_eq_true, Bool.not_eq_true'] at h
  exact h.1

theorem writeObject_inv {s s' : State} {seg A NA sz p : Nat}
    (h : writeObject s seg A NA sz = some (p, s')) :
    p = A + 16 ∧ s.noaccess (A / PAGE_SIZE) = false ∧
      s.noaccess ((A + 15) / PAGE_SIZE) = false ∧
      s' = { s with NumBytesAllocated := s.NumBytesAllocated + sz
                    mem := headerMem s.mem seg A NA sz } := by
  simp only [writeObject, Option.bind_eq_bind, Option.bind_eq_some] at h
  obtain ⟨s1, h1, s2, h2, s3, h3, h4⟩ := h
  obtain ⟨e1, a1⟩ := store32_inv h1
  obtain ⟨e2, a2⟩ := store32_inv h2
  obtain ⟨e3, a3⟩ := store64_inv h3
  simp only [Option.some.injEq, Prod.mk.injEq] at h4
  refine ⟨h4.1.symm, accessible_page a1, ?_, ?_⟩
  · rw [e2, e1] at a3
    simp only [accessible, Bool.and_eq_true, Bool.not_eq_true'] at a3
    exact a3.2
  · rw [← h4.2, e3, e2, e1]
    rfl

/-! ## `allocateSegment` -/

theorem allocateSegment_inv {s s' : State} {B seg : Nat}
    (h : allocateSegment B s = some (seg, s')) :
    ∃ Base rest, s.mmapRet = Base :: rest ∧ seg = Align Base SEGMENT_SIZE ∧
      s' = { s with mmapRet := rest
                    mem := segMem s.mem Base seg B
                    noaccess := setProt (setProt s.noaccess Base (SEGMENT_SIZE * 2) true)
                      seg METADATA_SIZE false
                    Segments := seg :: s.Segments } := by
  unfold allocateSegment at h
  split at h
  · exact absurd h (by simp)
  · rename_i Base rest hb
    refine ⟨Base, rest, hb, ?_⟩
    simp only [allowAccess, Option.bind_eq_bind, Option.bind_eq_some] at h
    obtain ⟨s1, h1, h2⟩ := h
    split at h1
    · simp only [Option.some.injEq, Prod.mk.injEq] at h1 h2
      refine ⟨h2.1.symm, ?_⟩
      rw [← h2.2, ← h1, h2.1]
      rfl
    · exact absurd h1 (by simp)

theorem Align_segment_spec (Base : Nat) (h1 : Base % PAGE_SIZE = 0)
    (h2 : Base + 2 * SEGMENT_SIZE < WORD) :
    Align Base SEGMENT_SIZE % SEGMENT_SIZE = 0 ∧ Base ≤ Align Base SEGMENT_SIZE ∧
      Align Base SEGMENT_SIZE + PAGE_SIZE ≤ Base + SEGMENT_SIZE := by
  rw [Align_segment_eq]
  simp only [SEGMENT_SIZE, PAGE_SIZE, WORD] at *
  rw [Nat.mod_eq_of_lt (show Base + 4294967295 < 18446744073709551616 by omega)]
  omega

theorem segMem_get (m : Mem) (Base seg B x : Nat) (h : x < Base ∨ Base + SEGMENT_SIZE * 2 ≤ x)
    (hs : Base ≤ seg ∧ seg + 36 ≤ Base + SEGMENT_SIZE * 2) :
    (segMem m Base seg B).get x = m.get x := by
  unfold segMem
  rw [write32_ne _ _ _ _ (by omega), write64_ne _ _ _ _ (by omega), write64_ne _ _ _ _ (by omega),
    write64_ne _ _ _ _ (by omega), write64_ne _ _ _ _ (by omega), zeroRange_ne _ _ _ _ (by omega)]

theorem segMem_zero (m : Mem) (Base seg B x : Nat) (h1 : seg + 36 ≤ x)
    (h2 : x < Base + SEGMENT_SIZE * 2) (hs : Base ≤ seg) :
    (segMem m Base seg B).get x = 0 := by
  unfold segMem
  rw [write32_ne _ _ _ _ (by omega), write64_ne _ _ _ _ (by omega), write64_ne _ _ _ _ (by omega),
    write64_ne _ _ _ _ (by omega), write64_ne _ _ _ _ (by omega), get_zeroRange]
  rw [if_pos (by omega)]

theorem segMem_alloc (m : Mem) (Base seg B : Nat) (hw : seg + METADATA_SIZE < WORD) :
    read64 (segMem m Base seg B) seg = seg + METADATA_SIZE := by
  have : read64 (segMem m Base seg B) seg =
      read64 (write64 (zeroRange m Base (SEGMENT_SIZE * 2)) seg (seg + METADATA_SIZE)) seg := by
    apply read64_congr
    intro x h1 h2
    unfold segMem
    rw [write32_ne _ _ _ _ (by omega), write64_ne _ _ _ _ (by omega),
      write64_ne _ _ _ _ (by omega), write64_ne _ _ _ _ (by omega)]
  rw [this, read64_write64, Nat.mod_eq_of_lt hw]

theorem segMem_commit (m : Mem) (Base seg B : Nat) (hw : seg + METADATA_SIZE < WORD) :
    read64 (segMem m Base seg B) (seg + 8) = seg + METADATA_SIZE := by
  have : read64 (segMem m Base seg B) (seg + 8) =
      read64 (write64 (write64 (write64 (zeroRange m Base (SEGMENT_SIZE * 2)) seg
        (seg + METADATA_SIZE)) (seg + 16) (seg + SEGMENT_SIZE)) (seg + 8)
        (seg + METADATA_SIZE)) (seg + 8) := by
    apply read64_congr
    intro x h1 h2
    unfold segMem
    rw [write32_ne _ _ _ _ (by omega), write64_ne _ _ _ _ (by omega)]
  rw [this, read64_write64, Nat.mod_eq_of_lt hw]

theorem segMem_reserve (m : Mem) (Base seg B : Nat) (hw : seg + SEGMENT_SIZE < WORD) :
    read64 (segMem m Base seg B) (seg + 16) = seg + SEGMENT_SIZE := by
  have : read64 (segMem m Base seg B) (seg + 16) =
      read64 (write64 (write64 (zeroRange m Base (SEGMENT_SIZE * 2)) seg
        (seg + METADATA_SIZE)) (seg + 16) (seg + SEGMENT_SIZE)) (seg + 16) := by
    apply read64_congr
    intro x h1 h2
    unfold segMem
    rw [write32_ne _ _ _ _ (by omega), write64_ne _ _ _ _ (by omega),
      write64_ne _ _ _ _ (by omega)]
  rw [this, read64_write64, Nat.mod_eq_of_lt hw]

theorem segMem_data (m : Mem) (Base seg B : Nat) (hw : seg + METADATA_SIZE < WORD) :
    read64 (segMem m Base seg B) (seg + 24) = seg + METADATA_SIZE := by
  have : read64 (segMem m Base seg B) (seg + 24) =
      read64 (write64 (write64 (write64 (write64 (zeroRange m Base (SEGMENT_SIZE * 2)) seg
        (seg + METADATA_SIZE)) (seg + 16) (seg + SEGMENT_SIZE)) (seg + 8)
        (seg + METADATA_SIZE)) (seg + 24) (seg + METADATA_SIZE)) (seg + 24) := by
    apply read64_congr
    intro x h1 h2
    unfold segMem
    rw [write32_ne _ _ _ _ (by omega)]
  rw [this, read64_write64, Nat.mod_eq_of_lt hw]

theorem segMem_flag (m : Mem) (Base seg B : Nat) (hB : B < 4294967296) :
    read32 (segMem m Base seg B) (seg + 32) = B := by
  unfold segMem
  rw [read32_write32, Nat.mod_eq_of_lt hB]
theorem allocateSegment_cur {s s' : State} {B seg : Nat}
    (h : allocateSegment B s = some (seg, s')) :
    s'.CurSegSmall = s.CurSegSmall ∧ s'.CurSegBig = s.CurSegBig ∧ seg ∈ s'.Segments := by
  obtain ⟨Base, rest, hb, hseg, hs'⟩ := allocateSegment_inv h
  subst hs'
  exact ⟨rfl, rfl, List.mem_cons_self _ _⟩

theorem segMem_SegInv (m : Mem) (na : Nat → Bool) (Base seg B : Nat) (hB : B = 0 ∨ B = 1)
    (h1 : Base % PAGE_SIZE = 0) (h2 : Base + 2 * SEGMENT_SIZE < WORD)
    (hseg : seg = Align Base SEGMENT_SIZE) :
    SegInv (segMem m Base seg B)
      (setProt (setProt na Base (SEGMENT_SIZE * 2) true) seg METADATA_SIZE false) seg 0 := by
  obtain ⟨a1, a2, a3⟩ := Align_segment_spec Base h1 h2
  rw [← hseg] at a1 a2 a3
  have hw1 : seg + METADATA_SIZE < WORD := by
    simp only [SEGMENT_SIZE, PAGE_SIZE, METADATA_SIZE_eq] at *; omega
  have hw2 : seg + SEGMENT_SIZE < WORD := by
    simp only [SEGMENT_SIZE, PAGE_SIZE, METADATA_SIZE_eq] at *; omega
  have hB' : B < 4294967296 := by omega
  have eA := segMem_alloc m Base seg B hw1
  have eC := segMem_commit m Base seg B hw1
  have eR := segMem_reserve m Base seg B hw2
  have eD := segMem_data m Base seg B hw1
  have eF := segMem_flag m Base seg B hB'
  have hz : ∀ j, 18 ≤ j → j < NUM_PAGES_IN_SEG → read16 (segMem m Base seg B) (seg + 2 * j) = 0 := by
    intro j hj1 hj2
    have z1 := segMem_zero m Base seg B (seg + 2 * j) (by omega)
      (by simp only [SEGMENT_SIZE, PAGE_SIZE, NUM_PAGES_IN_SEG_eq] at *; omega) a2
    have z2 := segMem_zero m Base seg B (seg + 2 * j + 1) (by omega)
      (by simp only [SEGMENT_SIZE, PAGE_SIZE, NUM_PAGES_IN_SEG_eq] at *; omega) a2
    simp only [read16, read8, z1, z2]
  have h17 : read16 (segMem m Base seg B) (seg + 2 * 17) = 0 := by
    have e : read16 (segMem m Base seg B) (seg + 2 * 17) =
        read16 (write32 m (seg + 32) B) (seg + 34) := by
      apply read16_congr
      intro x hx1 hx2
      unfold segMem
      rw [get_write32, get_write32, if_pos (by omega), if_pos (by omega)]
    rw [e]
    simp only [read16, read8, get_write32]
    rw [if_pos (by omega), if_pos (by omega)]
    have e1 : seg + 34 - (seg + 32) = 2 := by omega
    have e2 : seg + 34 + 1 - (seg + 32) = 3 := by omega
    rw [e1, e2]
    rcases hB with hB | hB <;> subst hB <;> rfl
  refine ⟨?_, ?_, ?_⟩
  · constructor
    · exact a1
    · exact hw2
    · exact eD
    · exact eR
    · rw [eA]
    · rw [eA, eC]
    · rw [eC]; simp only [SEGMENT_SIZE, METADATA_SIZE_eq]; omega
    · rw [eC]; simp only [SEGMENT_SIZE, PAGE_SIZE, METADATA_SIZE_eq] at *; omega
    · rw [eF]; exact hB
    · rw [eF, eA, eC]; intro _; trivial
    · rw [eC]
      intro q hq1 hq2
      simp only [setProt, SEGMENT_SIZE, PAGE_SIZE, METADATA_SIZE_eq] at *
      rw [if_neg (by omega), if_pos (by omega)]
  · intro _
    unfold SmallObjs
    rw [eA]
    exact Tiled.nil _
  · intro _
    refine ⟨?_, ?_, ?_⟩
    · rw [eA]; exact LargeTiled.nil _
    · rw [eA]
      intro i hi1 hi2
      have : 18 ≤ i := by simp only [PAGE_SIZE, METADATA_SIZE_eq] at hi1; omega
      rw [hz i this hi2]
      simp [PAGE_SIZE]
    · intro j hj1 hj2
      by_cases h17' : j = 17
      · subst h17'; rw [h17]; simp
      · rw [hz j (by omega) (by simp only [NUM_PAGES_IN_SEG_eq]; omega)]; simp
theorem allocateSegment_Inv {s s' : State} {B seg : Nat} {tot : Nat → Nat} (hB : B = 0 ∨ B = 1)
    (h : Inv s tot) (ha : allocateSegment B s = some (seg, s')) (cs' cb' : Option Nat)
    (hcs : ∀ g, cs' = some g → (g = seg ∧ B = 0) ∨ s.CurSegSmall = some g)
    (hcb : ∀ g, cb' = some g → (g = seg ∧ B = 1) ∨ s.CurSegBig = some g) :
    InvCore s'.mem s'.noaccess s'.Segments cs' cb' s'.mmapRet s'.NumBytesAllocated
      s'.NumBytesFreed (Function.update tot seg 0) := by
  obtain ⟨Base, rest, hb, hseg, hs'⟩ := allocateSegment_inv ha
  have hmm : MmapOK s.Segments (Base :: rest) := hb ▸ h.mmap
  obtain ⟨b1, b2, b3⟩ := hmm.1 Base (List.mem_cons_self _ _)
  obtain ⟨a1, a2, a3⟩ := Align_segment_spec Base b1 b2
  rw [← hseg] at a1 a2 a3
  have hnew := segMem_SegInv s.mem s.noaccess Base seg B hB b1 b2 hseg
  have hB' : B < 4294967296 := by omega
  have eF := segMem_flag s.mem Base seg B hB'
  have hap : ∀ g ∈ s.Segments, seg + 2 * SEGMENT_SIZE ≤ g ∨ g + 2 * SEGMENT_SIZE ≤ seg := by
    intro g hg
    have hal := (h.segInv g hg).1.aligned
    have := b3 g hg
    simp only [SEGMENT_SIZE, PAGE_SIZE] at *
    omega
  have hnot : seg ∉ s.Segments := by
    intro hin
    have := hap seg hin
    simp only [SEGMENT_SIZE] at this
    omega
  have hmem : ∀ g ∈ s.Segments, ∀ x, g ≤ x → x < g + SEGMENT_SIZE →
      (segMem s.mem Base seg B).get x = s.mem.get x := by
    intro g hg x hx1 hx2
    have := b3 g hg
    apply segMem_get
    · simp only [SEGMENT_SIZE, PAGE_SIZE] at *; omega
    · simp only [SEGMENT_SIZE, PAGE_SIZE] at *; omega
  have hna : ∀ g ∈ s.Segments, ∀ q, g / PAGE_SIZE ≤ q → q ≤ (g + SEGMENT_SIZE) / PAGE_SIZE →
      s.noaccess q = true →
      setProt (setProt s.noaccess Base (SEGMENT_SIZE * 2) true) seg METADATA_SIZE false q
        = true := by
    intro g hg q hq1 hq2 hq
    have := b3 g hg
    have hal := (h.segInv g hg).1.aligned
    simp only [setProt, SEGMENT_SIZE, PAGE_SIZE, METADATA_SIZE_eq] at *
    rw [if_neg (by omega), if_neg (by omega)]
    exact hq
  have hfl : ∀ g ∈ s.Segments, read32 (segMem s.mem Base seg B) (g + 32) = read32 s.mem (g + 32) := by
    intro g hg
    apply read32_congr
    intro x h1 h2
    exact hmem g hg x (by omega) (by simp only [SEGMENT_SIZE]; omega)
  subst hs'
  constructor
  · intro g hg
    rcases List.mem_cons.mp hg with e | e
    · rw [e, Function.update_same]; exact hnew
    · have hne : g ≠ seg := fun e' => hnot (e' ▸ e)
      rw [Function.update_noteq hne]
      exact SegInv_frame (h.segInv g e) (hmem g e) (hna g e)
  · intro g hg
    rcases List.mem_cons.mp hg with e | e
    · rw [e]
      have hg1 := hnew.1
      intro _
      have e1 := hg1.dataAlloc
      have e2 := hg1.allocCommit
      have hw1 : seg + METADATA_SIZE < WORD := by
        have := hg1.inWord
        simp only [SEGMENT_SIZE, METADATA_SIZE_eq] at *; omega
      show read64 (segMem s.mem Base seg B) (seg + 8) - read64 (segMem s.mem Base seg B) seg
        < PAGE_SIZE
      rw [segMem_alloc _ _ _ _ hw1, segMem_commit _ _ _ _ hw1]
      simp [PAGE_SIZE]
    · have e1 : read64 (segMem s.mem Base seg B) g = read64 s.mem g := by
        apply read64_congr
        intro x h1 h2
        exact hmem g e x (by omega) (by simp only [SEGMENT_SIZE]; omega)
      have e2 : read64 (segMem s.mem Base seg B) (g + 8) = read64 s.mem (g + 8) := by
        apply read64_congr
        intro x h1 h2
        exact hmem g e x (by omega) (by simp only [SEGMENT_SIZE]; omega)
      show read32 (segMem s.mem Base seg B) (g + 32) = 0 →
        read64 (segMem s.mem Base seg B) (g + 8) - read64 (segMem s.mem Base seg B) g < PAGE_SIZE
      rw [hfl g e, e1, e2]
      exact h.gap g e
  · exact List.pairwise_cons.mpr ⟨hap, h.apart⟩
  · intro g hc
    rcases hcs g hc with ⟨e1, e2⟩ | e
    · subst e1
      exact ⟨List.mem_cons_self _ _, by rw [← e2]; exact eF⟩
    · have := h.curSmall g e
      exact ⟨List.mem_cons_of_mem _ this.1, (hfl g this.1).trans this.2⟩
  · intro g hc
    rcases hcb g hc with ⟨e1, e2⟩ | e
    · subst e1
      exact ⟨List.mem_cons_self _ _, by rw [← e2]; exact eF⟩
    · have := h.curBig g e
      exact ⟨List.mem_cons_of_mem _ this.1, (hfl g this.1).trans this.2⟩
  · constructor
    · intro b hbm
      obtain ⟨c1, c2, c3⟩ := hmm.1 b (List.mem_cons_of_mem _ hbm)
      refine ⟨c1, c2, ?_⟩
      intro g hg
      rcases List.mem_cons.mp hg with e | e
      · have hp := (List.pairwise_cons.mp hmm.2).1 b hbm
        rw [e]
        simp only [SEGMENT_SIZE, PAGE_SIZE] at *
        omega
      · exact c3 g e
    · exact (List.pairwise_cons.mp hmm.2).2
  · show s.NumBytesAllocated - s.NumBytesFreed =
      ((((seg :: s.Segments).map (Function.update tot seg 0)).sum : Nat) : Int)
    rw [List.map_cons, List.sum_cons, Function.update_same,
      sum_map_update_not_mem _ _ _ _ hnot, Nat.zero_add]
    exact h.account
/-! ## `myfree` -/

theorem reclaimMemory_inv {s s' : State} {Ptr Size : Nat}
    (h : reclaimMemory s Ptr Size = some s') :
    s' = { s with noaccess := setProt s.noaccess Ptr Size true } := by
  unfold reclaimMemory at h
  split at h
  · exact (Option.some.inj h).symm
  · exact absurd h (by simp)

theorem setProt_true_mono (na : Nat → Bool) (a len q : Nat) (h : na q = true) :
    setProt na a len true q = true := by
  unfold setProt
  split
  · rfl
  · exact h

/-- The memory after `myfree` of a small object at `h`: the counter of its page grows by
its size and its status is `FREE`. -/
theorem myfree_small_inv {s s' : State} {h : Nat} (hm : myfree s (h + 16) = some s')
    (hsz : hSize s.mem h ≤ COMMIT_SIZE) :
    hStatus s.mem h &&& FREE = 0 ∧
    ∃ na', (∀ q, s.noaccess q = true → na' q = true) ∧
      s' = { s with
        mem := write32 (write16 s.mem (getSizeMetadata h)
          (read16 s.mem (getSizeMetadata h) + hSize s.mem h)) (h + 4) FREE
        noaccess := na'
        NumBytesFreed := s.NumBytesFreed + hSize s.mem h } := by
  simp only [myfree, OBJ_HEADER_SIZE, Nat.add_sub_cancel, Option.bind_eq_bind,
    Option.bind_eq_some] at hm
  obtain ⟨Status, hS, hm⟩ := hm
  obtain ⟨eS, _⟩ := load32_inv hS
  split at hm
  · exact absurd hm (by simp)
  · rename_i hst
    simp only [Option.bind_eq_some] at hm
    obtain ⟨Size, hZ, hm⟩ := hm
    obtain ⟨eZ, _⟩ := load32_inv hZ
    have eZ' : Size = hSize s.mem h := eZ
    rw [if_neg (by rw [eZ']; omega)] at hm
    simp only [Option.bind_eq_some] at hm
    obtain ⟨old, hO, s1, h1, cur, hC, hm⟩ := hm
    obtain ⟨eO, _⟩ := load16_inv hO
    obtain ⟨e1, _⟩ := store16_inv h1
    split at hm
    · simp only [Option.bind_eq_some] at hm
      obtain ⟨s2, h2, cur2, hC2, hm⟩ := hm
      obtain ⟨e2, _⟩ := store32_inv h2
      refine ⟨?_, ?_⟩
      · simp only [ne_eq, not_not] at hst
        rw [eS] at hst
        exact hst
      · split at hm
        · have e3 := reclaimMemory_inv hm
          refine ⟨setProt s.noaccess (ADDR_TO_PAGE (h + 16)) PAGE_SIZE true,
            fun q hq => setProt_true_mono _ _ _ _ hq, ?_⟩
          rw [e3, e2, e1, eO, eZ']
        · refine ⟨s.noaccess, fun q hq => hq, ?_⟩
          rw [← Option.some.inj hm, e2, e1, eO, eZ']
    · exact absurd hm (by simp)
/-! ## `createHole` -/

theorem getSizeMetadata_data (seg x : Nat) (hseg : seg % SEGMENT_SIZE = 0)
    (h1 : seg + METADATA_SIZE ≤ x) (h2 : x < seg + SEGMENT_SIZE) (hw : seg + SEGMENT_SIZE ≤ WORD) :
    seg + 1024 ≤ getSizeMetadata x ∧ getSizeMetadata x + 2 ≤ seg + METADATA_SIZE := by
  rw [getSizeMetadata_eq seg x hseg (by omega) h2 hw]
  simp only [SEGMENT_SIZE, PAGE_SIZE, METADATA_SIZE_eq] at *
  constructor <;> omega

theorem holeMem_get (m : Mem) (g A C H c v x : Nat) (h1 : ¬ (g ≤ x ∧ x < g + 8))
    (h2 : ¬ (A ≤ x ∧ x < A + 8)) (h3 : ¬ (c ≤ x ∧ x < c + 2)) :
    (holeMem m g A C H c v).get x = m.get x := by
  unfold holeMem
  rw [write32_ne _ _ _ _ (by omega), write16_ne _ _ _ _ (by omega), write64_ne _ _ _ _ (by omega),
    write32_ne _ _ _ _ (by omega), write32_ne _ _ _ _ (by omega)]

theorem holeMem_size (m : Mem) (g A C H c v : Nat) (hg : g + 8 ≤ A) (hc : c + 2 ≤ A)
    (hH : H < 4294967296) : hSize (holeMem m g A C H c v) A = H := by
  have : hSize (holeMem m g A C H c v) A = read32 (write32 m A H) A := by
    apply read32_congr
    intro x h1 h2
    unfold holeMem
    rw [write32_ne _ _ _ _ (by omega), write16_ne _ _ _ _ (by omega),
      write64_ne _ _ _ _ (by omega), write32_ne _ _ _ _ (by omega)]
  rw [this, read32_write32, Nat.mod_eq_of_lt hH]

theorem holeMem_status (m : Mem) (g A C H c v : Nat) :
    hStatus (holeMem m g A C H c v) A = FREE := by
  unfold hStatus holeMem
  rw [read32_write32]
  rfl

theorem holeMem_alloc (m : Mem) (g A C H c v : Nat) (hg : g + 8 ≤ A) (hc : g + 8 ≤ c)
    (hC : C < WORD) : read64 (holeMem m g A C H c v) g = C := by
  have : read64 (holeMem m g A C H c v) g = read64 (write64 (write32 (write32 m A H) (A + 4) 0) g C) g := by
    apply read64_congr
    intro x h1 h2
    unfold holeMem
    rw [write32_ne _ _ _ _ (by omega), write16_ne _ _ _ _ (by omega)]
  rw [this, read64_write64, Nat.mod_eq_of_lt hC]

theorem createHole_inv {s s' : State} {g : Nat} (hc : createHole s g = some s')
    (h1 : read64 s.mem g < read64 s.mem (g + 8))
    (h2 : read64 s.mem (g + 8) - read64 s.mem g ≤ PAGE_SIZE)
    (hg : g + 8 ≤ read64 s.mem g) :
    8 ≤ read64 s.mem (g + 8) - read64 s.mem g ∧
    ∃ na', (∀ q, s.noaccess q = true → na' q = true) ∧
      s' = { s with
        mem := holeMem s.mem g (read64 s.mem g) (read64 s.mem (g + 8))
          (read64 s.mem (g + 8) - read64 s.mem g) (getSizeMetadata (read64 s.mem g))
          (read16 (write64 (write32 (write32 s.mem (read64 s.mem g)
              (read64 s.mem (g + 8) - read64 s.mem g)) (read64 s.mem g + 4) 0) g
              (read64 s.mem (g + 8))) (getSizeMetadata (read64 s.mem g)) +
            (read64 s.mem (g + 8) - read64 s.mem g))
        noaccess := na' } := by
  have hC := read64_lt s.mem (g + 8)
  have eH : (read64 s.mem (g + 8) + WORD - read64 s.mem g) % WORD =
      read64 s.mem (g + 8) - read64 s.mem g := by
    have : read64 s.mem (g + 8) + WORD - read64 s.mem g =
        read64 s.mem (g + 8) - read64 s.mem g + WORD := by omega
    rw [this, Nat.add_mod_right, Nat.mod_eq_of_lt (by omega)]
  simp only [createHole, getAllocPtr, getCommitPtr, eH] at hc
  rw [if_pos (by omega)] at hc
  split at hc
  · rename_i h8
    refine ⟨h8, ?_⟩
    simp only [Option.bind_eq_bind, Option.bind_eq_some] at hc
    obtain ⟨s1, hs1, s2, hs2, s3, hs3, hc⟩ := hc
    obtain ⟨e1, _⟩ := store32_inv hs1
    obtain ⟨e2, _⟩ := store32_inv hs2
    have hsz : hSize (setAllocPtr s2 g (read64 s.mem (g + 8))).mem (read64 s.mem g) ≤
        COMMIT_SIZE := by
      have : hSize (setAllocPtr s2 g (read64 s.mem (g + 8))).mem (read64 s.mem g) =
          read32 (write32 s.mem (read64 s.mem g) (read64 s.mem (g + 8) - read64 s.mem g))
            (read64 s.mem g) := by
        apply read32_congr
        intro x hx1 hx2
        rw [e2, e1]
        simp only [setAllocPtr, OBJ_HEADER_SIZE]
        rw [write64_ne _ _ _ _ (by omega), write32_ne _ _ _ _ (by omega)]
      rw [this, read32_write32]
      simp only [COMMIT_SIZE, PAGE_SIZE] at *
      omega
    simp only [OBJ_HEADER_SIZE] at hs3
    obtain ⟨_, na', hna, e3⟩ := myfree_small_inv hs3 hsz
    refine ⟨na', ?_, ?_⟩
    · intro q hq
      apply hna
      rw [e2, e1]
      exact hq
    · have eS : hSize (setAllocPtr s2 g (read64 s.mem (g + 8))).mem (read64 s.mem g) =
          read64 s.mem (g + 8) - read64 s.mem g := by
        have : hSize (setAllocPtr s2 g (read64 s.mem (g + 8))).mem (read64 s.mem g) =
            read32 (write32 s.mem (read64 s.mem g) (read64 s.mem (g + 8) - read64 s.mem g))
              (read64 s.mem g) := by
          apply read32_congr
          intro x hx1 hx2
          rw [e2, e1]
          simp only [setAllocPtr, OBJ_HEADER_SIZE]
          rw [write64_ne _ _ _ _ (by omega), write32_ne _ _ _ _ (by omega)]
        rw [this, read32_write32]
        simp only [PAGE_SIZE] at h2
        omega
      rw [← Option.some.inj hc, e3, eS, e2, e1]
      simp only [setAllocPtr, holeMem]
      congr 1
      omega
  · exact absurd hc (by simp)
/-! ## Moving the pointers of a segment -/

theorem SegGeom_update {m m' : Mem} {na na' : Nat → Bool} {g : Nat} (h : SegGeom m na g)
    (hmeta : ∀ x, g + 16 ≤ x → x < g + 36 → m'.get x = m.get x) (A' C' : Nat)
    (eA : read64 m' g = A') (eC : read64 m' (g + 8) = C') (h1 : g + METADATA_SIZE ≤ A')
    (h2 : A' ≤ C') (h3 : C' ≤ g + SEGMENT_SIZE) (h4 : C' % PAGE_SIZE = 0)
    (h5 : read32 m (g + 32) = 1 → A' = C')
    (hna : ∀ q, C' / PAGE_SIZE ≤ q → q ≤ (g + SEGMENT_SIZE) / PAGE_SIZE → na' q = true) :
    SegGeom m' na' g := by
  have eR : read64 m' (g + 16) = read64 m (g + 16) :=
    read64_congr _ _ _ (fun x h1 h2 => hmeta x (by omega) (by omega))
  have eD : read64 m' (g + 24) = read64 m (g + 24) :=
    read64_congr _ _ _ (fun x h1 h2 => hmeta x (by omega) (by omega))
  have eF : read32 m' (g + 32) = read32 m (g + 32) :=
    read32_congr _ _ _ (fun x h1 h2 => hmeta x (by omega) (by omega))
  constructor
  · exact h.aligned
  · exact h.inWord
  · rw [eD]; exact h.data
  · rw [eR]; exact h.reserve
  · rw [eA]; exact h1
  · rw [eA, eC]; exact h2
  · rw [eC]; exact h3
  · rw [eC]; exact h4
  · rw [eF]; exact h.flag
  · rw [eF, eA, eC]; exact h5
  · rw [eC]; exact hna

theorem SegInv_append_small {m m' : Mem} {na na' : Nat → Bool} {g t : Nat}
    (h : SegInv m na g t) (hf : read32 m (g + 32) = 0)
    (hmeta : ∀ x, g + 8 ≤ x → x < g + 36 → m'.get x = m.get x)
    (hdata : ∀ x, g + METADATA_SIZE ≤ x → x < read64 m g → m'.get x = m.get x)
    (h8 : 8 ≤ hSize m' (read64 m g))
    (hA : read64 m' g = read64 m g + hSize m' (read64 m g))
    (hle : read64 m g + hSize m' (read64 m g) ≤ read64 m (g + 8))
    (hpg : read64 m g / PAGE_SIZE = (read64 m g + hSize m' (read64 m g) - 1) / PAGE_SIZE)
    (hna : ∀ q, g / PAGE_SIZE ≤ q → q ≤ (g + SEGMENT_SIZE) / PAGE_SIZE →
      na q = true → na' q = true) :
    SegInv m' na' g (t + liveSize m' (read64 m g)) := by
  obtain ⟨hg, hs, hl⟩ := h
  have eC : read64 m' (g + 8) = read64 m (g + 8) :=
    read64_congr _ _ _ (fun x h1 h2 => hmeta x (by omega) (by omega))
  have eF : read32 m' (g + 32) = read32 m (g + 32) :=
    read32_congr _ _ _ (fun x h1 h2 => hmeta x (by omega) (by omega))
  have hda := hg.dataAlloc
  have hge : g / PAGE_SIZE ≤ read64 m (g + 8) / PAGE_SIZE := by
    apply Nat.div_le_div_right
    have := hg.allocCommit
    omega
  refine ⟨?_, ?_, ?_⟩
  · apply SegGeom_update hg (fun x h1 h2 => hmeta x (by omega) h2) _ _ hA eC (by omega) hle
      hg.commitReserve hg.commitPage
    · intro h1; rw [hf] at h1; exact absurd h1 (by simp)
    · intro q h1 h2
      exact hna q (le_trans hge h1) h2 (hg.uncommitted q h1 h2)
  · intro _
    unfold SmallObjs
    rw [hA]
    exact Tiled_append (Tiled_congr (hs hf) hdata) (Tiled_single m' _ h8 hpg)
  · rw [eF, hf]
    intro h1
    exact absurd h1 (by simp)

theorem SegInv_same_small {m m' : Mem} {na na' : Nat → Bool} {g t : Nat}
    (h : SegInv m na g t) (hf : read32 m (g + 32) = 0)
    (hmeta : ∀ x, g + 8 ≤ x → x < g + 36 → m'.get x = m.get x)
    (eA : read64 m' g = read64 m g)
    (hdata : ∀ x, g + METADATA_SIZE ≤ x → x < read64 m g → m'.get x = m.get x)
    (hna : ∀ q, g / PAGE_SIZE ≤ q → q ≤ (g + SEGMENT_SIZE) / PAGE_SIZE →
      na q = true → na' q = true) :
    SegInv m' na' g t := by
  obtain ⟨hg, hs, hl⟩ := h
  have eC : read64 m' (g + 8) = read64 m (g + 8) :=
    read64_congr _ _ _ (fun x h1 h2 => hmeta x (by omega) (by omega))
  have eF : read32 m' (g + 32) = read32 m (g + 32) :=
    read32_congr _ _ _ (fun x h1 h2 => hmeta x (by omega) (by omega))
  have hge : g / PAGE_SIZE ≤ read64 m (g + 8) / PAGE_SIZE := by
    apply Nat.div_le_div_right
    have := hg.allocCommit
    have := hg.dataAlloc
    omega
  refine ⟨?_, ?_, ?_⟩
  · apply SegGeom_update hg (fun x h1 h2 => hmeta x (by omega) h2) _ _ eA eC hg.dataAlloc
      hg.allocCommit hg.commitReserve hg.commitPage hg.large
    intro q h1 h2
    exact hna q (le_trans hge h1) h2 (hg.uncommitted q h1 h2)
  · intro _
    unfold SmallObjs
    rw [eA]
    exact Tiled_congr (hs hf) hdata
  · rw [eF, hf]
    intro h1
    exact absurd h1 (by simp)
theorem Frame_refl (g : Nat) (s : State) : Frame g s s :=
  ⟨fun _ _ => rfl, fun _ _ h => h, rfl, rfl, rfl, rfl, rfl⟩

theorem Frame_trans {g : Nat} {s1 s2 s3 : State} (h1 : Frame g s1 s2) (h2 : Frame g s2 s3) :
    Frame g s1 s3 :=
  ⟨fun x hx => (h2.mem x hx).trans (h1.mem x hx), fun q hq h => h2.na q hq (h1.na q hq h),
    h2.segs.trans h1.segs, h2.cs.trans h1.cs, h2.cb.trans h1.cb, h2.bases.trans h1.bases,
    h2.flag.trans h1.flag⟩

theorem createHole_spec {s s' : State} {g t : Nat} (hI : SegInv s.mem s.noaccess g t)
    (hf : read32 s.mem (g + 32) = 0)
    (hgap : read64 s.mem (g + 8) - read64 s.mem g ≤ PAGE_SIZE)
    (hc : createHole s g = some s') :
    Frame g s s' ∧ SegInv s'.mem s'.noaccess g t ∧ read64 s'.mem g = read64 s.mem (g + 8) ∧
      read64 s'.mem (g + 8) = read64 s.mem (g + 8) ∧
      s'.NumBytesAllocated = s.NumBytesAllocated ∧ s'.NumBytesFreed = s.NumBytesFreed := by
  have hG := hI.1
  have hda := hG.dataAlloc
  have hac := hG.allocCommit
  have hcr := hG.commitReserve
  have hcp := hG.commitPage
  have hw := hG.inWord
  have hM : METADATA_SIZE = 2097152 := METADATA_SIZE_eq
  by_cases hlt : read64 s.mem g < read64 s.mem (g + 8)
  · obtain ⟨h8, na', hna, e⟩ := createHole_inv hc hlt hgap (by omega)
    obtain ⟨c1, c2⟩ := getSizeMetadata_data g (read64 s.mem g) hG.aligned hda (by omega)
      (le_of_lt hw)
    have hH : read64 s.mem (g + 8) - read64 s.mem g < 4294967296 := by
      simp only [PAGE_SIZE] at hgap; omega
    subst e
    have hget := holeMem_get s.mem g (read64 s.mem g) (read64 s.mem (g + 8))
      (read64 s.mem (g + 8) - read64 s.mem g) (getSizeMetadata (read64 s.mem g))
    have hsize := holeMem_size s.mem g (read64 s.mem g) (read64 s.mem (g + 8))
      (read64 s.mem (g + 8) - read64 s.mem g) (getSizeMetadata (read64 s.mem g))
    have hstat := holeMem_status s.mem g (read64 s.mem g) (read64 s.mem (g + 8))
      (read64 s.mem (g + 8) - read64 s.mem g) (getSizeMetadata (read64 s.mem g))
    have halloc := holeMem_alloc s.mem g (read64 s.mem g) (read64 s.mem (g + 8))
      (read64 s.mem (g + 8) - read64 s.mem g) (getSizeMetadata (read64 s.mem g))
    generalize (read16 (write64 (write32 (write32 s.mem (read64 s.mem g)
      (read64 s.mem (g + 8) - read64 s.mem g)) (read64 s.mem g + 4) 0) g
      (read64 s.mem (g + 8))) (getSizeMetadata (read64 s.mem g)) +
      (read64 s.mem (g + 8) - read64 s.mem g)) = v at *
    have hsz := hsize v (by omega) (by omega) hH
    have eC : read64 (holeMem s.mem g (read64 s.mem g) (read64 s.mem (g + 8))
        (read64 s.mem (g + 8) - read64 s.mem g) (getSizeMetadata (read64 s.mem g)) v) (g + 8) =
        read64 s.mem (g + 8) := by
      apply read64_congr
      intro x h1 h2
      exact hget v x (by omega) (by omega) (by omega)
    have hS := @SegInv_append_small s.mem (holeMem s.mem g (read64 s.mem g) (read64 s.mem (g + 8))
        (read64 s.mem (g + 8) - read64 s.mem g) (getSizeMetadata (read64 s.mem g)) v)
      s.noaccess na' g t hI hf
      (fun x h1 h2 => hget v x (by omega) (by omega) (by omega))
      (fun x h1 h2 => hget v x (by omega) (by omega) (by omega))
      (by rw [hsz]; exact h8)
      (by rw [hsz, halloc v (by omega) (by omega) (read64_lt _ _)]; omega)
      (by rw [hsz]; omega)
      (by rw [hsz]; simp only [PAGE_SIZE] at *; omega)
      (fun q _ _ hq => hna q hq)
    have hl : liveSize (holeMem s.mem g (read64 s.mem g) (read64 s.mem (g + 8))
        (read64 s.mem (g + 8) - read64 s.mem g) (getSizeMetadata (read64 s.mem g)) v)
        (read64 s.mem g) = 0 := by
      unfold liveSize
      rw [hstat v, if_pos rfl]
    rw [hl, Nat.add_zero] at hS
    refine ⟨⟨?_, fun q _ hq => hna q hq, rfl, rfl, rfl, rfl, ?_⟩, hS, ?_, eC, rfl, rfl⟩
    · intro x hx
      exact hget v x (by omega) (by simp only [SEGMENT_SIZE] at *; omega)
        (by simp only [SEGMENT_SIZE] at *; omega)
    · apply read32_congr
      intro x h1 h2
      exact hget v x (by omega) (by omega) (by omega)
    · exact halloc v (by omega) (by omega) (read64_lt _ _)
  · have e : read64 s.mem g = read64 s.mem (g + 8) := by omega
    have hs' : s' = s := by
      simp only [createHole, getAllocPtr, getCommitPtr, e] at hc
      have : (read64 s.mem (g + 8) + WORD - read64 s.mem (g + 8)) % WORD = 0 := by
        rw [Nat.add_sub_cancel_left, Nat.mod_self]
      rw [this] at hc
      simp only [gt_iff_lt, lt_self_iff_false, if_false] at hc
      exact (Option.some.inj hc).symm
    subst hs'
    exact ⟨Frame_refl g s', hI, e, rfl, rfl, rfl⟩
/-! ## `extendCommitSpace` and `writeObject` -/

theorem extendCommitSpace_spec {s s' : State} {g t : Nat} (hI : SegInv s.mem s.noaccess g t)
    (hf : read32 s.mem (g + 32) = 0) (hc : extendCommitSpace s g = some s') :
    Frame g s s' ∧ SegInv s'.mem s'.noaccess g t ∧ read64 s'.mem g = read64 s.mem g ∧
      read64 s.mem g = read64 s.mem (g + 8) ∧
      (read64 s'.mem (g + 8) = read64 s.mem (g + 8) + PAGE_SIZE ∨
        (read64 s'.mem (g + 8) = read64 s.mem (g + 8) ∧
          read64 s.mem (g + 8) = g + SEGMENT_SIZE)) ∧
      s'.NumBytesAllocated = s.NumBytesAllocated ∧ s'.NumBytesFreed = s.NumBytesFreed := by
  have hG := hI.1
  have hda := hG.dataAlloc
  have hac := hG.allocCommit
  have hcr := hG.commitReserve
  have hcp := hG.commitPage
  have hw := hG.inWord
  have hal := hG.aligned
  have hM : METADATA_SIZE = 2097152 := METADATA_SIZE_eq
  simp only [extendCommitSpace, getAllocPtr, getCommitPtr, getReservePtr, hG.reserve,
    COMMIT_SIZE] at hc
  split at hc
  · rename_i hAC
    split at hc
    · rename_i hle
      simp only [allowAccess, Option.bind_eq_bind, Option.bind_eq_some] at hc
      obtain ⟨s1, h1, h2⟩ := hc
      split at h1
      · have e1 := (Option.some.inj h1).symm
        have e2 := (Option.some.inj h2).symm
        rw [e1] at e2
        simp only [setCommitPtr] at e2
        subst e2
        have hget : ∀ x, ¬ (g + 8 ≤ x ∧ x < g + 16) →
            (write64 s.mem (g + 8) (read64 s.mem (g + 8) + PAGE_SIZE)).get x = s.mem.get x :=
          fun x hx => write64_ne _ _ _ _ (by omega)
        have eC : read64 (write64 s.mem (g + 8) (read64 s.mem (g + 8) + PAGE_SIZE)) (g + 8) =
            read64 s.mem (g + 8) + PAGE_SIZE := by
          rw [read64_write64, Nat.mod_eq_of_lt (by omega)]
        have eA : read64 (write64 s.mem (g + 8) (read64 s.mem (g + 8) + PAGE_SIZE)) g =
            read64 s.mem g :=
          read64_congr _ _ _ (fun x h1 h2 => hget x (by omega))
        refine ⟨⟨?_, ?_, rfl, rfl, rfl, rfl, ?_⟩, ⟨?_, ?_, ?_⟩, eA, hAC, Or.inl eC, rfl, rfl⟩
        · intro x hx
          exact hget x (by simp only [SEGMENT_SIZE] at *; omega)
        · intro q hq hq'
          simp only [setProt, SEGMENT_SIZE, PAGE_SIZE] at *
          rw [if_neg (by omega)]
          exact hq'
        · exact read32_congr _ _ _ (fun x h1 h2 => hget x (by omega))
        · apply SegGeom_update hG (fun x h1 h2 => hget x (by omega)) _ _ eA eC hda (by omega) hle
          · simp only [PAGE_SIZE] at *; omega
          · intro h1; rw [hf] at h1; exact absurd h1 (by simp)
          · intro q hq1 hq2
            have := hG.uncommitted q (by simp only [PAGE_SIZE] at *; omega) hq2
            simp only [setProt, SEGMENT_SIZE, PAGE_SIZE] at *
            rw [if_neg (by omega)]
            exact this
        · intro _
          show Tiled _ _ _ _
          rw [eA]
          exact Tiled_congr (hI.2.1 hf) (fun x h1 h2 => hget x (by omega))
        · intro h1
          have : read32 (write64 s.mem (g + 8) (read64 s.mem (g + 8) + PAGE_SIZE)) (g + 32) =
              read32 s.mem (g + 32) := read32_congr _ _ _ (fun x h1 h2 => hget x (by omega))
          rw [this, hf] at h1
          exact absurd h1 (by simp)
      · exact absurd h1 (by simp)
    · split at hc
      · rename_i hCR
        have e := (Option.some.inj hc).symm
        subst e
        exact ⟨Frame_refl g s', hI, rfl, hAC, Or.inr ⟨rfl, hCR⟩, rfl, rfl⟩
      · exact absurd hc (by simp)
  · exact absurd hc (by simp)
theorem writeObject_spec {s s' : State} {g t sz p : Nat} (hI : SegInv s.mem s.noaccess g t)
    (hf : read32 s.mem (g + 32) = 0) (hsz : sz = 0 ∨ 8 ≤ sz)
    (hle : read64 s.mem g + sz ≤ read64 s.mem (g + 8))
    (hgap : read64 s.mem (g + 8) - read64 s.mem g ≤ PAGE_SIZE)
    (hw : writeObject s g (read64 s.mem g) (read64 s.mem g + sz) sz = some (p, s')) :
    Frame g s s' ∧ SegInv s'.mem s'.noaccess g (t + sz) ∧
      read64 s'.mem g = read64 s.mem g + sz ∧ read64 s'.mem (g + 8) = read64 s.mem (g + 8) ∧
      s'.NumBytesAllocated = s.NumBytesAllocated + sz ∧ s'.NumBytesFreed = s.NumBytesFreed := by
  have hG := hI.1
  have hda := hG.dataAlloc
  have hac := hG.allocCommit
  have hcr := hG.commitReserve
  have hcp := hG.commitPage
  have hwd := hG.inWord
  have hal := hG.aligned
  have hM : METADATA_SIZE = 2097152 := METADATA_SIZE_eq
  obtain ⟨_, _, hacc, e⟩ := writeObject_inv hw
  have h16 : read64 s.mem g + 16 ≤ read64 s.mem (g + 8) := by
    by_contra hcon
    have := hG.uncommitted ((read64 s.mem g + 15) / PAGE_SIZE)
      (by simp only [PAGE_SIZE] at *; omega) (by simp only [SEGMENT_SIZE, PAGE_SIZE] at *; omega)
    rw [this] at hacc
    exact absurd hacc (by simp)
  subst e
  have hget := headerMem_get s.mem g (read64 s.mem g) (read64 s.mem g + sz) sz
  have halloc := headerMem_alloc s.mem g (read64 s.mem g) (read64 s.mem g + sz) sz
    (Or.inl (by omega)) (by simp only [SEGMENT_SIZE] at *; omega)
  have hsize : hSize (headerMem s.mem g (read64 s.mem g) (read64 s.mem g + sz) sz)
      (read64 s.mem g) = sz :=
    headerMem_size s.mem g (read64 s.mem g) (read64 s.mem g + sz) sz
      (by simp only [PAGE_SIZE] at *; omega)
  have hstat : hStatus (headerMem s.mem g (read64 s.mem g) (read64 s.mem g + sz) sz)
      (read64 s.mem g) = 0 :=
    headerMem_status s.mem g (read64 s.mem g) (read64 s.mem g + sz) sz
  have eC : read64 (headerMem s.mem g (read64 s.mem g) (read64 s.mem g + sz) sz) (g + 8) =
      read64 s.mem (g + 8) :=
    read64_congr _ _ _ (fun x h1 h2 => hget x (by omega) (by omega))
  have hfr : Frame g s { s with NumBytesAllocated := s.NumBytesAllocated + sz
                                mem := headerMem s.mem g (read64 s.mem g)
                                  (read64 s.mem g + sz) sz } := by
    refine ⟨?_, fun q _ hq => hq, rfl, rfl, rfl, rfl, ?_⟩
    · intro x hx
      exact hget x (by omega) (by simp only [SEGMENT_SIZE] at *; omega)
    · exact read32_congr _ _ _ (fun x h1 h2 => hget x (by omega) (by omega))
  refine ⟨hfr, ?_, halloc, eC, rfl, rfl⟩
  rcases hsz with h0 | h8
  · subst h0
    exact SegInv_same_small hI hf (fun x h1 h2 => hget x (by omega) (by omega)) halloc
      (fun x h1 h2 => hget x (by omega) (by omega)) (fun q _ _ hq => hq)
  · have hS := @SegInv_append_small s.mem
      (headerMem s.mem g (read64 s.mem g) (read64 s.mem g + sz) sz)
      s.noaccess s.noaccess g t hI hf
      (fun x h1 h2 => hget x (by omega) (by omega))
      (fun x h1 h2 => hget x (by omega) (by omega))
      (by rw [hsize]; exact h8)
      (by rw [hsize]; exact halloc)
      (by rw [hsize]; exact hle)
      (by rw [hsize]; simp only [PAGE_SIZE] at *; omega)
      (fun q _ _ hq => hq)
    have hl : liveSize (headerMem s.mem g (read64 s.mem g) (read64 s.mem g + sz) sz)
        (read64 s.mem g) = sz := by
      unfold liveSize
      rw [hstat, hsize, if_neg (by simp [FREE])]
    rw [hl] at hS
    exact hS
/-! ## The small allocation path -/

theorem makeRoom_spec {s s1 : State} {g t sz : Nat} {r : Option (Nat × Nat)}
    (hI : SegInv s.mem s.noaccess g t) (hf : read32 s.mem (g + 32) = 0)
    (hgap : read64 s.mem (g + 8) - read64 s.mem g < PAGE_SIZE) (hsz : sz ≤ PAGE_SIZE)
    (hm : makeRoom s g sz = some (s1, r)) :
    Frame g s s1 ∧ SegInv s1.mem s1.noaccess g t ∧
      s1.NumBytesAllocated = s.NumBytesAllocated ∧ s1.NumBytesFreed = s.NumBytesFreed ∧
      (r = none → read64 s1.mem g = read64 s1.mem (g + 8)) ∧
      (∀ A NA, r = some (A, NA) → A = read64 s1.mem g ∧ NA = A + sz ∧
        A + sz ≤ read64 s1.mem (g + 8) ∧ read64 s1.mem (g + 8) - read64 s1.mem g ≤ PAGE_SIZE ∧
        read64 s1.mem (g + 8) - (read64 s1.mem g + sz) < PAGE_SIZE) := by
  have hac := hI.1.allocCommit
  unfold makeRoom at hm
  simp only [getAllocPtr, getCommitPtr] at hm
  split at hm
  · rename_i hgt
    have key : ∃ sa sb, (Frame g s sa ∧ SegInv sa.mem sa.noaccess g t ∧
        read64 sa.mem g = read64 s.mem (g + 8) ∧
        read64 sa.mem (g + 8) = read64 s.mem (g + 8) ∧
        sa.NumBytesAllocated = s.NumBytesAllocated ∧ sa.NumBytesFreed = s.NumBytesFreed) ∧
        extendCommitSpace sa g = some sb ∧
        (if read64 sb.mem g + sz > read64 sb.mem (g + 8) then some (sb, none)
          else some (sb, some (read64 sb.mem g, read64 sb.mem g + sz))) = some (s1, r) := by
      split at hm
      · simp only [Option.bind_eq_bind, Option.bind_eq_some] at hm
        obtain ⟨sa, ha, sb, hb, hm⟩ := hm
        exact ⟨sa, sb, createHole_spec hI hf (le_of_lt hgap) ha, hb, hm⟩
      · rename_i he
        simp only [Option.bind_eq_bind, Option.some_bind, Option.bind_eq_some] at hm
        obtain ⟨sb, hb, hm⟩ := hm
        exact ⟨s, sb, ⟨Frame_refl g s, hI, not_not.mp he, rfl, rfl, rfl⟩, hb, hm⟩
    obtain ⟨sa, sb, hA, hb, hm⟩ := key
    obtain ⟨fa, ia, a1, a2, a3, a4⟩ := hA
    have hfa : read32 sa.mem (g + 32) = 0 := fa.flag.trans hf
    obtain ⟨fb, ib, b1, b2, b3, b4, b5⟩ := extendCommitSpace_spec ia hfa hb
    have hF := Frame_trans fa fb
    split at hm
    · rename_i hfull
      simp only [Option.some.injEq, Prod.mk.injEq] at hm
      obtain ⟨e1, e2⟩ := hm
      subst e1
      refine ⟨hF, ib, b4.trans a3, b5.trans a4, ?_, ?_⟩
      · intro _
        rcases b3 with b3 | b3
        · omega
        · omega
      · intro A NA hr
        rw [← e2] at hr
        exact absurd hr (by simp)
    · rename_i hfit
      simp only [Option.some.injEq, Prod.mk.injEq] at hm
      obtain ⟨e1, e2⟩ := hm
      subst e1
      refine ⟨hF, ib, b4.trans a3, b5.trans a4, ?_, ?_⟩
      · intro hr
        rw [← e2] at hr
        exact absurd hr (by simp)
      · intro A NA hr
        rw [← e2] at hr
        simp only [Option.some.injEq, Prod.mk.injEq] at hr
        obtain ⟨r1, r2⟩ := hr
        subst r1
        refine ⟨rfl, r2.symm, by omega, ?_, ?_⟩
        · rcases b3 with b3 | b3 <;> omega
        · rcases b3 with b3 | b3 <;> omega
  · rename_i hfit
    simp only [Option.some.injEq, Prod.mk.injEq] at hm
    obtain ⟨e1, e2⟩ := hm
    subst e1
    refine ⟨Frame_refl g s, hI, rfl, rfl, ?_, ?_⟩
    · intro hr
      rw [← e2] at hr
      exact absurd hr (by simp)
    · intro A NA hr
      rw [← e2] at hr
      simp only [Option.some.injEq, Prod.mk.injEq] at hr
      obtain ⟨r1, r2⟩ := hr
      subst r1
      exact ⟨rfl, r2.symm, by omega, by omega, by omega⟩

theorem Inv_frame {s s' : State} {tot : Nat → Nat} {g t' : Nat} (h : Inv s tot)
    (hg : g ∈ s.Segments) (hF : Frame g s s') (hS : SegInv s'.mem s'.noaccess g t')
    (hgap : read32 s'.mem (g + 32) = 0 → read64 s'.mem (g + 8) - read64 s'.mem g < PAGE_SIZE)
    (hacc : s'.NumBytesAllocated - s'.NumBytesFreed + tot g =
      s.NumBytesAllocated - s.NumBytesFreed + t') :
    Inv s' (Function.update tot g t') := by
  unfold Inv
  rw [hF.segs, hF.cs, hF.cb, hF.bases]
  exact InvCore_update g t' h hg hF.mem hF.na hS hgap hF.flag hacc
/-! ## The large allocation path -/

theorem bigCommit_inv {s s' : State} {g A C sz p : Nat}
    (h : bigCommit s g A C sz = some (p, s')) :
    A = C ∧ sz % PAGE_SIZE = 0 ∧
      setProt s.noaccess A sz false (A / PAGE_SIZE) = false ∧
      s' = { s with NumBytesAllocated := s.NumBytesAllocated + sz
                    noaccess := setProt s.noaccess A sz false
                    mem := bigMem s.mem g A (A + sz) sz } := by
  unfold bigCommit at h
  simp only [Option.bind_eq_bind] at h
  split at h
  · rename_i hAC
    subst hAC
    refine ⟨rfl, ?_⟩
    simp only [allowAccess, Option.bind_eq_some] at h
    obtain ⟨s1, h1, s2, h2, s3, h3, s4, h4, s5, h5, h6⟩ := h
    split at h1
    · rename_i hc
      have e1 := (Option.some.inj h1).symm
      obtain ⟨e2, _⟩ := store16_inv h2
      obtain ⟨e3, a3⟩ := store32_inv h3
      obtain ⟨e4, _⟩ := store32_inv h4
      obtain ⟨e5, _⟩ := store64_inv h5
      simp only [Option.some.injEq, Prod.mk.injEq] at h6
      refine ⟨hc.1, ?_, ?_⟩
      · have := accessible_page a3
        rw [e2, e1] at this
        exact this
      · rw [← h6.2, e5, e4, e3, e2, e1]
        rfl
    · exact absurd h1 (by simp)
  · exact absurd h (by simp)

theorem bigMem_alloc (m : Mem) (g A NA sz : Nat) (hA : g + 16 ≤ A)
    (hc : g + 16 ≤ getSizeMetadata A) (hN : NA < WORD) :
    read64 (bigMem m g A NA sz) g = NA := by
  have : read64 (bigMem m g A NA sz) g = read64 (write64 m g NA) g := by
    apply read64_congr
    intro x h1 h2
    unfold bigMem
    rw [write64_ne _ _ _ _ (by omega), write32_ne _ _ _ _ (by omega),
      write32_ne _ _ _ _ (by omega), write16_ne _ _ _ _ (by omega),
      write64_ne _ _ _ _ (by omega)]
  rw [this, read64_write64, Nat.mod_eq_of_lt hN]

theorem bigMem_commit (m : Mem) (g A NA sz : Nat) (hA : g + 16 ≤ A)
    (hc : g + 16 ≤ getSizeMetadata A) (hN : NA < WORD) :
    read64 (bigMem m g A NA sz) (g + 8) = NA := by
  have : read64 (bigMem m g A NA sz) (g + 8) =
      read64 (write64 (write64 m g NA) (g + 8) NA) (g + 8) := by
    apply read64_congr
    intro x h1 h2
    unfold bigMem
    rw [write64_ne _ _ _ _ (by omega), write32_ne _ _ _ _ (by omega),
      write32_ne _ _ _ _ (by omega), write16_ne _ _ _ _ (by omega)]
  rw [this, read64_write64, Nat.mod_eq_of_lt hN]

theorem bigMem_size (m : Mem) (g A NA sz : Nat) (hsz : sz < 4294967296) :
    hSize (bigMem m g A NA sz) A = sz := by
  have : hSize (bigMem m g A NA sz) A = read32 (write32 (write16 (write64 (write64 m g NA)
      (g + 8) NA) (getSizeMetadata A) 1) A sz) A := by
    apply read32_congr
    intro x h1 h2
    unfold bigMem
    rw [write64_ne _ _ _ _ (by omega), write32_ne _ _ _ _ (by omega)]
  rw [this, read32_write32, Nat.mod_eq_of_lt hsz]

theorem bigMem_status (m : Mem) (g A NA sz : Nat) : hStatus (bigMem m g A NA sz) A = 0 := by
  have : hStatus (bigMem m g A NA sz) A = read32 (write32 (write32 (write16 (write64
      (write64 m g NA) (g + 8) NA) (getSizeMetadata A) 1) A sz) (A + 4) 0) (A + 4) := by
    apply read32_congr
    intro x h1 h2
    unfold bigMem
    rw [write64_ne _ _ _ _ (by omega)]
  rw [this, read32_write32]

theorem bigMem_counter (m : Mem) (g A NA sz : Nat) (hc : getSizeMetadata A + 2 ≤ A) :
    counterOf (bigMem m g A NA sz) A = 1 := by
  have : counterOf (bigMem m g A NA sz) A = read16 (write16 (write64 (write64 m g NA)
      (g + 8) NA) (getSizeMetadata A) 1) (getSizeMetadata A) := by
    apply read16_congr
    intro x h1 h2
    unfold bigMem
    rw [write64_ne _ _ _ _ (by omega), write32_ne _ _ _ _ (by omega),
      write32_ne _ _ _ _ (by omega)]
  rw [this, read16_write16]
/-! ## `myfree` and `createHole` return -/

theorem reclaimMemory_page_some (s : State) (x : Nat) (hx : x < WORD) :
    ∃ s', reclaimMemory s (ADDR_TO_PAGE x) PAGE_SIZE = some s' := by
  have h1 : ADDR_TO_PAGE x &&& (PAGE_SIZE - 1) = 0 := by
    rw [land_page_mask, ADDR_TO_PAGE_eq x hx]
    omega
  have h2 : PAGE_SIZE % PAGE_SIZE = 0 := Nat.mod_self _
  simp only [reclaimMemory, h1, h2, and_self, if_true]
  exact ⟨_, rfl⟩

theorem load16_some (s : State) (a : Nat) (h : accessible s a 2 = true) :
    load16 s a = some (read16 s.mem a) := by
  simp [load16, h]

theorem load32_some (s : State) (a : Nat) (h : accessible s a 4 = true) :
    load32 s a = some (read32 s.mem a) := by
  simp [load32, h]

theorem load64_some (s : State) (a : Nat) (h : accessible s a 8 = true) :
    load64 s a = some (read64 s.mem a) := by
  simp [load64, h]

/-- A small object whose status has no `FREE` bit and whose size still fits in the counter
of its page is freed by `myfree`. -/
theorem myfree_small_some (s : State) (h : Nat) (hw : h + 16 < WORD)
    (a1 : accessible s h 4 = true) (a2 : accessible s (h + 4) 4 = true)
    (a3 : accessible s (getSizeMetadata h) 2 = true)
    (hst : hStatus s.mem h &&& FREE = 0) (hsz : hSize s.mem h ≤ COMMIT_SIZE)
    (hd : getSizeMetadata h + 2 ≤ h + 4 ∨ h + 8 ≤ getSizeMetadata h)
    (hc : read16 s.mem (getSizeMetadata h) + hSize s.mem h ≤ PAGE_SIZE) :
    ∃ s', myfree s (h + 16) = some s' := by
  have l1 : load32 s (h + 4) = some (hStatus s.mem h) := by simp [load32, a2, hStatus]
  have hst' : ¬ (hStatus s.mem h &&& FREE ≠ 0) := by simp [hst]
  have hsz' : ¬ (hSize s.mem h > COMMIT_SIZE) := by omega
  have r1 : read16 (write16 s.mem (getSizeMetadata h)
      (read16 s.mem (getSizeMetadata h) + hSize s.mem h)) (getSizeMetadata h) =
      read16 s.mem (getSizeMetadata h) + hSize s.mem h := by
    rw [read16_write16, Nat.mod_eq_of_lt]
    simp only [PAGE_SIZE] at hc
    omega
  have r2 : read16 (write32 (write16 s.mem (getSizeMetadata h)
      (read16 s.mem (getSizeMetadata h) + hSize s.mem h)) (h + 4) FREE) (getSizeMetadata h) =
      read16 s.mem (getSizeMetadata h) + hSize s.mem h := by
    refine Eq.trans ?_ r1
    apply read16_congr
    intro x hx1 hx2
    exact write32_ne _ (h + 4) FREE x (by omega)
  simp only [myfree, OBJ_HEADER_SIZE, Nat.add_sub_cancel, Option.bind_eq_bind, l1,
    Option.some_bind, if_neg hst']
  rw [load32_some s h a1]
  simp only [Option.some_bind]
  have e : read32 s.mem h = hSize s.mem h := rfl
  rw [e, if_neg hsz', load16_some _ _ (by exact a3)]
  simp only [Option.some_bind]
  rw [store16_some _ _ _ (by exact a3)]
  simp only [Option.some_bind]
  rw [load16_some _ _ (by exact a3)]
  simp only [Option.some_bind, r1]
  rw [if_pos hc, store32_some _ _ _ (by exact a2)]
  simp only [Option.some_bind]
  rw [load16_some _ _ (by exact a3)]
  simp only [Option.some_bind, r2]
  split
  · exact reclaimMemory_page_some _ _ hw
  · exact ⟨_, rfl⟩
theorem holeMem_counter (m : Mem) (g A C H c v : Nat) (hA : c + 2 ≤ A + 4 ∨ A + 8 ≤ c)
    (hv : v < 65536) : read16 (holeMem m g A C H c v) c = v := by
  have : read16 (holeMem m g A C H c v) c =
      read16 (write16 (write64 (write32 (write32 m A H) (A + 4) 0) g C) c v) c := by
    apply read16_congr
    intro x h1 h2
    unfold holeMem
    exact write32_ne _ (A + 4) FREE x (by omega)
  rw [this, read16_write16, Nat.mod_eq_of_lt hv]

/-- With the header bytes and the page counter accessible and the counter able to absorb
the hole, `createHole` returns. -/
theorem createHole_some (s : State) (g : Nat)
    (h1 : read64 s.mem g < read64 s.mem (g + 8))
    (h8 : 8 ≤ read64 s.mem (g + 8) - read64 s.mem g)
    (hP : read64 s.mem (g + 8) - read64 s.mem g ≤ PAGE_SIZE)
    (hg : g + 8 ≤ read64 s.mem g) (hw : read64 s.mem g + 16 < WORD)
    (hcd : getSizeMetadata (read64 s.mem g) + 2 ≤ g ∨ g + 8 ≤ getSizeMetadata (read64 s.mem g))
    (hch : getSizeMetadata (read64 s.mem g) + 2 ≤ read64 s.mem g)
    (a1 : accessible s (read64 s.mem g) 4 = true)
    (a2 : accessible s (read64 s.mem g + 4) 4 = true)
    (a3 : accessible s (getSizeMetadata (read64 s.mem g)) 2 = true)
    (hc : read16 s.mem (getSizeMetadata (read64 s.mem g)) +
      (read64 s.mem (g + 8) - read64 s.mem g) ≤ PAGE_SIZE) :
    ∃ s', createHole s g = some s' := by
  have hC := read64_lt s.mem (g + 8)
  have eH : (read64 s.mem (g + 8) + WORD - read64 s.mem g) % WORD =
      read64 s.mem (g + 8) - read64 s.mem g := by
    have : read64 s.mem (g + 8) + WORD - read64 s.mem g =
        read64 s.mem (g + 8) - read64 s.mem g + WORD := by omega
    rw [this, Nat.add_mod_right, Nat.mod_eq_of_lt (by omega)]
  generalize hA : read64 s.mem g = A at *
  generalize hCC : read64 s.mem (g + 8) = C at *
  generalize hHH : C - A = H at *
  have hH : H < 4294967296 := by simp only [PAGE_SIZE] at hP; omega
  have hget : ∀ x, ¬ (A ≤ x ∧ x < A + 8) → ¬ (g ≤ x ∧ x < g + 8) →
      (write64 (write32 (write32 s.mem A H) (A + 4) 0) g C).get x = s.mem.get x := by
    intro x hx1 hx2
    rw [write64_ne _ g C x (by omega), write32_ne _ (A + 4) 0 x (by omega),
      write32_ne _ A H x (by omega)]
  have eS : hSize (write64 (write32 (write32 s.mem A H) (A + 4) 0) g C) A = H := by
    have : hSize (write64 (write32 (write32 s.mem A H) (A + 4) 0) g C) A =
        read32 (write32 s.mem A H) A := by
      apply read32_congr
      intro x hx1 hx2
      rw [write64_ne _ g C x (by omega), write32_ne _ (A + 4) 0 x (by omega)]
    rw [this, read32_write32, Nat.mod_eq_of_lt hH]
  have eT : hStatus (write64 (write32 (write32 s.mem A H) (A + 4) 0) g C) A = 0 := by
    have : hStatus (write64 (write32 (write32 s.mem A H) (A + 4) 0) g C) A =
        read32 (write32 (write32 s.mem A H) (A + 4) 0) (A + 4) := by
      apply read32_congr
      intro x hx1 hx2
      rw [write64_ne _ g C x (by omega)]
    rw [this, read32_write32]
  have eK : read16 (write64 (write32 (write32 s.mem A H) (A + 4) 0) g C) (getSizeMetadata A) =
      read16 s.mem (getSizeMetadata A) := by
    apply read16_congr
    intro x hx1 hx2
    exact hget x (by omega) (by omega)
  obtain ⟨s4, h4⟩ := myfree_small_some
    (setAllocPtr { s with mem := write32 (write32 s.mem A H) (A + 4) 0 } g C) A hw
    (by exact a1) (by exact a2) (by exact a3)
    (by show hStatus (write64 (write32 (write32 s.mem A H) (A + 4) 0) g C) A &&& FREE = 0
        rw [eT]; rfl)
    (by show hSize (write64 (write32 (write32 s.mem A H) (A + 4) 0) g C) A ≤ COMMIT_SIZE
        rw [eS]; exact hP)
    (Or.inl (by omega))
    (by show read16 (write64 (write32 (write32 s.mem A H) (A + 4) 0) g C) (getSizeMetadata A) +
          hSize (write64 (write32 (write32 s.mem A H) (A + 4) 0) g C) A ≤ PAGE_SIZE
        rw [eS, eK]; exact hc)
  simp only [createHole, getAllocPtr, getCommitPtr, hA, hCC, eH, hHH]
  rw [if_pos (by omega), if_pos (by omega)]
  simp only [Option.bind_eq_bind]
  rw [store32_some _ _ _ (by exact a1)]
  simp only [Option.some_bind]
  rw [store32_some _ _ _ (by exact a2)]
  simp only [Option.some_bind, OBJ_HEADER_SIZE]
  rw [h4]
  exact ⟨_, rfl⟩

/-! ## The walk of `retrieveObjectHeader` over a small page -/

/-- Once the walk is at a position `cur` with `W < cur + 16`, no later position is
accepted, and the page test `W <= pageBounds` never fails: the walk does not return. -/
theorem retrieveWalk_stuck (s : State) (W P : Nat) (hP : W ≤ P + PAGE_SIZE) :
    ∀ fuel cur, W < cur + OBJ_HEADER_SIZE → retrieveWalk s W P fuel cur = none := by
  intro fuel
  induction fuel with
  | zero => intro cur _; rfl
  | succ k ih =>
    intro cur hc
    simp only [retrieveWalk, Option.bind_eq_bind]
    cases h1 : load32 s cur with
    | none => rfl
    | some Size =>
      simp only [Option.some_bind]
      cases h2 : load32 s (cur + Size) with
      | none => rfl
      | some Size2 =>
        simp only [Option.some_bind]
        have hw : ¬ (W ≤ cur + Size + Size2 ∧ W ≥ cur + Size + OBJ_HEADER_SIZE) := by omega
        have hr := ih (cur + Size) (by omega)
        simp [hw, hP, hr]

theorem retrieveObjectHeader_stuck (fuel : Nat) (s : State) (W seg c Size : Nat)
    (hc : load16 s (getSizeMetadata W) = some c) (hne : c ≠ PAGE_SIZE)
    (hW : W < ADDR_TO_PAGE W + OBJ_HEADER_SIZE) (hP : W ≤ ADDR_TO_PAGE W + PAGE_SIZE)
    (hS : load32 s (ADDR_TO_PAGE W) = some Size) :
    retrieveObjectHeader fuel s 0 W seg = none := by
  have hw : ¬ (W ≤ ADDR_TO_PAGE W + Size ∧ W ≥ ADDR_TO_PAGE W + OBJ_HEADER_SIZE) := by omega
  have hr := retrieveWalk_stuck s W (ADDR_TO_PAGE W) hP fuel (ADDR_TO_PAGE W) hW
  simp [retrieveObjectHeader, hc, hne, hS, hw, hP, hr]

theorem markValidObject_stuck (fuel : Nat) (s : State) (ptr W seg c Size : Nat)
    (h1 : load64 s ptr = some W) (h2 : findSegment s W s.Segments = some seg)
    (h3 : getBigAlloc s seg = 0)
    (hc : load16 s (getSizeMetadata W) = some c) (hne : c ≠ PAGE_SIZE)
    (hW : W < ADDR_TO_PAGE W + OBJ_HEADER_SIZE) (hP : W ≤ ADDR_TO_PAGE W + PAGE_SIZE)
    (hS : load32 s (ADDR_TO_PAGE W) = some Size) :
    markValidObject fuel s ptr = none := by
  have hr := retrieveObjectHeader_stuck fuel s W seg c Size hc hne hW hP hS
  simp [markValidObject, h1, h2, h3, hr]
/-- The walk started after a failed test at `cur` reaches every header `h` that the chain
of sizes from `cur + Size(cur)` leads to, when the candidate lies in
`[h + 16, h + Size(h)]` and the headers on the way are readable. -/
theorem retrieveWalk_finds (s : State) (W P : Nat) (hP : W ≤ P + PAGE_SIZE) {a lim h : Nat}
    (hh : IsHeader s.mem a lim h) :
    ∀ cur, a = cur + hSize s.mem cur → accessible s cur 4 = true →
      (∀ x, a ≤ x → x ≤ h → accessible s x 4 = true) →
      h + OBJ_HEADER_SIZE ≤ W → W ≤ h + hSize s.mem h →
      ∃ f0, ∀ fuel, f0 ≤ fuel → retrieveWalk s W P fuel cur = some h := by
  induction hh with
  | here a lim hlt =>
    intro cur ha hc hacc h1 h2
    refine ⟨1, ?_⟩
    intro fuel hf
    obtain ⟨k, rfl⟩ : ∃ k, fuel = k + 1 := ⟨fuel - 1, by omega⟩
    have hw : W ≤ a + hSize s.mem a ∧ W ≥ a + OBJ_HEADER_SIZE := ⟨h2, h1⟩
    have l1 := load32_some s cur hc
    have l2 := load32_some s a (hacc a (le_refl _) (le_refl _))
    have e1 : read32 s.mem cur = hSize s.mem cur := rfl
    have e2 : read32 s.mem a = hSize s.mem a := rfl
    rw [e1] at l1
    rw [e2] at l2
    simp only [retrieveWalk, Option.bind_eq_bind, l1, Option.some_bind, ← ha, l2]
    simp [hw]
  | next a lim h hlt hn ih =>
    intro cur ha hc hacc h1 h2
    have h16 : OBJ_HEADER_SIZE = 16 := rfl
    have hr := IsHeader_range hn
    obtain ⟨f0, hf0⟩ := ih a rfl (hacc a (le_refl _) (by omega))
      (fun x hx1 hx2 => hacc x (by omega) hx2) h1 h2
    refine ⟨f0 + 1, ?_⟩
    intro fuel hf
    obtain ⟨k, rfl⟩ : ∃ k, fuel = k + 1 := ⟨fuel - 1, by omega⟩
    have hw : ¬ (W ≤ a + hSize s.mem a ∧ W ≥ a + OBJ_HEADER_SIZE) := by omega
    have l1 := load32_some s cur hc
    have l2 := load32_some s a (hacc a (le_refl _) (by omega))
    have e1 : read32 s.mem cur = hSize s.mem cur := rfl
    have e2 : read32 s.mem a = hSize s.mem a := rfl
    rw [e1] at l1
    rw [e2] at l2
    simp only [retrieveWalk, Option.bind_eq_bind, l1, Option.some_bind, ← ha, l2]
    simp [hw, hP, hf0 k (by omega)]

/-- `retrieveObjectHeader` on a small page returns the header `h` of the chain from the
page start whose `[h + 16, h + Size]` holds the candidate. -/
theorem retrieveObjectHeader_finds (s : State) (W seg c lim h : Nat)
    (hc : load16 s (getSizeMetadata W) = some c) (hne : c ≠ PAGE_SIZE)
    (hP : W ≤ ADDR_TO_PAGE W + PAGE_SIZE)
    (hh : IsHeader s.mem (ADDR_TO_PAGE W) lim h)
    (hacc : ∀ x, ADDR_TO_PAGE W ≤ x → x ≤ h → accessible s x 4 = true)
    (h1 : h + OBJ_HEADER_SIZE ≤ W) (h2 : W ≤ h + hSize s.mem h) :
    ∃ f0, ∀ fuel, f0 ≤ fuel → retrieveObjectHeader fuel s 0 W seg = some (some h) := by
  have hr := IsHeader_range hh
  have h16 : OBJ_HEADER_SIZE = 16 := rfl
  have l0 := load32_some s (ADDR_TO_PAGE W) (hacc _ (le_refl _) hr.1)
  have e0 : read32 s.mem (ADDR_TO_PAGE W) = hSize s.mem (ADDR_TO_PAGE W) := rfl
  rw [e0] at l0
  cases hh with
  | here =>
    refine ⟨0, ?_⟩
    intro fuel _
    have hw : W ≤ ADDR_TO_PAGE W + hSize s.mem (ADDR_TO_PAGE W) ∧
        W ≥ ADDR_TO_PAGE W + OBJ_HEADER_SIZE := ⟨h2, h1⟩
    simp [retrieveObjectHeader, hc, hne, l0, hw]
  | next _ _ _ hlt hn =>
    have hr' := IsHeader_range hn
    obtain ⟨f0, hf0⟩ := retrieveWalk_finds s W (ADDR_TO_PAGE W) hP hn (ADDR_TO_PAGE W) rfl
      (hacc _ (le_refl _) hr.1) (fun x hx1 hx2 => hacc x (by omega) hx2) h1 h2
    refine ⟨f0, ?_⟩
    intro fuel hf
    have hw : ¬ (W ≤ ADDR_TO_PAGE W + hSize s.mem (ADDR_TO_PAGE W) ∧
        W ≥ ADDR_TO_PAGE W + OBJ_HEADER_SIZE) := by omega
    simp [retrieveObjectHeader, hc, hne, l0, hw, hP, hf0 fuel hf]
theorem map_Object_modify (l : List UnscannedListNode) (v : Option Nat) (t : Nat) :
    (l.modify (fun n => { n with Next := v }) t).map UnscannedListNode.Object =
      l.map UnscannedListNode.Object := by
  induction l generalizing t with
  | nil => cases t <;> rfl
  | cons a l ih =>
    cases t with
    | zero => rfl
    | succ k =>
      show (a :: l.modify _ k).map UnscannedListNode.Object = _
      rw [List.map_cons, ih k, List.map_cons]

/-- Appending to the Unscanned list: the new node is the last one and the tail. -/
theorem addToUnscannedList_spec (s : State) (h : Nat)
    (hU : ∀ U t, s.Unscanned = some U → U.Tail = some t → t < s.nodes.length) :
    ∃ s', addToUnscannedList s h = some s' ∧ s'.mem = s.mem ∧ s'.noaccess = s.noaccess ∧
      s'.nodes.map UnscannedListNode.Object = s.nodes.map UnscannedListNode.Object ++ [h] ∧
      (∃ U', s'.Unscanned = some U' ∧ U'.Tail = some s.nodes.length) ∧
      s'.unscannedListCount = s.unscannedListCount ∧ s'.Segments = s.Segments := by
  unfold addToUnscannedList
  cases hu : s.Unscanned with
  | none =>
    simp only
    exact ⟨_, rfl, rfl, rfl, by simp, ⟨_, rfl, rfl⟩, rfl, rfl⟩
  | some U =>
    obtain ⟨Head, Tail⟩ := U
    cases Head with
    | none =>
      simp only
      exact ⟨_, rfl, rfl, rfl, by simp, ⟨_, rfl, rfl⟩, rfl, rfl⟩
    | some hd =>
      cases Tail with
      | none =>
        simp only
        exact ⟨_, rfl, rfl, rfl, by simp, ⟨_, rfl, rfl⟩, rfl, rfl⟩
      | some t =>
        have ht := hU _ t hu rfl
        have ht' : t < (s.nodes ++ [UnscannedListNode.mk h none]).length := by
          rw [List.length_append]; simp; omega
        simp only
        rw [if_pos ht']
        refine ⟨_, rfl, rfl, rfl, ?_, ⟨_, rfl, rfl⟩, rfl, rfl⟩
        show ((s.nodes ++ [UnscannedListNode.mk h none]).modify _ t).map _ = _
        rw [map_Object_modify]
        simp
theorem accessible_in_page (s : State) (P x len : Nat) (hP : P % PAGE_SIZE = 0)
    (hna : s.noaccess (P / PAGE_SIZE) = false) (h1 : P ≤ x) (h2 : x + len ≤ P + PAGE_SIZE)
    (hl : 1 ≤ len) : accessible s x len = true := by
  have e1 : x / PAGE_SIZE = P / PAGE_SIZE := by
    simp only [PAGE_SIZE] at *; omega
  have e2 : (x + len - 1) / PAGE_SIZE = P / PAGE_SIZE := by
    simp only [PAGE_SIZE] at *; omega
  simp [accessible, e1, e2, hna]

/-- What `markValidObject` does once the classifier has returned the header `h`. -/
theorem markValidObject_found (fuel : Nat) (s : State) (ptr W seg h : Nat)
    (hl : load64 s ptr = some W) (hf : findSegment s W s.Segments = some seg)
    (hr : retrieveObjectHeader fuel s (getBigAlloc s seg) W seg = some (some h))
    (ha : accessible s (h + 4) 4 = true)
    (hU : ∀ U t, s.Unscanned = some U → U.Tail = some t → t < s.nodes.length) :
    (hStatus s.mem h = 0 → ∃ s', markValidObject fuel s ptr = some s' ∧
      s'.mem = write32 s.mem (h + 4) MARK ∧ hStatus s'.mem h = MARK ∧
      s'.nodes.map UnscannedListNode.Object = s.nodes.map UnscannedListNode.Object ++ [h] ∧
      (∃ U', s'.Unscanned = some U' ∧ U'.Tail = some s.nodes.length) ∧
      s'.unscannedListCount = s.unscannedListCount + 1) ∧
    (hStatus s.mem h ≠ 0 → markValidObject fuel s ptr = some s) := by
  have l4 := load32_some s (h + 4) ha
  have e4 : read32 s.mem (h + 4) = hStatus s.mem h := rfl
  rw [e4] at l4
  constructor
  · intro h0
    obtain ⟨s', q1, q2, q3, q4, q5, q6, q7⟩ := addToUnscannedList_spec
      { s with mem := write32 s.mem (h + 4) MARK } h hU
    refine ⟨{ s' with unscannedListCount := s'.unscannedListCount + 1 }, ?_, q2, ?_, q4, q5, ?_⟩
    · simp only [markValidObject, hl, Option.bind_eq_bind, Option.some_bind, hf, hr, l4, h0,
        if_true]
      rw [store32_some s (h + 4) MARK ha]
      simp only [Option.some_bind, q1]
    · show hStatus s'.mem h = MARK
      rw [q2]
      show read32 (write32 s.mem (h + 4) MARK) (h + 4) = MARK
      rw [read32_write32]
      rfl
    · show s'.unscannedListCount + 1 = s.unscannedListCount + 1
      rw [q6]
  · intro h0
    simp only [markValidObject, hl, Option.bind_eq_bind, Option.some_bind, hf, hr, l4,
      if_neg h0]
/-- If the first word scanned for the head node of the Unscanned list is a candidate on
which `markValidObject` does not return, `scanner` does not return. -/
theorem scanner_stuck (s : State) (U : UnscannedList) (i : Nat) (node : UnscannedListNode)
    (Size : Nat) (hU : s.Unscanned = some U) (hH : U.Head = some i)
    (hn : s.nodes[i]? = some node) (hS : load32 s node.Object = some Size) (h24 : 24 ≤ Size)
    (hm : ∀ f, markValidObject f s (node.Object + OBJ_HEADER_SIZE) = none) :
    ∀ fuel, scanner fuel s = none := by
  intro fuel
  have hcount : node.Object + Size + 1 - (node.Object + OBJ_HEADER_SIZE + 8) =
      (Size - 24) + 1 := by
    simp only [OBJ_HEADER_SIZE]; omega
  cases fuel with
  | zero => simp [scanner, hU, hH, countList]
  | succ k =>
    have hloop : scannerLoop (k + 1) (some i) s = none := by
      simp only [scannerLoop, Option.bind_eq_bind, hn, Option.some_bind, hS, hcount, scanRange,
        hm k, Option.none_bind]
    simp only [scanner, hU, Option.bind_eq_bind, Option.some_bind, hH, hloop]
    cases countList s.nodes (k + 1) (some i) <;> rfl

/-! ## Fields that the collector does not touch -/

theorem GCSame_refl (s : State) : GCSame s s := ⟨rfl, rfl, rfl, rfl, rfl, rfl, rfl⟩

theorem GCSame_trans {s1 s2 s3 : State} (h1 : GCSame s1 s2) (h2 : GCSame s2 s3) :
    GCSame s1 s3 :=
  ⟨h2.segs.trans h1.segs, h2.cs.trans h1.cs, h2.cb.trans h1.cb, h2.bases.trans h1.bases,
    h2.alloc.trans h1.alloc, h2.gcs.trans h1.gcs, h2.total.trans h1.total⟩

theorem store16_same {s s' : State} {a v : Nat} (h : store16 s a v = some s') : GCSame s s' := by
  rw [(store16_inv h).1]; exact ⟨rfl, rfl, rfl, rfl, rfl, rfl, rfl⟩

theorem store32_same {s s' : State} {a v : Nat} (h : store32 s a v = some s') : GCSame s s' := by
  rw [(store32_inv h).1]; exact ⟨rfl, rfl, rfl, rfl, rfl, rfl, rfl⟩

theorem store64_same {s s' : State} {a v : Nat} (h : store64 s a v = some s') : GCSame s s' := by
  rw [(store64_inv h).1]; exact ⟨rfl, rfl, rfl, rfl, rfl, rfl, rfl⟩

theorem reclaimMemory_same {s s' : State} {p n : Nat} (h : reclaimMemory s p n = some s') :
    GCSame s s' := by
  rw [reclaimMemory_inv h]; exact ⟨rfl, rfl, rfl, rfl, rfl, rfl, rfl⟩

theorem addToUnscannedList_same {s s' : State} {h : Nat}
    (ha : addToUnscannedList s h = some s') : GCSame s s' := by
  unfold addToUnscannedList at ha
  dsimp only at ha
  split at ha
  · rw [← Option.some.inj ha]; exact ⟨rfl, rfl, rfl, rfl, rfl, rfl, rfl⟩
  · split at ha
    · split at ha
      · rw [← Option.some.inj ha]; exact ⟨rfl, rfl, rfl, rfl, rfl, rfl, rfl⟩
      · exact absurd ha (by simp)
    · rw [← Option.some.inj ha]; exact ⟨rfl, rfl, rfl, rfl, rfl, rfl, rfl⟩

theorem markValidObject_same {fuel : Nat} {s s' : State} {p : Nat}
    (h : markValidObject fuel s p = some s') : GCSame s s' := by
  unfold markValidObject at h
  simp only [Option.bind_eq_bind, Option.bind_eq_some] at h
  obtain ⟨W, _, h⟩ := h
  split at h
  · rw [← Option.some.inj h]; exact GCSame_refl s
  · simp only [Option.bind_eq_some] at h
    obtain ⟨r, _, h⟩ := h
    split at h
    · rw [← Option.some.inj h]; exact GCSame_refl s
    · simp only [Option.bind_eq_some] at h
      obtain ⟨St, _, h⟩ := h
      split at h
      · simp only [Option.bind_eq_some] at h
        obtain ⟨s1, h1, s2, h2, h3⟩ := h
        rw [← Option.some.inj h3]
        have := GCSame_trans (store32_same h1) (addToUnscannedList_same h2)
        exact ⟨this.segs, this.cs, this.cb, this.bases, this.alloc, this.gcs, this.total⟩
      · rw [← Option.some.inj h]; exact GCSame_refl s

theorem scanRange_same {fuel : Nat} : ∀ {count p : Nat} {s s' : State},
    scanRange fuel count p s = some s' → GCSame s s' := by
  intro count
  induction count with
  | zero =>
    intro p s s' h
    rw [← Option.some.inj h]; exact GCSame_refl s
  | succ k ih =>
    intro p s s' h
    simp only [scanRange, Option.bind_eq_bind, Option.bind_eq_some] at h
    obtain ⟨s1, h1, h2⟩ := h
    exact GCSame_trans (markValidObject_same h1) (ih h2)

theorem scannerLoop_same : ∀ {fuel : Nat} {cur : Option Nat} {s s' : State},
    scannerLoop fuel cur s = some s' → GCSame s s' := by
  intro fuel
  induction fuel with
  | zero =>
    intro cur s s' h
    cases cur with
    | none => simp only [scannerLoop] at h; rw [← Option.some.inj h]; exact GCSame_refl s
    | some c => simp [scannerLoop] at h
  | succ k ih =>
    intro cur s s' h
    cases cur with
    | none => simp only [scannerLoop] at h; rw [← Option.some.inj h]; exact GCSame_refl s
    | some c =>
      simp only [scannerLoop, Option.bind_eq_bind, Option.bind_eq_some] at h
      obtain ⟨node, _, Size, _, s1, h1, U, _, Head, _, hn, _, node2, _, h2⟩ := h
      have a := scanRange_same h1
      have b := ih h2
      exact ⟨b.segs.trans a.segs, b.cs.trans a.cs, b.cb.trans a.cb, b.bases.trans a.bases,
        b.alloc.trans a.alloc, b.gcs.trans a.gcs, b.total.trans a.total⟩

theorem scanner_same {fuel : Nat} {s s' : State} (h : scanner fuel s = some s') :
    GCSame s s' := by
  unfold scanner at h
  simp only [Option.bind_eq_bind, Option.bind_eq_some] at h
  obtain ⟨U, _, c, _, s1, h1, U1, _, U2, hU2, c2, _, h2⟩ := h
  have a := scannerLoop_same h1
  rw [← Option.some.inj h2]
  split
  · exact ⟨a.segs, a.cs, a.cb, a.bases, a.alloc, a.gcs, a.total⟩
  · exact a

theorem scanRoots_same {fuel : Nat} {s s' : State} {Top Bottom : Nat}
    (h : scanRoots fuel s Top Bottom = some s') : GCSame s s' := by
  unfold scanRoots at h
  have a := scanRange_same h
  exact ⟨a.segs, a.cs, a.cb, a.bases, a.alloc, a.gcs, a.total⟩
theorem myfreeBigLoop_same : ∀ {k Addr : Nat} {s s' : State},
    myfreeBigLoop k Addr s = some s' → GCSame s s' := by
  intro k
  induction k with
  | zero =>
    intro Addr s s' h
    rw [← Option.some.inj h]; exact GCSame_refl s
  | succ k ih =>
    intro Addr s s' h
    simp only [myfreeBigLoop, Option.bind_eq_bind, Option.bind_eq_some] at h
    obtain ⟨s1, h1, h2⟩ := h
    exact GCSame_trans (store16_same h1) (ih h2)

theorem myfree_same {s s' : State} {Ptr : Nat} (h : myfree s Ptr = some s') : GCSame s s' := by
  unfold myfree at h
  simp only [Option.bind_eq_bind, Option.bind_eq_some] at h
  obtain ⟨Status, _, h⟩ := h
  split at h
  · exact absurd h (by simp)
  · simp only [Option.bind_eq_some] at h
    obtain ⟨Size, _, h⟩ := h
    split at h
    · split at h
      · simp only [Option.bind_eq_some] at h
        obtain ⟨s1, h1, s2, h2, Size2, _, h3⟩ := h
        have a := GCSame_trans (GCSame_trans (myfreeBigLoop_same h1) (store32_same h2))
          (reclaimMemory_same h3)
        exact ⟨a.segs, a.cs, a.cb, a.bases, a.alloc, a.gcs, a.total⟩
      · exact absurd h (by simp)
    · simp only [Option.bind_eq_some] at h
      obtain ⟨old, _, s1, h1, cur, _, h⟩ := h
      split at h
      · simp only [Option.bind_eq_some] at h
        obtain ⟨s2, h2, cur2, _, h⟩ := h
        have a := GCSame_trans (store16_same h1) (store32_same h2)
        split at h
        · have b := GCSame_trans a (reclaimMemory_same h)
          exact ⟨b.segs, b.cs, b.cb, b.bases, b.alloc, b.gcs, b.total⟩
        · rw [← Option.some.inj h]
          exact ⟨a.segs, a.cs, a.cb, a.bases, a.alloc, a.gcs, a.total⟩
      · exact absurd h (by simp)

theorem markOrFreeObject_same {s s' : State} {h : Nat} {o : Option Nat}
    (hm : markOrFreeObject s h = some (s', o)) : GCSame s s' := by
  unfold markOrFreeObject at hm
  simp only [Option.bind_eq_bind, Option.bind_eq_some] at hm
  obtain ⟨Status, _, hm⟩ := hm
  split at hm
  · simp only [Option.bind_eq_some] at hm
    obtain ⟨s1, h1, h2⟩ := hm
    simp only [Option.some.injEq, Prod.mk.injEq] at h2
    rw [← h2.1]; exact store32_same h1
  · split at hm
    · simp only [Option.some.injEq, Prod.mk.injEq] at hm
      rw [← hm.1]; exact GCSame_refl s
    · simp only [Option.some.injEq, Prod.mk.injEq] at hm
      rw [← hm.1]; exact GCSame_refl s

theorem freeOpt_bind {s s' : State} {o : Option Nat} {k : State → Option State}
    (h : (match o with
      | some o => (myfree s (o + OBJ_HEADER_SIZE)).bind k
      | none => (some s).bind k) = some s') : ∃ s2, GCSame s s2 ∧ k s2 = some s' := by
  cases o with
  | none => exact ⟨s, GCSame_refl s, h⟩
  | some o =>
    simp only [Option.bind_eq_some] at h
    obtain ⟨s2, h2, h3⟩ := h
    exact ⟨s2, myfree_same h2, h3⟩

theorem sweepBigLoop_same {allocPtr : Nat} : ∀ {k cur : Nat} {s s' : State},
    sweepBigLoop allocPtr k cur s = some s' → GCSame s s' := by
  intro k
  induction k with
  | zero =>
    intro cur s s' h
    rw [← Option.some.inj h]; exact GCSame_refl s
  | succ k ih =>
    intro cur s s' h
    unfold sweepBigLoop at h
    split at h
    · simp only [Option.bind_eq_bind, Option.bind_eq_some] at h
      obtain ⟨c, _, h⟩ := h
      split at h
      · exact ih h
      · simp only [Option.bind_eq_some] at h
        obtain ⟨sz, _, h⟩ := h
        split at h
        · simp only [Option.bind_eq_some] at h
          obtain ⟨⟨s1, o⟩, h1, h⟩ := h
          dsimp only at h
          obtain ⟨s2, h2, h3⟩ := freeOpt_bind h
          exact GCSame_trans (GCSame_trans (markOrFreeObject_same h1) h2) (ih h3)
        · exact ih h
    · rw [← Option.some.inj h]; exact GCSame_refl s

theorem traverseLoop_same {curSeg sm pb : Nat} : ∀ {fuel cur : Nat} {s s' : State},
    traverseLoop curSeg sm pb fuel cur s = some s' → GCSame s s' := by
  intro fuel
  induction fuel with
  | zero =>
    intro cur s s' h
    simp [traverseLoop] at h
  | succ k ih =>
    intro cur s s' h
    unfold traverseLoop at h
    simp only [Option.bind_eq_bind, Option.bind_eq_some] at h
    obtain ⟨c, _, h⟩ := h
    split at h
    · simp only [Option.bind_eq_some] at h
      obtain ⟨⟨s1, o⟩, h1, Size, _, h⟩ := h
      dsimp only at h
      obtain ⟨s2, h2, h3⟩ := freeOpt_bind h
      exact GCSame_trans (GCSame_trans (markOrFreeObject_same h1) h2) (ih h3)
    · rw [← Option.some.inj h]; exact GCSame_refl s

theorem sweepNormalLoop_same {curSeg allocPtr : Nat} : ∀ {k cur : Nat} {s s' : State},
    sweepNormalLoop curSeg allocPtr k cur s = some s' → GCSame s s' := by
  intro k
  induction k with
  | zero =>
    intro cur s s' h
    rw [← Option.some.inj h]; exact GCSame_refl s
  | succ k ih =>
    intro cur s s' h
    unfold sweepNormalLoop at h
    split at h
    · simp only [Option.bind_eq_bind, Option.bind_eq_some] at h
      obtain ⟨c, _, h⟩ := h
      split at h
      · exact ih h
      · simp only [Option.bind_eq_some] at h
        obtain ⟨s1, h1, h2⟩ := h
        exact GCSame_trans (traverseLoop_same h1) (ih h2)
    · rw [← Option.some.inj h]; exact GCSame_refl s

theorem sweepSegments_same : ∀ {L : List Nat} {s s' : State},
    sweepSegments L s = some s' → GCSame s s' := by
  intro L
  induction L with
  | nil =>
    intro s s' h
    rw [← Option.some.inj h]; exact GCSame_refl s
  | cons g L ih =>
    intro s s' h
    unfold sweepSegments at h
    simp only [Option.bind_eq_bind] at h
    split at h
    · simp only [Option.bind_eq_some] at h
      obtain ⟨s1, h1, h2⟩ := h
      exact GCSame_trans (sweepNormalLoop_same h1) (ih h2)
    · split at h
      · simp only [Option.bind_eq_some] at h
        obtain ⟨s1, h1, h2⟩ := h
        exact GCSame_trans (sweepBigLoop_same h1) (ih h2)
      · exact ih h

theorem _runGC_same {fuel : Nat} {env : RootEnv} {s s' : State}
    (h : _runGC fuel env s = some s') :
    s'.Segments = s.Segments ∧ s'.CurSegSmall = s.CurSegSmall ∧ s'.CurSegBig = s.CurSegBig ∧
      s'.mmapRet = s.mmapRet ∧ s'.NumBytesAllocated = s.NumBytesAllocated ∧
      s'.NumGCTriggered = s.NumGCTriggered + 1 ∧ s'.TotalAlloc = s.TotalAlloc := by
  unfold _runGC at h
  simp only [Option.bind_eq_bind, Option.bind_eq_some] at h
  obtain ⟨s1, h1, s2, h2, h⟩ := h
  have a := GCSame_trans (scanRoots_same h1) (scanRoots_same h2)
  split at h
  · rw [← Option.some.inj h]
    exact ⟨a.segs, a.cs, a.cb, a.bases, a.alloc, a.gcs, a.total⟩
  · simp only [Option.bind_eq_some] at h
    obtain ⟨Top, _, s3, h3, s4, h4, h5⟩ := h
    have b := GCSame_trans (GCSame_trans (GCSame_trans a (scanRoots_same h3)) (scanner_same h4))
      (sweepSegments_same h5)
    exact ⟨b.segs, b.cs, b.cb, b.bases, b.alloc, b.gcs, b.total⟩

/-! ## Soundness of the classification in a well-formed segment -/

theorem Chain_tail {m : Mem} {a lim : Nat} (hc : Chain m a lim) (hlt : a < lim) :
    8 ≤ hSize m a ∧ a + hSize m a ≤ lim ∧ Chain m (a + hSize m a) lim := by
  cases hc with
  | nil => exact absurd hlt (lt_irrefl _)
  | cons _ _ h8 hle htl => exact ⟨h8, hle, htl⟩

theorem IsHeader_next {m : Mem} {a lim h : Nat} (hc : Chain m a lim) (hh : IsHeader m a lim h)
    (hlt : h + hSize m h < lim) : IsHeader m a lim (h + hSize m h) := by
  induction hh with
  | here a lim h0 => exact IsHeader.next a lim _ h0 (IsHeader.here _ lim hlt)
  | next a lim h h0 _ ih => exact IsHeader.next a lim _ h0 (ih (Chain_tail hc h0).2.2 hlt)

/-- The first byte of a page inside a tiled range is the start of an object. -/
theorem Tiled_page_start {m : Mem} {a lim t : Nat} (ht : Tiled m a lim t) (P : Nat)
    (hP : P % PAGE_SIZE = 0) (h1 : a ≤ P) (h2 : P < lim) : IsHeader m a lim P := by
  induction ht with
  | nil a => omega
  | cons a lim t h8 hle hpg _ ih =>
    by_cases e : P = a
    · rw [e]; exact IsHeader.here a lim (by omega)
    · have hP4 : PAGE_SIZE = 4096 := rfl
      rw [hP4] at hP hpg
      exact IsHeader.next a lim P (by omega) (ih (by omega) h2)

/-- The part of a tiling that lies on one page is a tiling up to the end of the page or
the end of the range. -/
theorem Tiled_page {m : Mem} {a lim t : Nat} (ht : Tiled m a lim t) (P : Nat)
    (hP : P % PAGE_SIZE = 0) (h1 : P ≤ a) (h2 : a ≤ P + PAGE_SIZE) :
    ∃ u, Tiled m a (min (P + PAGE_SIZE) lim) u := by
  induction ht with
  | nil a => exact ⟨0, by rw [Nat.min_eq_right h2]; exact Tiled.nil a⟩
  | cons a lim t h8 hle hpg _ ih =>
    have hP4 : PAGE_SIZE = 4096 := rfl
    by_cases e : a = P + PAGE_SIZE
    · refine ⟨0, ?_⟩
      rw [Nat.min_eq_left (by omega), ← e]; exact Tiled.nil a
    · have hin : a + hSize m a ≤ P + PAGE_SIZE := by
        rw [hP4] at hP hpg h2 e ⊢; omega
      obtain ⟨u, hu⟩ := ih (by omega) hin
      exact ⟨_, Tiled.cons a _ u h8 (Nat.le_min.2 ⟨hin, hle⟩) hpg hu⟩

/-- A position returned by the walk is a header of the tiling, when the walk starts at
one and the candidate is at most the end of the tiling. -/
theorem retrieveWalk_sound (s : State) (W P a lim : Nat) (hc : Chain s.mem a lim)
    (hP : W ≤ P + PAGE_SIZE) (hW : W ≤ lim) :
    ∀ fuel cur h, IsHeader s.mem a lim cur → retrieveWalk s W P fuel cur = some h →
      IsHeader s.mem a lim h := by
  intro fuel
  induction fuel with
  | zero => intro cur h _ hr; exact absurd hr (by simp [retrieveWalk])
  | succ k ih =>
    intro cur h hcur hr
    have h16 : OBJ_HEADER_SIZE = 16 := rfl
    simp only [retrieveWalk, Option.bind_eq_bind, Option.bind_eq_some] at hr
    obtain ⟨Size, hS, Size2, hS2, hr⟩ := hr
    have eS : Size = hSize s.mem cur := (load32_inv hS).1
    have hch := Chain_header hc hcur
    by_cases hlt : cur + hSize s.mem cur < lim
    · have hn := IsHeader_next hc hcur hlt
      split at hr
      · exact ih _ _ (eS ▸ hn) hr
      · rw [← Option.some.inj hr, eS]; exact hn
    · have hst := retrieveWalk_stuck s W P hP k (cur + Size) (by rw [eS]; omega)
      split at hr
      · rw [hst] at hr; exact absurd hr (by simp)
      · rename_i hcond
        exfalso
        apply hcond
        have hw : ¬ (W ≤ cur + Size + Size2 ∧ W ≥ cur + Size + OBJ_HEADER_SIZE) := by
          rw [eS]; omega
        simp [hw, hP]
/-- In a well-formed small segment `retrieveObjectHeader` returns only headers of the
tiling of `[DataPtr, AllocPtr)`. -/
theorem retrieveObjectHeader_small_sound {s : State} {g t W h fuel : Nat}
    (hI : SegInv s.mem s.noaccess g t) (hf : read32 s.mem (g + 32) = 0)
    (hgap : read64 s.mem (g + 8) - read64 s.mem g < PAGE_SIZE)
    (h1 : g + METADATA_SIZE ≤ W) (h2 : W ≤ read64 s.mem g)
    (hr : retrieveObjectHeader fuel s 0 W g = some (some h)) :
    IsHeader s.mem (g + METADATA_SIZE) (read64 s.mem g) h := by
  obtain ⟨hG, hS, _⟩ := hI
  have hT := hS hf
  have hP4 : PAGE_SIZE = 4096 := rfl
  have hS4 : SEGMENT_SIZE = 4294967296 := rfl
  have hM := METADATA_SIZE_eq
  have hW : W < WORD := by
    have := hG.inWord; have := hG.allocCommit; have := hG.commitReserve
    rw [hS4] at *; omega
  have eP := ADDR_TO_PAGE_eq W hW
  have hal := hG.aligned
  have hAC := hG.allocCommit
  have hCp := hG.commitPage
  have hCR := hG.commitReserve
  rw [hP4] at hgap hCp
  rw [hS4] at hal hCR
  rw [hM] at h1
  unfold retrieveObjectHeader at hr
  simp only [Option.bind_eq_bind, Option.bind_eq_some] at hr
  obtain ⟨c, _, hr⟩ := hr
  split at hr
  · exact absurd hr (by simp)
  · simp only [if_true, Option.bind_eq_some] at hr
    obtain ⟨Size, hSz, hr⟩ := hr
    have hacc := accessible_page (load32_inv hSz).2
    have hPA : ADDR_TO_PAGE W < read64 s.mem g := by
      by_contra hcon
      have e : read64 s.mem (g + 8) / PAGE_SIZE = ADDR_TO_PAGE W / PAGE_SIZE := by
        rw [hP4, eP]; omega
      have := hG.uncommitted (ADDR_TO_PAGE W / PAGE_SIZE) (le_of_eq e)
        (by rw [hP4, hS4, eP]; omega)
      rw [this] at hacc
      exact absurd hacc (by simp)
    have hPh : IsHeader s.mem (g + METADATA_SIZE) (read64 s.mem g) (ADDR_TO_PAGE W) :=
      Tiled_page_start hT _ (by rw [hP4, eP]; omega) (by rw [hM, eP]; omega) hPA
    split at hr
    · simp only [Option.bind_eq_some] at hr
      obtain ⟨r, hw, hr⟩ := hr
      rw [← Option.some.inj (Option.some.inj hr)]
      exact retrieveWalk_sound s W _ _ _ (Tiled_chain hT) (by rw [hP4, eP]; omega) h2 fuel _ _
        hPh hw
    · rw [← Option.some.inj (Option.some.inj hr)]
      exact hPh
/-- The backward walk of the large case stops at the greatest table index at most the
start index whose entry is 1. -/
theorem retrieveBack_inv (s : State) (g : Nat) : ∀ j r,
    retrieveBack s g j (g + j * PAGE_SIZE) = some r →
    ∃ i, i ≤ j ∧ r = g + i * PAGE_SIZE ∧ read16 s.mem (g + 2 * i) = 1 ∧
      ∀ k, i < k → k ≤ j → read16 s.mem (g + 2 * k) ≠ 1 := by
  intro j
  induction j with
  | zero =>
    intro r hr
    simp only [retrieveBack, Option.bind_eq_bind, Option.bind_eq_some] at hr
    obtain ⟨c, hc, hr⟩ := hr
    split at hr
    · exact absurd hr (by simp)
    · rename_i h1
      refine ⟨0, le_refl _, (Option.some.inj hr).symm, ?_, fun k h1 h2 => by omega⟩
      show read16 s.mem g = 1
      rw [← (load16_inv hc).1]
      exact not_not.1 h1
  | succ j ih =>
    intro r hr
    simp only [retrieveBack, Option.bind_eq_bind, Option.bind_eq_some] at hr
    obtain ⟨c, hc, hr⟩ := hr
    have ec := (load16_inv hc).1
    split at hr
    · rename_i h1
      have e : g + (j + 1) * PAGE_SIZE - PAGE_SIZE = g + j * PAGE_SIZE := by
        rw [Nat.add_mul]; omega
      rw [e] at hr
      obtain ⟨i, hi, hri, h1i, hk⟩ := ih r hr
      refine ⟨i, by omega, hri, h1i, ?_⟩
      intro k hk1 hk2
      by_cases e2 : k = j + 1
      · rw [e2, ← ec]; exact h1
      · exact hk k hk1 (by omega)
    · rename_i h1
      refine ⟨j + 1, le_refl _, (Option.some.inj hr).symm, ?_, fun k h1 h2 => by omega⟩
      rw [← ec]
      exact not_not.1 h1

/-- In a well-formed large segment `retrieveObjectHeader` returns the first page of a
live object of `[DataPtr, AllocPtr)`, or the address of page 16 of the metadata area. -/
theorem retrieveObjectHeader_large_sound {s : State} {g t W h fuel : Nat}
    (hI : SegInv s.mem s.noaccess g t) (hf : read32 s.mem (g + 32) = 1)
    (h1 : g + METADATA_SIZE ≤ W) (h2 : W ≤ read64 s.mem g)
    (hr : retrieveObjectHeader fuel s 1 W g = some (some h)) :
    h = g + 16 * PAGE_SIZE ∨
      (g + METADATA_SIZE ≤ h ∧ h < read64 s.mem g ∧ (h - (g + METADATA_SIZE)) % PAGE_SIZE = 0 ∧
        counterOf s.mem h = 1) := by
  obtain ⟨hG, _, hL⟩ := hI
  obtain ⟨_, hfresh, hlow⟩ := hL hf
  have hP4 : PAGE_SIZE = 4096 := rfl
  have hS4 : SEGMENT_SIZE = 4294967296 := rfl
  have hM := METADATA_SIZE_eq
  have hN := NUM_PAGES_IN_SEG_eq
  have hin := hG.inWord
  have hal := hG.aligned
  have hAC := hG.large hf
  have hCp := hG.commitPage
  have hCR := hG.commitReserve
  have hWD : WORD = 18446744073709551616 := rfl
  rw [hS4] at hin hal hCR
  rw [hP4] at hCp
  rw [hM] at h1
  rw [hWD] at hin
  have hW : W < WORD := by rw [hWD]; omega
  have eP := ADDR_TO_PAGE_eq W hW
  unfold retrieveObjectHeader at hr
  simp only [Option.bind_eq_bind, Option.bind_eq_some] at hr
  obtain ⟨c, hc, hr⟩ := hr
  have hWlt : W < g + 4294967296 := by
    by_contra hcon
    have eW : W = g + 4294967296 := by omega
    have hacc := accessible_page (load16_inv hc).2
    have e : getSizeMetadata W = g + 4294967296 := by
      have := (getSizeMetadata_range (g + 4294967296) W (by rw [hS4]; omega) (by omega)
        (by rw [hS4]; omega) (by rw [hS4]; omega)).1
      rw [← this, eW, hP4]; omega
    have := hG.uncommitted (getSizeMetadata W / PAGE_SIZE)
      (by rw [e, hP4]; omega) (by rw [e, hS4])
    rw [this] at hacc
    exact absurd hacc (by simp)
  split at hr
  · exact absurd hr (by simp)
  · simp only [if_false, Nat.one_ne_zero, Option.bind_eq_some] at hr
    obtain ⟨r, hb, hr⟩ := hr
    have er : r = h := Option.some.inj (Option.some.inj hr)
    obtain ⟨j, hjd⟩ : ∃ j, j = (ADDR_TO_PAGE W - g) / PAGE_SIZE := ⟨_, rfl⟩
    have ej : ADDR_TO_PAGE W = g + j * PAGE_SIZE := by
      rw [hjd, eP, hP4]; omega
    have hj : 512 ≤ j ∧ j < 1048576 := by
      rw [hjd, eP, hP4]; omega
    rw [← hjd, ej] at hb
    obtain ⟨i, hi, hri, h1i, hk⟩ := retrieveBack_inv s g j r hb
    have e16 : read16 s.mem (g + 2 * 16) = 1 := by
      have := read16_lt s.mem (g + 32)
      have := read16_lt s.mem (g + 32 + 2)
      simp only [read32] at hf
      show read16 s.mem (g + 32) = 1
      omega
    rw [er] at hri
    by_cases c1 : i < 16
    · exact absurd e16 (hk 16 c1 (by omega))
    · by_cases c2 : i = 16
      · left; rw [hri, c2]
      · right
        by_cases c3 : i < 512
        · exact absurd h1i (hlow i (by omega) c3)
        · have hiA : i < (read64 s.mem g - g) / PAGE_SIZE := by
            by_contra hcon
            exact absurd h1i (hfresh i (by omega) (by rw [hN]; omega)).1
          rw [hP4] at hiA hri
          have hhA : h < read64 s.mem g := by omega
          refine ⟨by rw [hM]; omega, hhA, by rw [hM, hP4]; omega, ?_⟩
          rw [counterOf_eq s.mem g h (by rw [hS4]; exact hal) (by omega) (by rw [hS4]; omega)
            (by rw [hS4]; omega)]
          have : (h - g) / PAGE_SIZE = i := by rw [hP4]; omega
          rw [this]; exact h1i
/-! ## Changing the status of an object -/

/-- Writing a status other than `FREE` into an object of a small segment that is not
`FREE` keeps the invariant of the segment and its live total. -/
theorem SegInv_status_small {m : Mem} {na : Nat → Bool} {g t h : Nat} (hI : SegInv m na g t)
    (hf : read32 m (g + 32) = 0) (hh : IsHeader m (g + METADATA_SIZE) (read64 m g) h)
    (v : Nat) (hv : v < 4294967296) (hold : hStatus m h ≠ FREE) (hnew : v ≠ FREE) :
    SegInv (write32 m (h + 4) v) na g t := by
  obtain ⟨hG, hS, _⟩ := hI
  have hT := hS hf
  have hr := IsHeader_range hh
  have hM := METADATA_SIZE_eq
  rw [hM] at hr
  have hget : ∀ x, ¬ (h + 4 ≤ x ∧ x < h + 8) → (write32 m (h + 4) v).get x = m.get x :=
    fun x hx => write32_ne m (h + 4) v x (by omega)
  have eA : read64 (write32 m (h + 4) v) g = read64 m g :=
    read64_congr _ _ _ (fun x h1 h2 => hget x (by omega))
  have ef : read32 (write32 m (h + 4) v) (g + 32) = read32 m (g + 32) :=
    read32_congr _ _ _ (fun x h1 h2 => hget x (by omega))
  refine ⟨SegGeom_frame hG (fun x h1 h2 => hget x (by omega)) (fun q _ _ hq => hq), ?_, ?_⟩
  · intro _
    show Tiled _ _ (read64 _ g) t
    rw [eA]
    obtain ⟨r, e1, e2⟩ := Tiled_status hT hh (fun x _ _ hx => hget x hx)
    have l1 : liveSize m h = hSize m h := by unfold liveSize; rw [if_neg hold]
    have es : hStatus (write32 m (h + 4) v) h = v := by
      unfold hStatus; rw [read32_write32]; exact Nat.mod_eq_of_lt hv
    have l2 : liveSize (write32 m (h + 4) v) h = hSize m h := by
      unfold liveSize; rw [es, if_neg hnew]
      exact hSize_congr _ _ _ (fun x h1 h2 => hget x (by omega))
    rw [l2, ← l1, ← e1] at e2
    exact e2
  · intro h1
    rw [ef, hf] at h1
    exact absurd h1 (by decide)

/-- Changing the status word of a live large object to a value other than `FREE` keeps
the tiling and its live total. -/
theorem LargeTiled_status {m m' : Mem} {P lim t Q : Nat} (h : LargeTiled m P lim t)
    (h1 : P ≤ Q) (h2 : Q < lim) (hal : (Q - P) % PAGE_SIZE = 0) (hc : counterOf m Q = 1)
    (hb : ∀ x, P ≤ x → x < lim → ¬ (Q + 4 ≤ x ∧ x < Q + 8) → m'.get x = m.get x)
    (hcnt : ∀ R, P ≤ R → R < lim → counterOf m' R = counterOf m R)
    (hnew : hStatus m' Q ≠ FREE) : LargeTiled m' P lim t := by
  obtain ⟨t1, t2, p1, p2, et, hsz, hmod, hle, _, hcs⟩ := LargeTiled_find h h1 h2 hal hc
  have hP4 : PAGE_SIZE = 4096 := rfl
  rw [hP4] at hsz hmod
  have es : hSize m' Q = hSize m Q :=
    hSize_congr _ _ _ (fun x a b => hb x (by omega) (by omega) (by omega))
  have q1 : LargeTiled m' P Q t1 :=
    LargeTiled_congr p1 (fun x a b => hb x a (by omega) (by omega))
      (fun R a b => Or.inl (hcnt R a (by omega)))
  have q2 : LargeTiled m' (Q + hSize m' Q) lim t2 := by
    rw [es]
    exact LargeTiled_congr p2 (fun x a b => hb x (by omega) b (by omega))
      (fun R a b => Or.inl (hcnt R (by omega) b))
  have q3 := LargeTiled.live Q lim t2 (by rw [es, hP4]; exact hsz) (by rw [es, hP4]; exact hmod)
    (by rw [es]; exact hle) hnew (by rw [hcnt Q h1 h2]; exact hc)
    (by
      intro i i1 i2
      rw [es] at i2
      have hi : Q + i * PAGE_SIZE < lim := by rw [hP4] at i2 ⊢; omega
      rw [hcnt _ (by omega) hi]
      exact hcs i i1 i2) q2
  rw [es] at q3
  rw [et]
  exact LargeTiled_append q1 q3

/-- The same for the invariant of a large segment. -/
theorem SegInv_status_large {m : Mem} {na : Nat → Bool} {g t Q : Nat} (hI : SegInv m na g t)
    (hf : read32 m (g + 32) = 1) (h1 : g + METADATA_SIZE ≤ Q) (h2 : Q < read64 m g)
    (hal : (Q - (g + METADATA_SIZE)) % PAGE_SIZE = 0) (hc : counterOf m Q = 1)
    (v : Nat) (hv : v < 4294967296) (hnew : v ≠ FREE) :
    SegInv (write32 m (Q + 4) v) na g t := by
  obtain ⟨hG, _, hL⟩ := hI
  obtain ⟨hT, hfresh, hlow⟩ := hL hf
  have hM := METADATA_SIZE_eq
  rw [hM] at h1
  have hget : ∀ x, ¬ (Q + 4 ≤ x ∧ x < Q + 8) → (write32 m (Q + 4) v).get x = m.get x :=
    fun x hx => write32_ne m (Q + 4) v x (by omega)
  have hmeta : ∀ a, a + 2 ≤ g + 2097152 → read16 (write32 m (Q + 4) v) a = read16 m a :=
    fun a ha => read16_congr _ _ _ (fun x x1 x2 => hget x (by omega))
  have eA : read64 (write32 m (Q + 4) v) g = read64 m g :=
    read64_congr _ _ _ (fun x h1 h2 => hget x (by omega))
  have ef : read32 (write32 m (Q + 4) v) (g + 32) = read32 m (g + 32) :=
    read32_congr _ _ _ (fun x h1 h2 => hget x (by omega))
  have hS4 : SEGMENT_SIZE = 4294967296 := rfl
  have hin := hG.inWord
  have hAR : read64 m g ≤ g + SEGMENT_SIZE := le_trans hG.allocCommit hG.commitReserve
  have hcnt : ∀ R, g + METADATA_SIZE ≤ R → R < read64 m g →
      counterOf (write32 m (Q + 4) v) R = counterOf m R := by
    intro R r1 r2
    have hb := getSizeMetadata_range g R hG.aligned (by omega) (by omega) (le_of_lt hin)
    unfold counterOf
    exact hmeta _ (by rw [← hM]; exact hb.2.2)
  have es : hStatus (write32 m (Q + 4) v) Q = v := by
    unfold hStatus; rw [read32_write32]; exact Nat.mod_eq_of_lt hv
  refine ⟨SegGeom_frame hG (fun x h1 h2 => hget x (by omega)) (fun q _ _ hq => hq), ?_, ?_⟩
  · intro h0
    rw [ef, hf] at h0
    exact absurd h0 (by decide)
  · intro _
    refine ⟨?_, ?_, ?_⟩
    · rw [eA]
      exact LargeTiled_status hT (by rw [hM]; exact h1) h2 hal hc
        (fun x _ _ hx => hget x hx) hcnt (by rw [es]; exact hnew)
    · intro i i1 i2
      rw [eA] at i1
      rw [hmeta _ (by rw [NUM_PAGES_IN_SEG_eq] at i2; omega)]
      exact hfresh i i1 i2
    · intro j j1 j2
      rw [hmeta _ (by omega)]
      exact hlow j j1 j2
/-- The two halves of a 32-bit word just written. -/
theorem read16_write32 (m : Mem) (a v : Nat) (hv : v < 4294967296) :
    read16 (write32 m a v) a = v % 65536 ∧ read16 (write32 m a v) (a + 2) = v / 65536 := by
  have h := read32_write32 m a v
  rw [Nat.mod_eq_of_lt hv] at h
  have l1 := read16_lt (write32 m a v) a
  have l2 := read16_lt (write32 m a v) (a + 2)
  simp only [read32] at h
  omega

/-- Marking the word at offset 65540 of a large segment, which holds the counters of
pages 32770 and 32771, keeps the invariant when both counters are 0. -/
theorem SegInv_mark_bogus {m : Mem} {na : Nat → Bool} {g t : Nat} (hI : SegInv m na g t)
    (hf : read32 m (g + 32) = 1) (h0 : read32 m (g + 65540) = 0) :
    SegInv (write32 m (g + 65540) MARK) na g t := by
  obtain ⟨hG, _, hL⟩ := hI
  obtain ⟨hT, hfresh, hlow⟩ := hL hf
  have hM := METADATA_SIZE_eq
  have hP4 : PAGE_SIZE = 4096 := rfl
  have hS4 : SEGMENT_SIZE = 4294967296 := rfl
  have hget : ∀ x, ¬ (g + 65540 ≤ x ∧ x < g + 65544) →
      (write32 m (g + 65540) MARK).get x = m.get x :=
    fun x hx => write32_ne m (g + 65540) MARK x (by omega)
  have eA : read64 (write32 m (g + 65540) MARK) g = read64 m g :=
    read64_congr _ _ _ (fun x h1 h2 => hget x (by omega))
  have ef : read32 (write32 m (g + 65540) MARK) (g + 32) = read32 m (g + 32) :=
    read32_congr _ _ _ (fun x h1 h2 => hget x (by omega))
  obtain ⟨n1, n2⟩ := read16_write32 m (g + 65540) MARK (by decide)
  have o1 : read16 m (g + 65540) = 0 ∧ read16 m (g + 65540 + 2) = 0 := by
    simp only [read32] at h0; omega
  have hent : ∀ i, read16 (write32 m (g + 65540) MARK) (g + 2 * i) = read16 m (g + 2 * i) ∨
      (read16 m (g + 2 * i) ≠ 1 ∧ read16 m (g + 2 * i) ≠ PAGE_SIZE ∧
        read16 (write32 m (g + 65540) MARK) (g + 2 * i) ≠ 1 ∧
        read16 (write32 m (g + 65540) MARK) (g + 2 * i) ≠ PAGE_SIZE) := by
    intro i
    by_cases c1 : i = 32770
    · right
      have e : g + 2 * i = g + 65540 := by omega
      rw [e, n1, o1.1]
      exact ⟨by decide, by decide, by decide, by decide⟩
    · by_cases c2 : i = 32771
      · right
        have e : g + 2 * i = g + 65540 + 2 := by omega
        rw [e, n2, o1.2]
        exact ⟨by decide, by decide, by decide, by decide⟩
      · left
        exact read16_congr _ _ _ (fun x x1 x2 => hget x (by omega))
  have hin := hG.inWord
  have hAR : read64 m g ≤ g + SEGMENT_SIZE := le_trans hG.allocCommit hG.commitReserve
  refine ⟨SegGeom_frame hG (fun x h1 h2 => hget x (by omega)) (fun q _ _ hq => hq), ?_, ?_⟩
  · intro h1
    rw [ef, hf] at h1
    exact absurd h1 (by decide)
  · intro _
    refine ⟨?_, ?_, ?_⟩
    · rw [eA]
      refine LargeTiled_congr hT (fun x x1 x2 => hget x (by rw [hM] at x1; omega)) ?_
      intro Q q1 q2
      rw [counterOf_eq _ g Q hG.aligned (by omega) (by omega) (le_of_lt hin),
        counterOf_eq _ g Q hG.aligned (by omega) (by omega) (le_of_lt hin)]
      exact hent _
    · intro i i1 i2
      rw [eA] at i1
      rcases hent i with e | ⟨_, _, e1, e2⟩
      · rw [e]; exact hfresh i i1 i2
      · exact ⟨e1, e2⟩
    · intro j j1 j2
      rcases hent j with e | ⟨_, _, e1, _⟩
      · rw [e]; exact hlow j j1 j2
      · exact e1

/-! ## The invariant through the mark phase -/

theorem HeapSame_refl (s : State) : HeapSame s s := ⟨rfl, rfl, rfl, rfl, rfl, rfl, rfl⟩

theorem HeapSame_trans {s1 s2 s3 : State} (h1 : HeapSame s1 s2) (h2 : HeapSame s2 s3) :
    HeapSame s1 s3 :=
  ⟨h2.na.trans h1.na, h2.segs.trans h1.segs, h2.cs.trans h1.cs, h2.cb.trans h1.cb,
    h2.bases.trans h1.bases, h2.alloc.trans h1.alloc, h2.freed.trans h1.freed⟩

theorem addToUnscannedList_heap {s s' : State} {h : Nat}
    (ha : addToUnscannedList s h = some s') : HeapSame s s' ∧ s'.mem = s.mem := by
  unfold addToUnscannedList at ha
  dsimp only at ha
  split at ha
  · rw [← Option.some.inj ha]; exact ⟨⟨rfl, rfl, rfl, rfl, rfl, rfl, rfl⟩, rfl⟩
  · split at ha
    · split at ha
      · rw [← Option.some.inj ha]; exact ⟨⟨rfl, rfl, rfl, rfl, rfl, rfl, rfl⟩, rfl⟩
      · exact absurd ha (by simp)
    · rw [← Option.some.inj ha]; exact ⟨⟨rfl, rfl, rfl, rfl, rfl, rfl, rfl⟩, rfl⟩

theorem findSegment_inv (s : State) (W : Nat) : ∀ (L : List Nat) (g : Nat),
    findSegment s W L = some g → g ∈ L ∧ getDataPtr s g ≤ W ∧ W ≤ getAllocPtr s g := by
  intro L
  induction L with
  | nil => intro g h; exact absurd h (by simp [findSegment])
  | cons a L ih =>
    intro g h
    simp only [findSegment] at h
    split at h
    · rename_i hc
      rw [← Option.some.inj h]
      exact ⟨List.mem_cons_self _ _, hc.1, hc.2⟩
    · obtain ⟨h1, h2⟩ := ih g h
      exact ⟨List.mem_cons_of_mem _ h1, h2⟩

/-- What `markValidObject` does when it returns: nothing, or it writes `MARK` into the
status word of the header that `retrieveObjectHeader` returned, whose status was 0. -/
theorem markValidObject_inv {fuel : Nat} {s s' : State} {p : Nat}
    (h : markValidObject fuel s p = some s') :
    HeapSame s s' ∧ (s'.mem = s.mem ∨ ∃ W g hd, findSegment s W s.Segments = some g ∧
      retrieveObjectHeader fuel s (getBigAlloc s g) W g = some (some hd) ∧
      hStatus s.mem hd = 0 ∧ s'.mem = write32 s.mem (hd + 4) MARK) := by
  unfold markValidObject at h
  simp only [Option.bind_eq_bind, Option.bind_eq_some] at h
  obtain ⟨W, _, h⟩ := h
  split at h
  · rw [← Option.some.inj h]; exact ⟨HeapSame_refl s, Or.inl rfl⟩
  · rename_i g hg
    simp only [Option.bind_eq_some] at h
    obtain ⟨r, hr, h⟩ := h
    split at h
    · rw [← Option.some.inj h]; exact ⟨HeapSame_refl s, Or.inl rfl⟩
    · rename_i hd
      simp only [Option.bind_eq_some] at h
      obtain ⟨St, hSt, h⟩ := h
      split at h
      · rename_i h0
        simp only [Option.bind_eq_some] at h
        obtain ⟨s1, h1, s2, h2, h3⟩ := h
        have e1 := (store32_inv h1).1
        obtain ⟨a, b⟩ := addToUnscannedList_heap h2
        rw [← Option.some.inj h3]
        subst e1
        refine ⟨⟨a.na, a.segs, a.cs, a.cb, a.bases, a.alloc, a.freed⟩, Or.inr ⟨W, g, hd, hg, hr, ?_, b⟩⟩
        rw [← h0, (load32_inv hSt).1]; rfl
      · rw [← Option.some.inj h]; exact ⟨HeapSame_refl s, Or.inl rfl⟩
theorem Inv_of_same {s s' : State} {tot : Nat → Nat} (h : Inv s tot) (hs : HeapSame s s')
    (hm : s'.mem = s.mem) : Inv s' tot := by
  unfold Inv at *
  rw [hs.na, hs.segs, hs.cs, hs.cb, hs.bases, hs.alloc, hs.freed, hm]
  exact h

/-- A change of memory inside one segment that keeps the invariant of the segment, its
live total, its bump pointers and its kind keeps the invariant of the state. -/
theorem Inv_seg_mem {s s' : State} {tot : Nat → Nat} {g : Nat} (h : Inv s tot)
    (hs : HeapSame s s') (hg : g ∈ s.Segments)
    (hm : ∀ x, x < g ∨ g + SEGMENT_SIZE ≤ x → s'.mem.get x = s.mem.get x)
    (hS : SegInv s'.mem s.noaccess g (tot g))
    (hA : read64 s'.mem g = read64 s.mem g) (hC : read64 s'.mem (g + 8) = read64 s.mem (g + 8))
    (hflag : read32 s'.mem (g + 32) = read32 s.mem (g + 32)) : Inv s' tot := by
  have := InvCore_update g (tot g) h hg hm (fun q _ hq => hq) hS
    (by intro h0; rw [hA, hC]; exact h.gap g hg (by rw [← hflag]; exact h0)) hflag rfl
  rw [Function.update_eq_self] at this
  unfold Inv
  rw [hs.na, hs.segs, hs.cs, hs.cb, hs.bases, hs.alloc, hs.freed]
  exact this

/-- `markValidObject` keeps the invariant and the live totals. -/
theorem markValidObject_Inv {fuel : Nat} {s s' : State} {p : Nat} {tot : Nat → Nat}
    (hI : Inv s tot) (h : markValidObject fuel s p = some s') : Inv s' tot := by
  obtain ⟨hs, hm | ⟨W, g, hd, hf, hr, h0, hm⟩⟩ := markValidObject_inv h
  · exact Inv_of_same hI hs hm
  · obtain ⟨hg, hD, hA⟩ := findSegment_inv s W _ g hf
    have hSI := hI.segInv g hg
    have hG := hSI.1
    have hM := METADATA_SIZE_eq
    have hS4 : SEGMENT_SIZE = 4294967296 := rfl
    have hAR : read64 s.mem g ≤ g + SEGMENT_SIZE := le_trans hG.allocCommit hG.commitReserve
    simp only [getDataPtr, getAllocPtr, hG.data] at hD hA
    simp only [getBigAlloc] at hr
    have key : g + 65536 ≤ hd ∧ hd + 8 ≤ g + SEGMENT_SIZE ∧
        SegInv (write32 s.mem (hd + 4) MARK) s.noaccess g (tot g) := by
      rcases hG.flag with f0 | f1
      · rw [f0] at hr
        have hh := retrieveObjectHeader_small_sound hSI f0 (hI.gap g hg f0) hD hA hr
        have hc := Chain_header (SegInv_chain hSI) hh
        have hrg := IsHeader_range hh
        exact ⟨by omega, by omega,
          SegInv_status_small hSI f0 hh MARK (by decide) (by rw [h0]; decide) (by decide)⟩
      · rw [f1] at hr
        rcases retrieveObjectHeader_large_sound hSI f1 hD hA hr with e | ⟨a1, a2, a3, a4⟩
        · have e2 : hd = g + 65536 := e
          refine ⟨by omega, by omega, ?_⟩
          rw [e2]
          exact SegInv_mark_bogus hSI f1 (by
            have : hStatus s.mem hd = read32 s.mem (g + 65540) := by rw [e2]; rfl
            rw [← this]; exact h0)
        · obtain ⟨_, _, _, _, _, b1, b2, b3, _⟩ :=
            LargeTiled_find ((hSI.2.2 f1).1) a1 a2 a3 a4
          have hP4 : PAGE_SIZE = 4096 := rfl
          rw [hP4] at b1
          exact ⟨by omega, by omega,
            SegInv_status_large hSI f1 a1 a2 a3 a4 MARK (by decide) (by decide)⟩
    obtain ⟨k1, k2, k3⟩ := key
    have hget : ∀ x, ¬ (hd + 4 ≤ x ∧ x < hd + 8) → s'.mem.get x = s.mem.get x := by
      intro x hx
      rw [hm]
      exact write32_ne s.mem (hd + 4) MARK x (by omega)
    refine Inv_seg_mem hI hs hg (fun x hx => hget x (by omega)) (by rw [hm]; exact k3) ?_ ?_ ?_
    · exact read64_congr _ _ _ (fun x h1 h2 => hget x (by omega))
    · exact read64_congr _ _ _ (fun x h1 h2 => hget x (by omega))
    · exact read32_congr _ _ _ (fun x h1 h2 => hget x (by omega))

theorem scanRange_Inv {fuel : Nat} {tot : Nat → Nat} : ∀ {count p : Nat} {s s' : State},
    Inv s tot → scanRange fuel count p s = some s' → Inv s' tot := by
  intro count
  induction count with
  | zero =>
    intro p s s' hI h
    rw [← Option.some.inj h]; exact hI
  | succ k ih =>
    intro p s s' hI h
    simp only [scanRange, Option.bind_eq_bind, Option.bind_eq_some] at h
    obtain ⟨s1, h1, h2⟩ := h
    exact ih (markValidObject_Inv hI h1) h2

theorem scanRoots_Inv {fuel : Nat} {tot : Nat → Nat} {s s' : State} {Top Bottom : Nat}
    (hI : Inv s tot) (h : scanRoots fuel s Top Bottom = some s') : Inv s' tot := by
  unfold scanRoots at h
  exact scanRange_Inv (show Inv { s with unscannedListCount := 0 } tot from hI) h

theorem scannerLoop_Inv {tot : Nat → Nat} : ∀ {fuel : Nat} {cur : Option Nat} {s s' : State},
    Inv s tot → scannerLoop fuel cur s = some s' → Inv s' tot := by
  intro fuel
  induction fuel with
  | zero =>
    intro cur s s' hI h
    cases cur with
    | none => simp only [scannerLoop] at h; rw [← Option.some.inj h]; exact hI
    | some c => simp [scannerLoop] at h
  | succ k ih =>
    intro cur s s' hI h
    cases cur with
    | none => simp only [scannerLoop] at h; rw [← Option.some.inj h]; exact hI
    | some c =>
      simp only [scannerLoop, Option.bind_eq_bind, Option.bind_eq_some] at h
      obtain ⟨node, _, Size, _, s1, h1, U, _, Head, _, hn, _, node2, _, h2⟩ := h
      have a := scanRange_Inv hI h1
      exact ih (show Inv { s1 with Unscanned := some { U with Head := hn.Next } } tot from a) h2

theorem scanner_Inv {fuel : Nat} {tot : Nat → Nat} {s s' : State} (hI : Inv s tot)
    (h : scanner fuel s = some s') : Inv s' tot := by
  unfold scanner at h
  simp only [Option.bind_eq_bind, Option.bind_eq_some] at h
  obtain ⟨U, _, c, _, s1, h1, U1, _, U2, hU2, c2, _, h2⟩ := h
  have a := scannerLoop_Inv hI h1
  rw [← Option.some.inj h2]
  split
  · exact a
  · exact a

/-! ## The invariant through the sweep of a small segment -/

theorem IsHeader_congr_size {m m' : Mem} {a lim h : Nat} (hh : IsHeader m a lim h)
    (hsz : ∀ h2, IsHeader m a lim h2 → hSize m' h2 = hSize m h2) : IsHeader m' a lim h := by
  induction hh with
  | here a lim hlt => exact IsHeader.here a lim hlt
  | next a lim h hlt hn ih =>
    refine IsHeader.next a lim h hlt ?_
    rw [hsz a (IsHeader.here a lim hlt)]
    exact ih (fun h2 hh2 => hsz h2 (IsHeader.next a lim h2 hlt hh2))

/-- A change of memory confined to the status word of one header keeps the headers. -/
theorem IsHeader_status {m m' : Mem} {a lim h : Nat} (hc : Chain m a lim)
    (hh : IsHeader m a lim h)
    (he : ∀ x, a ≤ x → x < lim → ¬ (h + 4 ≤ x ∧ x < h + 8) → m'.get x = m.get x) :
    ∀ h2, IsHeader m a lim h2 → IsHeader m' a lim h2 := by
  intro h2 hh2
  refine IsHeader_congr_size hh2 ?_
  intro h3 hh3
  have r3 := IsHeader_range hh3
  have c3 := Chain_header hc hh3
  have c1 := Chain_header hc hh
  apply hSize_congr
  intro x x1 x2
  apply he x (by omega) (by omega)
  rcases Nat.lt_trichotomy h3 h with l | e | l
  · have := Chain_before hc hh hh3 l
    omega
  · omega
  · have := Chain_before hc hh3 hh l
    omega

theorem SegStep_refl {g : Nat} {s : State} {t : Nat} (hI : SegInv s.mem s.noaccess g t) :
    SegStep g s s t t := ⟨Frame_refl g s, hI, rfl, rfl, rfl⟩

theorem SegStep_trans {g : Nat} {s1 s2 s3 : State} {t1 t2 t3 : Nat} (h1 : SegStep g s1 s2 t1 t2)
    (h2 : SegStep g s2 s3 t2 t3) : SegStep g s1 s3 t1 t3 :=
  ⟨Frame_trans h1.frame h2.frame, h2.inv, h2.alloc.trans h1.alloc, h2.commit.trans h1.commit, by
    have a := h1.account
    have b := h2.account
    omega⟩

/-- Writing a status other than `FREE` into an object of a small segment that is not
`FREE` is a step that keeps the live total and the headers. -/
theorem status_small_step {s : State} {g t h : Nat} (hI : SegInv s.mem s.noaccess g t)
    (hf : read32 s.mem (g + 32) = 0)
    (hh : IsHeader s.mem (g + METADATA_SIZE) (read64 s.mem g) h)
    (v : Nat) (hv : v < 4294967296) (hold : hStatus s.mem h ≠ FREE) (hnew : v ≠ FREE) :
    SegStep g s { s with mem := write32 s.mem (h + 4) v } t t ∧
      ∀ h2, IsHeader s.mem (g + METADATA_SIZE) (read64 s.mem g) h2 →
        IsHeader (write32 s.mem (h + 4) v) (g + METADATA_SIZE) (read64 s.mem g) h2 := by
  have hr := IsHeader_range hh
  have hM := METADATA_SIZE_eq
  have hS4 : SEGMENT_SIZE = 4294967296 := rfl
  have hG := hI.1
  have hAR : read64 s.mem g ≤ g + SEGMENT_SIZE := le_trans hG.allocCommit hG.commitReserve
  rw [hM] at hr
  rw [hS4] at hAR
  have hget : ∀ x, ¬ (h + 4 ≤ x ∧ x < h + 8) → (write32 s.mem (h + 4) v).get x = s.mem.get x :=
    fun x hx => write32_ne s.mem (h + 4) v x (by omega)
  have hc := Chain_header (SegInv_chain hI) hh
  refine ⟨⟨⟨fun x hx => hget x (by rw [hS4] at hx; omega), fun q _ hq => hq, rfl, rfl, rfl, rfl,
      read32_congr _ _ _ (fun x h1 h2 => hget x (by omega))⟩,
    SegInv_status_small hI hf hh v hv hold hnew,
    read64_congr _ _ _ (fun x h1 h2 => hget x (by omega)),
    read64_congr _ _ _ (fun x h1 h2 => hget x (by omega)), rfl⟩, ?_⟩
  exact IsHeader_status (SegInv_chain hI) hh (fun x _ _ hx => hget x hx)

/-- Freeing an object of a small segment whose status is 0 is a step that takes its size
off the live total and keeps the headers. -/
theorem myfree_small_step {s s' : State} {g t h : Nat} (hI : SegInv s.mem s.noaccess g t)
    (hf : read32 s.mem (g + 32) = 0)
    (hh : IsHeader s.mem (g + METADATA_SIZE) (read64 s.mem g) h)
    (h0 : hStatus s.mem h = 0) (hm : myfree s (h + 16) = some s') :
    hSize s.mem h ≤ t ∧ SegStep g s s' t (t - hSize s.mem h) ∧
      ∀ h2, IsHeader s.mem (g + METADATA_SIZE) (read64 s.mem g) h2 →
        IsHeader s'.mem (g + METADATA_SIZE) (read64 s.mem g) h2 := by
  have hr := IsHeader_range hh
  have hM := METADATA_SIZE_eq
  have hS4 : SEGMENT_SIZE = 4294967296 := rfl
  have hP4 : PAGE_SIZE = 4096 := rfl
  obtain ⟨hG, hS, _⟩ := hI
  have hT := hS hf
  have hAR : read64 s.mem g ≤ g + SEGMENT_SIZE := le_trans hG.allocCommit hG.commitReserve
  have hin := hG.inWord
  obtain ⟨t1, t2, p1, p2, et, g1, g2⟩ := Tiled_split hT hh
  have hpage : hSize s.mem h ≤ COMMIT_SIZE := by
    cases p2 with
    | nil => omega
    | cons _ _ _ _ _ hpg _ =>
      show hSize s.mem h ≤ 4096
      rw [hP4] at hpg
      omega
  obtain ⟨_, na', hna, e⟩ := myfree_small_inv hm hpage
  obtain ⟨c1, c2⟩ := getSizeMetadata_data g h hG.aligned hr.1 (by omega) (le_of_lt hin)
  rw [hM] at hr c2
  rw [hS4] at hAR
  generalize read16 s.mem (getSizeMetadata h) + hSize s.mem h = v at e
  generalize getSizeMetadata h = c at e c1 c2
  have hget : ∀ x, ¬ (h + 4 ≤ x ∧ x < h + 8) → ¬ (c ≤ x ∧ x < c + 2) →
      (write32 (write16 s.mem c v) (h + 4) FREE).get x = s.mem.get x := by
    intro x x1 x2
    rw [write32_ne _ _ _ _ (by omega), write16_ne _ _ _ _ (by omega)]
  have eA : read64 (write32 (write16 s.mem c v) (h + 4) FREE) g = read64 s.mem g :=
    read64_congr _ _ _ (fun x h1 h2 => hget x (by omega) (by omega))
  have eC : read64 (write32 (write16 s.mem c v) (h + 4) FREE) (g + 8) = read64 s.mem (g + 8) :=
    read64_congr _ _ _ (fun x h1 h2 => hget x (by omega) (by omega))
  have ef : read32 (write32 (write16 s.mem c v) (h + 4) FREE) (g + 32) = read32 s.mem (g + 32) :=
    read32_congr _ _ _ (fun x h1 h2 => hget x (by omega) (by omega))
  obtain ⟨r, e1, e2⟩ := @Tiled_status s.mem (write32 (write16 s.mem c v) (h + 4) FREE) _ _ _ _
    hT hh (fun x x1 x2 hx => hget x hx (by rw [hM] at x1; omega))
  have l1 : liveSize s.mem h = hSize s.mem h := by
    unfold liveSize; rw [h0, if_neg (by decide)]
  have l2 : liveSize (write32 (write16 s.mem c v) (h + 4) FREE) h = 0 := by
    unfold liveSize hStatus
    rw [read32_write32, if_pos (by decide)]
  rw [l2, Nat.add_zero] at e2
  rw [l1] at e1
  have er : t - hSize s.mem h = r := by omega
  subst e
  refine ⟨by omega, ⟨⟨fun x hx => hget x (by rw [hS4] at hx; omega) (by rw [hS4] at hx; omega),
      fun q _ hq => hna q hq, rfl, rfl, rfl, rfl, ef⟩, ?_, eA, eC, ?_⟩, ?_⟩
  · refine ⟨SegGeom_frame hG (fun x h1 h2 => hget x (by omega) (by omega))
      (fun q _ _ hq => hna q hq), ?_, ?_⟩
    · intro _
      show Tiled _ _ (read64 _ g) _
      rw [eA, er]
      exact e2
    · intro h1
      rw [ef, hf] at h1
      exact absurd h1 (by decide)
  · show s.NumBytesAllocated - (s.NumBytesFreed + (hSize s.mem h : Int)) + (t : Int) =
      s.NumBytesAllocated - s.NumBytesFreed + ((t - hSize s.mem h : Nat) : Int)
    omega
  · exact IsHeader_status (Tiled_chain hT) hh
      (fun x x1 x2 hx => hget x hx (by rw [hM] at x1; omega))
theorem markOrFreeObject_inv {s s1 : State} {h : Nat} {o : Option Nat}
    (hm : markOrFreeObject s h = some (s1, o)) :
    (hStatus s.mem h = MARK ∧ s1 = { s with mem := write32 s.mem (h + 4) 0 } ∧ o = none) ∨
    (hStatus s.mem h = 0 ∧ s1 = s ∧ o = some h) ∨
    (hStatus s.mem h ≠ MARK ∧ hStatus s.mem h ≠ 0 ∧ s1 = s ∧ o = none) := by
  unfold markOrFreeObject at hm
  simp only [Option.bind_eq_bind, Option.bind_eq_some] at hm
  obtain ⟨Status, hS, hm⟩ := hm
  have eS : Status = hStatus s.mem h := (load32_inv hS).1
  split at hm
  · rename_i hc
    simp only [Option.bind_eq_some] at hm
    obtain ⟨s2, h1, h2⟩ := hm
    simp only [Option.some.injEq, Prod.mk.injEq] at h2
    left
    exact ⟨by rw [← eS]; exact hc, by rw [← h2.1]; exact (store32_inv h1).1, h2.2.symm⟩
  · rename_i hc
    split at hm
    · rename_i hc0
      simp only [Option.some.injEq, Prod.mk.injEq] at hm
      right; left
      exact ⟨by rw [← eS]; exact hc0, hm.1.symm, hm.2.symm⟩
    · rename_i hc0
      simp only [Option.some.injEq, Prod.mk.injEq] at hm
      right; right
      exact ⟨by rw [← eS]; exact hc, by rw [← eS]; exact hc0, hm.1.symm, hm.2.symm⟩

theorem freeOpt_bind_inv {s s' : State} {o : Option Nat} {k : State → Option State}
    (h : (match o with
      | some o => (myfree s (o + OBJ_HEADER_SIZE)).bind k
      | none => (some s).bind k) = some s') :
    ∃ s2, ((o = none ∧ s2 = s) ∨ ∃ h, o = some h ∧ myfree s (h + 16) = some s2) ∧
      k s2 = some s' := by
  cases o with
  | none => exact ⟨s, Or.inl ⟨rfl, rfl⟩, h⟩
  | some o =>
    simp only [Option.bind_eq_some] at h
    obtain ⟨s2, h2, h3⟩ := h
    exact ⟨s2, Or.inr ⟨o, rfl, h2⟩, h3⟩

/-- One round of the sweep over the objects of a page: the status of the object at `cur`
is reset or the object is freed. -/
theorem sweepObject_step {s s1 s2 : State} {g t cur Size : Nat} {o : Option Nat}
    (hI : SegInv s.mem s.noaccess g t) (hf : read32 s.mem (g + 32) = 0)
    (hh : IsHeader s.mem (g + METADATA_SIZE) (read64 s.mem g) cur)
    (h1 : markOrFreeObject s cur = some (s1, o)) (hSz : load32 s1 cur = some Size)
    (h2 : (o = none ∧ s2 = s1) ∨ ∃ h, o = some h ∧ myfree s1 (h + 16) = some s2) :
    Size = hSize s.mem cur ∧ ∃ t2, SegStep g s s2 t t2 ∧
      ∀ h2, IsHeader s.mem (g + METADATA_SIZE) (read64 s.mem g) h2 →
        IsHeader s2.mem (g + METADATA_SIZE) (read64 s.mem g) h2 := by
  have eSz := (load32_inv hSz).1
  rcases markOrFreeObject_inv h1 with ⟨a, b, c⟩ | ⟨a, b, c⟩ | ⟨a, a', b, c⟩
  · rcases h2 with ⟨_, e⟩ | ⟨h, e, _⟩
    · obtain ⟨st, hd⟩ := status_small_step hI hf hh 0 (by decide) (by rw [a]; decide) (by decide)
      subst b
      subst e
      refine ⟨?_, t, st, hd⟩
      rw [eSz]
      exact hSize_congr _ _ _ (fun x x1 x2 => write32_ne _ _ _ _ (by omega))
    · rw [c] at e; exact absurd e (by simp)
  · subst b
    rcases h2 with ⟨e, _⟩ | ⟨h, e, hm⟩
    · rw [c] at e; exact absurd e (by simp)
    · rw [c] at e
      have eh : cur = h := Option.some.inj e
      subst eh
      obtain ⟨_, st, hd⟩ := myfree_small_step hI hf hh a hm
      exact ⟨eSz, _, st, hd⟩
  · subst b
    rcases h2 with ⟨_, e⟩ | ⟨h, e, _⟩
    · subst e
      exact ⟨eSz, t, SegStep_refl hI, fun h2 hh2 => hh2⟩
    · rw [c] at e; exact absurd e (by simp)

/-- The loop of `traversePageForNormalAllocation`, started at a header of the tiling or
at `AllocPtr`, is a step of the segment. -/
theorem traverseLoop_step {g c pb : Nat} : ∀ (fuel cur : Nat) (s s' : State) (t : Nat),
    SegInv s.mem s.noaccess g t → read32 s.mem (g + 32) = 0 →
    (cur = read64 s.mem g ∨ IsHeader s.mem (g + METADATA_SIZE) (read64 s.mem g) cur) →
    traverseLoop g c pb fuel cur s = some s' → ∃ t', SegStep g s s' t t' := by
  intro fuel
  induction fuel with
  | zero =>
    intro cur s s' t _ _ _ h
    simp [traverseLoop] at h
  | succ k ih =>
    intro cur s s' t hI hf hcur h
    unfold traverseLoop at h
    simp only [Option.bind_eq_bind, Option.bind_eq_some] at h
    obtain ⟨cv, _, h⟩ := h
    split at h
    · rename_i hcond
      simp only [Option.bind_eq_some] at h
      obtain ⟨⟨s1, o⟩, h1, Size, hSz, h⟩ := h
      dsimp only at h
      obtain ⟨s2, h2, h3⟩ := freeOpt_bind_inv h
      have hlt : cur < read64 s.mem g := hcond.2.2
      have hh := hcur.resolve_left (ne_of_lt hlt)
      obtain ⟨eS, t2, st, hd⟩ := sweepObject_step hI hf hh h1 hSz h2
      have hch := Chain_header (SegInv_chain hI) hh
      have hnext : cur + Size = read64 s2.mem g ∨
          IsHeader s2.mem (g + METADATA_SIZE) (read64 s2.mem g) (cur + Size) := by
        rw [st.alloc, eS]
        by_cases e : cur + hSize s.mem cur = read64 s.mem g
        · left; exact e
        · right
          exact hd _ (IsHeader_next (SegInv_chain hI) hh (by omega))
      obtain ⟨t', st'⟩ := ih (cur + Size) s2 s' t2 st.inv (by rw [st.frame.flag]; exact hf)
        hnext h3
      exact ⟨t', SegStep_trans st st'⟩
    · rw [← Option.some.inj h]
      exact ⟨t, SegStep_refl hI⟩

theorem sweepNormalLoop_step {g A : Nat} : ∀ (k cur : Nat) (s s' : State) (t : Nat),
    SegInv s.mem s.noaccess g t → read32 s.mem (g + 32) = 0 → A = read64 s.mem g →
    cur % PAGE_SIZE = 0 → g + METADATA_SIZE ≤ cur →
    sweepNormalLoop g A k cur s = some s' → ∃ t', SegStep g s s' t t' := by
  intro k
  induction k with
  | zero =>
    intro cur s s' t hI _ _ _ _ h
    rw [← Option.some.inj h]
    exact ⟨t, SegStep_refl hI⟩
  | succ k ih =>
    intro cur s s' t hI hf hA hc hD h
    have hP4 : PAGE_SIZE = 4096 := rfl
    unfold sweepNormalLoop at h
    split at h
    · rename_i hlt
      simp only [Option.bind_eq_bind, Option.bind_eq_some] at h
      obtain ⟨c, _, h⟩ := h
      split at h
      · exact ih _ _ _ _ hI hf hA (by rw [hP4] at hc ⊢; omega) (by omega) h
      · simp only [Option.bind_eq_some] at h
        obtain ⟨s1, h1, h2⟩ := h
        have hh := Tiled_page_start (hI.2.1 hf) cur hc hD (by rw [← hA]; exact hlt)
        obtain ⟨t1, st⟩ := traverseLoop_step _ _ _ _ _ hI hf (Or.inr hh) h1
        obtain ⟨t', st'⟩ := ih _ _ _ _ st.inv (by rw [st.frame.flag]; exact hf)
          (by rw [st.alloc]; exact hA) (by rw [hP4] at hc ⊢; omega) (by omega) h2
        exact ⟨t', SegStep_trans st st'⟩
    · rw [← Option.some.inj h]
      exact ⟨t, SegStep_refl hI⟩
/-! ## The invariant through the sweep of a large segment -/

theorem bigLoopMem_get : ∀ (k Q : Nat) (m : Mem) (c x : Nat),
    (∀ i, i < k → getSizeMetadata (Q + i * PAGE_SIZE) = c + 2 * i) →
    (x < c ∨ c + 2 * k ≤ x) → (bigLoopMem k Q m).get x = m.get x := by
  intro k
  induction k with
  | zero => intro Q m c x _ _; rfl
  | succ k ih =>
    intro Q m c x hs hx
    have h0 : getSizeMetadata Q = c := by
      have := hs 0 (by omega)
      simpa using this
    show (bigLoopMem k (Q + PAGE_SIZE) (write16 m (getSizeMetadata Q) PAGE_SIZE)).get x = _
    rw [ih (Q + PAGE_SIZE) _ (c + 2) x (by
      intro i hi
      have := hs (i + 1) (by omega)
      rw [Nat.add_mul, Nat.one_mul] at this
      rw [Nat.add_assoc, Nat.add_comm PAGE_SIZE, this]; omega) (by omega)]
    rw [h0]
    exact write16_ne _ _ _ _ (by omega)

theorem bigLoopMem_counter : ∀ (k Q : Nat) (m : Mem) (c i : Nat),
    (∀ i, i < k → getSizeMetadata (Q + i * PAGE_SIZE) = c + 2 * i) → i < k →
    read16 (bigLoopMem k Q m) (c + 2 * i) = PAGE_SIZE := by
  intro k
  induction k with
  | zero => intro Q m c i _ hi; omega
  | succ k ih =>
    intro Q m c i hs hi
    have h0 : getSizeMetadata Q = c := by
      have := hs 0 (by omega)
      simpa using this
    have hs' : ∀ i, i < k → getSizeMetadata (Q + PAGE_SIZE + i * PAGE_SIZE) = c + 2 + 2 * i := by
      intro i hi
      have := hs (i + 1) (by omega)
      rw [Nat.add_mul, Nat.one_mul] at this
      rw [Nat.add_assoc, Nat.add_comm PAGE_SIZE, this]; omega
    show read16 (bigLoopMem k (Q + PAGE_SIZE) (write16 m (getSizeMetadata Q) PAGE_SIZE)) _ = _
    cases i with
    | zero =>
      have : read16 (bigLoopMem k (Q + PAGE_SIZE) (write16 m (getSizeMetadata Q) PAGE_SIZE))
          (c + 2 * 0) = read16 (write16 m (getSizeMetadata Q) PAGE_SIZE) (c + 2 * 0) :=
        read16_congr _ _ _ (fun x x1 x2 => bigLoopMem_get k _ _ (c + 2) x hs' (by omega))
      rw [this, h0]
      show read16 (write16 m c PAGE_SIZE) c = PAGE_SIZE
      rw [read16_write16]; rfl
    | succ j =>
      have := ih (Q + PAGE_SIZE) (write16 m (getSizeMetadata Q) PAGE_SIZE) (c + 2) j hs' (by omega)
      have e : c + 2 * (j + 1) = c + 2 + 2 * j := by omega
      rw [e]; exact this

theorem myfreeBigLoop_inv : ∀ (k Addr : Nat) (s s' : State),
    myfreeBigLoop k Addr s = some s' → s' = { s with mem := bigLoopMem k Addr s.mem } := by
  intro k
  induction k with
  | zero =>
    intro Addr s s' h
    rw [← Option.some.inj h]; rfl
  | succ k ih =>
    intro Addr s s' h
    simp only [myfreeBigLoop, Option.bind_eq_bind, Option.bind_eq_some] at h
    obtain ⟨s1, h1, h2⟩ := h
    have e1 := (store16_inv h1).1
    have e2 := ih _ _ _ h2
    rw [e2, e1]; rfl

/-- The state after `myfree` of a large object at `Q`. -/
theorem myfree_big_inv {s s' : State} {Q : Nat} (hm : myfree s (Q + 16) = some s')
    (hsz : COMMIT_SIZE < hSize s.mem Q) :
    hSize s.mem Q % PAGE_SIZE = 0 ∧
    ∃ na', (∀ q, s.noaccess q = true → na' q = true) ∧
      s' = { s with
        mem := write32 (bigLoopMem ((hSize s.mem Q + PAGE_SIZE - 1) / PAGE_SIZE) Q s.mem)
          (Q + 4) FREE
        noaccess := na'
        NumBytesFreed := s.NumBytesFreed + hSize s.mem Q } := by
  simp only [myfree, OBJ_HEADER_SIZE, Nat.add_sub_cancel, Option.bind_eq_bind,
    Option.bind_eq_some] at hm
  obtain ⟨Status, hS, hm⟩ := hm
  split at hm
  · exact absurd hm (by simp)
  · simp only [Option.bind_eq_some] at hm
    obtain ⟨Size, hZ, hm⟩ := hm
    have eZ : Size = hSize s.mem Q := (load32_inv hZ).1
    rw [if_pos (by rw [eZ]; exact hsz)] at hm
    split at hm
    · rename_i hc
      simp only [Option.bind_eq_some] at hm
      obtain ⟨s1, h1, s2, h2, Size2, _, h3⟩ := hm
      have e1 := myfreeBigLoop_inv _ _ _ _ h1
      have e2 := (store32_inv h2).1
      have e3 := reclaimMemory_inv h3
      refine ⟨by rw [← eZ]; exact hc.1, setProt s.noaccess Q Size2 true,
        fun q hq => setProt_true_mono _ _ _ _ hq, ?_⟩
      rw [e3, e2, e1, eZ]
    · exact absurd hm (by simp)
/-- Writing a status other than `FREE` into a live large object is a step that keeps the
live total. -/
theorem status_large_step {s : State} {g t Q : Nat} (hI : SegInv s.mem s.noaccess g t)
    (hf : read32 s.mem (g + 32) = 1) (h1 : g + METADATA_SIZE ≤ Q) (h2 : Q < read64 s.mem g)
    (hal : (Q - (g + METADATA_SIZE)) % PAGE_SIZE = 0) (hc : counterOf s.mem Q = 1)
    (v : Nat) (hv : v < 4294967296) (hnew : v ≠ FREE) :
    SegStep g s { s with mem := write32 s.mem (Q + 4) v } t t := by
  have hM := METADATA_SIZE_eq
  have hS4 : SEGMENT_SIZE = 4294967296 := rfl
  have hP4 : PAGE_SIZE = 4096 := rfl
  have hG := hI.1
  have hAR : read64 s.mem g ≤ g + SEGMENT_SIZE := le_trans hG.allocCommit hG.commitReserve
  have hCp := hG.commitPage
  have hAC := hG.large hf
  rw [hM] at h1 hal
  rw [hS4] at hAR
  rw [hP4] at hal hCp
  have hget : ∀ x, ¬ (Q + 4 ≤ x ∧ x < Q + 8) → (write32 s.mem (Q + 4) v).get x = s.mem.get x :=
    fun x hx => write32_ne s.mem (Q + 4) v x (by omega)
  exact ⟨⟨fun x hx => hget x (by rw [hS4] at hx; omega), fun q _ hq => hq, rfl, rfl, rfl, rfl,
      read32_congr _ _ _ (fun x h1 h2 => hget x (by omega))⟩,
    SegInv_status_large hI hf (by rw [hM]; exact h1) h2 (by rw [hM, hP4]; exact hal) hc v hv hnew,
    read64_congr _ _ _ (fun x h1 h2 => hget x (by omega)),
    read64_congr _ _ _ (fun x h1 h2 => hget x (by omega)), rfl⟩

theorem page_slots (g Q k : Nat) (hg : g % 4294967296 = 0) (h1 : g ≤ Q)
    (hQ : (Q - g) % 4096 = 0) (h2 : Q + k * 4096 ≤ g + 4294967296)
    (hw : g + 4294967296 < 18446744073709551616) :
    ∀ i, i < k → getSizeMetadata (Q + i * PAGE_SIZE) = g + 2 * ((Q - g) / 4096) + 2 * i := by
  intro i hi
  have hP4 : PAGE_SIZE = 4096 := rfl
  rw [getSizeMetadata_eq g (Q + i * PAGE_SIZE) hg (by omega) (by rw [hP4]; show _ < g + 4294967296; omega)
    (by show g + 4294967296 ≤ 18446744073709551616; omega), hP4]
  omega

/-- The memory after `myfree` of a large object of `sz` bytes at `Q` in the segment `g`:
outside the status word and the counters of its pages nothing changes, the counters of
its pages are `PAGE_SIZE` and its status is `FREE`. -/
theorem bigFree_mem (m : Mem) (g Q sz : Nat) (hg : g % 4294967296 = 0)
    (hw : g + 4294967296 < 18446744073709551616) (h1 : g + 2097152 ≤ Q)
    (hQ : (Q - g) % 4096 = 0) (hsz : sz % 4096 = 0) (h2 : Q + sz ≤ g + 4294967296) :
    (∀ x, x < g + 1024 ∨ g + 2097152 ≤ x → ¬ (Q + 4 ≤ x ∧ x < Q + 8) →
      (write32 (bigLoopMem (sz / 4096) Q m) (Q + 4) FREE).get x = m.get x) ∧
    (∀ i, i < (Q - g) / 4096 ∨ (Q - g) / 4096 + sz / 4096 ≤ i → i < 1048576 →
      read16 (write32 (bigLoopMem (sz / 4096) Q m) (Q + 4) FREE) (g + 2 * i) =
        read16 m (g + 2 * i)) ∧
    (∀ i, i < sz / 4096 →
      counterOf (write32 (bigLoopMem (sz / 4096) Q m) (Q + 4) FREE) (Q + i * PAGE_SIZE) =
        PAGE_SIZE) ∧
    hStatus (write32 (bigLoopMem (sz / 4096) Q m) (Q + 4) FREE) Q = FREE := by
  have hsl := page_slots g Q (sz / 4096) hg (by omega) hQ (by omega) hw
  refine ⟨?_, ?_, ?_, ?_⟩
  · intro x x1 x2
    rw [write32_ne _ _ _ _ (by omega),
      bigLoopMem_get (sz / 4096) Q m (g + 2 * ((Q - g) / 4096)) x hsl (by omega)]
  · intro i i1 i2
    apply read16_congr
    intro x x1 x2
    rw [write32_ne _ _ _ _ (by omega),
      bigLoopMem_get (sz / 4096) Q m (g + 2 * ((Q - g) / 4096)) x hsl (by omega)]
  · intro i hi
    unfold counterOf
    rw [hsl i hi]
    have := bigLoopMem_counter (sz / 4096) Q m (g + 2 * ((Q - g) / 4096)) i hsl hi
    rw [← this]
    apply read16_congr
    intro x x1 x2
    exact write32_ne _ _ _ _ (by omega)
  · unfold hStatus
    rw [read32_write32]; rfl

/-- The tiling of a large segment after one of its live objects is freed. -/
theorem LargeObjs_free {m m' : Mem} {g t Q : Nat} (hL : LargeObjs m g t)
    (hg : g % 4294967296 = 0) (hw : g + 4294967296 < 18446744073709551616)
    (hAR : read64 m g ≤ g + 4294967296) (hAp : read64 m g % 4096 = 0)
    (h1 : g + 2097152 ≤ Q) (h2 : Q < read64 m g) (hal : (Q - g) % 4096 = 0)
    (hc : counterOf m Q = 1) (eA : read64 m' g = read64 m g)
    (hd : ∀ x, g + 2097152 ≤ x → ¬ (Q + 4 ≤ x ∧ x < Q + 8) → m'.get x = m.get x)
    (he : ∀ i, i < (Q - g) / 4096 ∨ (Q - g) / 4096 + hSize m Q / 4096 ≤ i → i < 1048576 →
      read16 m' (g + 2 * i) = read16 m (g + 2 * i))
    (hp : ∀ i, i < hSize m Q / 4096 → counterOf m' (Q + i * PAGE_SIZE) = PAGE_SIZE)
    (hs : hStatus m' Q = FREE) :
    hSize m Q ≤ t ∧ LargeObjs m' g (t - hSize m Q) := by
  obtain ⟨hT, hfresh, hlow⟩ := hL
  have hM := METADATA_SIZE_eq
  have hP4 : PAGE_SIZE = 4096 := rfl
  have hS4 : SEGMENT_SIZE = 4294967296 := rfl
  have hWD : WORD = 18446744073709551616 := rfl
  obtain ⟨t1, t2, p1, p2, et, b1, b2, b3, b4, b5⟩ :=
    LargeTiled_find hT (by rw [hM]; exact h1) h2 (by rw [hM, hP4]; omega) hc
  rw [hP4] at b1 b2
  have es : hSize m' Q = hSize m Q := hSize_congr _ _ _ (fun x x1 x2 => hd x (by omega) (by omega))
  have hcnt : ∀ R, g + 2097152 ≤ R → R < g + 4294967296 → (R < Q ∨ Q + hSize m Q ≤ R) →
      counterOf m' R = counterOf m R := by
    intro R r1 r2 r3
    rw [counterOf_eq _ g R (by rw [hS4]; exact hg) (by omega) (by rw [hS4]; exact r2)
        (by rw [hS4, hWD]; omega),
      counterOf_eq _ g R (by rw [hS4]; exact hg) (by omega) (by rw [hS4]; exact r2)
        (by rw [hS4, hWD]; omega), hP4]
    exact he _ (by omega) (by omega)
  have q1 : LargeTiled m' (g + METADATA_SIZE) Q t1 :=
    LargeTiled_congr p1 (fun x x1 x2 => hd x (by rw [hM] at x1; exact x1) (by omega))
      (fun R r1 r2 => Or.inl (hcnt R (by rw [hM] at r1; exact r1) (by omega) (by omega)))
  have q2 : LargeTiled m' (Q + hSize m' Q) (read64 m g) t2 := by
    rw [es]
    exact LargeTiled_congr p2 (fun x x1 x2 => hd x (by omega) (by omega))
      (fun R r1 r2 => Or.inl (hcnt R (by omega) (by omega) (by omega)))
  have q3 := LargeTiled.freed Q (read64 m g) t2 (by rw [es, hP4]; exact b1)
    (by rw [es, hP4]; exact b2) (by rw [es]; exact b3) hs
    (by intro i hi; rw [es, hP4] at hi; exact hp i hi) q2
  have q4 := LargeTiled_append q1 q3
  have et' : t - hSize m Q = t1 + t2 := by omega
  refine ⟨by omega, ?_, ?_, ?_⟩
  · rw [eA, et']; exact q4
  · intro i i1 i2
    rw [eA, hP4] at i1
    rw [NUM_PAGES_IN_SEG_eq] at i2
    rw [he i (by omega) i2]
    exact hfresh i (by rw [hP4]; exact i1) (by rw [NUM_PAGES_IN_SEG_eq]; exact i2)
  · intro i i1 i2
    rw [he i (by omega) (by omega)]
    exact hlow i i1 i2

/-- Freeing a live large object whose status is 0 is a step that takes its size off the
live total. -/
theorem myfree_big_step {s s' : State} {g t Q : Nat} (hI : SegInv s.mem s.noaccess g t)
    (hf : read32 s.mem (g + 32) = 1) (h1 : g + METADATA_SIZE ≤ Q) (h2 : Q < read64 s.mem g)
    (hal : (Q - (g + METADATA_SIZE)) % PAGE_SIZE = 0) (hc : counterOf s.mem Q = 1)
    (hm : myfree s (Q + 16) = some s') :
    SegStep g s s' t (t - hSize s.mem Q) := by
  have hM := METADATA_SIZE_eq
  have hS4 : SEGMENT_SIZE = 4294967296 := rfl
  have hP4 : PAGE_SIZE = 4096 := rfl
  have hWD : WORD = 18446744073709551616 := rfl
  obtain ⟨hG, _, hL⟩ := hI
  have hLO := hL hf
  have hAR : read64 s.mem g ≤ g + SEGMENT_SIZE := le_trans hG.allocCommit hG.commitReserve
  have hCp := hG.commitPage
  have hAC := hG.large hf
  have hin := hG.inWord
  have hal' := hG.aligned
  obtain ⟨_, _, _, _, _, b1, b2, b3, _⟩ := LargeTiled_find hLO.1 h1 h2 hal hc
  obtain ⟨_, na', hna, e⟩ := myfree_big_inv hm b1
  rw [hM] at h1 hal
  rw [hS4] at hAR hin hal'
  rw [hP4] at hal hCp b1 b2
  rw [hWD] at hin
  have ek : (hSize s.mem Q + PAGE_SIZE - 1) / PAGE_SIZE = hSize s.mem Q / 4096 := by
    rw [hP4]; clear * - b2; omega
  rw [ek] at e
  have hQg : (Q - g) % 4096 = 0 := by clear * - hal h1; omega
  have hQS : Q + hSize s.mem Q ≤ g + 4294967296 := by clear * - b3 hAR; omega
  obtain ⟨m1, m2, m3, m4⟩ := bigFree_mem s.mem g Q (hSize s.mem Q) hal' hin h1 hQg b2 hQS
  generalize write32 (bigLoopMem (hSize s.mem Q / 4096) Q s.mem) (Q + 4) FREE = m' at *
  have hhead : ∀ x, x < g + 1024 → m'.get x = s.mem.get x :=
    fun x hx => m1 x (Or.inl hx) (by clear * - hx h1; omega)
  have eA : read64 m' g = read64 s.mem g :=
    read64_congr _ _ _ (fun x x1 x2 => hhead x (by omega))
  have eC : read64 m' (g + 8) = read64 s.mem (g + 8) :=
    read64_congr _ _ _ (fun x x1 x2 => hhead x (by omega))
  have ef : read32 m' (g + 32) = read32 s.mem (g + 32) :=
    read32_congr _ _ _ (fun x x1 x2 => hhead x (by omega))
  obtain ⟨hle, hLO'⟩ := @LargeObjs_free s.mem m' g t Q hLO hal' hin hAR
    (by rw [hAC]; exact hCp) h1 h2 hQg hc eA (fun x x1 x2 => m1 x (Or.inr x1) x2) m2 m3 m4
  subst e
  refine ⟨⟨fun x hx => m1 x (by rw [hS4] at hx; clear * - hx; omega)
      (by rw [hS4] at hx; clear * - hx h1 hQS b1; omega),
      fun q _ hq => hna q hq, rfl, rfl, rfl, rfl, ef⟩, ?_, eA, eC, ?_⟩
  · refine ⟨SegGeom_frame hG (fun x x1 x2 => hhead x (by omega)) (fun q _ _ hq => hna q hq),
      ?_, ?_⟩
    · intro h0
      rw [ef, hf] at h0
      exact absurd h0 (by decide)
    · intro _
      exact hLO'
  · show s.NumBytesAllocated - (s.NumBytesFreed + (hSize s.mem Q : Int)) + (t : Int) =
      s.NumBytesAllocated - s.NumBytesFreed + ((t - hSize s.mem Q : Nat) : Int)
    clear * - hle
    omega
/-- One round of the sweep of a large segment on the first page of a live object: the
status of the object is reset or the object is freed. -/
theorem sweepBigObject_step {s s1 s2 : State} {g t Q : Nat} {o : Option Nat}
    (hI : SegInv s.mem s.noaccess g t) (hf : read32 s.mem (g + 32) = 1)
    (h1 : g + METADATA_SIZE ≤ Q) (h2 : Q < read64 s.mem g)
    (hal : (Q - (g + METADATA_SIZE)) % PAGE_SIZE = 0) (hc : counterOf s.mem Q = 1)
    (hm : markOrFreeObject s Q = some (s1, o))
    (hfr : (o = none ∧ s2 = s1) ∨ ∃ h, o = some h ∧ myfree s1 (h + 16) = some s2) :
    ∃ t2, SegStep g s s2 t t2 := by
  rcases markOrFreeObject_inv hm with ⟨a, b, c⟩ | ⟨a, b, c⟩ | ⟨a, a', b, c⟩
  · rcases hfr with ⟨_, e⟩ | ⟨h, e, _⟩
    · subst b
      subst e
      exact ⟨t, status_large_step hI hf h1 h2 hal hc 0 (by decide) (by decide)⟩
    · rw [c] at e; exact absurd e (by simp)
  · subst b
    rcases hfr with ⟨e, _⟩ | ⟨h, e, hm⟩
    · rw [c] at e; exact absurd e (by simp)
    · rw [c] at e
      have eh : Q = h := Option.some.inj e
      subst eh
      exact ⟨_, myfree_big_step hI hf h1 h2 hal hc hm⟩
  · subst b
    rcases hfr with ⟨_, e⟩ | ⟨h, e, _⟩
    · subst e
      exact ⟨t, SegStep_refl hI⟩
    · rw [c] at e; exact absurd e (by simp)

theorem sweepBigLoop_step {g A : Nat} : ∀ (k cur : Nat) (s s' : State) (t : Nat),
    SegInv s.mem s.noaccess g t → read32 s.mem (g + 32) = 1 → A = read64 s.mem g →
    (cur - (g + METADATA_SIZE)) % PAGE_SIZE = 0 → g + METADATA_SIZE ≤ cur →
    sweepBigLoop A k cur s = some s' → ∃ t', SegStep g s s' t t' := by
  intro k
  induction k with
  | zero =>
    intro cur s s' t hI _ _ _ _ h
    rw [← Option.some.inj h]
    exact ⟨t, SegStep_refl hI⟩
  | succ k ih =>
    intro cur s s' t hI hf hA hc hD h
    have hP4 : PAGE_SIZE = 4096 := rfl
    have hnext : (cur + PAGE_SIZE - (g + METADATA_SIZE)) % PAGE_SIZE = 0 := by
      rw [hP4] at hc ⊢; omega
    unfold sweepBigLoop at h
    split at h
    · rename_i hlt
      simp only [Option.bind_eq_bind, Option.bind_eq_some] at h
      obtain ⟨c, hcv, h⟩ := h
      have ec : c = counterOf s.mem cur := (load16_inv hcv).1
      split at h
      · exact ih _ _ _ _ hI hf hA hnext (by omega) h
      · simp only [Option.bind_eq_some] at h
        obtain ⟨sz, hsz, h⟩ := h
        have esz : sz = hSize s.mem cur := (load32_inv hsz).1
        split at h
        · rename_i hc1
          simp only [Option.bind_eq_some] at h
          obtain ⟨⟨s1, o⟩, h1, h⟩ := h
          dsimp only at h
          obtain ⟨s2, h2, h3⟩ := freeOpt_bind_inv h
          have hlt' : cur < read64 s.mem g := by rw [← hA]; exact hlt
          have hc1' : counterOf s.mem cur = 1 := by rw [← ec]; exact hc1
          obtain ⟨t2, st⟩ := sweepBigObject_step hI hf hD hlt' hc hc1' h1 h2
          obtain ⟨_, _, _, _, _, _, b2, _⟩ := LargeTiled_find (hI.2.2 hf).1 hD hlt' hc hc1'
          obtain ⟨t', st'⟩ := ih _ _ _ _ st.inv (by rw [st.frame.flag]; exact hf)
            (by rw [st.alloc]; exact hA)
            (by rw [esz]; rw [hP4] at hc b2 ⊢; omega) (by omega) h3
          exact ⟨t', SegStep_trans st st'⟩
        · exact ih _ _ _ _ hI hf hA hnext (by omega) h
    · rw [← Option.some.inj h]
      exact ⟨t, SegStep_refl hI⟩

/-! ## The invariant through `sweep` and `_runGC` -/

/-- A step of one segment keeps the invariant of the state. -/
theorem Inv_step {s s' : State} {tot : Nat → Nat} {g t' : Nat} (h : Inv s tot)
    (hg : g ∈ s.Segments) (st : SegStep g s s' (tot g) t') :
    Inv s' (Function.update tot g t') :=
  Inv_frame h hg st.frame st.inv
    (by intro h0; rw [st.alloc, st.commit]; exact h.gap g hg (by rw [← st.frame.flag]; exact h0))
    st.account

theorem sweepSegments_Inv : ∀ (L : List Nat) (s s' : State) (tot : Nat → Nat),
    Inv s tot → (∀ g ∈ L, g ∈ s.Segments) → sweepSegments L s = some s' →
    ∃ tot', Inv s' tot' := by
  intro L
  induction L with
  | nil =>
    intro s s' tot hI _ h
    rw [← Option.some.inj h]; exact ⟨tot, hI⟩
  | cons g L ih =>
    intro s s' tot hI hL h
    have hg := hL g (List.mem_cons_self _ _)
    have hSI := hI.segInv g hg
    have hD : getDataPtr s g = g + METADATA_SIZE := hSI.1.data
    have hP4 : PAGE_SIZE = 4096 := rfl
    have hMp : (g + METADATA_SIZE) % PAGE_SIZE = 0 := by
      have := hSI.1.aligned
      rw [METADATA_SIZE_eq, hP4]
      rw [show SEGMENT_SIZE = 4294967296 from rfl] at this
      omega
    unfold sweepSegments at h
    simp only [Option.bind_eq_bind] at h
    split at h
    · rename_i hf
      simp only [Option.bind_eq_some] at h
      obtain ⟨s1, h1, h2⟩ := h
      rw [hD] at h1
      obtain ⟨t', st⟩ := sweepNormalLoop_step _ _ _ _ _ hSI hf rfl hMp (le_refl _) h1
      have hI1 := Inv_step hI hg st
      exact ih s1 s' _ hI1
        (fun g' hg' => by rw [st.frame.segs]; exact hL g' (List.mem_cons_of_mem _ hg')) h2
    · split at h
      · rename_i hf
        simp only [Option.bind_eq_some] at h
        obtain ⟨s1, h1, h2⟩ := h
        rw [hD] at h1
        obtain ⟨t', st⟩ := sweepBigLoop_step _ _ _ _ _ hSI hf rfl (by rw [Nat.sub_self]; rfl)
          (le_refl _) h1
        have hI1 := Inv_step hI hg st
        exact ih s1 s' _ hI1
          (fun g' hg' => by rw [st.frame.segs]; exact hL g' (List.mem_cons_of_mem _ hg')) h2
      · exact ih s s' tot hI (fun g' hg' => hL g' (List.mem_cons_of_mem _ hg')) h

/-- A collection cycle keeps the invariant. -/
theorem _runGC_Inv {fuel : Nat} {env : RootEnv} {s s' : State} {tot : Nat → Nat}
    (hI : Inv s tot) (h : _runGC fuel env s = some s') : ∃ tot', Inv s' tot' := by
  unfold _runGC at h
  simp only [Option.bind_eq_bind, Option.bind_eq_some] at h
  obtain ⟨s1, h1, s2, h2, h⟩ := h
  have a1 := scanRoots_Inv (show Inv { s with NumGCTriggered := s.NumGCTriggered + 1 } tot from hI) h1
  have a2 := scanRoots_Inv a1 h2
  split at h
  · rw [← Option.some.inj h]
    exact ⟨tot, a2⟩
  · simp only [Option.bind_eq_some] at h
    obtain ⟨Top, _, s3, h3, s4, h4, h5⟩ := h
    have a3 := scanRoots_Inv a2 h3
    have a4 := scanner_Inv a3 h4
    exact sweepSegments_Inv _ _ _ _ a4 (fun g hg => hg) h5

/-! ## The invariant through `BigAlloc` -/

/-- The tiling of a large segment after a new object of `sz` bytes is put at `AllocPtr`. -/
theorem LargeObjs_alloc {m m' : Mem} {g t A sz : Nat} (hL : LargeObjs m g t)
    (hg : g % 4294967296 = 0) (hw : g + 4294967296 < 18446744073709551616)
    (hA : read64 m g = A) (h1 : g + 2097152 ≤ A) (hAp : A % 4096 = 0)
    (h2 : A + sz ≤ g + 4294967296) (hpos : 4096 < sz) (hmod : sz % 4096 = 0)
    (eA : read64 m' g = A + sz)
    (hd : ∀ x, g + 2097152 ≤ x → x < A → m'.get x = m.get x)
    (he : ∀ i, 17 ≤ i → i < 1048576 → i ≠ (A - g) / 4096 →
      read16 m' (g + 2 * i) = read16 m (g + 2 * i))
    (hsize : hSize m' A = sz) (hstat : hStatus m' A = 0) (hcnt : counterOf m' A = 1) :
    LargeObjs m' g (t + sz) := by
  obtain ⟨hT, hfresh, hlow⟩ := hL
  have hM := METADATA_SIZE_eq
  have hP4 : PAGE_SIZE = 4096 := rfl
  have hS4 : SEGMENT_SIZE = 4294967296 := rfl
  have hWD : WORD = 18446744073709551616 := rfl
  have hN := NUM_PAGES_IN_SEG_eq
  rw [hA] at hT hfresh
  have hcounter : ∀ Q, g + 2097152 ≤ Q → Q < g + 4294967296 →
      (Q - g) / 4096 ≠ (A - g) / 4096 →
      counterOf m' Q = counterOf m Q ∧ counterOf m Q = read16 m (g + 2 * ((Q - g) / 4096)) := by
    intro Q hQ1 hQ2 hQ3
    rw [counterOf_eq _ g Q (by rw [hS4]; exact hg) (by omega) (by rw [hS4]; exact hQ2)
        (by rw [hS4, hWD]; omega),
      counterOf_eq _ g Q (by rw [hS4]; exact hg) (by omega) (by rw [hS4]; exact hQ2)
        (by rw [hS4, hWD]; omega), hP4]
    exact ⟨he _ (by omega) (by omega) hQ3, rfl⟩
  have hold : LargeTiled m' (g + METADATA_SIZE) A t :=
    LargeTiled_congr hT (fun x x1 x2 => hd x (by rw [hM] at x1; exact x1) x2)
      (fun Q q1 q2 => Or.inl (hcounter Q (by rw [hM] at q1; exact q1) (by omega) (by omega)).1)
  have hnew := @LargeTiled.live m' A (A + sz) 0
    (by rw [hsize, hP4]; exact hpos) (by rw [hsize, hP4]; exact hmod) (by rw [hsize])
    (by rw [hstat]; decide) hcnt
    (by
      rw [hsize, hP4]
      intro i hi1 hi2
      obtain ⟨q1, q2⟩ := hcounter (A + i * 4096) (by omega) (by omega) (by omega)
      rw [q1, q2]
      have := hfresh ((A + i * 4096 - g) / 4096) (by rw [hP4]; omega) (by rw [hN]; omega)
      rw [hP4] at this
      exact this)
    (by rw [hsize]; exact LargeTiled.nil _)
  rw [hsize, Nat.add_zero] at hnew
  refine ⟨?_, ?_, ?_⟩
  · rw [eA]; exact LargeTiled_append hold hnew
  · rw [eA, hP4, hN]
    intro i hi1 hi2
    rw [he i (by omega) hi2 (by omega)]
    exact hfresh i (by rw [hP4]; omega) (by rw [hN]; exact hi2)
  · intro j hj1 hj2
    rw [he j hj1 (by omega) (by omega)]
    exact hlow j hj1 hj2

/-- The step of `bigCommit` in a well-formed large segment. -/
theorem bigCommit_spec {s s' : State} {g t sz p : Nat} (hI : SegInv s.mem s.noaccess g t)
    (hf : read32 s.mem (g + 32) = 1)
    (hsz : sz = 0 ∨ (PAGE_SIZE < sz ∧ sz % PAGE_SIZE = 0))
    (hle : read64 s.mem g + sz ≤ g + SEGMENT_SIZE)
    (hb : bigCommit s g (read64 s.mem g) (read64 s.mem (g + 8)) sz = some (p, s')) :
    Frame g s s' ∧ SegInv s'.mem s'.noaccess g (t + sz) ∧
      s'.NumBytesAllocated = s.NumBytesAllocated + sz ∧ s'.NumBytesFreed = s.NumBytesFreed := by
  have hG := hI.1
  have hda := hG.dataAlloc
  have hcr := hG.commitReserve
  have hcp := hG.commitPage
  have hwd := hG.inWord
  have hal := hG.aligned
  have hAC := hG.large hf
  have hM : METADATA_SIZE = 2097152 := METADATA_SIZE_eq
  obtain ⟨_, hmod, hacc, e⟩ := bigCommit_inv hb
  have hP : PAGE_SIZE = 4096 := rfl
  have hS : SEGMENT_SIZE = 4294967296 := rfl
  have hW : WORD = 18446744073709551616 := rfl
  rw [hP] at hcp hmod
  rw [hS] at hwd hal hle hcr
  rw [hM] at hda
  rw [hW] at hwd
  have hpos : 4096 < sz := by
    rcases hsz with h0 | h1
    · exfalso
      subst h0
      have := hG.uncommitted (read64 s.mem g / PAGE_SIZE) (by rw [hAC])
        (by rw [hS, hP]; clear * - hle; omega)
      simp only [setProt, Nat.add_zero] at hacc
      rw [if_neg (by omega), this] at hacc
      exact absurd hacc (by simp)
    · exact h1.1
  clear hsz hacc hb
  have hAp : read64 s.mem g % 4096 = 0 := by rw [hAC]; exact hcp
  obtain ⟨A, hAe⟩ : ∃ A, read64 s.mem g = A := ⟨_, rfl⟩
  rw [hAe] at hda hle hAp e
  have hce : getSizeMetadata A = g + 2 * ((A - g) / 4096) :=
    getSizeMetadata_eq g A hG.aligned (by omega) (by rw [hS]; omega) (by rw [hS, hW]; omega)
  have c1 : g + 1024 ≤ getSizeMetadata A ∧ getSizeMetadata A + 2 ≤ g + 2097152 := by
    rw [hce]; clear * - hda hle hpos; omega
  have hget := bigMem_get s.mem g A (A + sz) sz
  have eA := bigMem_alloc s.mem g A (A + sz) sz (by omega) (by omega) (by rw [hW]; omega)
  have eC := bigMem_commit s.mem g A (A + sz) sz (by omega) (by omega) (by rw [hW]; omega)
  have hsize := bigMem_size s.mem g A (A + sz) sz (by omega)
  have hstat := bigMem_status s.mem g A (A + sz) sz
  have hcnt := bigMem_counter s.mem g A (A + sz) sz (by omega)
  have hidx : ∀ i, 17 ≤ i → i < 1048576 → i ≠ (A - g) / 4096 →
      read16 (bigMem s.mem g A (A + sz) sz) (g + 2 * i) = read16 s.mem (g + 2 * i) := by
    intro i hi2 hi3 hi1
    apply read16_congr
    intro x hx1 hx2
    exact hget x (by omega) (by omega) (by rw [hce]; omega)
  have hLO := LargeObjs_alloc (hI.2.2 hf) hal hwd hAe hda hAp hle hpos hmod eA
    (fun x x1 x2 => hget x (by omega) (by omega) (by omega)) hidx hsize hstat hcnt
  have hfl : read32 (bigMem s.mem g A (A + sz) sz) (g + 32) = read32 s.mem (g + 32) :=
    read32_congr _ _ _ (fun x h1 h2 => hget x (by omega) (by omega) (by omega))
  have hGeom : SegGeom (bigMem s.mem g A (A + sz) sz) (setProt s.noaccess A sz false) g := by
    apply SegGeom_update hG (fun x h1 h2 => hget x (by omega) (by omega) (by omega)) _ _ eA eC
      (by rw [hM]; omega) (le_refl _) (by rw [hS]; exact hle) (by rw [hP]; omega) (fun _ => rfl)
    intro q hq1 hq2
    rw [hP] at hq1
    have := hG.uncommitted q (by rw [← hAC, hAe, hP]; omega) hq2
    simp only [setProt, hP]
    rw [if_neg (by omega)]
    exact this
  generalize bigMem s.mem g A (A + sz) sz = m' at *
  subst e
  refine ⟨⟨?_, ?_, rfl, rfl, rfl, rfl, hfl⟩, ⟨hGeom, ?_, fun _ => hLO⟩, rfl, rfl⟩
  · intro x hx
    rw [hS] at hx
    exact hget x (by omega) (by omega) (by omega)
  · intro q hq hq'
    rw [hS, hP] at hq
    simp only [setProt, hP]
    rw [if_neg (by omega)]
    exact hq'
  · intro h0
    rw [hfl, hf] at h0
    exact absurd h0 (by decide)
/-- The size that `BigAlloc` computes for a request that `_mymalloc` passes to it is 0 or
a whole number of pages, at least two. -/
theorem bigSize_cases (n : Nat) (h : COMMIT_SIZE < (Align n 8 + OBJ_HEADER_SIZE) % WORD) :
    Align ((n + OBJ_HEADER_SIZE) % WORD) PAGE_SIZE = 0 ∨
      (PAGE_SIZE < Align ((n + OBJ_HEADER_SIZE) % WORD) PAGE_SIZE ∧
        Align ((n + OBJ_HEADER_SIZE) % WORD) PAGE_SIZE % PAGE_SIZE = 0) := by
  rw [Align_page_eq]
  rw [Align_8_eq] at h
  simp only [COMMIT_SIZE, PAGE_SIZE, OBJ_HEADER_SIZE, WORD] at *
  omega

/-- The invariant after `allocateSegment` when the new segment becomes the current large
segment. -/
theorem allocateSegment_Inv_big {s s0 : State} {Seg : Nat} {tot : Nat → Nat} (hI : Inv s tot)
    (ha : allocateSegment 1 s = some (Seg, s0)) :
    Inv { s0 with CurSegBig := some Seg } (Function.update tot Seg 0) := by
  have hc := allocateSegment_cur ha
  have := allocateSegment_Inv (Or.inr rfl) hI ha s.CurSegSmall (some Seg)
    (fun g hg => Or.inr hg) (fun g hg => Or.inl ⟨(Option.some.inj hg).symm, rfl⟩)
  show InvCore s0.mem s0.noaccess s0.Segments s0.CurSegSmall (some Seg) s0.mmapRet
    s0.NumBytesAllocated s0.NumBytesFreed _
  rw [hc.1]
  exact this

/-- The invariant after `allocateSegment` when the new segment becomes the current small
segment. -/
theorem allocateSegment_Inv_small {s s0 : State} {Seg : Nat} {tot : Nat → Nat} (hI : Inv s tot)
    (ha : allocateSegment 0 s = some (Seg, s0)) :
    Inv { s0 with CurSegSmall := some Seg } (Function.update tot Seg 0) := by
  have hc := allocateSegment_cur ha
  have := allocateSegment_Inv (Or.inl rfl) hI ha (some Seg) s.CurSegBig
    (fun g hg => Or.inl ⟨(Option.some.inj hg).symm, rfl⟩) (fun g hg => Or.inr hg)
  show InvCore s0.mem s0.noaccess s0.Segments (some Seg) s0.CurSegBig s0.mmapRet
    s0.NumBytesAllocated s0.NumBytesFreed _
  rw [hc.2.1]
  exact this

theorem BigAlloc_Inv : ∀ (fuel n : Nat) (s : State) (p : Nat) (s' : State) (tot : Nat → Nat),
    Inv s tot → COMMIT_SIZE < (Align n 8 + OBJ_HEADER_SIZE) % WORD →
    BigAlloc fuel n s = some (p, s') → ∃ tot', Inv s' tot' := by
  intro fuel
  induction fuel with
  | zero => intro n s p s' tot _ _ h; exact absurd h (by simp [BigAlloc])
  | succ k ih =>
    intro n s p s' tot hI hn h
    have hsz := bigSize_cases n hn
    have tail : ∀ (g : Nat) (s1 : State) (tot1 : Nat → Nat), Inv s1 tot1 →
        s1.CurSegBig = some g →
        (if getAllocPtr s1 g + Align ((n + OBJ_HEADER_SIZE) % WORD) PAGE_SIZE >
            getReservePtr s1 g then
          (allocateSegment 1 s1).bind fun d =>
            BigAlloc k n { d.2 with CurSegBig := some d.1 }
        else bigCommit s1 g (getAllocPtr s1 g) (getCommitPtr s1 g)
          (Align ((n + OBJ_HEADER_SIZE) % WORD) PAGE_SIZE)) = some (p, s') →
        ∃ tot', Inv s' tot' := by
      intro g s1 tot1 hI1 hcb1 h
      obtain ⟨hg, hf⟩ := hI1.curBig g hcb1
      have hSI := hI1.segInv g hg
      split at h
      · simp only [Option.bind_eq_some] at h
        obtain ⟨⟨Seg, s2⟩, ha, h⟩ := h
        exact ih n _ p s' _ (allocateSegment_Inv_big hI1 ha) hn h
      · rename_i hfit
        simp only [getAllocPtr, getCommitPtr, getReservePtr] at h hfit
        rw [hSI.1.reserve] at hfit
        obtain ⟨hF, hS', ea, ef⟩ := bigCommit_spec hSI hf hsz (by omega) h
        refine ⟨_, Inv_frame hI1 hg hF hS' ?_ ?_⟩
        · intro h0
          rw [hF.flag, hf] at h0
          exact absurd h0 (by decide)
        · rw [ea, ef]
          push_cast
          omega
    unfold BigAlloc at h
    simp only [Option.bind_eq_bind] at h
    split at h
    · split at h
      · rename_i g hcb
        simp only [Option.some_bind] at h
        exact tail g s tot hI hcb h
      · simp only [Option.bind_eq_some, Option.some_bind] at h
        obtain ⟨⟨Seg, s0⟩, ha, h⟩ := h
        exact tail Seg _ _ (allocateSegment_Inv_big hI ha) rfl h
    · exact absurd h (by simp)
/-! ## The invariant through `_mymalloc` -/

theorem checkAndRunGC_Inv {fuel : Nat} {env : RootEnv} {s s' : State} {Sz : Nat}
    {tot : Nat → Nat} (hI : Inv s tot) (h : checkAndRunGC fuel env s Sz = some s') :
    ∃ tot', Inv s' tot' := by
  unfold checkAndRunGC at h
  dsimp only at h
  split at h
  · rw [← Option.some.inj h]
    exact ⟨tot, hI⟩
  · exact _runGC_Inv (show Inv { s with TotalAlloc := 0 } tot from hI) h

/-- The size that `_mymalloc` computes is 0 or at least 8. -/
theorem smallSize_cases (n : Nat) :
    (Align n 8 + OBJ_HEADER_SIZE) % WORD = 0 ∨ 8 ≤ (Align n 8 + OBJ_HEADER_SIZE) % WORD := by
  rw [Align_8_eq]
  simp only [OBJ_HEADER_SIZE, WORD]
  omega

theorem _mymalloc_Inv : ∀ (fuel : Nat) (env : RootEnv) (n : Nat) (s : State) (p : Nat)
    (s' : State) (tot : Nat → Nat),
    Inv s tot → _mymalloc fuel env n s = some (p, s') → ∃ tot', Inv s' tot' := by
  intro fuel
  induction fuel with
  | zero => intro env n s p s' tot _ h; exact absurd h (by simp [_mymalloc])
  | succ k ih =>
    intro env n s p s' tot hI0 h
    unfold _mymalloc at h
    simp only [Option.bind_eq_bind, Option.bind_eq_some] at h
    obtain ⟨s0, h0, h⟩ := h
    obtain ⟨tot0, hI⟩ := checkAndRunGC_Inv hI0 h0
    split at h
    · rename_i hbig
      exact BigAlloc_Inv _ _ _ _ _ _ hI hbig h
    · rename_i hsmall
      have hsz := smallSize_cases n
      have hle : (Align n 8 + OBJ_HEADER_SIZE) % WORD ≤ PAGE_SIZE := by
        have : COMMIT_SIZE = PAGE_SIZE := rfl
        omega
      generalize (Align n 8 + OBJ_HEADER_SIZE) % WORD = sz at h hsz hle
      have tail : ∀ (g : Nat) (s1 : State) (tot1 : Nat → Nat), Inv s1 tot1 →
          s1.CurSegSmall = some g →
          ((makeRoom s1 g sz).bind fun x =>
            match x with
            | (s, none) => (allocateSegment 0 s).bind fun d =>
                _mymalloc k env n { d.2 with CurSegSmall := some d.1 }
            | (s, some (AllocPtr, NewAllocPtr)) => writeObject s g AllocPtr NewAllocPtr sz) =
            some (p, s') →
          ∃ tot', Inv s' tot' := by
        intro g s1 tot1 hI1 hcs h
        obtain ⟨hg, hf⟩ := hI1.curSmall g hcs
        have hSI := hI1.segInv g hg
        simp only [Option.bind_eq_some] at h
        obtain ⟨⟨s2, r⟩, hm, h⟩ := h
        obtain ⟨hF, hS2, ea, ef, hnone, hsome⟩ := makeRoom_spec hSI hf (hI1.gap g hg hf) hle hm
        cases r with
        | none =>
          dsimp only at h
          simp only [Option.bind_eq_some] at h
          obtain ⟨⟨Seg, s3⟩, ha, h⟩ := h
          have hI2 : Inv s2 (Function.update tot1 g (tot1 g)) :=
            Inv_frame hI1 hg hF hS2 (by intro _; rw [hnone rfl, Nat.sub_self]; decide)
              (by rw [ea, ef])
          exact ih env n _ p s' _ (allocateSegment_Inv_small hI2 ha) h
        | some pr =>
          obtain ⟨A, NA⟩ := pr
          dsimp only at h
          obtain ⟨eA, eNA, hfit, hgap1, hgap2⟩ := hsome A NA rfl
          rw [eA] at eNA
          rw [eA, eNA] at h
          have hf2 : read32 s2.mem (g + 32) = 0 := by rw [hF.flag]; exact hf
          obtain ⟨hF2, hS3, eA3, eC3, ea3, ef3⟩ := writeObject_spec hS2 hf2 hsz
            (by rw [← eA]; exact hfit) hgap1 h
          refine ⟨_, Inv_frame hI1 hg (Frame_trans hF hF2) hS3 ?_ ?_⟩
          · intro _
            rw [eA3, eC3]
            omega
          · rw [ea3, ef3, ea, ef]
            push_cast
            omega
      split at h
      · split at h
        · rename_i g hcs
          simp only [Option.some_bind] at h
          exact tail g s0 tot0 hI hcs h
        · obtain ⟨⟨Seg, s1⟩, ha, h⟩ := Option.bind_eq_some.1 h
          simp only [Option.some_bind] at h
          exact tail Seg _ _ (allocateSegment_Inv_small hI ha) rfl h
      · exact absurd h (by simp)

/-- Every reachable state satisfies the invariant. -/
theorem Reachable_Inv {s : State} (h : Reachable s) : ∃ tot, Inv s tot := by
  induction h with
  | init m bases hb =>
    refine ⟨fun _ => 0, ?_⟩
    exact ⟨fun seg hs => absurd hs (List.not_mem_nil _), fun seg hs => absurd hs (List.not_mem_nil _),
      List.Pairwise.nil, fun g hg => absurd hg (by simp [initState]),
      fun g hg => absurd hg (by simp [initState]), hb, by simp [initState]⟩
  | malloc s s' fuel env n p _ _ hm ih =>
    obtain ⟨tot, hI⟩ := ih
    exact _mymalloc_Inv _ _ _ _ _ _ _ hI hm
  | gc s s' fuel env _ hg ih =>
    obtain ⟨tot, hI⟩ := ih
    exact _runGC_Inv hI hg
  | write s m' _ hw ih =>
    obtain ⟨tot, hI⟩ := ih
    exact ⟨tot, Inv_write m' hI hw⟩

/-! ## Allocation without a collection cycle: progress -/

/-- The counter slots of the data pages lie in `[g + 1024, g + METADATA_SIZE)`: a change
of memory outside that range keeps the counters. -/
theorem counterOf_congr_slots {m m' : Mem} {g x : Nat} (hg : g % SEGMENT_SIZE = 0)
    (hw : g + SEGMENT_SIZE < WORD) (h1 : g + METADATA_SIZE ≤ x) (h2 : x < g + SEGMENT_SIZE)
    (hs : ∀ y, g + 1024 ≤ y → y < g + METADATA_SIZE → m'.get y = m.get y) :
    counterOf m' x = counterOf m x := by
  obtain ⟨c1, c2⟩ := getSizeMetadata_data g x hg h1 h2 (le_of_lt hw)
  unfold counterOf
  exact read16_congr _ _ _ (fun y y1 y2 => hs y (by omega) (by omega))

/-- Moving the pointers of a ready segment forward keeps it ready. -/
theorem SmallReady_update {s s' : State} {g : Nat} (h : SmallReady s g) (A' C' : Nat)
    (hres : ∀ x, g + 16 ≤ x → x < g + 24 → s'.mem.get x = s.mem.get x)
    (hcnt : ∀ x, A' ≤ x → x < g + SEGMENT_SIZE → counterOf s'.mem x = counterOf s.mem x)
    (eA : read64 s'.mem g = A') (eC : read64 s'.mem (g + 8) = C')
    (h1 : read64 s.mem g ≤ A') (h2 : A' ≤ C') (h3 : C' ≤ g + SEGMENT_SIZE)
    (h4 : C' % PAGE_SIZE = 0) (h5 : C' - A' ≤ PAGE_SIZE) (h6 : A' % 8 = 0)
    (hna : ∀ q, g / PAGE_SIZE ≤ q → q < (g + METADATA_SIZE) / PAGE_SIZE →
      s'.noaccess q = false)
    (hpa : A' < C' → s'.noaccess (A' / PAGE_SIZE) = false) : SmallReady s' g := by
  have hd := h.dataAlloc
  refine ⟨h.aligned, h.inWord, ?_, ?_, ?_, ?_, ?_, ?_, ?_, hna, ?_, ?_⟩
  · rw [← h.reserve]
    exact read64_congr _ _ _ (fun x x1 x2 => hres x (by omega) (by omega))
  · rw [eA]; omega
  · rw [eA, eC]; exact h2
  · rw [eC]; exact h3
  · rw [eC]; exact h4
  · rw [eA, eC]; exact h5
  · rw [eA]; exact h6
  · rw [eA, eC]; exact hpa
  · intro x x1 x2
    rw [eA] at x1
    rw [hcnt x x1 x2]
    exact h.counters x (by omega) x2

/-- A header written at `AllocPtr` when the object fits below `CommitPtr`. -/
theorem ready_fit {s : State} {g sz : Nat} (h : SmallReady s g) (h24 : 24 ≤ sz)
    (h8 : sz % 8 = 0) (hfit : read64 s.mem g + sz ≤ read64 s.mem (g + 8)) :
    ∃ s', writeObject s g (read64 s.mem g) (read64 s.mem g + sz) sz =
        some (read64 s.mem g + 16, s') ∧
      SmallReady s' g ∧ read64 s'.mem g = read64 s.mem g + sz ∧
      s'.CurSegSmall = s.CurSegSmall ∧ s'.NumGCTriggered = s.NumGCTriggered ∧
      s'.TotalAlloc = s.TotalAlloc ∧ s'.mmapRet = s.mmapRet ∧ s'.Segments = s.Segments := by
  have hP4 : PAGE_SIZE = 4096 := rfl
  have hS4 : SEGMENT_SIZE = 4294967296 := rfl
  have hM := METADATA_SIZE_eq
  have hWD : WORD = 18446744073709551616 := rfl
  have hd := h.dataAlloc
  have hcr := h.commitReserve
  have hcp := h.commitPage
  have hgap := h.gap
  have ha8 := h.align8
  have hin := h.inWord
  rw [hP4] at hcp hgap
  rw [hS4] at hcr hin
  rw [hM] at hd
  rw [hWD] at hin
  have hpa := h.pageAcc (by omega)
  have hacc : accessible s (read64 s.mem g) 16 = true := by
    have e : (read64 s.mem g + 16 - 1) / PAGE_SIZE = read64 s.mem g / PAGE_SIZE := by
      rw [hP4]; omega
    simp only [accessible, e, hpa]
    rfl
  refine ⟨_, writeObject_eq s g _ _ sz hacc ha8, ?_, ?_, rfl, rfl, rfl, rfl, rfl⟩
  · have hget := headerMem_get s.mem g (read64 s.mem g) (read64 s.mem g + sz) sz
    refine SmallReady_update h (read64 s.mem g + sz) (read64 s.mem (g + 8))
      (fun x x1 x2 => hget x (by omega) (by omega))
      (fun x x1 x2 => counterOf_congr_slots h.aligned h.inWord (by rw [hM]; omega) x2
        (fun y y1 y2 => hget y (by omega) (by rw [hM] at y2; omega)))
      (headerMem_alloc _ _ _ _ _ (Or.inl (by omega)) (by rw [hWD]; omega))
      (read64_congr _ _ _ (fun x x1 x2 => hget x (by omega) (by omega)))
      (by omega) hfit (by rw [hS4]; exact hcr) (by rw [hP4]; exact hcp) (by rw [hP4]; omega)
      (by omega) h.metaAcc ?_
    intro hlt
    have e : (read64 s.mem g + sz) / PAGE_SIZE = read64 s.mem g / PAGE_SIZE := by
      rw [hP4]; omega
    show s.noaccess _ = false
    rw [e]; exact hpa
  · exact headerMem_alloc _ _ _ _ _ (Or.inl (by omega)) (by rw [hWD]; omega)
/-- The page protections after `myfree` of a small object: unchanged, or one page more
is `PROT_NONE`. -/
theorem myfree_small_na {s s' : State} {h : Nat} (hm : myfree s (h + 16) = some s')
    (hsz : hSize s.mem h ≤ COMMIT_SIZE) :
    s'.noaccess = s.noaccess ∨
      s'.noaccess = setProt s.noaccess (ADDR_TO_PAGE (h + 16)) PAGE_SIZE true := by
  simp only [myfree, OBJ_HEADER_SIZE, Nat.add_sub_cancel, Option.bind_eq_bind,
    Option.bind_eq_some] at hm
  obtain ⟨Status, hS, hm⟩ := hm
  split at hm
  · exact absurd hm (by simp)
  · simp only [Option.bind_eq_some] at hm
    obtain ⟨Size, hZ, hm⟩ := hm
    have eZ' : Size = hSize s.mem h := (load32_inv hZ).1
    rw [if_neg (by rw [eZ']; omega)] at hm
    simp only [Option.bind_eq_some] at hm
    obtain ⟨old, hO, s1, h1, cur, hC, hm⟩ := hm
    obtain ⟨e1, _⟩ := store16_inv h1
    split at hm
    · simp only [Option.bind_eq_some] at hm
      obtain ⟨s2, h2, cur2, hC2, hm⟩ := hm
      obtain ⟨e2, _⟩ := store32_inv h2
      split at hm
      · right
        rw [reclaimMemory_inv hm, e2, e1]
      · left
        rw [← Option.some.inj hm, e2, e1]
    · exact absurd hm (by simp)

theorem createHole_na {s s' : State} {g : Nat} (hc : createHole s g = some s')
    (h1 : read64 s.mem g < read64 s.mem (g + 8))
    (h2 : read64 s.mem (g + 8) - read64 s.mem g ≤ PAGE_SIZE)
    (hg : g + 8 ≤ read64 s.mem g) :
    s'.noaccess = s.noaccess ∨
      s'.noaccess = setProt s.noaccess (ADDR_TO_PAGE (read64 s.mem g + 16)) PAGE_SIZE true := by
  have hC := read64_lt s.mem (g + 8)
  have eH : (read64 s.mem (g + 8) + WORD - read64 s.mem g) % WORD =
      read64 s.mem (g + 8) - read64 s.mem g := by
    have : read64 s.mem (g + 8) + WORD - read64 s.mem g =
        read64 s.mem (g + 8) - read64 s.mem g + WORD := by omega
    rw [this, Nat.add_mod_right, Nat.mod_eq_of_lt (by omega)]
  simp only [createHole, getAllocPtr, getCommitPtr, eH] at hc
  rw [if_pos (by omega)] at hc
  split at hc
  · simp only [Option.bind_eq_bind, Option.bind_eq_some] at hc
    obtain ⟨s1, hs1, s2, hs2, s3, hs3, hc⟩ := hc
    obtain ⟨e1, _⟩ := store32_inv hs1
    obtain ⟨e2, _⟩ := store32_inv hs2
    have hsz : hSize (setAllocPtr s2 g (read64 s.mem (g + 8))).mem (read64 s.mem g) ≤
        COMMIT_SIZE := by
      have : hSize (setAllocPtr s2 g (read64 s.mem (g + 8))).mem (read64 s.mem g) =
          read32 (write32 s.mem (read64 s.mem g) (read64 s.mem (g + 8) - read64 s.mem g))
            (read64 s.mem g) := by
        apply read32_congr
        intro x hx1 hx2
        rw [e2, e1]
        simp only [setAllocPtr, OBJ_HEADER_SIZE]
        rw [write64_ne _ _ _ _ (by omega), write32_ne _ _ _ _ (by omega)]
      rw [this, read32_write32]
      simp only [COMMIT_SIZE, PAGE_SIZE] at *
      omega
    simp only [OBJ_HEADER_SIZE] at hs3
    have hn := myfree_small_na hs3 hsz
    have e0 : (setAllocPtr s2 g (read64 s.mem (g + 8))).noaccess = s.noaccess := by
      rw [e2, e1]; rfl
    rw [e0] at hn
    rw [← Option.some.inj hc]
    exact hn
  · exact absurd hc (by simp)

/-- The hole that closes the page of `AllocPtr` in a ready segment. -/
theorem ready_hole {s : State} {g : Nat} (h : SmallReady s g)
    (hlt : read64 s.mem g < read64 s.mem (g + 8)) :
    ∃ s', createHole s g = some s' ∧ SmallReady s' g ∧
      read64 s'.mem g = read64 s.mem (g + 8) ∧ read64 s'.mem (g + 8) = read64 s.mem (g + 8) ∧
      s'.CurSegSmall = s.CurSegSmall ∧ s'.NumGCTriggered = s.NumGCTriggered ∧
      s'.TotalAlloc = s.TotalAlloc ∧ s'.mmapRet = s.mmapRet ∧ s'.Segments = s.Segments := by
  have hP4 : PAGE_SIZE = 4096 := rfl
  have hS4 : SEGMENT_SIZE = 4294967296 := rfl
  have hM := METADATA_SIZE_eq
  have hWD : WORD = 18446744073709551616 := rfl
  have hd := h.dataAlloc
  have hcr := h.commitReserve
  have hcp := h.commitPage
  have hgap := h.gap
  have ha8 := h.align8
  have hin := h.inWord
  have hal := h.aligned
  have hpa := h.pageAcc hlt
  have hc0 := h.counters (read64 s.mem g) (le_refl _) (by omega)
  obtain ⟨c1, c2⟩ := getSizeMetadata_data g (read64 s.mem g) hal hd (by omega) (le_of_lt hin)
  have hce := getSizeMetadata_eq g (read64 s.mem g) hal (by omega) (by omega) (le_of_lt hin)
  rw [hP4] at hcp hgap hce
  rw [hS4] at hcr hin hal
  rw [hM] at hd c2
  rw [hWD] at hin
  have hpg : ∀ y len, read64 s.mem g ≤ y → y + len ≤ read64 s.mem (g + 8) → 1 ≤ len →
      accessible s y len = true := by
    intro y len y1 y2 y3
    have e1 : y / PAGE_SIZE = read64 s.mem g / PAGE_SIZE := by rw [hP4]; omega
    have e2 : (y + len - 1) / PAGE_SIZE = read64 s.mem g / PAGE_SIZE := by rw [hP4]; omega
    simp only [accessible, e1, e2, hpa]
    rfl
  have hma : accessible s (getSizeMetadata (read64 s.mem g)) 2 = true := by
    have m1 := h.metaAcc (getSizeMetadata (read64 s.mem g) / PAGE_SIZE)
      (by rw [hP4]; omega) (by rw [hM, hP4]; omega)
    have m2 := h.metaAcc ((getSizeMetadata (read64 s.mem g) + 2 - 1) / PAGE_SIZE)
      (by rw [hP4]; omega) (by rw [hM, hP4]; omega)
    simp only [accessible, m1, m2]
    rfl
  unfold counterOf at hc0
  obtain ⟨s', hc⟩ := createHole_some s g hlt (by omega) (by rw [hP4]; exact hgap) (by omega)
    (by rw [hWD]; omega) (Or.inr (by omega)) (by omega) (hpg _ 4 (le_refl _) (by omega) (by omega))
    (hpg _ 4 (by omega) (by omega) (by omega)) hma (by rw [hc0, hP4]; omega)
  obtain ⟨_, na', _, e⟩ := createHole_inv hc hlt (by rw [hP4]; exact hgap) (by omega)
  have hn := createHole_na hc hlt (by rw [hP4]; exact hgap) (by omega)
  have hget := holeMem_get s.mem g (read64 s.mem g) (read64 s.mem (g + 8))
    (read64 s.mem (g + 8) - read64 s.mem g) (getSizeMetadata (read64 s.mem g))
  have halloc := holeMem_alloc s.mem g (read64 s.mem g) (read64 s.mem (g + 8))
    (read64 s.mem (g + 8) - read64 s.mem g) (getSizeMetadata (read64 s.mem g))
  generalize (read16 (write64 (write32 (write32 s.mem (read64 s.mem g)
      (read64 s.mem (g + 8) - read64 s.mem g)) (read64 s.mem g + 4) 0) g
      (read64 s.mem (g + 8))) (getSizeMetadata (read64 s.mem g)) +
      (read64 s.mem (g + 8) - read64 s.mem g)) = v at e
  have eA : read64 s'.mem g = read64 s.mem (g + 8) := by
    rw [e]; exact halloc v (by omega) (by omega) (read64_lt _ _)
  have eC : read64 s'.mem (g + 8) = read64 s.mem (g + 8) := by
    rw [e]
    exact read64_congr _ _ _ (fun x x1 x2 => hget v x (by omega) (by omega) (by omega))
  have hna : ∀ q, g / PAGE_SIZE ≤ q → q < (g + METADATA_SIZE) / PAGE_SIZE →
      s'.noaccess q = false := by
    intro q q1 q2
    rcases hn with hn | hn
    · rw [hn]; exact h.metaAcc q q1 q2
    · rw [hn]
      have hw16 : read64 s.mem g + 16 < WORD := by rw [hWD]; omega
      simp only [setProt]
      rw [if_neg, h.metaAcc q q1 q2]
      rw [ADDR_TO_PAGE_eq _ hw16, hP4]
      rw [hM, hP4] at q2
      omega
  have hcnt : ∀ x, read64 s.mem (g + 8) ≤ x → x < g + SEGMENT_SIZE →
      counterOf s'.mem x = counterOf s.mem x := by
    intro x x1 x2
    rw [hS4] at x2
    have hxe := getSizeMetadata_eq g x (by rw [hS4]; exact hal) (by omega)
      (by rw [hS4]; exact x2) (by rw [hS4, hWD]; omega)
    rw [hP4] at hxe
    unfold counterOf
    rw [e]
    apply read16_congr
    intro y y1 y2
    exact hget v y (by omega) (by omega) (by rw [hce]; omega)
  refine ⟨s', hc, ?_, eA, eC, by rw [e], by rw [e], by rw [e], by rw [e], by rw [e]⟩
  refine SmallReady_update h (read64 s.mem (g + 8)) (read64 s.mem (g + 8)) ?_ hcnt eA eC
    (le_of_lt hlt) (le_refl _) (by rw [hS4]; exact hcr) (by rw [hP4]; exact hcp)
    (by rw [Nat.sub_self]; exact Nat.zero_le _) (by omega) hna
    (fun hh => absurd hh (lt_irrefl _))
  intro x x1 x2
  rw [e]
  exact hget v x (by omega) (by omega) (by omega)
/-- One more page is committed in a ready segment whose `AllocPtr` is at `CommitPtr`. -/
theorem ready_extend {s : State} {g : Nat} (h : SmallReady s g)
    (hAC : read64 s.mem g = read64 s.mem (g + 8))
    (hroom : read64 s.mem (g + 8) + PAGE_SIZE ≤ g + SEGMENT_SIZE) :
    ∃ s', extendCommitSpace s g = some s' ∧ SmallReady s' g ∧
      read64 s'.mem g = read64 s.mem g ∧
      read64 s'.mem (g + 8) = read64 s.mem (g + 8) + PAGE_SIZE ∧
      s'.CurSegSmall = s.CurSegSmall ∧ s'.NumGCTriggered = s.NumGCTriggered ∧
      s'.TotalAlloc = s.TotalAlloc ∧ s'.mmapRet = s.mmapRet ∧ s'.Segments = s.Segments := by
  have hP4 : PAGE_SIZE = 4096 := rfl
  have hS4 : SEGMENT_SIZE = 4294967296 := rfl
  have hM := METADATA_SIZE_eq
  have hWD : WORD = 18446744073709551616 := rfl
  have hd := h.dataAlloc
  have hcp := h.commitPage
  have ha8 := h.align8
  have hin := h.inWord
  have hal := h.aligned
  rw [hP4] at hcp hroom
  rw [hS4] at hin hal hroom
  rw [hM] at hd
  rw [hWD] at hin
  have hget : ∀ x, ¬ (g + 8 ≤ x ∧ x < g + 16) →
      (write64 s.mem (g + 8) (read64 s.mem (g + 8) + COMMIT_SIZE)).get x = s.mem.get x :=
    fun x hx => write64_ne _ _ _ _ (by omega)
  have hmask : read64 s.mem (g + 8) &&& (PAGE_SIZE - 1) = 0 := by
    rw [land_page_mask]; exact hcp
  have hex : extendCommitSpace s g = some
      { s with noaccess := setProt s.noaccess (read64 s.mem (g + 8)) COMMIT_SIZE false
               mem := write64 s.mem (g + 8) (read64 s.mem (g + 8) + COMMIT_SIZE) } := by
    unfold extendCommitSpace
    simp only [getAllocPtr, getCommitPtr, getReservePtr, h.reserve]
    rw [if_pos hAC, if_pos (by show _ + 4096 ≤ g + SEGMENT_SIZE; rw [hS4]; exact hroom)]
    simp only [allowAccess, Option.bind_eq_bind]
    rw [if_pos ⟨rfl, hmask⟩]
    rfl
  refine ⟨_, hex, ?_, ?_, ?_, rfl, rfl, rfl, rfl, rfl⟩
  · refine SmallReady_update h (read64 s.mem g) (read64 s.mem (g + 8) + PAGE_SIZE)
      (fun x x1 x2 => hget x (by omega))
      (fun x x1 x2 => counterOf_congr_slots h.aligned h.inWord (by rw [hM]; omega) x2
        (fun y y1 y2 => hget y (by omega)))
      (read64_congr _ _ _ (fun x x1 x2 => hget x (by omega)))
      (by
        show read64 (write64 s.mem (g + 8) (read64 s.mem (g + 8) + 4096)) (g + 8) = _
        rw [read64_write64, Nat.mod_eq_of_lt (by rw [hWD]; omega)]; rfl)
      (le_refl _) (by rw [hP4]; omega) (by rw [hS4, hP4]; exact hroom) (by rw [hP4]; omega)
      (by rw [hP4]; omega) ha8 ?_ ?_
    · intro q q1 q2
      show setProt s.noaccess (read64 s.mem (g + 8)) COMMIT_SIZE false q = false
      simp only [setProt]
      rw [if_neg, h.metaAcc q q1 q2]
      rw [hM, hP4] at q2
      rw [hP4]
      omega
    · intro _
      show setProt s.noaccess (read64 s.mem (g + 8)) COMMIT_SIZE false _ = false
      simp only [setProt]
      rw [if_pos]
      rw [hAC, hP4]
      show read64 s.mem (g + 8) / 4096 ≤ read64 s.mem (g + 8) / 4096 ∧
        read64 s.mem (g + 8) / 4096 < (read64 s.mem (g + 8) + 4096) / 4096
      omega
  · exact read64_congr _ _ _ (fun x x1 x2 => hget x (by omega))
  · show read64 (write64 s.mem (g + 8) (read64 s.mem (g + 8) + 4096)) (g + 8) = _
    rw [read64_write64, Nat.mod_eq_of_lt (by rw [hWD]; omega)]; rfl

/-- In a ready segment with room for one more page `makeRoom` returns a position at which
the object fits. -/
theorem makeRoom_ready {s : State} {g sz : Nat} (h : SmallReady s g) (h24 : 24 ≤ sz)
    (hle : sz ≤ PAGE_SIZE)
    (hroom : read64 s.mem (g + 8) + PAGE_SIZE ≤ g + SEGMENT_SIZE) :
    ∃ s', makeRoom s g sz = some (s', some (read64 s'.mem g, read64 s'.mem g + sz)) ∧
      SmallReady s' g ∧ read64 s'.mem g + sz ≤ read64 s'.mem (g + 8) ∧
      read64 s'.mem g < read64 s.mem g + sz ∧
      s'.CurSegSmall = s.CurSegSmall ∧ s'.NumGCTriggered = s.NumGCTriggered ∧
      s'.TotalAlloc = s.TotalAlloc ∧ s'.mmapRet = s.mmapRet ∧ s'.Segments = s.Segments := by
  have hP4 : PAGE_SIZE = 4096 := rfl
  have hac := h.allocCommit
  by_cases hfit : read64 s.mem g + sz > read64 s.mem (g + 8)
  · have key : ∃ s1, ((read64 s.mem g ≠ read64 s.mem (g + 8) ∧ createHole s g = some s1) ∨
          (read64 s.mem g = read64 s.mem (g + 8) ∧ s1 = s)) ∧ SmallReady s1 g ∧
        read64 s1.mem g = read64 s.mem (g + 8) ∧ read64 s1.mem (g + 8) = read64 s.mem (g + 8) ∧
        s1.CurSegSmall = s.CurSegSmall ∧ s1.NumGCTriggered = s.NumGCTriggered ∧
        s1.TotalAlloc = s.TotalAlloc ∧ s1.mmapRet = s.mmapRet ∧ s1.Segments = s.Segments := by
      by_cases hne : read64 s.mem g ≠ read64 s.mem (g + 8)
      · obtain ⟨s1, e1, r⟩ := ready_hole h (by omega)
        exact ⟨s1, Or.inl ⟨hne, e1⟩, r⟩
      · exact ⟨s, Or.inr ⟨not_not.1 hne, rfl⟩, h, not_not.1 hne, rfl, rfl, rfl, rfl, rfl, rfl⟩
    obtain ⟨s1, e1, r1, a1, c1, f1, f2, f3, f4, f5⟩ := key
    obtain ⟨s2, e2, r2, a2, c2, k1, k2, k3, k4, k5⟩ := ready_extend r1 (a1.trans c1.symm)
      (by rw [c1]; exact hroom)
    refine ⟨s2, ?_, r2, by rw [a2, c2, a1, c1]; omega, by rw [a2, a1]; omega,
      k1.trans f1, k2.trans f2, k3.trans f3, k4.trans f4, k5.trans f5⟩
    have hfit2 : ¬ (read64 s2.mem g + sz > read64 s2.mem (g + 8)) := by
      rw [a2, c2, a1, c1]; omega
    unfold makeRoom
    simp only [getAllocPtr, getCommitPtr]
    rw [if_pos hfit]
    rcases e1 with ⟨hne, e1⟩ | ⟨he, e1⟩
    · rw [if_pos hne]
      simp only [Option.bind_eq_bind]
      rw [e1]
      simp only [Option.some_bind]
      rw [e2]
      simp only [Option.some_bind]
      rw [if_neg hfit2]
    · subst e1
      rw [if_neg (not_not.2 he)]
      simp only [Option.bind_eq_bind, Option.some_bind]
      rw [e2]
      simp only [Option.some_bind]
      rw [if_neg hfit2]
  · refine ⟨s, ?_, h, by omega, by omega, rfl, rfl, rfl, rfl, rfl⟩
    unfold makeRoom
    simp only [getAllocPtr, getCommitPtr]
    rw [if_neg hfit]
theorem smallSize_eq (n : Nat) (h1 : 1 ≤ n) (h2 : n ≤ 4080) :
    (Align n 8 + OBJ_HEADER_SIZE) % WORD = roundUp n 8 + 16 ∧ 24 ≤ roundUp n 8 + 16 ∧
      roundUp n 8 + 16 ≤ PAGE_SIZE ∧ (roundUp n 8 + 16) % 8 = 0 := by
  have hWD : WORD = 18446744073709551616 := rfl
  rw [Align_8_small n (by rw [hWD]; omega)]
  simp only [roundUp, OBJ_HEADER_SIZE, PAGE_SIZE, WORD]
  omega

/-- A small allocation in a ready segment that triggers no collection cycle returns and
leaves the segment ready. -/
theorem small_step (fuel : Nat) (env : RootEnv) (n : Nat) (s : State) (g : Nat)
    (h : SmallReady s g) (hcs : s.CurSegSmall = some g) (hn1 : 1 ≤ n) (hn2 : n ≤ 4080)
    (hT : s.TotalAlloc + (roundUp n 8 + 16) < GC_THRESHOLD)
    (hroom : read64 s.mem (g + 8) + PAGE_SIZE ≤ g + SEGMENT_SIZE) :
    ∃ p s', _mymalloc (fuel + 1) env n s = some (p, s') ∧ SmallReady s' g ∧
      s'.CurSegSmall = some g ∧ s'.TotalAlloc = s.TotalAlloc + (roundUp n 8 + 16) ∧
      s'.NumGCTriggered = s.NumGCTriggered ∧
      read64 s'.mem g < read64 s.mem g + 2 * (roundUp n 8 + 16) ∧
      s'.mmapRet = s.mmapRet ∧ s'.Segments = s.Segments := by
  obtain ⟨ea, h24, hle, h8⟩ := smallSize_eq n hn1 hn2
  generalize roundUp n 8 + 16 = a at *
  have hP4 : PAGE_SIZE = 4096 := rfl
  have hG : GC_THRESHOLD = 33554432 := rfl
  have hWD : WORD = 18446744073709551616 := rfl
  have hcheck : checkAndRunGC fuel env s a = some { s with TotalAlloc := s.TotalAlloc + a } := by
    unfold checkAndRunGC
    have e : (s.TotalAlloc + a) % WORD = s.TotalAlloc + a :=
      Nat.mod_eq_of_lt (by rw [hWD]; rw [hG] at hT; omega)
    simp only [e]
    rw [if_pos hT]
  obtain ⟨s0, hs0⟩ : ∃ s0, s0 = { s with TotalAlloc := s.TotalAlloc + a } := ⟨_, rfl⟩
  rw [← hs0] at hcheck
  have h0 : SmallReady s0 g := by
    rw [hs0]
    exact ⟨h.aligned, h.inWord, h.reserve, h.dataAlloc, h.allocCommit, h.commitReserve,
      h.commitPage, h.gap, h.align8, h.metaAcc, h.pageAcc, h.counters⟩
  have hcs0 : s0.CurSegSmall = some g := by rw [hs0]; exact hcs
  have hm0 : s0.mem = s.mem := by rw [hs0]
  have hroom0 : read64 s0.mem (g + 8) + PAGE_SIZE ≤ g + SEGMENT_SIZE := by rw [hm0]; exact hroom
  obtain ⟨s1, e1, r1, fit1, lt1, f1, f2, f3, f4, f5⟩ := makeRoom_ready h0 h24 hle hroom0
  obtain ⟨s2, e2, r2, a2, k1, k2, k3, k4, k5⟩ := ready_fit r1 h24 h8 fit1
  rw [hm0] at lt1
  refine ⟨read64 s1.mem g + 16, s2, ?_, r2, k1.trans (f1.trans hcs0), ?_, ?_, ?_, ?_, ?_⟩
  · unfold _mymalloc
    simp only [Option.bind_eq_bind]
    rw [ea, hcheck]
    simp only [Option.some_bind]
    rw [if_neg (by show ¬ (a > 4096); rw [hP4] at hle; omega), if_pos (by omega)]
    simp only [hcs0, Option.some_bind]
    rw [e1]
    simp only [Option.some_bind]
    exact e2
  · rw [k3, f3, hs0]
  · rw [k2, f2, hs0]
  · rw [a2]; omega
  · rw [k4, f4, hs0]
  · rw [k5, f5, hs0]
/-- With a usable `mmap` result pending, `allocateSegment` returns. -/
theorem allocateSegment_some (B : Nat) (s : State) (Base : Nat) (rest : List Nat)
    (hb : s.mmapRet = Base :: rest) (h1 : Base % PAGE_SIZE = 0)
    (h2 : Base + 2 * SEGMENT_SIZE < WORD) :
    ∃ s', allocateSegment B s = some (Align Base SEGMENT_SIZE, s') := by
  obtain ⟨a1, a2, a3⟩ := Align_segment_spec Base h1 h2
  have hmask : Align Base SEGMENT_SIZE &&& (PAGE_SIZE - 1) = 0 := by
    rw [land_page_mask]
    generalize Align Base SEGMENT_SIZE = seg at a1 ⊢
    rw [show SEGMENT_SIZE = 4294967296 from rfl] at a1
    omega
  unfold allocateSegment
  split
  · rename_i heq
    rw [hb] at heq
    exact absurd heq (by simp)
  · rename_i Base' rest' heq
    rw [hb] at heq
    simp only [List.cons.injEq] at heq
    obtain ⟨e1, e2⟩ := heq
    subst e1
    simp only [allowAccess, Option.bind_eq_bind]
    rw [if_pos ⟨by decide, hmask⟩]
    exact ⟨_, rfl⟩

/-- A segment just created by `allocateSegment` is ready. -/
theorem fresh_ready (m : Mem) (na : Nat → Bool) (Base seg : Nat) (s' : State)
    (h1 : Base % PAGE_SIZE = 0) (h2 : Base + 2 * SEGMENT_SIZE < WORD)
    (hseg : seg = Align Base SEGMENT_SIZE) (hm : s'.mem = segMem m Base seg 0)
    (hna : s'.noaccess =
      setProt (setProt na Base (SEGMENT_SIZE * 2) true) seg METADATA_SIZE false) :
    SmallReady s' seg ∧ read64 s'.mem seg = seg + METADATA_SIZE ∧
      read64 s'.mem (seg + 8) = seg + METADATA_SIZE := by
  obtain ⟨a1, a2, a3⟩ := Align_segment_spec Base h1 h2
  rw [← hseg] at a1 a2 a3
  have hP4 : PAGE_SIZE = 4096 := rfl
  have hS4 : SEGMENT_SIZE = 4294967296 := rfl
  have hM := METADATA_SIZE_eq
  have hWD : WORD = 18446744073709551616 := rfl
  rw [hP4] at h1 a3
  rw [hS4] at h2 a1 a3
  rw [hWD] at h2
  have eA : read64 s'.mem seg = seg + METADATA_SIZE := by
    rw [hm]; exact segMem_alloc _ _ _ _ (by rw [hM, hWD]; omega)
  have eC : read64 s'.mem (seg + 8) = seg + METADATA_SIZE := by
    rw [hm]; exact segMem_commit _ _ _ _ (by rw [hM, hWD]; omega)
  refine ⟨⟨by rw [hS4]; exact a1, by rw [hS4, hWD]; omega, ?_, ?_, ?_, ?_, ?_, ?_, ?_, ?_, ?_, ?_⟩,
    eA, eC⟩
  · rw [hm]; exact segMem_reserve _ _ _ _ (by rw [hS4, hWD]; omega)
  · rw [eA]
  · rw [eA, eC]
  · rw [eC, hM, hS4]; omega
  · rw [eC, hM, hP4]; omega
  · rw [eA, eC, Nat.sub_self]; exact Nat.zero_le _
  · rw [eA, hM]; omega
  · intro q q1 q2
    rw [hna]
    simp only [setProt]
    rw [if_pos ⟨q1, q2⟩]
  · intro hlt
    rw [eA, eC] at hlt
    exact absurd hlt (lt_irrefl _)
  · intro x x1 x2
    rw [eA] at x1
    obtain ⟨c1, c2⟩ := getSizeMetadata_data seg x (by rw [hS4]; exact a1) x1 x2
      (by rw [hS4, hWD]; omega)
    rw [hM] at c2
    unfold counterOf
    rw [hm]
    have z1 := segMem_zero m Base seg 0 (getSizeMetadata x) (by omega) (by rw [hS4]; omega) a2
    have z2 := segMem_zero m Base seg 0 (getSizeMetadata x + 1) (by omega) (by rw [hS4]; omega) a2
    simp only [read16, read8, z1, z2]

/-- The first small allocation of a process: the segment is created and the object is
put at its start. -/
theorem first_step (fuel : Nat) (env : RootEnv) (n : Nat) (s : State) (Base : Nat)
    (rest : List Nat) (hcs : s.CurSegSmall = none) (hb : s.mmapRet = Base :: rest)
    (h1 : Base % PAGE_SIZE = 0) (h2 : Base + 2 * SEGMENT_SIZE < WORD)
    (hn1 : 1 ≤ n) (hn2 : n ≤ 4080)
    (hT : s.TotalAlloc + (roundUp n 8 + 16) < GC_THRESHOLD) :
    ∃ p s', _mymalloc (fuel + 1) env n s = some (p, s') ∧
      SmallReady s' (Align Base SEGMENT_SIZE) ∧
      s'.CurSegSmall = some (Align Base SEGMENT_SIZE) ∧
      s'.TotalAlloc = s.TotalAlloc + (roundUp n 8 + 16) ∧
      s'.NumGCTriggered = s.NumGCTriggered ∧
      read64 s'.mem (Align Base SEGMENT_SIZE) <
        Align Base SEGMENT_SIZE + METADATA_SIZE + 2 * (roundUp n 8 + 16) := by
  obtain ⟨ea, h24, hle, h8⟩ := smallSize_eq n hn1 hn2
  generalize roundUp n 8 + 16 = a at *
  have hP4 : PAGE_SIZE = 4096 := rfl
  have hG : GC_THRESHOLD = 33554432 := rfl
  have hWD : WORD = 18446744073709551616 := rfl
  have hS4 : SEGMENT_SIZE = 4294967296 := rfl
  have hM := METADATA_SIZE_eq
  have hcheck : checkAndRunGC fuel env s a = some { s with TotalAlloc := s.TotalAlloc + a } := by
    unfold checkAndRunGC
    have e : (s.TotalAlloc + a) % WORD = s.TotalAlloc + a :=
      Nat.mod_eq_of_lt (by rw [hWD]; rw [hG] at hT; omega)
    simp only [e]
    rw [if_pos hT]
  obtain ⟨s0, hs0⟩ : ∃ s0, s0 = { s with TotalAlloc := s.TotalAlloc + a } := ⟨_, rfl⟩
  rw [← hs0] at hcheck
  have hcs0 : s0.CurSegSmall = none := by rw [hs0]; exact hcs
  have hb0 : s0.mmapRet = Base :: rest := by rw [hs0]; exact hb
  obtain ⟨sa, hsa⟩ := allocateSegment_some 0 s0 Base rest hb0 h1 h2
  obtain ⟨Base', rest', hb', _, esa⟩ := allocateSegment_inv hsa
  rw [hb0] at hb'
  simp only [List.cons.injEq] at hb'
  obtain ⟨eB, eR⟩ := hb'
  subst eB
  obtain ⟨a1, a2, a3⟩ := Align_segment_spec Base h1 h2
  obtain ⟨seg, hseg⟩ : ∃ seg, seg = Align Base SEGMENT_SIZE := ⟨_, rfl⟩
  rw [← hseg] at hsa esa a1 a2 a3 ⊢
  obtain ⟨sb, hsb⟩ : ∃ sb, sb = { sa with CurSegSmall := some seg } := ⟨_, rfl⟩
  obtain ⟨rb, eA, eC⟩ := fresh_ready s0.mem s0.noaccess Base seg sb h1 h2
    hseg (by rw [hsb, esa]) (by rw [hsb, esa])
  rw [hS4, hP4] at a3
  obtain ⟨s1, e1, r1, fit1, lt1, f1, f2, f3, f4, f5⟩ := makeRoom_ready rb h24 hle
    (by rw [eC, hM, hS4, hP4]; omega)
  obtain ⟨s2, e2, r2, a2', k1, k2, k3, k4, k5⟩ := ready_fit r1 h24 h8 fit1
  refine ⟨read64 s1.mem seg + 16, s2, ?_, r2, ?_, ?_, ?_, ?_⟩
  · unfold _mymalloc
    simp only [Option.bind_eq_bind]
    rw [ea, hcheck]
    simp only [Option.some_bind]
    rw [if_neg (by show ¬ (a > 4096); rw [hP4] at hle; omega), if_pos (by omega)]
    simp only [hcs0, Option.bind_eq_bind]
    rw [hsa]
    simp only [Option.some_bind]
    rw [← hsb, e1]
    simp only [Option.some_bind]
    exact e2
  · rw [k1, f1, hsb]
  · rw [k3, f3, hsb, esa, hs0]
  · rw [k2, f2, hsb, esa, hs0]
  · rw [a2']
    rw [eA] at lt1
    omega
/-! ## Fields that the small allocation path does not touch -/

theorem createHole_same {s s' : State} {g : Nat} (h : createHole s g = some s') :
    GCSame s s' := by
  unfold createHole at h
  dsimp only at h
  split at h
  · split at h
    · simp only [Option.bind_eq_bind, Option.bind_eq_some] at h
      obtain ⟨s1, h1, s2, h2, s3, h3, h4⟩ := h
      have a := GCSame_trans (store32_same h1) (store32_same h2)
      have b := myfree_same h3
      rw [← Option.some.inj h4]
      exact ⟨b.segs.trans a.segs, b.cs.trans a.cs, b.cb.trans a.cb, b.bases.trans a.bases,
        b.alloc.trans a.alloc, b.gcs.trans a.gcs, b.total.trans a.total⟩
    · exact absurd h (by simp)
  · rw [← Option.some.inj h]; exact GCSame_refl s

theorem extendCommitSpace_same {s s' : State} {g : Nat} (h : extendCommitSpace s g = some s') :
    GCSame s s' := by
  unfold extendCommitSpace at h
  dsimp only at h
  split at h
  · split at h
    · simp only [allowAccess, Option.bind_eq_bind, Option.bind_eq_some] at h
      obtain ⟨s1, h1, h2⟩ := h
      split at h1
      · rw [← Option.some.inj h2, ← Option.some.inj h1]
        exact ⟨rfl, rfl, rfl, rfl, rfl, rfl, rfl⟩
      · exact absurd h1 (by simp)
    · split at h
      · rw [← Option.some.inj h]; exact GCSame_refl s
      · exact absurd h (by simp)
  · exact absurd h (by simp)

theorem makeRoom_same {s s1 : State} {g sz : Nat} {r : Option (Nat × Nat)}
    (hm : makeRoom s g sz = some (s1, r)) : GCSame s s1 := by
  unfold makeRoom at hm
  simp only [getAllocPtr, getCommitPtr] at hm
  split at hm
  · have key : ∃ sa sb, GCSame s sa ∧ extendCommitSpace sa g = some sb ∧
        (if read64 sb.mem g + sz > read64 sb.mem (g + 8) then some (sb, none)
          else some (sb, some (read64 sb.mem g, read64 sb.mem g + sz))) = some (s1, r) := by
      split at hm
      · simp only [Option.bind_eq_bind, Option.bind_eq_some] at hm
        obtain ⟨sa, ha, sb, hb, hm⟩ := hm
        exact ⟨sa, sb, createHole_same ha, hb, hm⟩
      · simp only [Option.bind_eq_bind, Option.some_bind, Option.bind_eq_some] at hm
        obtain ⟨sb, hb, hm⟩ := hm
        exact ⟨s, sb, GCSame_refl s, hb, hm⟩
    obtain ⟨sa, sb, ga, hb, hm⟩ := key
    have gb := GCSame_trans ga (extendCommitSpace_same hb)
    split at hm
    · simp only [Option.some.injEq, Prod.mk.injEq] at hm
      rw [← hm.1]; exact gb
    · simp only [Option.some.injEq, Prod.mk.injEq] at hm
      rw [← hm.1]; exact gb
  · simp only [Option.some.injEq, Prod.mk.injEq] at hm
    rw [← hm.1]; exact GCSame_refl s

/-- `makeRoom` reports a full segment only when `CommitPtr` is at the end of the
segment. -/
theorem makeRoom_none {s s1 : State} {g t sz : Nat}
    (hI : SegInv s.mem s.noaccess g t) (hf : read32 s.mem (g + 32) = 0)
    (hgap : read64 s.mem (g + 8) - read64 s.mem g < PAGE_SIZE) (hsz : sz ≤ PAGE_SIZE)
    (hm : makeRoom s g sz = some (s1, none)) :
    read64 s.mem (g + 8) = g + SEGMENT_SIZE := by
  unfold makeRoom at hm
  simp only [getAllocPtr, getCommitPtr] at hm
  split at hm
  · have key : ∃ sa sb, (SegInv sa.mem sa.noaccess g t ∧ read32 sa.mem (g + 32) = 0 ∧
        read64 sa.mem g = read64 s.mem (g + 8) ∧
        read64 sa.mem (g + 8) = read64 s.mem (g + 8)) ∧
        extendCommitSpace sa g = some sb ∧
        (if read64 sb.mem g + sz > read64 sb.mem (g + 8) then some (sb, none)
          else some (sb, some (read64 sb.mem g, read64 sb.mem g + sz))) =
          some (s1, (none : Option (Nat × Nat))) := by
      split at hm
      · simp only [Option.bind_eq_bind, Option.bind_eq_some] at hm
        obtain ⟨sa, ha, sb, hb, hm⟩ := hm
        obtain ⟨fa, ia, a1, a2, _⟩ := createHole_spec hI hf (le_of_lt hgap) ha
        exact ⟨sa, sb, ⟨ia, fa.flag.trans hf, a1, a2⟩, hb, hm⟩
      · rename_i he
        simp only [Option.bind_eq_bind, Option.some_bind, Option.bind_eq_some] at hm
        obtain ⟨sb, hb, hm⟩ := hm
        exact ⟨s, sb, ⟨hI, hf, not_not.mp he, rfl⟩, hb, hm⟩
    obtain ⟨sa, sb, ⟨ia, fa, a1, a2⟩, hb, hm⟩ := key
    obtain ⟨_, _, b1, b2, b3, _⟩ := extendCommitSpace_spec ia fa hb
    split at hm
    · rename_i hfull
      rcases b3 with b3 | b3
      · exfalso; omega
      · rw [← a2]; exact b3.2
    · simp only [Option.some.injEq, Prod.mk.injEq] at hm
      exact absurd hm.2 (by simp)
  · simp only [Option.some.injEq, Prod.mk.injEq] at hm
    exact absurd hm.2 (by simp)
/-- A small allocation whose current segment has just been created runs no collection
cycle when the running total stays below the threshold. -/
theorem _mymalloc_fresh_gcs (fuel : Nat) (env : RootEnv) (n : Nat) (s : State) (g t : Nat)
    (p : Nat) (s' : State) (hcs : s.CurSegSmall = some g)
    (hI : SegInv s.mem s.noaccess g t) (hf : read32 s.mem (g + 32) = 0)
    (hA : read64 s.mem g = g + METADATA_SIZE) (hC : read64 s.mem (g + 8) = g + METADATA_SIZE)
    (hle : (Align n 8 + OBJ_HEADER_SIZE) % WORD ≤ COMMIT_SIZE)
    (hT : s.TotalAlloc + (Align n 8 + OBJ_HEADER_SIZE) % WORD < GC_THRESHOLD)
    (h : _mymalloc fuel env n s = some (p, s')) :
    s'.NumGCTriggered = s.NumGCTriggered := by
  cases fuel with
  | zero => exact absurd h (by simp [_mymalloc])
  | succ k =>
    have hWD : WORD = 18446744073709551616 := rfl
    have hG : GC_THRESHOLD = 33554432 := rfl
    unfold _mymalloc at h
    simp only [Option.bind_eq_bind] at h
    generalize (Align n 8 + OBJ_HEADER_SIZE) % WORD = a at *
    have hcheck : checkAndRunGC k env s a = some { s with TotalAlloc := s.TotalAlloc + a } := by
      unfold checkAndRunGC
      have e : (s.TotalAlloc + a) % WORD = s.TotalAlloc + a :=
        Nat.mod_eq_of_lt (by rw [hWD]; rw [hG] at hT; omega)
      simp only [e]
      rw [if_pos hT]
    obtain ⟨s0, hs0⟩ : ∃ s0, s0 = { s with TotalAlloc := s.TotalAlloc + a } := ⟨_, rfl⟩
    rw [← hs0] at hcheck
    have hcs0 : s0.CurSegSmall = some g := by rw [hs0]; exact hcs
    have hm0 : s0.mem = s.mem := by rw [hs0]
    have hn0 : s0.noaccess = s.noaccess := by rw [hs0]
    have hg0 : s0.NumGCTriggered = s.NumGCTriggered := by rw [hs0]
    rw [hcheck] at h
    simp only [Option.some_bind] at h
    rw [if_neg (by show ¬ (a > COMMIT_SIZE); omega)] at h
    split at h
    · simp only [hcs0, Option.some_bind, Option.bind_eq_some] at h
      obtain ⟨⟨s2, r⟩, hm, h⟩ := h
      have g2 := makeRoom_same hm
      cases r with
      | none =>
        exfalso
        have := makeRoom_none (by rw [hm0, hn0]; exact hI) (by rw [hm0]; exact hf)
          (by rw [hm0, hA, hC, Nat.sub_self]; decide) (show a ≤ PAGE_SIZE from hle) hm
        rw [hm0, hC, METADATA_SIZE_eq, show SEGMENT_SIZE = 4294967296 from rfl] at this
        omega
      | some pr =>
        obtain ⟨A, NA⟩ := pr
        dsimp only at h
        obtain ⟨_, _, _, e⟩ := writeObject_inv h
        rw [e]
        exact g2.gcs.trans hg0
    · exact absurd h (by simp)

/-- After `checkAndRunGC` the rest of a small allocation runs no collection cycle: the
object goes into the current segment or, when that is full, into a new one. -/
theorem _mymalloc_small_gcs (k : Nat) (env : RootEnv) (n : Nat) (s s1 : State) (p : Nat)
    (s' : State) (tot : Nat → Nat)
    (hc : checkAndRunGC k env s ((Align n 8 + OBJ_HEADER_SIZE) % WORD) = some s1)
    (hI : Inv s1 tot) (hle : (Align n 8 + OBJ_HEADER_SIZE) % WORD ≤ COMMIT_SIZE)
    (hT : s1.TotalAlloc + (Align n 8 + OBJ_HEADER_SIZE) % WORD < GC_THRESHOLD)
    (h : _mymalloc (k + 1) env n s = some (p, s')) :
    s'.NumGCTriggered = s1.NumGCTriggered := by
  have tail : ∀ (g : Nat) (s2 : State) (tot2 : Nat → Nat), Inv s2 tot2 →
      s2.CurSegSmall = some g → s2.TotalAlloc = s1.TotalAlloc →
      ((makeRoom s2 g ((Align n 8 + OBJ_HEADER_SIZE) % WORD)).bind fun x =>
        match x with
        | (s, none) => (allocateSegment 0 s).bind fun d =>
            _mymalloc k env n { d.2 with CurSegSmall := some d.1 }
        | (s, some (AllocPtr, NewAllocPtr)) =>
            writeObject s g AllocPtr NewAllocPtr ((Align n 8 + OBJ_HEADER_SIZE) % WORD)) =
        some (p, s') →
      s'.NumGCTriggered = s2.NumGCTriggered := by
    intro g s2 tot2 hI2 hcs hT2 h
    obtain ⟨hg, hf⟩ := hI2.curSmall g hcs
    have hSI := hI2.segInv g hg
    simp only [Option.bind_eq_some] at h
    obtain ⟨⟨s3, r⟩, hm, h⟩ := h
    have g3 := makeRoom_same hm
    obtain ⟨hF, hS3, ea, ef, hnone, hsome⟩ := makeRoom_spec hSI hf (hI2.gap g hg hf)
      (show _ ≤ PAGE_SIZE from hle) hm
    cases r with
    | none =>
      dsimp only at h
      simp only [Option.bind_eq_some] at h
      obtain ⟨⟨Seg, s4⟩, ha, h⟩ := h
      have hI3 : Inv s3 (Function.update tot2 g (tot2 g)) :=
        Inv_frame hI2 hg hF hS3 (by intro _; rw [hnone rfl, Nat.sub_self]; decide)
          (by rw [ea, ef])
      have hI4 := allocateSegment_Inv_small hI3 ha
      obtain ⟨hg4, hf4⟩ := hI4.curSmall Seg rfl
      have hS4 := hI4.segInv Seg hg4
      obtain ⟨Base, rest, _, _, e4⟩ := allocateSegment_inv ha
      have hw := hS4.1.inWord
      have hw' : Seg + METADATA_SIZE < WORD := by
        rw [METADATA_SIZE_eq]
        rw [show SEGMENT_SIZE = 4294967296 from rfl] at hw
        omega
      have := _mymalloc_fresh_gcs k env n { s4 with CurSegSmall := some Seg } Seg _ p s' rfl
        hS4 hf4
        (by show read64 s4.mem Seg = _; rw [e4]; exact segMem_alloc _ _ _ _ hw')
        (by show read64 s4.mem (Seg + 8) = _; rw [e4]; exact segMem_commit _ _ _ _ hw')
        hle
        (by show s4.TotalAlloc + _ < _; rw [e4]; show s3.TotalAlloc + _ < _
            rw [g3.total, hT2]; exact hT)
        h
      rw [this]
      show s4.NumGCTriggered = _
      rw [e4]
      exact g3.gcs
    | some pr =>
      obtain ⟨A, NA⟩ := pr
      dsimp only at h
      obtain ⟨_, _, _, e⟩ := writeObject_inv h
      rw [e]
      exact g3.gcs
  unfold _mymalloc at h
  simp only [Option.bind_eq_bind] at h
  rw [hc] at h
  simp only [Option.some_bind] at h
  rw [if_neg (by show ¬ (_ > COMMIT_SIZE); omega)] at h
  split at h
  · split at h
    · rename_i g hcs
      exact tail g s1 tot hI hcs rfl h
    · obtain ⟨⟨Seg, sA⟩, ha, h⟩ := Option.bind_eq_some.1 h
      obtain ⟨Base, rest, _, _, eA⟩ := allocateSegment_inv ha
      have := tail Seg _ _ (allocateSegment_Inv_small hI ha) rfl (by rw [eA]) h
      rw [this]
      show sA.NumGCTriggered = _
      rw [eA]
  · exact absurd h (by simp)
/-! ## The threshold scenario -/

/-- As long as the running total stays below the threshold, successive small allocations
from a fresh process all return and run no collection cycle. -/
theorem mallocMany_below (m : Mem) (Base : Nat) (rest : List Nat) (env : RootEnv)
    (fuel n : Nat) (hb : MmapOK [] (Base :: rest)) (hn1 : 1 ≤ n) (hn2 : n ≤ 4080) :
    ∀ k, k * (roundUp n 8 + 16) < GC_THRESHOLD →
      ∃ s, mallocMany (fuel + 1) env n k (initState m (Base :: rest)) = some s ∧
        s.NumGCTriggered = 0 ∧ s.TotalAlloc = k * (roundUp n 8 + 16) ∧ Reachable s ∧
        (k = 0 ∨ ∃ g, SmallReady s g ∧ s.CurSegSmall = some g ∧
          read64 s.mem g ≤ g + METADATA_SIZE + 2 * (k * (roundUp n 8 + 16))) := by
  obtain ⟨_, h24, hle, _⟩ := smallSize_eq n hn1 hn2
  obtain ⟨hB1, hB2, _⟩ := hb.1 Base (List.mem_cons_self _ _)
  have hP4 : PAGE_SIZE = 4096 := rfl
  have hG : GC_THRESHOLD = 33554432 := rfl
  have hS4 : SEGMENT_SIZE = 4294967296 := rfl
  have hM := METADATA_SIZE_eq
  have hnW : n < WORD := by
    rw [show WORD = 18446744073709551616 from rfl]; omega
  have fs := first_step fuel env n
  have ss := small_step fuel env n
  obtain ⟨a, ha⟩ : ∃ a, a = roundUp n 8 + 16 := ⟨_, rfl⟩
  rw [← ha] at h24 hle fs ss ⊢
  clear ha
  intro k
  induction k with
  | zero =>
    intro _
    exact ⟨_, rfl, rfl, by simp [initState], Reachable.init m _ hb, Or.inl rfl⟩
  | succ k ih =>
    intro hk
    have hk' : k * a < GC_THRESHOLD := by
      rw [Nat.add_mul] at hk; omega
    obtain ⟨s, hm, hg, ht, hr, hd⟩ := ih hk'
    have hT : s.TotalAlloc + a < GC_THRESHOLD := by
      rw [ht]; rw [Nat.add_mul] at hk; omega
    have key : ∃ p s', _mymalloc (fuel + 1) env n s = some (p, s') ∧
        s'.TotalAlloc = s.TotalAlloc + a ∧ s'.NumGCTriggered = s.NumGCTriggered ∧
        ∃ g, SmallReady s' g ∧ s'.CurSegSmall = some g ∧
          read64 s'.mem g ≤ g + METADATA_SIZE + 2 * ((k + 1) * a) := by
      rcases hd with h0 | ⟨g, rd, hcs, hbd⟩
      · subst h0
        have es : s = initState m (Base :: rest) := (Option.some.inj hm).symm
        obtain ⟨p, s', e, r1, c1, t1, g1, b1⟩ := fs s Base rest
          (by rw [es]; rfl) (by rw [es]; rfl) hB1 hB2 hn1 hn2 hT
        exact ⟨p, s', e, t1, g1, _, r1, c1, by omega⟩
      · have hgp := rd.gap
        rw [hP4] at hgp
        rw [hG] at hk'
        obtain ⟨p, s', e, r1, c1, t1, g1, b1, _⟩ := ss s g rd hcs hn1 hn2 hT
          (by rw [hP4, hS4]; rw [hM] at hbd; omega)
        refine ⟨p, s', e, t1, g1, g, r1, c1, ?_⟩
        rw [Nat.add_mul]
        omega
    obtain ⟨p, s', e, t1, g1, hd'⟩ := key
    refine ⟨s', ?_, g1.trans hg, ?_, Reachable.malloc s s' _ env n p hr hnW e, Or.inr hd'⟩
    · simp only [mallocMany, Option.bind_eq_bind]
      rw [hm]
      simp only [Option.some_bind]
      rw [e]
      rfl
    · rw [t1, ht, Nat.add_mul]
      omega

/-- The call that takes the running total to the threshold: `checkAndRunGC` is one call
of `_runGC`, and when the allocation returns exactly one cycle has run. -/
theorem threshold_call (fuel : Nat) (env : RootEnv) (n : Nat) (s : State) (hr : Reachable s)
    (hg0 : s.NumGCTriggered = 0) (hn1 : 1 ≤ n) (hn2 : n ≤ 4080)
    (hT1 : s.TotalAlloc < GC_THRESHOLD)
    (hT2 : GC_THRESHOLD ≤ s.TotalAlloc + (roundUp n 8 + 16)) :
    checkAndRunGC fuel env s (roundUp n 8 + 16) = _runGC fuel env { s with TotalAlloc := 0 } ∧
    ∀ p s', _mymalloc (fuel + 1) env n s = some (p, s') → s'.NumGCTriggered = 1 := by
  obtain ⟨ea, h24, hle, _⟩ := smallSize_eq n hn1 hn2
  have hP4 : PAGE_SIZE = 4096 := rfl
  have hG : GC_THRESHOLD = 33554432 := rfl
  have hWD : WORD = 18446744073709551616 := rfl
  obtain ⟨a, ha⟩ : ∃ a, a = roundUp n 8 + 16 := ⟨_, rfl⟩
  rw [← ha] at ea h24 hle hT2 ⊢
  clear ha
  have hcheck : checkAndRunGC fuel env s a = _runGC fuel env { s with TotalAlloc := 0 } := by
    unfold checkAndRunGC
    have e : (s.TotalAlloc + a) % WORD = s.TotalAlloc + a :=
      Nat.mod_eq_of_lt (by rw [hWD]; rw [hG] at hT1; rw [hP4] at hle; omega)
    simp only [e]
    rw [if_neg (by omega)]
  refine ⟨hcheck, ?_⟩
  intro p s' h
  obtain ⟨tot, hI⟩ := Reachable_Inv hr
  cases hc : checkAndRunGC fuel env s ((Align n 8 + OBJ_HEADER_SIZE) % WORD) with
  | none =>
    unfold _mymalloc at h
    simp only [Option.bind_eq_bind] at h
    rw [hc] at h
    exact absurd h (by simp)
  | some s1 =>
    obtain ⟨tot1, hI1⟩ := checkAndRunGC_Inv hI hc
    have hgc : _runGC fuel env { s with TotalAlloc := 0 } = some s1 := by
      rw [← hcheck, ← ea]; exact hc
    obtain ⟨_, _, _, _, _, g1, t1⟩ := _runGC_same hgc
    have := _mymalloc_small_gcs fuel env n s s1 p s' tot1 hc hI1
      (by rw [ea]; exact hle) (by rw [ea, t1]; show 0 + a < _; rw [hG]; rw [hP4] at hle; omega) h
    rw [this, g1]
    show s.NumGCTriggered + 1 = 1
    rw [hg0]
    rfl

/-! ## A cycle that marks nothing -/

/-- A word that lies in no segment's `[DataPtr, AllocPtr]` is passed over. -/
theorem markValidObject_miss (fuel : Nat) (s : State) (p W : Nat)
    (hl : load64 s p = some W) (hf : findSegment s W s.Segments = none) :
    markValidObject fuel s p = some s := by
  simp [markValidObject, hl, hf]

theorem scanRange_noCandidate (fuel : Nat) (s : State) : ∀ count p,
    noCandidate s count p = true → scanRange fuel count p s = some s := by
  intro count
  induction count with
  | zero => intro p _; rfl
  | succ n ih =>
    intro p h
    simp only [noCandidate, Bool.and_eq_true] at h
    obtain ⟨h1, h2⟩ := h
    cases hl : load64 s p with
    | none => rw [hl] at h1; exact absurd h1 (by simp)
    | some W =>
      rw [hl] at h1
      simp only [Option.isNone_iff_eq_none] at h1
      simp only [scanRange]
      rw [markValidObject_miss fuel s p W hl h1]
      simp only [Option.bind_eq_bind, Option.some_bind]
      exact ih (p + 1) h2

theorem findSegment_congr {s s' : State} (hm : s'.mem = s.mem) (W : Nat) :
    ∀ L, findSegment s' W L = findSegment s W L := by
  intro L
  induction L with
  | nil => rfl
  | cons g L ih => simp only [findSegment, getDataPtr, getAllocPtr, hm, ih]

theorem load64_congr {s s' : State} (hm : s'.mem = s.mem) (hn : s'.noaccess = s.noaccess)
    (a : Nat) : load64 s' a = load64 s a := by
  simp only [load64, accessible, hm, hn]

theorem load32_congr {s s' : State} (hm : s'.mem = s.mem) (hn : s'.noaccess = s.noaccess)
    (a : Nat) : load32 s' a = load32 s a := by
  simp only [load32, accessible, hm, hn]

theorem noCandidate_congr {s s' : State} (hm : s'.mem = s.mem) (hn : s'.noaccess = s.noaccess)
    (hs : s'.Segments = s.Segments) :
    ∀ count p, noCandidate s' count p = noCandidate s count p := by
  intro count
  induction count with
  | zero => intro p; rfl
  | succ n ih =>
    intro p
    simp only [noCandidate, load64_congr hm hn, findSegment_congr hm, hs, ih]

theorem skipGCFrame_congr {s s' : State} (hm : s'.mem = s.mem) (hn : s'.noaccess = s.noaccess)
    (Bottom : Nat) : ∀ k Top, skipGCFrame s' Bottom k Top = skipGCFrame s Bottom k Top := by
  intro k
  induction k with
  | zero => intro Top; rfl
  | succ n ih =>
    intro Top
    simp only [skipGCFrame, load32_congr hm hn, ih]

/-- Scanning a root range that holds no candidate changes nothing but the counter that
`scanRoots` resets. -/
theorem scanRoots_noCandidate (fuel : Nat) (s s0 : State) (Top Bottom : Nat)
    (hm : s.mem = s0.mem) (hn : s.noaccess = s0.noaccess) (hs : s.Segments = s0.Segments)
    (h : noCandidate s0 (Bottom + 1 - (Top + 8)) Top = true) :
    scanRoots fuel s Top Bottom = some { s with unscannedListCount := 0 } := by
  unfold scanRoots
  apply scanRange_noCandidate
  rw [← h]
  exact @noCandidate_congr s0 { s with unscannedListCount := 0 } hm hn hs _ _

/-- Without the `Unscanned` list `scanner` does not return: it reads `Unscanned->Head`. -/
theorem scanner_absent (fuel : Nat) (s : State) (hU : s.Unscanned = none) :
    scanner fuel s = none := by
  simp [scanner, hU]

theorem _runGC_absent (fuel : Nat) (env : RootEnv) (s : State) (Base Size : Nat)
    (hstack : env.stack = some (Base, Size)) (hU : s.Unscanned = none)
    (hroots : rootsNoCandidate env s = true) : _runGC fuel env s = none := by
  unfold rootsNoCandidate at hroots
  simp only [hstack, Bool.and_eq_true] at hroots
  obtain ⟨⟨h1, h2⟩, h3⟩ := hroots
  unfold _runGC
  simp only [hstack]
  have e1 := scanRoots_noCandidate fuel { s with NumGCTriggered := s.NumGCTriggered + 1 } s _ _
    rfl rfl rfl h1
  rw [e1]
  simp only [Option.bind_eq_bind, Option.some_bind]
  have e2 := scanRoots_noCandidate fuel
    { ({ s with NumGCTriggered := s.NumGCTriggered + 1 } : State) with unscannedListCount := 0 }
    s _ _ rfl rfl rfl h2
  rw [e2]
  simp only [Option.some_bind]
  obtain ⟨s2, hs2⟩ : ∃ s2 : State, s2 = { ({ ({ s with NumGCTriggered := s.NumGCTriggered + 1 } :
      State) with unscannedListCount := 0 } : State) with unscannedListCount := 0 } := ⟨_, rfl⟩
  rw [← hs2]
  have m2 : s2.mem = s.mem := by rw [hs2]
  have n2 : s2.noaccess = s.noaccess := by rw [hs2]
  have g2 : s2.Segments = s.Segments := by rw [hs2]
  have u2 : s2.Unscanned = none := by rw [hs2]; exact hU
  rw [skipGCFrame_congr m2 n2]
  cases hk : skipGCFrame s (Base + Size) (Base + Size + 2 - env.Lvar) env.Lvar with
  | none => rfl
  | some Top =>
    rw [hk] at h3
    simp only [Option.some_bind]
    rw [scanRoots_noCandidate fuel s2 s _ _ m2 n2 g2 h3]
    simp only [Option.some_bind]
    rw [scanner_absent fuel { s2 with unscannedListCount := 0 } u2]
    rfl

/-! ## Segments and `AllocPtr` never go back -/

theorem Grows_refl (s : State) : Grows s s := ⟨fun _ h => h, fun _ _ => le_refl _⟩

theorem Grows_trans {s1 s2 s3 : State} (h1 : Grows s1 s2) (h2 : Grows s2 s3) : Grows s1 s3 :=
  ⟨fun g hg => h2.segs g (h1.segs g hg),
    fun g hg => le_trans (h1.alloc g hg) (h2.alloc g (h1.segs g hg))⟩

/-- A change of memory inside one segment that does not move its `AllocPtr` back. -/
theorem Grows_seg {s s' : State} {tot : Nat → Nat} {g : Nat} (hI : Inv s tot)
    (hg : g ∈ s.Segments) (hsegs : s'.Segments = s.Segments)
    (hm : ∀ x, x < g ∨ g + SEGMENT_SIZE ≤ x → s'.mem.get x = s.mem.get x)
    (hA : read64 s.mem g ≤ read64 s'.mem g) : Grows s s' := by
  refine ⟨fun g' hg' => by rw [hsegs]; exact hg', ?_⟩
  intro g' hg'
  by_cases hne : g' = g
  · rw [hne]; exact hA
  · have hap := apart_of_mem hI.apart hg' hg hne
    have hS4 : SEGMENT_SIZE = 4294967296 := rfl
    rw [hS4] at hap
    refine le_of_eq (read64_congr _ _ _ (fun x h1 h2 => hm x ?_)).symm
    rw [hS4]
    omega

theorem Grows_frame {s s' : State} {tot : Nat → Nat} {g : Nat} (hI : Inv s tot)
    (hg : g ∈ s.Segments) (hF : Frame g s s') (hA : read64 s.mem g ≤ read64 s'.mem g) :
    Grows s s' :=
  Grows_seg hI hg hF.segs hF.mem hA

/-- A write of the program moves no `AllocPtr`. -/
theorem Grows_write {s : State} {tot : Nat → Nat} (m' : Mem) (hI : Inv s tot)
    (hw : ∀ x, m'.get x ≠ s.mem.get x → MutatorOK s x) : Grows s { s with mem := m' } := by
  refine ⟨fun g hg => hg, ?_⟩
  intro g hg
  refine le_of_eq (read64_congr _ _ _ (fun x h1 h2 => ?_)).symm
  by_contra hne
  have hS4 : SEGMENT_SIZE = 4294967296 := rfl
  have hM := METADATA_SIZE_eq
  rcases hw x hne with ho | ⟨g3, hg3, h3, hh3, p1, p2⟩
  · have := ho g hg
    rw [hS4] at this
    omega
  · have hc3 := SegInv_chain (hI.segInv g3 hg3)
    have hd := Chain_header hc3 hh3
    have hr := IsHeader_range hh3
    have hcr := (hI.segInv g3 hg3).1.commitReserve
    have hac := (hI.segInv g3 hg3).1.allocCommit
    rw [hS4] at hcr
    rw [hM] at hr
    by_cases hgg : g3 = g
    · subst hgg
      omega
    · have hap := apart_of_mem hI.apart hg3 hg hgg
      rw [hS4] at hap
      omega

theorem markValidObject_grows {fuel : Nat} {s s' : State} {p : Nat} {tot : Nat → Nat}
    (hI : Inv s tot) (h : markValidObject fuel s p = some s') : Grows s s' := by
  obtain ⟨hs, hm | ⟨W, g, hd, hf, hr, h0, hm⟩⟩ := markValidObject_inv h
  · exact ⟨fun g hg => by rw [hs.segs]; exact hg, fun g hg => by rw [hm]⟩
  · obtain ⟨hg, hD, hA⟩ := findSegment_inv s W _ g hf
    have hSI := hI.segInv g hg
    have hG := hSI.1
    have hM := METADATA_SIZE_eq
    have hS4 : SEGMENT_SIZE = 4294967296 := rfl
    have hAR : read64 s.mem g ≤ g + SEGMENT_SIZE := le_trans hG.allocCommit hG.commitReserve
    simp only [getDataPtr, getAllocPtr, hG.data] at hD hA
    simp only [getBigAlloc] at hr
    have key : g + 65536 ≤ hd ∧ hd + 8 ≤ g + SEGMENT_SIZE := by
      rcases hG.flag with f0 | f1
      · rw [f0] at hr
        have hh := retrieveObjectHeader_small_sound hSI f0 (hI.gap g hg f0) hD hA hr
        have hc := Chain_header (SegInv_chain hSI) hh
        have hrg := IsHeader_range hh
        exact ⟨by omega, by omega⟩
      · rw [f1] at hr
        rcases retrieveObjectHeader_large_sound hSI f1 hD hA hr with e | ⟨a1, a2, a3, a4⟩
        · have e2 : hd = g + 65536 := e
          exact ⟨by omega, by omega⟩
        · obtain ⟨_, _, _, _, _, b1, b2, b3, _⟩ :=
            LargeTiled_find ((hSI.2.2 f1).1) a1 a2 a3 a4
          have hP4 : PAGE_SIZE = 4096 := rfl
          rw [hP4] at b1
          exact ⟨by omega, by omega⟩
    obtain ⟨k1, k2⟩ := key
    have hget : ∀ x, ¬ (hd + 4 ≤ x ∧ x < hd + 8) → s'.mem.get x = s.mem.get x := by
      intro x hx
      rw [hm]
      exact write32_ne s.mem (hd + 4) MARK x (by omega)
    exact Grows_seg hI hg hs.segs (fun x hx => hget x (by omega))
      (le_of_eq (read64_congr _ _ _ (fun x h1 h2 => hget x (by omega))).symm)

theorem scanRange_grows {fuel : Nat} {tot : Nat → Nat} : ∀ {count p : Nat} {s s' : State},
    Inv s tot → scanRange fuel count p s = some s' → Grows s s' := by
  intro count
  induction count with
  | zero =>
    intro p s s' hI h
    rw [← Option.some.inj h]; exact Grows_refl _
  | succ k ih =>
    intro p s s' hI h
    simp only [scanRange, Option.bind_eq_bind, Option.bind_eq_some] at h
    obtain ⟨s1, h1, h2⟩ := h
    exact Grows_trans (markValidObject_grows hI h1) (ih (markValidObject_Inv hI h1) h2)

theorem scanRoots_grows {fuel : Nat} {tot : Nat → Nat} {s s' : State} {Top Bottom : Nat}
    (hI : Inv s tot) (h : scanRoots fuel s Top Bottom = some s') : Grows s s' := by
  unfold scanRoots at h
  have := scanRange_grows (show Inv { s with unscannedListCount := 0 } tot from hI) h
  exact ⟨this.segs, this.alloc⟩

theorem scannerLoop_grows {tot : Nat → Nat} : ∀ {fuel : Nat} {cur : Option Nat} {s s' : State},
    Inv s tot → scannerLoop fuel cur s = some s' → Grows s s' := by
  intro fuel
  induction fuel with
  | zero =>
    intro cur s s' hI h
    cases cur with
    | none => simp only [scannerLoop] at h; rw [← Option.some.inj h]; exact Grows_refl _
    | some c => simp [scannerLoop] at h
  | succ k ih =>
    intro cur s s' hI h
    cases cur with
    | none => simp only [scannerLoop] at h; rw [← Option.some.inj h]; exact Grows_refl _
    | some c =>
      simp only [scannerLoop, Option.bind_eq_bind, Option.bind_eq_some] at h
      obtain ⟨node, _, Size, _, s1, h1, U, _, Head, _, hn, _, node2, _, h2⟩ := h
      have a := scanRange_Inv hI h1
      have b := scanRange_grows hI h1
      have c := ih (show Inv { s1 with Unscanned := some { U with Head := hn.Next } } tot from a) h2
      exact Grows_trans b ⟨c.segs, c.alloc⟩

theorem scanner_grows {fuel : Nat} {tot : Nat → Nat} {s s' : State} (hI : Inv s tot)
    (h : scanner fuel s = some s') : Grows s s' := by
  unfold scanner at h
  simp only [Option.bind_eq_bind, Option.bind_eq_some] at h
  obtain ⟨U, _, c, _, s1, h1, U1, _, U2, hU2, c2, _, h2⟩ := h
  have a := scannerLoop_grows hI h1
  rw [← Option.some.inj h2]
  split
  · exact ⟨a.segs, a.alloc⟩
  · exact a

theorem sweepSegments_grows : ∀ (L : List Nat) (s s' : State) (tot : Nat → Nat),
    Inv s tot → (∀ g ∈ L, g ∈ s.Segments) → sweepSegments L s = some s' → Grows s s' := by
  intro L
  induction L with
  | nil =>
    intro s s' tot hI _ h
    rw [← Option.some.inj h]; exact Grows_refl _
  | cons g L ih =>
    intro s s' tot hI hL h
    have hg := hL g (List.mem_cons_self _ _)
    have hSI := hI.segInv g hg
    have hD : getDataPtr s g = g + METADATA_SIZE := hSI.1.data
    have hP4 : PAGE_SIZE = 4096 := rfl
    have hMp : (g + METADATA_SIZE) % PAGE_SIZE = 0 := by
      have := hSI.1.aligned
      rw [METADATA_SIZE_eq, hP4]
      rw [show SEGMENT_SIZE = 4294967296 from rfl] at this
      omega
    unfold sweepSegments at h
    simp only [Option.bind_eq_bind] at h
    split at h
    · rename_i hf
      simp only [Option.bind_eq_some] at h
      obtain ⟨s1, h1, h2⟩ := h
      rw [hD] at h1
      obtain ⟨t', st⟩ := sweepNormalLoop_step _ _ _ _ _ hSI hf rfl hMp (le_refl _) h1
      have hI1 := Inv_step hI hg st
      exact Grows_trans (Grows_frame hI hg st.frame (le_of_eq st.alloc.symm)) (ih s1 s' _ hI1
        (fun g' hg' => by rw [st.frame.segs]; exact hL g' (List.mem_cons_of_mem _ hg')) h2)
    · split at h
      · rename_i hf
        simp only [Option.bind_eq_some] at h
        obtain ⟨s1, h1, h2⟩ := h
        rw [hD] at h1
        obtain ⟨t', st⟩ := sweepBigLoop_step _ _ _ _ _ hSI hf rfl (by rw [Nat.sub_self]; rfl)
          (le_refl _) h1
        have hI1 := Inv_step hI hg st
        exact Grows_trans (Grows_frame hI hg st.frame (le_of_eq st.alloc.symm)) (ih s1 s' _ hI1
          (fun g' hg' => by rw [st.frame.segs]; exact hL g' (List.mem_cons_of_mem _ hg')) h2)
      · exact ih s s' tot hI (fun g' hg' => hL g' (List.mem_cons_of_mem _ hg')) h

/-- A collection cycle creates no segment and moves no `AllocPtr`. -/
theorem _runGC_grows {fuel : Nat} {env : RootEnv} {s s' : State} {tot : Nat → Nat}
    (hI : Inv s tot) (h : _runGC fuel env s = some s') : Grows s s' := by
  unfold _runGC at h
  simp only [Option.bind_eq_bind, Option.bind_eq_some] at h
  obtain ⟨s1, h1, s2, h2, h⟩ := h
  have hI0 : Inv { s with NumGCTriggered := s.NumGCTriggered + 1 } tot := hI
  have a1 := scanRoots_Inv hI0 h1
  have b1 := scanRoots_grows hI0 h1
  have a2 := scanRoots_Inv a1 h2
  have b2 := scanRoots_grows a1 h2
  have b12 : Grows s s2 := Grows_trans ⟨b1.segs, b1.alloc⟩ b2
  split at h
  · rw [← Option.some.inj h]
    exact b12
  · simp only [Option.bind_eq_some] at h
    obtain ⟨Top, _, s3, h3, s4, h4, h5⟩ := h
    have a3 := scanRoots_Inv a2 h3
    have a4 := scanner_Inv a3 h4
    exact Grows_trans b12 (Grows_trans (scanRoots_grows a2 h3) (Grows_trans (scanner_grows a3 h4)
      (sweepSegments_grows _ _ _ _ a4 (fun g hg => hg) h5)))

theorem checkAndRunGC_grows {fuel : Nat} {env : RootEnv} {s s' : State} {Sz : Nat}
    {tot : Nat → Nat} (hI : Inv s tot) (h : checkAndRunGC fuel env s Sz = some s') :
    Grows s s' := by
  unfold checkAndRunGC at h
  dsimp only at h
  split at h
  · rw [← Option.some.inj h]
    exact ⟨fun _ hg => hg, fun _ _ => le_refl _⟩
  · have := _runGC_grows (show Inv { s with TotalAlloc := 0 } tot from hI) h
    exact ⟨this.segs, this.alloc⟩

/-! ## Where a new object is put -/

theorem allocateSegment_grows {s s' : State} {B seg : Nat} {tot : Nat → Nat} (hI : Inv s tot)
    (ha : allocateSegment B s = some (seg, s')) : Grows s s' := by
  obtain ⟨Base, rest, hb, hseg, hs'⟩ := allocateSegment_inv ha
  have hmm : MmapOK s.Segments (Base :: rest) := hb ▸ hI.mmap
  obtain ⟨b1, b2, b3⟩ := hmm.1 Base (List.mem_cons_self _ _)
  obtain ⟨a1, a2, a3⟩ := Align_segment_spec Base b1 b2
  rw [← hseg] at a1 a2 a3
  subst hs'
  refine ⟨fun g hg => List.mem_cons_of_mem _ hg, ?_⟩
  intro g hg
  refine le_of_eq (read64_congr _ _ _ (fun x h1 h2 => ?_)).symm
  have := b3 g hg
  apply segMem_get
  · simp only [SEGMENT_SIZE, PAGE_SIZE] at *; omega
  · simp only [SEGMENT_SIZE, PAGE_SIZE] at *; omega

/-- `makeRoom` does not move `AllocPtr` back. -/
theorem makeRoom_alloc {s s1 : State} {g t sz : Nat} {r : Option (Nat × Nat)}
    (hI : SegInv s.mem s.noaccess g t) (hf : read32 s.mem (g + 32) = 0)
    (hgap : read64 s.mem (g + 8) - read64 s.mem g < PAGE_SIZE)
    (hm : makeRoom s g sz = some (s1, r)) : read64 s.mem g ≤ read64 s1.mem g := by
  have hac := hI.1.allocCommit
  unfold makeRoom at hm
  simp only [getAllocPtr, getCommitPtr] at hm
  split at hm
  · rename_i hgt
    have key : ∃ sa sb, (Frame g s sa ∧ SegInv sa.mem sa.noaccess g t ∧
        read64 sa.mem g = read64 s.mem (g + 8)) ∧
        extendCommitSpace sa g = some sb ∧
        (if read64 sb.mem g + sz > read64 sb.mem (g + 8) then some (sb, none)
          else some (sb, some (read64 sb.mem g, read64 sb.mem g + sz))) = some (s1, r) := by
      split at hm
      · simp only [Option.bind_eq_bind, Option.bind_eq_some] at hm
        obtain ⟨sa, ha, sb, hb, hm⟩ := hm
        obtain ⟨c1, c2, c3, _⟩ := createHole_spec hI hf (le_of_lt hgap) ha
        exact ⟨sa, sb, ⟨c1, c2, c3⟩, hb, hm⟩
      · rename_i he
        simp only [Option.bind_eq_bind, Option.some_bind, Option.bind_eq_some] at hm
        obtain ⟨sb, hb, hm⟩ := hm
        exact ⟨s, sb, ⟨Frame_refl g s, hI, not_not.mp he⟩, hb, hm⟩
    obtain ⟨sa, sb, hA, hb, hm⟩ := key
    obtain ⟨fa, ia, a1⟩ := hA
    have hfa : read32 sa.mem (g + 32) = 0 := fa.flag.trans hf
    obtain ⟨fb, ib, b1, _⟩ := extendCommitSpace_spec ia hfa hb
    have e : s1 = sb := by
      split at hm
      · simp only [Option.some.injEq, Prod.mk.injEq] at hm
        exact hm.1.symm
      · simp only [Option.some.injEq, Prod.mk.injEq] at hm
        exact hm.1.symm
    rw [e, b1, a1]
    exact hac
  · simp only [Option.some.injEq, Prod.mk.injEq] at hm
    rw [← hm.1]

/-- What `writeObject` returns and what it writes. -/
theorem writeObject_place {s s' : State} {g sz p : Nat}
    (hw : g + 8 ≤ read64 s.mem g) (hN : read64 s.mem g + sz < WORD) (hsz : sz < 4294967296)
    (h : writeObject s g (read64 s.mem g) (read64 s.mem g + sz) sz = some (p, s')) :
    p = read64 s.mem g + 16 ∧ hSize s'.mem (read64 s.mem g) = sz ∧
      read64 s'.mem g = read64 s.mem g + sz ∧
      ∀ x, g + 8 ≤ x → x < read64 s.mem g → s'.mem.get x = s.mem.get x := by
  obtain ⟨e1, _, _, e⟩ := writeObject_inv h
  subst e
  exact ⟨e1, headerMem_size s.mem g _ _ sz hsz, headerMem_alloc s.mem g _ _ sz (Or.inl hw) hN,
    fun x h1 h2 => headerMem_get s.mem g _ _ sz x (by omega) (by omega)⟩

theorem bigCommit_ptr {s s' : State} {g A C sz p : Nat}
    (h : bigCommit s g A C sz = some (p, s')) : p = A + 16 := by
  unfold bigCommit at h
  simp only [Option.bind_eq_bind] at h
  split at h
  · simp only [Option.bind_eq_some] at h
    obtain ⟨s1, h1, s2, h2, s3, h3, s4, h4, s5, h5, h6⟩ := h
    simp only [Option.some.injEq, Prod.mk.injEq] at h6
    exact h6.1.symm
  · exact absurd h (by simp)

/-- What `bigCommit` returns and what it writes. -/
theorem bigCommit_place {s s' : State} {g A C sz p : Nat} (hg : g % SEGMENT_SIZE = 0)
    (hA : g + METADATA_SIZE ≤ A) (hle : A + sz ≤ g + SEGMENT_SIZE) (hpos : 0 < sz)
    (hW : g + SEGMENT_SIZE < WORD)
    (h : bigCommit s g A C sz = some (p, s')) :
    p = A + 16 ∧ hSize s'.mem A = sz ∧ read64 s'.mem g = A + sz ∧
      ∀ x, g + METADATA_SIZE ≤ x → x < A → s'.mem.get x = s.mem.get x := by
  have hp := bigCommit_ptr h
  obtain ⟨_, _, _, e⟩ := bigCommit_inv h
  subst e
  have hM := METADATA_SIZE_eq
  have hS : SEGMENT_SIZE = 4294967296 := rfl
  have hWD : WORD = 18446744073709551616 := rfl
  rw [hM] at hA
  rw [hS] at hle hg hW
  rw [hWD] at hW
  have hce : getSizeMetadata A = g + 2 * ((A - g) / 4096) :=
    getSizeMetadata_eq g A (by rw [hS]; exact hg) (by omega) (by rw [hS]; omega)
      (by rw [hS, hWD]; omega)
  refine ⟨hp, bigMem_size s.mem g A (A + sz) sz (by omega), ?_, ?_⟩
  · exact bigMem_alloc s.mem g A (A + sz) sz (by omega) (by rw [hce]; omega) (by rw [hWD]; omega)
  · intro x h1 h2
    rw [hM] at h1
    exact bigMem_get s.mem g A (A + sz) sz x (by omega) (by omega) (by rw [hce]; omega)

/-- A chain that ends at `A` still leads to `A` when the limit is moved up and the memory
below `A` is the same. -/
theorem IsHeader_last {m m' : Mem} {a A lim : Nat} (hc : Chain m a A)
    (he : ∀ x, a ≤ x → x < A → m'.get x = m.get x) (hlt : A < lim) : IsHeader m' a lim A := by
  induction hc with
  | nil a => exact IsHeader.here a lim hlt
  | cons a A h8 hle htl ih =>
    have hs : hSize m' a = hSize m a := hSize_congr m m' a (fun x h1 h2 => he x h1 (by omega))
    apply IsHeader.next a lim A (by omega)
    rw [hs]
    exact ih (fun x h1 h2 => he x (by omega) h2) hlt

/-- Two different headers of a chain are the headers of disjoint objects. -/
theorem Chain_apart {m : Mem} {a lim A h : Nat} (hc : Chain m a lim) (hA : IsHeader m a lim A)
    (hh : IsHeader m a lim h) (hne : h ≠ A) : h + hSize m h ≤ A ∨ A + hSize m A ≤ h := by
  rcases Nat.lt_or_gt_of_ne hne with l | l
  · exact Or.inl (Chain_before hc hA hh l)
  · exact Or.inr (Chain_before hc hh hA l)

theorem Placed_of_grows {s s1 s' : State} {p : Nat} (hg : Grows s s1) (h : Placed s1 s' p) :
    Placed s s' p := by
  obtain ⟨h16, g, hgs, h1, h2, h3, h4⟩ := h
  exact ⟨h16, g, hgs, h1, h2, fun hin => le_trans (hg.alloc g hin) (h3 (hg.segs g hin)), h4⟩

/-- `bigCommit` does not return for a size of 0: the page at `AllocPtr` is not committed. -/
theorem bigCommit_pos {s s' : State} {g t sz p : Nat} (hI : SegInv s.mem s.noaccess g t)
    (hf : read32 s.mem (g + 32) = 1) (hle : read64 s.mem g + sz ≤ g + SEGMENT_SIZE)
    (hb : bigCommit s g (read64 s.mem g) (read64 s.mem (g + 8)) sz = some (p, s')) :
    0 < sz := by
  have hG := hI.1
  have hAC := hG.large hf
  obtain ⟨_, hmod, hacc, e⟩ := bigCommit_inv hb
  have hP : PAGE_SIZE = 4096 := rfl
  have hS : SEGMENT_SIZE = 4294967296 := rfl
  by_contra h0
  have h0' : sz = 0 := by omega
  subst h0'
  have := hG.uncommitted (read64 s.mem g / PAGE_SIZE) (by rw [hAC])
    (by rw [hS, hP]; rw [hS] at hle; clear * - hle; omega)
  simp only [setProt, Nat.add_zero] at hacc
  rw [if_neg (by omega), this] at hacc
  exact absurd hacc (by simp)

theorem BigAlloc_place : ∀ (fuel n : Nat) (s : State) (p : Nat) (s' : State) (tot : Nat → Nat),
    Inv s tot → COMMIT_SIZE < (Align n 8 + OBJ_HEADER_SIZE) % WORD →
    BigAlloc fuel n s = some (p, s') → Grows s s' ∧ Placed s s' p := by
  intro fuel
  induction fuel with
  | zero => intro n s p s' tot _ _ h; exact absurd h (by simp [BigAlloc])
  | succ k ih =>
    intro n s p s' tot hI hn h
    have hsz := bigSize_cases n hn
    have tail : ∀ (g : Nat) (s1 : State) (tot1 : Nat → Nat), Inv s1 tot1 →
        s1.CurSegBig = some g →
        (if getAllocPtr s1 g + Align ((n + OBJ_HEADER_SIZE) % WORD) PAGE_SIZE >
            getReservePtr s1 g then
          (allocateSegment 1 s1).bind fun d =>
            BigAlloc k n { d.2 with CurSegBig := some d.1 }
        else bigCommit s1 g (getAllocPtr s1 g) (getCommitPtr s1 g)
          (Align ((n + OBJ_HEADER_SIZE) % WORD) PAGE_SIZE)) = some (p, s') →
        Grows s1 s' ∧ Placed s1 s' p := by
      intro g s1 tot1 hI1 hcb1 h
      obtain ⟨hg, hf⟩ := hI1.curBig g hcb1
      have hSI := hI1.segInv g hg
      split at h
      · simp only [Option.bind_eq_some] at h
        obtain ⟨⟨Seg, s2⟩, ha, h⟩ := h
        have g2 : Grows s1 { s2 with CurSegBig := some Seg } := by
          have := allocateSegment_grows hI1 ha
          exact ⟨this.segs, this.alloc⟩
        obtain ⟨q1, q2⟩ := ih n _ p s' _ (allocateSegment_Inv_big hI1 ha) hn h
        exact ⟨Grows_trans g2 q1, Placed_of_grows g2 q2⟩
      · rename_i hfit
        simp only [getAllocPtr, getCommitPtr, getReservePtr] at h hfit
        rw [hSI.1.reserve] at hfit
        generalize Align ((n + OBJ_HEADER_SIZE) % WORD) PAGE_SIZE = sz at h hfit hsz
        have hle : read64 s1.mem g + sz ≤ g + SEGMENT_SIZE := by omega
        obtain ⟨hF, hS', ea, ef⟩ := bigCommit_spec hSI hf hsz hle h
        have hpos := bigCommit_pos hSI hf hle h
        obtain ⟨e1, e2, e3, e4⟩ := bigCommit_place hSI.1.aligned hSI.1.dataAlloc hle hpos
          hSI.1.inWord h
        have hda := hSI.1.dataAlloc
        refine ⟨Grows_frame hI1 hg hF (by rw [e3]; omega), by rw [e1]; omega, g,
          by rw [hF.segs]; exact hg, ?_, ?_, ?_, ?_⟩
        · rw [e1, Nat.add_sub_cancel]; exact hda
        · rw [e1, Nat.add_sub_cancel, e2, e3]
        · intro _; rw [e1, Nat.add_sub_cancel]
        · rw [e1, Nat.add_sub_cancel, e3]
          intro h hh hne
          have hA := @IsHeader_last s1.mem s'.mem _ _ (read64 s1.mem g + sz) (SegInv_chain hSI)
            e4 (by omega)
          have hc := SegInv_chain hS'
          rw [e3] at hc
          exact Chain_apart hc hA hh hne
    unfold BigAlloc at h
    simp only [Option.bind_eq_bind] at h
    split at h
    · split at h
      · rename_i g hcb
        simp only [Option.some_bind] at h
        exact tail g s tot hI hcb h
      · simp only [Option.bind_eq_some, Option.some_bind] at h
        obtain ⟨⟨Seg, s0⟩, ha, h⟩ := h
        have g2 : Grows s { s0 with CurSegBig := some Seg } := by
          have := allocateSegment_grows hI ha
          exact ⟨this.segs, this.alloc⟩
        obtain ⟨q1, q2⟩ := tail Seg _ _ (allocateSegment_Inv_big hI ha) rfl h
        exact ⟨Grows_trans g2 q1, Placed_of_grows g2 q2⟩
    · exact absurd h (by simp)

theorem _mymalloc_place : ∀ (fuel : Nat) (env : RootEnv) (n : Nat) (s : State) (p : Nat)
    (s' : State) (tot : Nat → Nat),
    Inv s tot → _mymalloc fuel env n s = some (p, s') → Grows s s' ∧ Placed s s' p := by
  intro fuel
  induction fuel with
  | zero => intro env n s p s' tot _ h; exact absurd h (by simp [_mymalloc])
  | succ k ih =>
    intro env n s p s' tot hI0 h
    unfold _mymalloc at h
    simp only [Option.bind_eq_bind, Option.bind_eq_some] at h
    obtain ⟨s0, h0, h⟩ := h
    obtain ⟨tot0, hI⟩ := checkAndRunGC_Inv hI0 h0
    have gr0 := checkAndRunGC_grows hI0 h0
    suffices hsuff : Grows s0 s' ∧ Placed s0 s' p from
      ⟨Grows_trans gr0 hsuff.1, Placed_of_grows gr0 hsuff.2⟩
    split at h
    · rename_i hbig
      exact BigAlloc_place _ _ _ _ _ _ hI hbig h
    · rename_i hsmall
      have hsz := smallSize_cases n
      have hle : (Align n 8 + OBJ_HEADER_SIZE) % WORD ≤ PAGE_SIZE := by
        have : COMMIT_SIZE = PAGE_SIZE := rfl
        omega
      generalize (Align n 8 + OBJ_HEADER_SIZE) % WORD = sz at h hsz hle
      have tail : ∀ (g : Nat) (s1 : State) (tot1 : Nat → Nat), Inv s1 tot1 →
          s1.CurSegSmall = some g →
          ((makeRoom s1 g sz).bind fun x =>
            match x with
            | (s, none) => (allocateSegment 0 s).bind fun d =>
                _mymalloc k env n { d.2 with CurSegSmall := some d.1 }
            | (s, some (AllocPtr, NewAllocPtr)) => writeObject s g AllocPtr NewAllocPtr sz) =
            some (p, s') →
          Grows s1 s' ∧ Placed s1 s' p := by
        intro g s1 tot1 hI1 hcs h
        obtain ⟨hg, hf⟩ := hI1.curSmall g hcs
        have hSI := hI1.segInv g hg
        simp only [Option.bind_eq_some] at h
        obtain ⟨⟨s2, r⟩, hm, h⟩ := h
        obtain ⟨hF, hS2, ea, ef, hnone, hsome⟩ := makeRoom_spec hSI hf (hI1.gap g hg hf) hle hm
        have hmono := makeRoom_alloc hSI hf (hI1.gap g hg hf) hm
        have gr1 : Grows s1 s2 := Grows_frame hI1 hg hF hmono
        cases r with
        | none =>
          dsimp only at h
          simp only [Option.bind_eq_some] at h
          obtain ⟨⟨Seg, s3⟩, ha, h⟩ := h
          have hI2 : Inv s2 (Function.update tot1 g (tot1 g)) :=
            Inv_frame hI1 hg hF hS2 (by intro _; rw [hnone rfl, Nat.sub_self]; decide)
              (by rw [ea, ef])
          have g2 : Grows s2 { s3 with CurSegSmall := some Seg } := by
            have := allocateSegment_grows hI2 ha
            exact ⟨this.segs, this.alloc⟩
          obtain ⟨q1, q2⟩ := ih env n _ p s' _ (allocateSegment_Inv_small hI2 ha) h
          exact ⟨Grows_trans gr1 (Grows_trans g2 q1),
            Placed_of_grows gr1 (Placed_of_grows g2 q2)⟩
        | some pr =>
          obtain ⟨A, NA⟩ := pr
          dsimp only at h
          obtain ⟨eA, eNA, hfit, hgap1, hgap2⟩ := hsome A NA rfl
          rw [eA] at eNA
          rw [eA, eNA] at h
          have hf2 : read32 s2.mem (g + 32) = 0 := by rw [hF.flag]; exact hf
          obtain ⟨hF2, hS3, eA3, eC3, ea3, ef3⟩ := writeObject_spec hS2 hf2 hsz
            (by rw [← eA]; exact hfit) hgap1 h
          have hda := hS2.1.dataAlloc
          have hcr := hS2.1.commitReserve
          have hiw := hS2.1.inWord
          have hM := METADATA_SIZE_eq
          have hP4 : PAGE_SIZE = 4096 := rfl
          rw [eA] at hfit
          rw [hM] at hda
          rw [hP4] at hle
          obtain ⟨e1, e2, e3, e4⟩ := writeObject_place (by omega) (by omega) (by omega) h
          have hFF := Frame_trans hF hF2
          refine ⟨Grows_frame hI1 hg hFF (by rw [e3]; omega), by rw [e1]; omega, g,
            by rw [hFF.segs]; exact hg, ?_, ?_, ?_, ?_⟩
          · rw [e1, Nat.add_sub_cancel, hM]; exact hda
          · rw [e1, Nat.add_sub_cancel, e2, e3]
          · intro _; rw [e1, Nat.add_sub_cancel]; exact hmono
          · rw [e1, Nat.add_sub_cancel, e3]
            intro h hh hne
            have hc := SegInv_chain hS3
            rw [e3] at hc
            rcases hsz with z | z
            · left
              have := (Chain_header hc hh).2
              omega
            · have hA := @IsHeader_last s2.mem s'.mem _ _ (read64 s2.mem g + sz)
                (SegInv_chain hS2) (fun x h1 h2 => e4 x (by rw [hM] at h1; omega) h2) (by omega)
              exact Chain_apart hc hA hh hne
      split at h
      · split at h
        · rename_i g hcs
          simp only [Option.some_bind] at h
          exact tail g s0 tot0 hI hcs h
        · obtain ⟨⟨Seg, s1⟩, ha, h⟩ := Option.bind_eq_some.1 h
          simp only [Option.some_bind] at h
          have g2 : Grows s0 { s1 with CurSegSmall := some Seg } := by
            have := allocateSegment_grows hI ha
            exact ⟨this.segs, this.alloc⟩
          obtain ⟨q1, q2⟩ := tail Seg _ _ (allocateSegment_Inv_small hI ha) rfl h
          exact ⟨Grows_trans g2 q1, Placed_of_grows g2 q2⟩
      · exact absurd h (by simp)

/-! ## The invariant of a history -/

/-- In every history the invariant of the state holds, the recorded objects are pairwise
apart, each lay in the committed data area of a segment when it was returned, and each
lies below the present `AllocPtr` of a segment. -/
theorem History_inv {s : State} {hist : List (Nat × State)} (h : History s hist) :
    (∃ tot, Inv s tot) ∧
    hist.Pairwise (fun e e' => objEnd e ≤ objStart e' ∨ objEnd e' ≤ objStart e) ∧
    (∀ e ∈ hist, OBJ_HEADER_SIZE ≤ e.1 ∧ ∃ g ∈ e.2.Segments,
      getDataPtr e.2 g ≤ objStart e ∧ objEnd e ≤ getCommitPtr e.2 g) ∧
    (∀ e ∈ hist, ∃ g ∈ s.Segments, g + METADATA_SIZE ≤ objStart e ∧
      objEnd e ≤ read64 s.mem g) := by
  induction h with
  | init m bases hb =>
    exact ⟨Reachable_Inv (Reachable.init m bases hb), List.Pairwise.nil,
      fun e he => absurd he (List.not_mem_nil _), fun e he => absurd he (List.not_mem_nil _)⟩
  | malloc s s' hist fuel env n p _ hn hm ih =>
    obtain ⟨⟨tot, hI⟩, hpw, hin, hbelow⟩ := ih
    obtain ⟨tot', hI'⟩ := _mymalloc_Inv _ _ _ _ _ _ _ hI hm
    obtain ⟨hgr, h16, g, hgs, q1, q2, q3, q4⟩ := _mymalloc_place _ _ _ _ _ _ _ hI hm
    have hG := (hI'.segInv g hgs).1
    have hS4 : SEGMENT_SIZE = 4294967296 := rfl
    have hM := METADATA_SIZE_eq
    have e1 : objStart (p, s') = p - 16 := rfl
    have e2 : objEnd (p, s') = p - 16 + hSize s'.mem (p - 16) := rfl
    refine ⟨⟨tot', hI'⟩, List.pairwise_cons.mpr ⟨?_, hpw⟩, ?_, ?_⟩
    · intro e' he'
      obtain ⟨g0, hg0, r1, r2⟩ := hbelow e' he'
      rw [e1, e2]
      by_cases hne : g = g0
      · subst hne
        right
        exact le_trans r2 (q3 hg0)
      · have hap := apart_of_mem hI'.apart hgs (hgr.segs g0 hg0) hne
        have hG0 := (hI'.segInv g0 (hgr.segs g0 hg0)).1
        have a1 := hG.allocCommit
        have a2 := hG.commitReserve
        have b1 := hG0.allocCommit
        have b2 := hG0.commitReserve
        have b3 := hgr.alloc g0 hg0
        rw [hS4] at hap a2 b2
        rw [hM] at q1 r1
        omega
    · intro e he
      rcases List.mem_cons.mp he with e0 | e0
      · rw [e0]
        refine ⟨h16, g, hgs, ?_, ?_⟩
        · rw [e1]
          show read64 s'.mem (g + 24) ≤ p - 16
          rw [hG.data]; exact q1
        · rw [e2]
          exact le_trans q2 hG.allocCommit
      · exact hin e e0
    · intro e he
      rcases List.mem_cons.mp he with e0 | e0
      · rw [e0]
        exact ⟨g, hgs, q1, q2⟩
      · obtain ⟨g0, hg0, r1, r2⟩ := hbelow e e0
        exact ⟨g0, hgr.segs g0 hg0, r1, le_trans r2 (hgr.alloc g0 hg0)⟩
  | gc s s' hist fuel env _ hg ih =>
    obtain ⟨⟨tot, hI⟩, hpw, hin, hbelow⟩ := ih
    have hgr := _runGC_grows hI hg
    refine ⟨_runGC_Inv hI hg, hpw, hin, ?_⟩
    intro e he
    obtain ⟨g0, hg0, r1, r2⟩ := hbelow e he
    exact ⟨g0, hgr.segs g0 hg0, r1, le_trans r2 (hgr.alloc g0 hg0)⟩
  | write s hist m' _ hw ih =>
    obtain ⟨⟨tot, hI⟩, hpw, hin, hbelow⟩ := ih
    have hgr := Grows_write m' hI hw
    refine ⟨⟨tot, Inv_write m' hI hw⟩, hpw, hin, ?_⟩
    intro e he
    obtain ⟨g0, hg0, r1, r2⟩ := hbelow e he
    exact ⟨g0, hgr.segs g0 hg0, r1, le_trans r2 (hgr.alloc g0 hg0)⟩

/-- A new object is apart from every other object and hole of every segment. -/
theorem _mymalloc_apart {s s' : State} {tot : Nat → Nat} {fuel : Nat} {env : RootEnv}
    {n p : Nat} (hI : Inv s tot) (hm : _mymalloc fuel env n s = some (p, s')) :
    ∀ g ∈ s'.Segments, ∀ h, IsHeader s'.mem (getDataPtr s' g) (getAllocPtr s' g) h →
      h ≠ p - OBJ_HEADER_SIZE →
      h + hSize s'.mem h ≤ objStart (p, s') ∨ objEnd (p, s') ≤ h := by
  obtain ⟨tot', hI'⟩ := _mymalloc_Inv _ _ _ _ _ _ _ hI hm
  obtain ⟨hgr, h16, g, hgs, q1, q2, q3, q4⟩ := _mymalloc_place _ _ _ _ _ _ _ hI hm
  have hG := (hI'.segInv g hgs).1
  have hS4 : SEGMENT_SIZE = 4294967296 := rfl
  have hM := METADATA_SIZE_eq
  intro g0 hg0 h hh hne
  have hG0 := (hI'.segInv g0 hg0).1
  have hd : getDataPtr s' g0 = g0 + METADATA_SIZE := hG0.data
  have ha : getAllocPtr s' g0 = read64 s'.mem g0 := rfl
  rw [hd, ha] at hh
  show h + hSize s'.mem h ≤ p - 16 ∨ p - 16 + hSize s'.mem (p - 16) ≤ h
  by_cases hgg : g0 = g
  · subst hgg
    exact q4 h hh hne
  · have hap := apart_of_mem hI'.apart hg0 hgs hgg
    have hc := Chain_header (SegInv_chain (hI'.segInv g0 hg0)) hh
    have hr := IsHeader_range hh
    have a1 := hG.allocCommit
    have a2 := hG.commitReserve
    have b1 := hG0.allocCommit
    have b2 := hG0.commitReserve
    rw [hS4] at hap a2 b2
    rw [hM] at q1 hr
    omega

/-! ## The trigger policy of `checkAndRunGC` -/

/-- Let the running total `t` be below the threshold of 32 MiB
and let `n` be a request whose aligned size `a = round_up(n, 8) + 16` is computed without
wrap-around.  Then `a` is what `_mymalloc` passes to `checkAndRunGC`, and the check has
returned whenever `_mymalloc` returns.  If `t + a < 32 MiB`, `checkAndRunGC` returns the
state with the total `t + a` and nothing else changed (no cycle runs).  Otherwise it is
one call of `_runGC` on the state with the total reset to 0, and whenever it returns the
total is 0 and `NumGCTriggered` has grown by exactly 1. -/
theorem checkAndRunGC_policy (fuel : Nat) (env : RootEnv) (s : State) (n : Nat)
    (ht : s.TotalAlloc < GC_THRESHOLD) (hn : n + 23 + GC_THRESHOLD ≤ WORD) :
    (Align n 8 + OBJ_HEADER_SIZE) % WORD = roundUp n 8 + 16 ∧
    (∀ p s', _mymalloc (fuel + 1) env n s = some (p, s') →
      ∃ s1, checkAndRunGC fuel env s (roundUp n 8 + 16) = some s1) ∧
    (s.TotalAlloc + (roundUp n 8 + 16) < GC_THRESHOLD →
      checkAndRunGC fuel env s (roundUp n 8 + 16) =
        some { s with TotalAlloc := s.TotalAlloc + (roundUp n 8 + 16) }) ∧
    (GC_THRESHOLD ≤ s.TotalAlloc + (roundUp n 8 + 16) →
      checkAndRunGC fuel env s (roundUp n 8 + 16) =
        _runGC fuel env { s with TotalAlloc := 0 } ∧
      ∀ s1, checkAndRunGC fuel env s (roundUp n 8 + 16) = some s1 →
        s1.TotalAlloc = 0 ∧ s1.NumGCTriggered = s.NumGCTriggered + 1) := by
  have hG : GC_THRESHOLD = 33554432 := rfl
  have hW : WORD = 18446744073709551616 := rfl
  rw [hG] at ht
  rw [hG, hW] at hn
  have hA : Align n 8 = roundUp n 8 := Align_8_small n (by rw [hW]; omega)
  have hr : roundUp n 8 ≤ n + 7 := by unfold roundUp; omega
  have hAS : (Align n 8 + OBJ_HEADER_SIZE) % WORD = roundUp n 8 + 16 := by
    rw [hA, hW]
    simp only [OBJ_HEADER_SIZE]
    omega
  have hmod : (s.TotalAlloc + (roundUp n 8 + 16)) % WORD = s.TotalAlloc + (roundUp n 8 + 16) := by
    rw [hW]; omega
  refine ⟨hAS, ?_, ?_, ?_⟩
  · intro p s' h
    unfold _mymalloc at h
    simp only [Option.bind_eq_bind, Option.bind_eq_some, hAS] at h
    obtain ⟨s1, h1, _⟩ := h
    exact ⟨s1, h1⟩
  · intro hlt
    simp only [checkAndRunGC, hmod]
    rw [if_pos hlt]
  · intro hge
    have e : checkAndRunGC fuel env s (roundUp n 8 + 16) =
        _runGC fuel env { s with TotalAlloc := 0 } := by
      simp only [checkAndRunGC, hmod]
      rw [if_neg (by omega)]
    refine ⟨e, ?_⟩
    intro s1 h1
    rw [e] at h1
    have := _runGC_same h1
    exact ⟨this.2.2.2.2.2.2, this.2.2.2.2.2.1⟩

/-- An 8-byte request (aligned size 24) with the running total 8 bytes
below the threshold; the cycle runs and returns. -/
theorem checkAndRunGC_policy_nearThreshold :
    (nearThreshold.TotalAlloc + (roundUp 8 8 + 16) = GC_THRESHOLD + 16 ∧
      ((_runGC 5 gcEnv { nearThreshold with TotalAlloc := 0 }).map fun s1 =>
        [s1.TotalAlloc, (s1.NumGCTriggered - nearThreshold.NumGCTriggered).toNat]) = some [0, 1]) ∧
    ((Align 8 8 + OBJ_HEADER_SIZE) % WORD = roundUp 8 8 + 16 ∧
    (∀ p s', _mymalloc (5 + 1) gcEnv 8 nearThreshold = some (p, s') →
      ∃ s1, checkAndRunGC 5 gcEnv nearThreshold (roundUp 8 8 + 16) = some s1) ∧
    (nearThreshold.TotalAlloc + (roundUp 8 8 + 16) < GC_THRESHOLD →
      checkAndRunGC 5 gcEnv nearThreshold (roundUp 8 8 + 16) =
        some { nearThreshold with
          TotalAlloc := nearThreshold.TotalAlloc + (roundUp 8 8 + 16) }) ∧
    (GC_THRESHOLD ≤ nearThreshold.TotalAlloc + (roundUp 8 8 + 16) →
      checkAndRunGC 5 gcEnv nearThreshold (roundUp 8 8 + 16) =
        _runGC 5 gcEnv { nearThreshold with TotalAlloc := 0 } ∧
      ∀ s1, checkAndRunGC 5 gcEnv nearThreshold (roundUp 8 8 + 16) = some s1 →
        s1.TotalAlloc = 0 ∧ s1.NumGCTriggered = nearThreshold.NumGCTriggered + 1)) :=
  ⟨⟨by decide!, by simp only [← _runGCFast_eq]; decide!⟩,
    checkAndRunGC_policy 5 gcEnv nearThreshold 8 (by decide!) (by decide)⟩

/-! ## Appending to the Unscanned list -/

theorem listCells_none (nodes : List UnscannedListNode) (k : Nat) :
    listCells nodes k none = some [] := by
  cases k <;> rfl

/-- A walk that starts at a node yields at least that node. -/
theorem listCells_ne_nil {nodes : List UnscannedListNode} {k i : Nat} {cells : List (Nat × Nat)}
    (h : listCells nodes k (some i) = some cells) : cells ≠ [] := by
  cases k with
  | zero => simp [listCells] at h
  | succ k =>
    simp only [listCells, Option.bind_eq_bind, Option.bind_eq_some] at h
    obtain ⟨nd, _, rest, _, e⟩ := h
    rw [← Option.some.inj e]
    exact List.cons_ne_nil _ _

/-- The last node of a walk is in the node store and its `Next` is `NULL`. -/
theorem listCells_last {nodes : List UnscannedListNode} {t : Nat} :
    ∀ (k : Nat) (cur : Option Nat) (cells : List (Nat × Nat)),
      listCells nodes k cur = some cells → (cells.getLast?).map Prod.fst = some t →
      ∃ nd, nodes[t]? = some nd ∧ nd.Next = none := by
  intro k
  induction k with
  | zero =>
    intro cur cells h hl
    cases cur with
    | none =>
      rw [listCells_none] at h
      rw [← Option.some.inj h] at hl
      simp at hl
    | some i => simp [listCells] at h
  | succ k ih =>
    intro cur cells h hl
    cases cur with
    | none =>
      rw [listCells_none] at h
      rw [← Option.some.inj h] at hl
      simp at hl
    | some i =>
      simp only [listCells, Option.bind_eq_bind, Option.bind_eq_some] at h
      obtain ⟨nd, hnd, rest, hrest, e⟩ := h
      rw [← Option.some.inj e] at hl
      cases hnx : nd.Next with
      | none =>
        rw [hnx, listCells_none] at hrest
        rw [← Option.some.inj hrest] at hl
        simp at hl
        rw [← hl]
        exact ⟨nd, hnd, hnx⟩
      | some j =>
        rw [hnx] at hrest
        have hne := listCells_ne_nil hrest
        obtain ⟨c, rest', er⟩ := List.exists_cons_of_ne_nil hne
        rw [er, List.getLast?_cons_cons] at hl
        rw [er] at hrest
        exact ih (some j) _ hrest hl

/-- Linking a new node behind the last node of a walk appends it to the walk. -/
theorem listCells_link {nodes nodes' : List UnscannedListNode} {t N : Nat}
    {new : UnscannedListNode} (hN : nodes'[N]? = some new) (hnew : new.Next = none)
    (ht : ∀ nd, nodes[t]? = some nd → nodes'[t]? = some { nd with Next := some N })
    (hother : ∀ i nd, i ≠ t → nodes[i]? = some nd → nodes'[i]? = some nd) :
    ∀ (k : Nat) (cur : Option Nat) (cells : List (Nat × Nat)),
      listCells nodes k cur = some cells → (cells.getLast?).map Prod.fst = some t →
      listCells nodes' (k + 1) cur = some (cells ++ [(N, new.Object)]) := by
  intro k
  induction k with
  | zero =>
    intro cur cells h hl
    cases cur with
    | none =>
      rw [listCells_none] at h
      rw [← Option.some.inj h] at hl
      simp at hl
    | some i => simp [listCells] at h
  | succ k ih =>
    intro cur cells h hl
    cases cur with
    | none =>
      rw [listCells_none] at h
      rw [← Option.some.inj h] at hl
      simp at hl
    | some i =>
      obtain ⟨ndt, hndt, hnxt⟩ := listCells_last _ _ _ h hl
      simp only [listCells, Option.bind_eq_bind, Option.bind_eq_some] at h
      obtain ⟨nd, hnd, rest, hrest, e⟩ := h
      rw [← Option.some.inj e] at hl ⊢
      cases hnx : nd.Next with
      | none =>
        rw [hnx, listCells_none] at hrest
        rw [← Option.some.inj hrest] at hl ⊢
        simp at hl
        rw [hl] at hnd ⊢
        have h1 := ht nd hnd
        simp only [listCells, Option.bind_eq_bind, h1, Option.some_bind, hN, hnew,
          listCells_none]
        rfl
      | some j =>
        rw [hnx] at hrest
        have hne := listCells_ne_nil hrest
        have hit : i ≠ t := by
          intro e2
          rw [e2, hndt] at hnd
          rw [← Option.some.inj hnd, hnxt] at hnx
          exact absurd hnx (by simp)
        have hl' : (rest.getLast?).map Prod.fst = some t := by
          obtain ⟨c, rest', er⟩ := List.exists_cons_of_ne_nil hne
          rw [er, List.getLast?_cons_cons] at hl
          rw [er]; exact hl
        have h2 := ih (some j) rest hrest hl'
        have h1 := hother i nd hit hnd
        show (nodes'[i]?.bind fun node => (listCells nodes' (k + 1) node.Next).bind fun rest =>
          some ((i, node.Object) :: rest)) = _
        rw [h1]
        simp only [Option.some_bind, hnx, h2]
        rfl

/-- What `addToUnscannedList` does to the list: the walk from `Head`, if it ends at
`Tail`, is longer by the new node, which holds `h`. -/
theorem addToUnscannedList_cells {s s' : State} {h : Nat}
    (ha : addToUnscannedList s h = some s') :
    ∀ (k : Nat) (cells : List (Nat × Nat)),
      listCells s.nodes k (listHead s) = some cells →
      (cells.getLast?).map Prod.fst = listTail s →
      listCells s'.nodes (k + 1) (listHead s') = some (cells ++ [(s.nodes.length, h)]) := by
  have fresh : ∀ (k : Nat), listCells (s.nodes ++ [UnscannedListNode.mk h none]) (k + 1)
      (some s.nodes.length) = some [(s.nodes.length, h)] := by
    intro k
    simp only [listCells, Option.bind_eq_bind, List.getElem?_concat_length, Option.some_bind,
      listCells_none]
  intro k cells hc hl
  unfold addToUnscannedList at ha
  cases hu : s.Unscanned with
  | none =>
    simp only [hu] at ha
    have e := (Option.some.inj ha).symm
    subst e
    simp only [listHead, hu] at hc
    rw [listCells_none] at hc
    rw [← Option.some.inj hc]
    exact fresh k
  | some U =>
    obtain ⟨Head, Tail⟩ := U
    cases Head with
    | none =>
      simp only [hu] at ha
      have e := (Option.some.inj ha).symm
      subst e
      simp only [listHead, hu] at hc
      rw [listCells_none] at hc
      rw [← Option.some.inj hc]
      exact fresh k
    | some hd =>
      cases Tail with
      | none =>
        simp only [listHead, listTail, hu] at hc hl
        have := listCells_ne_nil hc
        obtain ⟨c, rest', er⟩ := List.exists_cons_of_ne_nil this
        rw [er] at hl
        cases rest' <;> simp at hl
      | some t =>
        simp only [hu] at ha
        split at ha
        · rename_i htl
          have e := (Option.some.inj ha).symm
          subst e
          simp only [listHead, listTail, hu] at hc hl ⊢
          have htN : t < s.nodes.length := by
            obtain ⟨nd, hnd, _⟩ := listCells_last _ _ _ hc hl
            by_contra hcon
            rw [List.getElem?_eq_none (by omega)] at hnd
            exact absurd hnd (by simp)
          refine @listCells_link s.nodes _ t s.nodes.length (UnscannedListNode.mk h none)
            ?_ rfl ?_ ?_ k (some hd) cells hc hl
          · rw [List.getElem?_modify_ne _ _ (by omega), List.getElem?_concat_length]
          · intro nd hnd
            rw [List.getElem?_modify_eq, List.getElem?_append_left htN, hnd]
            rfl
          · intro i nd hi hnd
            have hiN : i < s.nodes.length := by
              by_contra hcon
              rw [List.getElem?_eq_none (by omega)] at hnd
              exact absurd hnd (by simp)
            rw [List.getElem?_modify_ne _ _ (fun e => hi e.symm), List.getElem?_append_left hiN,
              hnd]
        · exact absurd ha (by simp)

/-- What `markValidObject` is once the classifier has returned the header `h` of an
`UNMARKED` object: the status is set to `MARK`, then `addToUnscannedList` runs. -/
theorem markValidObject_marks (fuel : Nat) (s : State) (ptr W seg h : Nat)
    (hl : load64 s ptr = some W) (hf : findSegment s W s.Segments = some seg)
    (hr : retrieveObjectHeader fuel s (getBigAlloc s seg) W seg = some (some h))
    (ha : accessible s (h + 4) 4 = true) (h0 : hStatus s.mem h = 0) :
    markValidObject fuel s ptr =
      (addToUnscannedList { s with mem := write32 s.mem (h + 4) MARK } h).bind fun s1 =>
        some { s1 with unscannedListCount := s1.unscannedListCount + 1 } := by
  have l4 := load32_some s (h + 4) ha
  have e4 : read32 s.mem (h + 4) = hStatus s.mem h := rfl
  rw [e4] at l4
  simp only [markValidObject, hl, Option.bind_eq_bind, Option.some_bind, hf, hr, l4, h0,
    if_true]
  rw [store32_some s (h + 4) MARK ha]
  simp only [Option.some_bind]

/-! ## The sweep of one page -/

/-- `myfree` on a small object, as an equation: the size is added to `NumBytesFreed` and
to the counter of the header's page, the status becomes `FREE`, and when the counter has
reached `PAGE_SIZE` the page of `Ptr` is released. -/
theorem myfree_small_eq (s : State) (h : Nat) (hw : h + 16 < WORD)
    (a1 : accessible s h 4 = true) (a2 : accessible s (h + 4) 4 = true)
    (a3 : accessible s (getSizeMetadata h) 2 = true)
    (hst : hStatus s.mem h &&& FREE = 0) (hsz : hSize s.mem h ≤ COMMIT_SIZE)
    (hd : getSizeMetadata h + 2 ≤ h + 4 ∨ h + 8 ≤ getSizeMetadata h)
    (hc : read16 s.mem (getSizeMetadata h) + hSize s.mem h ≤ PAGE_SIZE) :
    myfree s (h + 16) = some { s with
      NumBytesFreed := s.NumBytesFreed + hSize s.mem h
      mem := write32 (write16 s.mem (getSizeMetadata h)
        (read16 s.mem (getSizeMetadata h) + hSize s.mem h)) (h + 4) FREE
      noaccess := if read16 s.mem (getSizeMetadata h) + hSize s.mem h = PAGE_SIZE then
        setProt s.noaccess (ADDR_TO_PAGE (h + 16)) PAGE_SIZE true else s.noaccess } := by
  have l1 : load32 s (h + 4) = some (hStatus s.mem h) := by simp [load32, a2, hStatus]
  have hst' : ¬ (hStatus s.mem h &&& FREE ≠ 0) := by simp [hst]
  have hsz' : ¬ (hSize s.mem h > COMMIT_SIZE) := by omega
  have r1 : read16 (write16 s.mem (getSizeMetadata h)
      (read16 s.mem (getSizeMetadata h) + hSize s.mem h)) (getSizeMetadata h) =
      read16 s.mem (getSizeMetadata h) + hSize s.mem h := by
    rw [read16_write16, Nat.mod_eq_of_lt]
    simp only [PAGE_SIZE] at hc
    omega
  have r2 : read16 (write32 (write16 s.mem (getSizeMetadata h)
      (read16 s.mem (getSizeMetadata h) + hSize s.mem h)) (h + 4) FREE) (getSizeMetadata h) =
      read16 s.mem (getSizeMetadata h) + hSize s.mem h := by
    refine Eq.trans ?_ r1
    apply read16_congr
    intro x hx1 hx2
    exact write32_ne _ (h + 4) FREE x (by omega)
  have hp1 : ADDR_TO_PAGE (h + 16) &&& (PAGE_SIZE - 1) = 0 := by
    rw [land_page_mask, ADDR_TO_PAGE_eq (h + 16) hw]
    omega
  have hp2 : PAGE_SIZE % PAGE_SIZE = 0 := Nat.mod_self _
  simp only [myfree, OBJ_HEADER_SIZE, Nat.add_sub_cancel, Option.bind_eq_bind, l1,
    Option.some_bind, if_neg hst']
  rw [load32_some s h a1]
  simp only [Option.some_bind]
  have e : read32 s.mem h = hSize s.mem h := rfl
  rw [e, if_neg hsz', load16_some _ _ (by exact a3)]
  simp only [Option.some_bind]
  rw [store16_some _ _ _ (by exact a3)]
  simp only [Option.some_bind]
  rw [load16_some _ _ (by exact a3)]
  simp only [Option.some_bind, r1]
  rw [if_pos hc, store32_some _ _ _ (by exact a2)]
  simp only [Option.some_bind]
  rw [load16_some _ _ (by exact a3)]
  simp only [Option.some_bind, r2]
  by_cases hfull : read16 s.mem (getSizeMetadata h) + hSize s.mem h = PAGE_SIZE
  · rw [if_pos hfull, if_pos hfull]
    simp only [reclaimMemory, hp1, hp2, and_self, if_true]
  · rw [if_neg hfull, if_neg hfull]

theorem Tiled_self {m : Mem} {a t : Nat} (h : Tiled m a a t) : t = 0 := by
  cases h with
  | nil => rfl
  | cons _ _ t' h8 hle _ _ => omega

theorem IsHeader_inv {m : Mem} {a lim h : Nat} (hh : IsHeader m a lim h) :
    a < lim ∧ (h = a ∨ IsHeader m (a + hSize m a) lim h) := by
  cases hh with
  | here _ _ hlt => exact ⟨hlt, Or.inl rfl⟩
  | next _ _ _ hlt hn => exact ⟨hlt, Or.inr hn⟩

/-- The live total of a tiling is at least the live size of each of its objects. -/
theorem Tiled_live_le {m : Mem} {a lim t h : Nat} (ht : Tiled m a lim t)
    (hh : IsHeader m a lim h) : liveSize m h ≤ t ∧ 8 ≤ hSize m h := by
  obtain ⟨t1, t2, _, p2, e, g1, _⟩ := Tiled_split ht hh
  refine ⟨?_, g1⟩
  cases p2 with
  | nil => omega
  | cons _ _ t' _ _ _ _ => omega

/-- The loop of `traversePageForNormalAllocation` on a page without marked objects: from
a header `cur` of the page on, every object that is not yet `FREE` is freed; the loop
returns, and the counter ends at `K`, its value at the start plus the live total. -/
theorem traverseLoop_frees {g cs pb P lim K : Nat} (hP : P % PAGE_SIZE = 0)
    (hlimP : lim ≤ P + PAGE_SIZE) (hcs1 : g + 8 ≤ cs) (hcs2 : cs + 2 ≤ P)
    (hK : K ≤ PAGE_SIZE) (hW : lim + 16 < WORD)
    (hmeta : ∀ h, P ≤ h → h < lim → getSizeMetadata h = cs) :
    ∀ (fuel cur : Nat) (s : State) (t : Nat),
      Tiled s.mem cur lim t → P ≤ cur → lim = min pb (getAllocPtr s g) →
      (∀ h, IsHeader s.mem cur lim h → hStatus s.mem h = 0 ∨ hStatus s.mem h = FREE) →
      read16 s.mem cs + t = K → accessible s cs 2 = true →
      (read16 s.mem cs ≠ PAGE_SIZE → s.noaccess (P / PAGE_SIZE) = false) →
      lim - cur < 8 * fuel →
      ∃ s', traverseLoop g cs pb fuel cur s = some s' ∧
        (∀ h, IsHeader s.mem cur lim h →
          hStatus s'.mem h = FREE ∧ hSize s'.mem h = hSize s.mem h) ∧
        read16 s'.mem cs = K ∧
        (∀ x, x < cur ∨ lim ≤ x → ¬ (cs ≤ x ∧ x < cs + 2) → s'.mem.get x = s.mem.get x) ∧
        s'.NumBytesFreed = s.NumBytesFreed + (t : Int) := by
  have hP4 : PAGE_SIZE = 4096 := rfl
  have hP' : P % 4096 = 0 := hP
  have hlimP' : lim ≤ P + 4096 := hlimP
  have hK' : K ≤ 4096 := hK
  intro fuel
  induction fuel with
  | zero =>
    intro cur s t _ _ _ _ _ _ _ hf
    omega
  | succ k ih =>
    intro cur s t ht hPc hlim hst hc hacc hpage hfuel
    have hle := Tiled_le ht
    have l16 := load16_some s cs hacc
    unfold traverseLoop
    simp only [Option.bind_eq_bind, l16, Option.some_bind]
    by_cases hcond : read16 s.mem cs ≠ PAGE_SIZE ∧ (cur < pb ∧ cur < getAllocPtr s g)
    · rw [if_pos hcond]
      obtain ⟨hne, hc1, hc2⟩ := hcond
      have hlt : cur < lim := by rw [hlim]; exact lt_min hc1 hc2
      have hna := hpage hne
      cases ht with
      | nil => omega
      | cons _ _ t' h8 hsz hpg htl =>
        have hh0 : IsHeader s.mem cur lim cur := IsHeader.here cur lim hlt
        have a1 : accessible s cur 4 = true :=
          accessible_in_page s P cur 4 hP hna hPc (by omega) (by omega)
        have a2 : accessible s (cur + 4) 4 = true :=
          accessible_in_page s P (cur + 4) 4 hP hna (by omega) (by omega) (by omega)
        have l32 := load32_some s cur a1
        have l4 := load32_some s (cur + 4) a2
        have e4 : read32 s.mem (cur + 4) = hStatus s.mem cur := rfl
        have e0 : read32 s.mem cur = hSize s.mem cur := rfl
        rw [e4] at l4
        rw [e0] at l32
        obtain ⟨sz, hsze⟩ : ∃ sz, sz = hSize s.mem cur := ⟨_, rfl⟩
        rw [← hsze] at l32 h8 hsz htl
        rcases hst cur hh0 with h0 | h1
        · have hm : markOrFreeObject s cur = some (s, some cur) := by
            simp only [markOrFreeObject, Option.bind_eq_bind, l4, Option.some_bind, h0]
            rfl
          have hl : liveSize s.mem cur = sz := by
            unfold liveSize; rw [h0, if_neg (by decide), hsze]
          rw [hl] at hc
          have hcs := hmeta cur hPc hlt
          have hfree := myfree_small_eq s cur (by omega) a1 a2 (by rw [hcs]; exact hacc)
            (by rw [h0]; decide) (by rw [← hsze]; show sz ≤ 4096; omega)
            (Or.inl (by rw [hcs]; omega)) (by rw [hcs, ← hsze]; omega)
          rw [hcs, ← hsze] at hfree
          rw [hm]
          simp only [Option.some_bind, l32, OBJ_HEADER_SIZE]
          rw [hfree]
          simp only [Option.some_bind]
          obtain ⟨c, hce⟩ : ∃ c, c = read16 s.mem cs := ⟨_, rfl⟩
          rw [← hce] at hc hne ⊢
          obtain ⟨s2, hs2⟩ : ∃ s2 : State, s2 = { s with
              NumBytesFreed := s.NumBytesFreed + sz
              mem := write32 (write16 s.mem cs (c + sz)) (cur + 4) FREE
              noaccess := if c + sz = PAGE_SIZE then
                setProt s.noaccess (ADDR_TO_PAGE (cur + 16)) PAGE_SIZE true
                else s.noaccess } := ⟨_, rfl⟩
          rw [← hs2]
          have m2 : s2.mem = write32 (write16 s.mem cs (c + sz)) (cur + 4) FREE := by rw [hs2]
          have n2 : s2.noaccess = if c + sz = PAGE_SIZE then
              setProt s.noaccess (ADDR_TO_PAGE (cur + 16)) PAGE_SIZE true
              else s.noaccess := by rw [hs2]
          have f2 : s2.NumBytesFreed = s.NumBytesFreed + sz := by rw [hs2]
          have hget : ∀ x, ¬ (cur + 4 ≤ x ∧ x < cur + 8) → ¬ (cs ≤ x ∧ x < cs + 2) →
              s2.mem.get x = s.mem.get x := by
            intro x x1 x2
            rw [m2, write32_ne _ _ _ _ (by omega), write16_ne _ _ _ _ (by omega)]
          have hcnt : read16 s2.mem cs = c + sz := by
            have : read16 s2.mem cs = read16 (write16 s.mem cs (c + sz)) cs := by
              rw [m2]
              apply read16_congr
              intro x hx1 hx2
              exact write32_ne _ (cur + 4) FREE x (by omega)
            rw [this, read16_write16, Nat.mod_eq_of_lt]
            omega
          have hlow : ∀ q, q < P / PAGE_SIZE → s2.noaccess q = s.noaccess q := by
            intro q hq
            rw [n2]
            split
            · have eP := ADDR_TO_PAGE_eq (cur + 16) (by omega)
              simp only [setProt, eP, hP4]
              rw [hP4] at hq
              rw [if_neg (by omega)]
            · rfl
          have acc2 : accessible s2 cs 2 = true := by
            have q1 := hlow (cs / PAGE_SIZE) (by rw [hP4]; omega)
            have q2 := hlow ((cs + 2 - 1) / PAGE_SIZE) (by rw [hP4]; omega)
            simp only [accessible] at hacc ⊢
            rw [q1, q2]
            exact hacc
          have htl2 : Tiled s2.mem (cur + sz) lim t' :=
            Tiled_congr htl (fun x x1 x2 => hget x (by omega) (by omega))
          have eA : getAllocPtr s2 g = getAllocPtr s g :=
            read64_congr _ _ _ (fun x x1 x2 => hget x (by omega) (by omega))
          obtain ⟨s', r1, r2, r3, r4, r5⟩ := ih (cur + sz) s2 t' htl2 (by omega)
            (by rw [eA]; exact hlim)
            (by
              intro h hh
              have hh' : IsHeader s.mem (cur + sz) lim h :=
                IsHeader_congr htl2 hh (fun x x1 x2 => (hget x (by omega) (by omega)).symm)
              have hr := IsHeader_range hh'
              have := hst h (IsHeader.next cur lim h hlt (by rw [← hsze]; exact hh'))
              rw [hStatus_congr s.mem s2.mem h (fun x x1 x2 => hget x (by omega) (by omega))]
              exact this)
            (by rw [hcnt]; omega) acc2
            (by
              intro hne2
              rw [hcnt] at hne2
              rw [n2, if_neg hne2]
              exact hna)
            (by omega)
          refine ⟨s', r1, ?_, r3, ?_, ?_⟩
          · intro h hh
            rcases (IsHeader_inv hh).2 with e | hh'
            · rw [e]
              constructor
              · rw [hStatus_congr s2.mem s'.mem cur
                  (fun x x1 x2 => r4 x (Or.inl (by omega)) (by omega))]
                show read32 s2.mem (cur + 4) = FREE
                rw [m2, read32_write32]
                rfl
              · rw [hSize_congr s2.mem s'.mem cur
                  (fun x x1 x2 => r4 x (Or.inl (by omega)) (by omega))]
                exact hSize_congr s.mem s2.mem cur (fun x x1 x2 => hget x (by omega) (by omega))
            · rw [← hsze] at hh'
              have hr := IsHeader_range hh'
              have hh2 : IsHeader s2.mem (cur + sz) lim h :=
                IsHeader_congr htl hh' (fun x x1 x2 => hget x (by omega) (by omega))
              obtain ⟨u1, u2⟩ := r2 h hh2
              exact ⟨u1, u2.trans (hSize_congr s.mem s2.mem h
                (fun x x1 x2 => hget x (by omega) (by omega)))⟩
          · intro x x1 x2
            rw [r4 x (by omega) x2]
            exact hget x (by omega) x2
          · rw [r5, f2]
            push_cast
            omega
        · have hm : markOrFreeObject s cur = some (s, none) := by
            simp only [markOrFreeObject, Option.bind_eq_bind, l4, Option.some_bind, h1]
            rfl
          have hl : liveSize s.mem cur = 0 := by
            unfold liveSize; rw [h1, if_pos rfl]
          rw [hl, Nat.zero_add] at hc
          rw [hm]
          simp only [Option.some_bind, l32]
          obtain ⟨s', r1, r2, r3, r4, r5⟩ := ih (cur + sz) s t' htl (by omega) hlim
            (fun h hh => hst h (IsHeader.next cur lim h hlt (by rw [← hsze]; exact hh)))
            hc hacc hpage (by omega)
          refine ⟨s', r1, ?_, r3, ?_, ?_⟩
          · intro h hh
            rcases (IsHeader_inv hh).2 with e | hh'
            · rw [e]
              constructor
              · rw [hStatus_congr s.mem s'.mem cur
                  (fun x x1 x2 => r4 x (Or.inl (by omega)) (by omega))]
                exact h1
              · exact hSize_congr s.mem s'.mem cur
                  (fun x x1 x2 => r4 x (Or.inl (by omega)) (by omega))
            · rw [← hsze] at hh'
              exact r2 h hh'
          · intro x x1 x2
            exact r4 x (by omega) x2
          · rw [r5, hl]
            simp
    · rw [if_neg hcond]
      have ht0 : t = 0 := by
        by_cases hlt : cur < lim
        · have : read16 s.mem cs = PAGE_SIZE := by
            by_contra hne
            apply hcond
            rw [hlim] at hlt
            exact ⟨hne, lt_of_lt_of_le hlt (min_le_left _ _), lt_of_lt_of_le hlt (min_le_right _ _)⟩
          omega
        · have e : cur = lim := by omega
          rw [e] at ht
          exact Tiled_self ht
      refine ⟨s, rfl, ?_, by omega, fun x _ _ => rfl, by rw [ht0]; simp⟩
      intro h hh
      refine ⟨?_, rfl⟩
      obtain ⟨l1, l2⟩ := Tiled_live_le ht hh
      rcases hst h hh with h0 | h1
      · exfalso
        unfold liveSize at l1
        rw [h0, if_neg (by decide)] at l1
        omega
      · exact h1

/-- The counter slot of a page of the data area lies in the metadata area, above the
bump pointers of the segment, and is shared by all addresses of the page. -/
theorem counter_slot (seg P : Nat) (hseg : seg % SEGMENT_SIZE = 0) (hw : seg + SEGMENT_SIZE < WORD)
    (hP : P % PAGE_SIZE = 0) (hP1 : seg + METADATA_SIZE ≤ P) (hP2 : P < seg + SEGMENT_SIZE) :
    seg + 8 ≤ getSizeMetadata P ∧ getSizeMetadata P + 2 ≤ P ∧
      ∀ h, P ≤ h → h < P + PAGE_SIZE → getSizeMetadata h = getSizeMetadata P := by
  obtain ⟨c1, c2⟩ := getSizeMetadata_data seg P hseg hP1 hP2 (le_of_lt hw)
  have hM := METADATA_SIZE_eq
  have hS4 : SEGMENT_SIZE = 4294967296 := rfl
  have hP4 : PAGE_SIZE = 4096 := rfl
  rw [hS4] at hseg hP2
  rw [hP4] at hP
  rw [hM] at hP1
  refine ⟨by omega, by omega, ?_⟩
  intro h h1 h2
  rw [hP4] at h2
  rw [getSizeMetadata_eq seg h (by rw [hS4]; exact hseg) (by omega) (by rw [hS4]; omega) (le_of_lt hw),
    getSizeMetadata_eq seg P (by rw [hS4]; exact hseg) (by omega) (by rw [hS4]; omega) (le_of_lt hw),
    hP4]
  omega

/-- The sweep of a page of a small segment on which no object is marked. -/
theorem traversePage_frees (s : State) (seg P t : Nat)
    (hseg : seg % SEGMENT_SIZE = 0) (hw : seg + SEGMENT_SIZE < WORD)
    (hP : P % PAGE_SIZE = 0) (hP1 : seg + METADATA_SIZE ≤ P) (hP2 : P < getAllocPtr s seg)
    (hA : getAllocPtr s seg ≤ seg + SEGMENT_SIZE)
    (ht : Tiled s.mem P (min (P + PAGE_SIZE) (getAllocPtr s seg)) t)
    (hst : ∀ h, IsHeader s.mem P (min (P + PAGE_SIZE) (getAllocPtr s seg)) h →
      hStatus s.mem h = 0 ∨ hStatus s.mem h = FREE)
    (hc : counterOf s.mem P + t ≤ PAGE_SIZE)
    (hm : accessible s (getSizeMetadata P) 2 = true)
    (hacc : counterOf s.mem P ≠ PAGE_SIZE → s.noaccess (P / PAGE_SIZE) = false) :
    ∃ s', traversePageForNormalAllocation s P (getSizeMetadata P) seg = some s' ∧
      (∀ h, IsHeader s.mem P (min (P + PAGE_SIZE) (getAllocPtr s seg)) h →
        hStatus s'.mem h = FREE ∧ hSize s'.mem h = hSize s.mem h) ∧
      counterOf s'.mem P = counterOf s.mem P + t ∧
      (counterOf s.mem P + t = min (P + PAGE_SIZE) (getAllocPtr s seg) - P →
        (counterOf s'.mem P = PAGE_SIZE ↔ P + PAGE_SIZE ≤ getAllocPtr s seg)) ∧
      getAllocPtr s' seg = getAllocPtr s seg ∧
      s'.NumBytesFreed = s.NumBytesFreed + (t : Int) := by
  have hS4 : SEGMENT_SIZE = 4294967296 := rfl
  have hP4 : PAGE_SIZE = 4096 := rfl
  have hWD : WORD = 18446744073709551616 := rfl
  obtain ⟨c1, c2, c3⟩ := counter_slot seg P hseg hw hP hP1 (lt_of_lt_of_le hP2 hA)
  obtain ⟨lim, hlim⟩ : ∃ lim, lim = min (P + PAGE_SIZE) (getAllocPtr s seg) := ⟨_, rfl⟩
  rw [← hlim] at ht hst ⊢
  have hl1 : lim ≤ P + PAGE_SIZE := by rw [hlim]; exact min_le_left _ _
  have hl2 : lim ≤ getAllocPtr s seg := by rw [hlim]; exact min_le_right _ _
  have hl3 : P < lim := by rw [hlim]; exact lt_min (by rw [hP4]; omega) hP2
  obtain ⟨s', r1, r2, r3, r4, r5⟩ := @traverseLoop_frees seg (getSizeMetadata P) (P + PAGE_SIZE) P
    lim (counterOf s.mem P + t) hP hl1 c1 c2 hc
    (by rw [hS4] at hA hseg hw; rw [hWD] at hw ⊢; omega)
    (fun h h1 h2 => c3 h h1 (by omega))
    (PAGE_SIZE + 1) P s t ht (le_refl _) hlim hst rfl hm hacc (by rw [hP4]; rw [hP4] at hl1; omega)
  refine ⟨s', r1, r2, r3, ?_, ?_, r5⟩
  · intro hfull
    show read16 s'.mem (getSizeMetadata P) = PAGE_SIZE ↔ _
    rw [r3, hfull]
    rcases Nat.le_total (P + PAGE_SIZE) (getAllocPtr s seg) with h | h
    · rw [hlim, min_eq_left h]
      exact ⟨fun _ => h, fun _ => by omega⟩
    · rw [hlim, min_eq_right h]
      exact ⟨fun e => by omega, fun h' => by omega⟩
  · exact read64_congr _ _ _ (fun x x1 x2 => r4 x (Or.inl (by
      have hM := METADATA_SIZE_eq
      omega)) (by omega))

/-! ## The live total as a walk over the headers -/

theorem walkLive_Tiled {m : Mem} {a lim t : Nat} (h : Tiled m a lim t) :
    ∀ fuel, (lim - a) / 8 + 1 ≤ fuel → walkLive m lim fuel a = t := by
  induction h with
  | nil a =>
    intro fuel hf
    obtain ⟨k, rfl⟩ : ∃ k, fuel = k + 1 := ⟨fuel - 1, by omega⟩
    simp [walkLive]
  | cons a lim t h8 hle _ _ ih =>
    intro fuel hf
    obtain ⟨k, rfl⟩ : ∃ k, fuel = k + 1 := ⟨fuel - 1, by omega⟩
    simp only [walkLive]
    rw [if_pos (by omega), ih k (by omega)]

theorem walkLive_LargeTiled {m : Mem} {a lim t : Nat} (h : LargeTiled m a lim t) :
    ∀ fuel, (lim - a) / 8 + 1 ≤ fuel → walkLive m lim fuel a = t := by
  have hP4 : PAGE_SIZE = 4096 := rfl
  induction h with
  | nil a =>
    intro fuel hf
    obtain ⟨k, rfl⟩ : ∃ k, fuel = k + 1 := ⟨fuel - 1, by omega⟩
    simp [walkLive]
  | live a lim t hgt _ hle hst _ _ _ ih =>
    intro fuel hf
    rw [hP4] at hgt
    obtain ⟨k, rfl⟩ : ∃ k, fuel = k + 1 := ⟨fuel - 1, by omega⟩
    simp only [walkLive]
    rw [if_pos (by omega), ih k (by omega)]
    unfold liveSize
    rw [if_neg hst]
  | freed a lim t hgt _ hle hst _ _ ih =>
    intro fuel hf
    rw [hP4] at hgt
    obtain ⟨k, rfl⟩ : ∃ k, fuel = k + 1 := ⟨fuel - 1, by omega⟩
    simp only [walkLive]
    rw [if_pos (by omega), ih k (by omega)]
    unfold liveSize
    rw [if_pos hst, Nat.zero_add]

/-- In a well-formed segment the walk over the headers yields the live total. -/
theorem liveBytesSeg_eq {m : Mem} {na : Nat → Bool} {g t : Nat} (h : SegInv m na g t) :
    liveBytesSeg m g = t := by
  unfold liveBytesSeg
  rw [h.1.data]
  rcases h.1.flag with f | f
  · exact walkLive_Tiled (h.2.1 f) _ (le_refl _)
  · exact walkLive_LargeTiled (h.2.2 f).1 _ (le_refl _)

theorem liveBytes_eq {s : State} {tot : Nat → Nat} (h : Inv s tot) :
    liveBytes s = (s.Segments.map tot).sum := by
  unfold liveBytes
  congr 1
  apply List.map_congr_left
  intro g hg
  exact liveBytesSeg_eq (h.segInv g hg)

theorem IsHeader_sub {m : Mem} {a lim P lim' h : Nat} (hc : Chain m a lim)
    (hP : IsHeader m a lim P) (hh : IsHeader m P lim' h) (hle : lim' ≤ lim) :
    IsHeader m a lim h := by
  induction hh with
  | here P lim' _ => exact hP
  | next P lim' h hlt hn ih =>
    have hr := IsHeader_range hn
    exact ih (IsHeader_next hc hP (by omega)) hle

/-! ## Reachability of the states of the examples -/

/-- The `mmap` results of the fresh process of the examples are usable. -/
theorem freshState_mmap : MmapOK [] [0x7f0000001000, 0x7e0000001000, 0x7d0000001000] := by
  refine ⟨?_, ?_⟩
  · intro b hb
    simp only [List.mem_cons, List.mem_singleton, List.not_mem_nil, or_false] at hb
    refine ⟨?_, ?_, fun g hg => absurd hg (List.not_mem_nil _)⟩
    · rcases hb with e | e | e <;> rw [e] <;> decide
    · rcases hb with e | e | e <;> rw [e] <;> decide
  · decide

theorem Reachable_freshState : Reachable freshState :=
  Reachable.init _ _ freshState_mmap

/-- The state after a call of `_mymalloc`, or the fresh state if the call does not return,
is reachable. -/
theorem Reachable_mallocD {s : State} (hr : Reachable s) (fuel : Nat) (env : RootEnv) (n : Nat)
    (hn : n < WORD) (r : Option (Nat × State)) (h : _mymalloc fuel env n s = r) :
    Reachable (match r with
      | some (_, s') => s'
      | none => freshState) := by
  cases r with
  | none => exact Reachable_freshState
  | some r =>
    obtain ⟨p, s'⟩ := r
    exact Reachable.malloc s s' fuel env n p hr hn h

theorem Reachable_gcD {s : State} (hr : Reachable s) (fuel : Nat) (env : RootEnv) :
    Reachable ((_runGC fuel env s).getD freshState) := by
  generalize h : _runGC fuel env s = r
  cases r with
  | none => exact Reachable_freshState
  | some s' => exact Reachable.gc s s' fuel env hr h

theorem Reachable_oneSmall : Reachable oneSmall := by
  unfold oneSmall
  exact Reachable_mallocD Reachable_freshState 1 gcEnv 8 (by decide) _ rfl

theorem Reachable_after3000 : Reachable after3000 := by
  unfold after3000
  exact Reachable_mallocD Reachable_freshState 1 gcEnv 3000 (by decide) _ rfl

theorem Reachable_holePages : Reachable holePages := by
  unfold holePages
  exact Reachable_mallocD Reachable_after3000 1 gcEnv 2000 (by decide) _ rfl

theorem Reachable_holePagesLarge : Reachable holePagesLarge := by
  unfold holePagesLarge
  exact Reachable_mallocD Reachable_holePages 1 gcEnv 5000 (by decide) _ rfl

theorem holePagesLarge_segs : holePagesLarge.Segments = [seg2, seg1] := by decide!

theorem Reachable_holePagesRooted : Reachable holePagesRooted := by
  have hw : ∀ x, (write64 holePagesLarge.mem 8184 (seg2Data + 16)).get x ≠
      holePagesLarge.mem.get x → MutatorOK holePagesLarge x := by
    intro x hx
    left
    have hx' : 8184 ≤ x ∧ x < 8192 := by
      by_contra hcon
      exact hx (write64_ne _ _ _ _ (by omega))
    intro g hg
    rw [holePagesLarge_segs] at hg
    simp only [List.mem_cons, List.mem_singleton, List.not_mem_nil, or_false] at hg
    rcases hg with e | e <;> rw [e] <;> simp only [seg1, seg2] <;> omega
  exact Reachable.write holePagesLarge _ Reachable_holePagesLarge hw

theorem Reachable_holePagesSwept : Reachable holePagesSwept :=
  Reachable_gcD Reachable_holePagesRooted 5 gcEnv

/-- The collection cycle of the example returns; what it leaves. -/
theorem holePagesSwept_facts :
    holePagesSwept.Segments = [seg2, seg1] ∧ holePagesSwept.NumGCTriggered = 1 ∧
    holePagesSwept.NumBytesAllocated = 13224 ∧ holePagesSwept.NumBytesFreed = 5032 ∧
    getBigAlloc holePagesSwept seg1 = 0 ∧ getDataPtr holePagesSwept seg1 = seg1Data ∧
    getAllocPtr holePagesSwept seg1 = seg1Data + 4096 + 2016 := by
  rw [holePagesSwept, ← _runGCFast_eq]
  decide!

/-! ## Histories of the examples -/

theorem History_fresh : History freshState [] := History.init _ _ freshState_mmap

/-- Recording one more call keeps the history a history. -/
theorem History_record {x : State × List (Nat × State)} (h : History x.1 x.2) (fuel : Nat)
    (env : RootEnv) (n : Nat) (hn : n < WORD) :
    History (recordMalloc fuel env n x).1 (recordMalloc fuel env n x).2 := by
  unfold recordMalloc
  generalize hr : _mymalloc fuel env n x.1 = r
  cases r with
  | none => exact h
  | some r =>
    obtain ⟨p, s'⟩ := r
    exact History.malloc x.1 s' x.2 fuel env n p h hn hr

theorem History_recordD {s : State} {hist : List (Nat × State)} (h : History s hist)
    (fuel : Nat) (env : RootEnv) (n : Nat) (hn : n < WORD) :
    History (recordMalloc fuel env n (s, hist)).1 (recordMalloc fuel env n (s, hist)).2 :=
  @History_record (s, hist) h fuel env n hn

theorem History_gcD {s : State} {hist : List (Nat × State)} (h : History s hist) (fuel : Nat)
    (env : RootEnv) : History ((_runGC fuel env s).getD s) hist := by
  generalize hr : _runGC fuel env s = r
  cases r with
  | none => exact h
  | some s' => exact History.gc s s' hist fuel env h hr

theorem History_threeAllocs : History threeAllocs.1 threeAllocs.2 :=
  History_record (History_record (@History_record (freshState, []) History_fresh 1 gcEnv 3000
    (by decide)) 1 gcEnv 2000 (by decide)) 1 gcEnv 5000 (by decide)

theorem threeAllocs_segs : threeAllocs.1.Segments = [seg2, seg1] := by decide!

theorem History_threeAllocsRooted : History threeAllocsRooted.1 threeAllocsRooted.2 := by
  have hw : ∀ x, (write64 threeAllocs.1.mem 8184 (seg2Data + 16)).get x ≠
      threeAllocs.1.mem.get x → MutatorOK threeAllocs.1 x := by
    intro x hx
    left
    have hx' : 8184 ≤ x ∧ x < 8192 := by
      by_contra hcon
      exact hx (write64_ne _ _ _ _ (by omega))
    intro g hg
    rw [threeAllocs_segs] at hg
    simp only [List.mem_cons, List.mem_singleton, List.not_mem_nil, or_false] at hg
    rcases hg with e | e <;> rw [e] <;> simp only [seg1, seg2] <;> omega
  exact History.write threeAllocs.1 threeAllocs.2 _ History_threeAllocs hw

theorem History_fourAllocs : History fourAllocs.1 fourAllocs.2 := by
  have h := History_gcD History_threeAllocsRooted 5 gcEnv
  unfold fourAllocs
  exact History_recordD h 1 gcEnv 1000 (by decide)

/-- The first page of `holePages`: the 3016-byte object, not marked, and the hole of
1080 bytes, which is `FREE`. -/
theorem holePages_firstPage :
    Tiled holePages.mem seg1Data (min (seg1Data + PAGE_SIZE) (getAllocPtr holePages seg1)) 3016 ∧
    ∀ h, IsHeader holePages.mem seg1Data
        (min (seg1Data + PAGE_SIZE) (getAllocPtr holePages seg1)) h →
      hStatus holePages.mem h = 0 ∨ hStatus holePages.mem h = FREE := by
  have elim : min (seg1Data + PAGE_SIZE) (getAllocPtr holePages seg1) = seg1Data + 4096 := by
    decide!
  have hs1 : hSize holePages.mem seg1Data = 3016 := by decide!
  have hs2 : hSize holePages.mem (seg1Data + 3016) = 1080 := by decide!
  have st1 : hStatus holePages.mem seg1Data = 0 := by decide!
  have st2 : hStatus holePages.mem (seg1Data + 3016) = FREE := by decide!
  have e1 : seg1Data + 3016 + 1080 = seg1Data + 4096 := by decide
  rw [elim]
  constructor
  · have T2 := @Tiled.cons holePages.mem (seg1Data + 3016) (seg1Data + 4096) 0
      (by rw [hs2] <;> decide) (by rw [hs2] <;> decide) (by rw [hs2] <;> decide)
      (by rw [hs2, e1]; exact Tiled.nil _)
    have l2 : liveSize holePages.mem (seg1Data + 3016) = 0 := by
      unfold liveSize; rw [st2, if_pos rfl]
    rw [l2] at T2
    have T1 := @Tiled.cons holePages.mem seg1Data (seg1Data + 4096) 0
      (by rw [hs1] <;> decide) (by rw [hs1] <;> decide) (by rw [hs1] <;> decide)
      (by rw [hs1]; exact T2)
    have l1 : liveSize holePages.mem seg1Data = 3016 := by
      unfold liveSize; rw [st1, if_neg (by decide), hs1]
    rw [l1] at T1
    exact T1
  · intro h hh
    rcases (IsHeader_inv hh).2 with e | hh
    · rw [e]; exact Or.inl st1
    · rw [hs1] at hh
      rcases (IsHeader_inv hh).2 with e | hh
      · rw [e]; exact Or.inr st2
      · rw [hs2, e1] at hh
        have := (IsHeader_range hh).2
        have := (IsHeader_range hh).1
        omega

/-! ## The claims -/

/-- C1 (retention), evaluated on a run that the code violates.  Three allocations from
a fresh process give two adjacent large objects `A`, `B` and a small object `X`; the
global word holds a pointer into `B` and the first word of `B` holds a pointer into `X`,
so `B` and `X` are reachable.  Two collection cycles run with the roots unchanged.
After the first cycle `B` still has status `MARK` (the sweep of the large segment
stepped over it), `X` is `UNMARKED` with size 24.  In the second cycle `B`, being
`MARK`, is not scanned, `X` is not marked, and the sweep frees `X`: its status is
`FREE` and `NumBytesFreed` grew by 24. -/
theorem c1_reachable_object_freed :
    (chainRootBX.bind fun s0 => (_runGC 5 gcEnv s0).bind fun s1 => (_runGC 5 gcEnv s1).map fun s2 =>
      [read64 s1.mem 8184, read32 s1.mem (seg1Data + 8192), read32 s1.mem (seg1Data + 8192 + 4),
       read64 s1.mem (seg1Data + 8192 + 16), read32 s1.mem seg2Data, read32 s1.mem (seg2Data + 4),
       read32 s2.mem (seg2Data + 4), (s2.NumBytesFreed - s1.NumBytesFreed).toNat])
      = some [seg1Data + 8192 + 16, 8192, MARK, seg2Data + 16, 24, 0, FREE, 24] := by
  simp only [← _runGCFast_eq]
  decide!

/-- C2 (allocate returns room for the request), evaluated on a request that the code
mishandles.  For `n = 2^64 - 1` the sum `n + 7` wraps, `Align(n, 8)` is 0 and the
object gets `Size = 16`: `_mymalloc` returns `p` with a header of size 16 at `p - 16`,
that is a payload of `16 - 16 = 0` bytes for a request of `2^64 - 1`. -/
theorem c2_size_max_request_gets_no_room :
    ((_mymalloc 1 gcEnv (WORD - 1) freshState).bind fun r =>
      (load32 r.2 (r.1 - OBJ_HEADER_SIZE)).map fun Size => [r.1, Size, Size - OBJ_HEADER_SIZE])
      = some [seg1Data + 16, 16, 0] := by
  decide!

/-- C3 (small-object bump allocation).  For a request `n >= 1` with
`aligned = round_up(n, 8) + 16 <= PAGE_SIZE`, when the running total stays below the
threshold (no GC) and the current small segment has `AllocPtr + aligned <= CommitPtr`
(with `AllocPtr` an 8-aligned address of the data area whose header bytes are on
accessible pages), `_mymalloc` returns the old `AllocPtr + 16`, sets `AllocPtr` to the
old `AllocPtr + aligned`, writes the header `{aligned, 0, 0}` at the old `AllocPtr`,
adds `aligned` to `NumBytesAllocated` and leaves `CommitPtr`, `ReservePtr`, `DataPtr`,
the protections, the segment list, `NumBytesFreed` and every byte outside the
`AllocPtr` field and the new header unchanged (so every page counter and every other
object header). -/
theorem c3_small_bump (fuel : Nat) (env : RootEnv) (n : Nat) (s : State) (seg : Nat)
    (hn : 1 ≤ n) (hfit : roundUp n 8 + 16 ≤ PAGE_SIZE)
    (hgc : (s.TotalAlloc + (roundUp n 8 + 16)) % WORD < GC_THRESHOLD)
    (hcur : s.CurSegSmall = some seg)
    (hroom : getAllocPtr s seg + (roundUp n 8 + 16) ≤ getCommitPtr s seg)
    (hdata : seg + METADATA_SIZE ≤ getAllocPtr s seg)
    (halign : getAllocPtr s seg % 8 = 0)
    (hacc : accessible s (getAllocPtr s seg) 16 = true) :
    ∃ s', _mymalloc (fuel + 1) env n s = some (getAllocPtr s seg + 16, s') ∧
      getAllocPtr s' seg = getAllocPtr s seg + (roundUp n 8 + 16) ∧
      read32 s'.mem (getAllocPtr s seg) = roundUp n 8 + 16 ∧
      read32 s'.mem (getAllocPtr s seg + 4) = 0 ∧
      read64 s'.mem (getAllocPtr s seg + 8) = 0 ∧
      s'.NumBytesAllocated = s.NumBytesAllocated + (roundUp n 8 + 16 : Nat) ∧
      getCommitPtr s' seg = getCommitPtr s seg ∧
      getReservePtr s' seg = getReservePtr s seg ∧
      getDataPtr s' seg = getDataPtr s seg ∧
      (∀ x, ¬ (seg ≤ x ∧ x < seg + 8) →
        ¬ (getAllocPtr s seg ≤ x ∧ x < getAllocPtr s seg + 16) → s'.mem.get x = s.mem.get x) ∧
      s'.noaccess = s.noaccess ∧ s'.Segments = s.Segments ∧
      s'.NumBytesFreed = s.NumBytesFreed := by
  have hn8 : roundUp n 8 ≤ 4080 := by simp only [PAGE_SIZE] at hfit; omega
  have hnle : n ≤ 4080 := by unfold roundUp at hn8; omega
  have hA : Align n 8 = roundUp n 8 := Align_8_small n (by unfold WORD; omega)
  have hAS : (Align n 8 + OBJ_HEADER_SIZE) % WORD = roundUp n 8 + 16 := by
    rw [hA]; unfold OBJ_HEADER_SIZE WORD; omega
  have hC := read64_lt s.mem (seg + 8)
  simp only [METADATA_SIZE, SEGMENT_SIZE, PAGE_SIZE] at hdata
  generalize hsz : roundUp n 8 + 16 = sz at *
  obtain ⟨mem, noaccess, Segments, Unscanned, nodes, gcs, freed, allocd, ulc, cs, cb, ta, mm⟩ := s
  simp only at hcur
  subst hcur
  simp only [getAllocPtr, getCommitPtr, getReservePtr, getDataPtr] at *
  generalize hAp : read64 mem seg = A at *
  have hroom' : ¬ (A + sz > read64 mem (seg + 8)) := by omega
  refine ⟨{ mem := headerMem mem seg A (A + sz) sz, noaccess := noaccess, Segments := Segments,
            Unscanned := Unscanned, nodes := nodes, NumGCTriggered := gcs, NumBytesFreed := freed,
            NumBytesAllocated := allocd + sz, unscannedListCount := ulc, CurSegSmall := some seg,
            CurSegBig := cb, TotalAlloc := (ta + sz) % WORD, mmapRet := mm }, ?_, ?_⟩
  · simp only [_mymalloc, checkAndRunGC, hAS]
    rw [if_pos hgc]
    have hnb : ¬ (sz > COMMIT_SIZE) := by simp only [COMMIT_SIZE, PAGE_SIZE]; omega
    simp only [Option.bind_eq_bind, Option.some_bind, if_neg hnb, makeRoom, getAllocPtr,
      getCommitPtr, hAp, if_neg hroom']
    rw [if_pos (by omega)]
    exact writeObject_eq _ seg A (A + sz) sz hacc halign
  · refine ⟨headerMem_alloc _ _ _ _ _ (by omega) (by omega), headerMem_size _ _ _ _ _ (by omega),
      headerMem_status _ _ _ _ _, headerMem_type _ _ _ _ _, rfl, ?_, ?_, ?_, ?_, rfl, rfl, rfl⟩
    · exact read64_congr _ _ _ (fun x h1 h2 => headerMem_get _ _ _ _ _ _ (by omega) (by omega))
    · exact read64_congr _ _ _ (fun x h1 h2 => headerMem_get _ _ _ _ _ _ (by omega) (by omega))
    · exact read64_congr _ _ _ (fun x h1 h2 => headerMem_get _ _ _ _ _ _ (by omega) (by omega))
    · intro x h1 h2
      exact headerMem_get _ _ _ _ _ _ h1 h2

/-- Witness of C3: the second 8-byte allocation of a process. -/
theorem c3_small_bump_witness :
    (oneSmall.CurSegSmall = some seg1 ∧
      getAllocPtr oneSmall seg1 + (roundUp 8 8 + 16) ≤ getCommitPtr oneSmall seg1) ∧
    ∃ s', _mymalloc 1 gcEnv 8 oneSmall = some (getAllocPtr oneSmall seg1 + 16, s') ∧
      getAllocPtr s' seg1 = getAllocPtr oneSmall seg1 + (roundUp 8 8 + 16) :=
  ⟨⟨by decide!, by decide!⟩,
    (c3_small_bump 0 gcEnv 8 oneSmall seg1 (by decide) (by decide!) (by decide!) (by decide!)
      (by decide!) (by decide!) (by decide!) (by decide!)).imp fun _ h => ⟨h.1, h.2.1⟩⟩

/-- C4 (large-object allocation).  For a request `n` with `round_up(n, 8) + 16 >
PAGE_SIZE` and `aligned = round_up(n + 16, PAGE_SIZE)` such that `AllocPtr + aligned <=
ReservePtr` in the current large segment (a segment as `allocateSegment` and `BigAlloc`
leave it: 4 GiB-aligned, `ReservePtr` at its end, `AllocPtr = CommitPtr` page-aligned in
the data area, its counter table accessible, the counters of the pages not yet allocated
neither 1 nor `PAGE_SIZE`), `BigAlloc` returns the old `AllocPtr + 16`, writes the header
`{aligned, 0, 0}` at the old `AllocPtr`, sets the counter of the first page to 1,
advances `AllocPtr` and `CommitPtr` by `aligned`, and leaves the counters of the
remaining `aligned / PAGE_SIZE - 1` pages (at least one) as they were: neither 1 nor
`PAGE_SIZE`. -/
theorem c4_large_alloc (fuel n : Nat) (s : State) (seg : Nat)
    (hbig : roundUp n 8 + 16 > PAGE_SIZE)
    (hcur : s.CurSegBig = some seg)
    (hroom : getAllocPtr s seg + roundUp (n + 16) PAGE_SIZE ≤ getReservePtr s seg)
    (hseg : seg % SEGMENT_SIZE = 0) (hword : seg + SEGMENT_SIZE ≤ WORD)
    (hres : getReservePtr s seg = seg + SEGMENT_SIZE)
    (hdata : seg + METADATA_SIZE ≤ getAllocPtr s seg)
    (hcommit : getCommitPtr s seg = getAllocPtr s seg)
    (hpage : getAllocPtr s seg % PAGE_SIZE = 0)
    (hmeta : accessible s (getSizeMetadata (getAllocPtr s seg)) 2 = true)
    (hunused : ∀ i, 1 ≤ i → i < roundUp (n + 16) PAGE_SIZE / PAGE_SIZE →
      read16 s.mem (getSizeMetadata (getAllocPtr s seg + i * PAGE_SIZE)) ≠ 1 ∧
      read16 s.mem (getSizeMetadata (getAllocPtr s seg + i * PAGE_SIZE)) ≠ PAGE_SIZE) :
    ∃ s', BigAlloc (fuel + 1) n s = some (getAllocPtr s seg + 16, s') ∧
      read32 s'.mem (getAllocPtr s seg) = roundUp (n + 16) PAGE_SIZE ∧
      read32 s'.mem (getAllocPtr s seg + 4) = 0 ∧
      read64 s'.mem (getAllocPtr s seg + 8) = 0 ∧
      read16 s'.mem (getSizeMetadata (getAllocPtr s seg)) = 1 ∧
      getAllocPtr s' seg = getAllocPtr s seg + roundUp (n + 16) PAGE_SIZE ∧
      getCommitPtr s' seg = getCommitPtr s seg + roundUp (n + 16) PAGE_SIZE ∧
      2 ≤ roundUp (n + 16) PAGE_SIZE / PAGE_SIZE ∧
      (∀ i, 1 ≤ i → i < roundUp (n + 16) PAGE_SIZE / PAGE_SIZE →
        read16 s'.mem (getSizeMetadata (getAllocPtr s seg + i * PAGE_SIZE))
          = read16 s.mem (getSizeMetadata (getAllocPtr s seg + i * PAGE_SIZE)) ∧
        read16 s'.mem (getSizeMetadata (getAllocPtr s seg + i * PAGE_SIZE)) ≠ 1 ∧
        read16 s'.mem (getSizeMetadata (getAllocPtr s seg + i * PAGE_SIZE)) ≠ PAGE_SIZE) := by
  obtain ⟨mem, noaccess, Segments, Unscanned, nodes, gcs, freed, allocd, ulc, cs, cb, ta, mm⟩ := s
  simp only at hcur
  subst hcur
  simp only [getAllocPtr, getCommitPtr, getReservePtr] at *
  have hword' : seg + SEGMENT_SIZE < WORD := by
    have := read64_lt mem (seg + 16)
    omega
  generalize hAp : read64 mem seg = A at *
  generalize hszd : roundUp (n + 16) PAGE_SIZE = sz at *
  have hszle : sz ≤ SEGMENT_SIZE - METADATA_SIZE := by
    simp only [SEGMENT_SIZE, METADATA_SIZE, PAGE_SIZE] at *; omega
  have hn16 : n + 16 ≤ sz := by
    rw [← hszd]; unfold roundUp PAGE_SIZE; omega
  have hmod : sz % PAGE_SIZE = 0 := by
    rw [← hszd]; unfold roundUp; exact Nat.mul_mod_left _ _
  have hge : 8192 ≤ sz := by
    have : 4096 < n + 16 := by
      simp only [roundUp, PAGE_SIZE] at hbig; omega
    rw [← hszd]; unfold roundUp PAGE_SIZE; omega
  have hAl : Align ((n + OBJ_HEADER_SIZE) % WORD) PAGE_SIZE = sz := by
    have e : (n + OBJ_HEADER_SIZE) % WORD = n + 16 := by
      simp only [OBJ_HEADER_SIZE, WORD, SEGMENT_SIZE, METADATA_SIZE, PAGE_SIZE] at *; omega
    rw [e, Align_page_small _ (by simp only [WORD, SEGMENT_SIZE, METADATA_SIZE, PAGE_SIZE] at *; omega),
      hszd]
  have hcnt : ∀ i, i < sz / PAGE_SIZE →
      getSizeMetadata (A + i * PAGE_SIZE) = seg + 2 * ((A - seg) / PAGE_SIZE + i) := by
    intro i hi
    rw [getSizeMetadata_eq seg _ hseg (by simp only [METADATA_SIZE, SEGMENT_SIZE, PAGE_SIZE] at *; omega)
      (by simp only [METADATA_SIZE, SEGMENT_SIZE, PAGE_SIZE] at *; omega) hword]
    simp only [METADATA_SIZE, SEGMENT_SIZE, PAGE_SIZE] at *
    omega
  have hcnt0 : getSizeMetadata A = seg + 2 * ((A - seg) / PAGE_SIZE) := by
    have := hcnt 0 (by simp only [PAGE_SIZE] at *; omega)
    simpa using this
  refine ⟨{ mem := bigMem mem seg A (A + sz) sz, noaccess := setProt noaccess A sz false,
            Segments := Segments, Unscanned := Unscanned, nodes := nodes, NumGCTriggered := gcs,
            NumBytesFreed := freed, NumBytesAllocated := allocd + sz, unscannedListCount := ulc,
            CurSegSmall := cs, CurSegBig := some seg, TotalAlloc := ta, mmapRet := mm }, ?_, ?_⟩
  · have hnr : ¬ (A + sz > seg + SEGMENT_SIZE) := by omega
    simp only [BigAlloc, hAl, if_pos hszle, Option.bind_eq_bind, Option.some_bind, getAllocPtr,
      getCommitPtr, getReservePtr, hAp, hres, hcommit, if_neg hnr]
    exact bigCommit_eq _ seg A sz hpage hmod (by simp only [PAGE_SIZE]; omega) hmeta
  · simp only [METADATA_SIZE, SEGMENT_SIZE, PAGE_SIZE, WORD] at hdata hroom hseg hword hmod hpage hres hszle hword'
    have hcnt0' := hcnt0
    simp only [PAGE_SIZE] at hcnt0'
    refine ⟨?_, ?_, ?_, ?_, ?_, ?_, ?_, ?_⟩
    · have : read32 (bigMem mem seg A (A + sz) sz) A
          = read32 (write32 (write16 (write64 (write64 mem seg (A + sz)) (seg + 8) (A + sz))
              (getSizeMetadata A) 1) A sz) A := by
        apply read32_congr
        intro x h1 h2
        unfold bigMem
        rw [write64_ne _ _ _ _ (by omega), write32_ne _ _ _ _ (by omega)]
      rw [this, read32_write32, Nat.mod_eq_of_lt]
      omega
    · have : read32 (bigMem mem seg A (A + sz) sz) (A + 4)
          = read32 (write32 (write32 (write16 (write64 (write64 mem seg (A + sz)) (seg + 8) (A + sz))
              (getSizeMetadata A) 1) A sz) (A + 4) 0) (A + 4) := by
        apply read32_congr
        intro x h1 h2
        unfold bigMem
        rw [write64_ne _ _ _ _ (by omega)]
      rw [this, read32_write32]
    · unfold bigMem
      rw [read64_write64]; rfl
    · have : read16 (bigMem mem seg A (A + sz) sz) (getSizeMetadata A)
          = read16 (write16 (write64 (write64 mem seg (A + sz)) (seg + 8) (A + sz))
              (getSizeMetadata A) 1) (getSizeMetadata A) := by
        apply read16_congr
        intro x h1 h2
        unfold bigMem
        rw [write64_ne _ _ _ _ (by omega), write32_ne _ _ _ _ (by omega),
          write32_ne _ _ _ _ (by omega)]
      rw [this, read16_write16]
    · have : read64 (bigMem mem seg A (A + sz) sz) seg = read64 (write64 mem seg (A + sz)) seg := by
        apply read64_congr
        intro x h1 h2
        unfold bigMem
        rw [write64_ne _ _ _ _ (by omega), write32_ne _ _ _ _ (by omega),
          write32_ne _ _ _ _ (by omega), write16_ne _ _ _ _ (by omega),
          write64_ne _ _ _ _ (by omega)]
      rw [this, read64_write64, Nat.mod_eq_of_lt]
      simp only [WORD]
      omega
    · have : read64 (bigMem mem seg A (A + sz) sz) (seg + 8)
          = read64 (write64 (write64 mem seg (A + sz)) (seg + 8) (A + sz)) (seg + 8) := by
        apply read64_congr
        intro x h1 h2
        unfold bigMem
        rw [write64_ne _ _ _ _ (by omega), write32_ne _ _ _ _ (by omega),
          write32_ne _ _ _ _ (by omega), write16_ne _ _ _ _ (by omega)]
      rw [this, read64_write64, Nat.mod_eq_of_lt, hcommit]
      simp only [WORD]
      omega
    · simp only [PAGE_SIZE]; omega
    · intro i h1 h2
      have hc := hcnt i h2
      have hfr : read16 (bigMem mem seg A (A + sz) sz) (getSizeMetadata (A + i * PAGE_SIZE))
          = read16 mem (getSizeMetadata (A + i * PAGE_SIZE)) := by
        apply read16_congr
        intro x hx1 hx2
        rw [hc] at hx1 hx2
        simp only [PAGE_SIZE] at hx1 hx2 h2
        apply bigMem_get
        · omega
        · omega
        · rw [hcnt0']; omega
      rw [hfr]
      exact ⟨rfl, hunused i h1 h2⟩

/-- Witness of C4: a 16 KiB request after one large allocation takes five pages; the
counter of the first is 1, those of the other four are neither 1 nor `PAGE_SIZE`. -/
theorem c4_large_alloc_witness :
    (oneLarge.CurSegBig = some seg1 ∧
      getAllocPtr oneLarge seg1 + roundUp (16384 + 16) PAGE_SIZE ≤ getReservePtr oneLarge seg1) ∧
    ∃ s', BigAlloc 1 16384 oneLarge = some (getAllocPtr oneLarge seg1 + 16, s') ∧
      read16 s'.mem (getSizeMetadata (getAllocPtr oneLarge seg1)) = 1 ∧
      ∀ i, 1 ≤ i → i < 5 →
        read16 s'.mem (getSizeMetadata (getAllocPtr oneLarge seg1 + i * PAGE_SIZE)) ≠ 1 ∧
        read16 s'.mem (getSizeMetadata (getAllocPtr oneLarge seg1 + i * PAGE_SIZE)) ≠ PAGE_SIZE :=
  ⟨⟨by decide!, by decide!⟩,
    (c4_large_alloc 0 16384 oneLarge seg1 (by decide!) (by decide!) (by decide!) (by decide!)
      (by decide!) (by decide!) (by decide!) (by decide!) (by decide!) (by decide!)
      (by decide!)).imp fun _ h =>
        ⟨h.1, h.2.2.2.2.1, fun i h1 h2 => (h.2.2.2.2.2.2.2.2 i h1 h2).2⟩⟩

/-- C5 (sweep of a small segment), evaluated on a page that the code mishandles.  The
page at `seg1Data` is filled exactly by a 4080-byte object and the 16-byte object that
`_mymalloc(SIZE_MAX)` creates; both are `UNMARKED`.  `sweepNormalAllocation` frees both
and the page's counter reaches `PAGE_SIZE`, but the page is not released: `myfree` passes
the page of the payload pointer (`Header + 16`, the first byte of the next page) to
`reclaimMemory`, so the swept page stays accessible. -/
theorem c5_full_page_not_released :
    (fullPage.bind fun s0 =>
      (sweepNormalAllocation s0 seg1 (getDataPtr s0 seg1)).map fun s =>
        ([getDataPtr s0 seg1, getAllocPtr s0 seg1,
          read32 s0.mem seg1Data, read32 s0.mem (seg1Data + 4),
          read32 s0.mem (seg1Data + 4080), read32 s0.mem (seg1Data + 4080 + 4),
          read32 s.mem (seg1Data + 4), read32 s.mem (seg1Data + 4080 + 4),
          read16 s.mem (getSizeMetadata seg1Data)],
         s.noaccess (seg1Data / PAGE_SIZE)))
      = some ([seg1Data, seg1Data + 4096, 4080, 0, 16, 0, FREE, FREE, PAGE_SIZE], false) := by
  decide!

/-- C6 (sweep of a large segment), evaluated on a segment that the code mishandles.
Two adjacent large objects `A` and `B` (counters of their first pages 1, size 8192,
status `UNMARKED`) fill `[DataPtr, AllocPtr)`.  `sweepBigAllocation` frees `A` only:
after it `A` is `FREE`, `B` is still `UNMARKED` with the counter of its first page 1,
and `NumBytesFreed` grew by 8192, not 16384.  After `A` the loop adds `A`'s size and then
one more page, so it never reads the counter of `B`'s first page. -/
theorem c6_adjacent_large_object_skipped :
    (twoLarge.bind fun s0 =>
      (sweepBigAllocation s0 seg1 (getDataPtr s0 seg1)).map fun s =>
        [getDataPtr s0 seg1, getAllocPtr s0 seg1,
         read16 s0.mem (getSizeMetadata seg1Data), read32 s0.mem seg1Data, read32 s0.mem (seg1Data + 4),
         read16 s0.mem (getSizeMetadata (seg1Data + 8192)), read32 s0.mem (seg1Data + 8192),
         read32 s0.mem (seg1Data + 8192 + 4),
         read32 s.mem (seg1Data + 4), read32 s.mem (seg1Data + 8192 + 4),
         read16 s.mem (getSizeMetadata (seg1Data + 8192)),
         (s.NumBytesFreed - s0.NumBytesFreed).toNat])
      = some [seg1Data, seg1Data + 16384, 1, 8192, 0, 1, 8192, 0, FREE, 0, 1, 8192] := by
  decide!

/-- C7 (no object is `MARK` after sweep), evaluated on a run that the code violates.
With two adjacent large objects `A`, `B` and a root pointing into `B`, a full cycle
(`_runGC` ends with `sweep`) marks `B`, frees `A` and returns with `B` - a header between
`DataPtr` and `AllocPtr`, on a page whose counter is 1 - still in status `MARK`. -/
theorem c7_mark_survives_sweep :
    (twoLargeRootB.bind fun s0 => (_runGC 5 gcEnv s0).map fun s =>
        [read32 s0.mem (seg1Data + 8192 + 4), getDataPtr s seg1, getAllocPtr s seg1,
         read16 s.mem (getSizeMetadata (seg1Data + 8192)), read32 s.mem (seg1Data + 8192 + 4)])
      = some [0, seg1Data, seg1Data + 16384, 1, MARK] := by
  simp only [← _runGCFast_eq]
  decide!

/-- C8 (idempotence), evaluated on a run that the code violates.  Two adjacent large
objects are unreachable and a small object is referenced from the global word.  The
first cycle frees 8192 bytes (the first large object); the second cycle, with no
allocation and no root change in between, frees 8192 more: the status of the second
large object goes from `UNMARKED` to `FREE` and the counter of its first page from 1 to
`PAGE_SIZE`. -/
theorem c8_second_cycle_frees_more :
    (twoLargeRootX.bind fun s0 => (_runGC 5 gcEnv s0).bind fun s1 => (_runGC 5 gcEnv s1).map fun s2 =>
        [(s1.NumBytesFreed - s0.NumBytesFreed).toNat, (s2.NumBytesFreed - s1.NumBytesFreed).toNat,
         read32 s1.mem (seg1Data + 8192 + 4), read32 s2.mem (seg1Data + 8192 + 4),
         read16 s1.mem (getSizeMetadata (seg1Data + 8192)), read16 s2.mem (getSizeMetadata (seg1Data + 8192))])
      = some [8192, 8192, 0, FREE, 1, PAGE_SIZE] := by
  decide!
/-- C19 (the small-segment walk stops at the page end), evaluated on a candidate that
the code mishandles.  The first page of the small segment is filled by one 4096-byte
object, the second page starts with a 24-byte object, and the global word holds the
address of the first byte of the first page, a candidate that lies in no object's
`[start + 16, start + Size]`.  The test `W <= pageBounds` of the loop compares the
candidate, not the walk position, with the page end, so it never fails: one round of the
loop started at the page start continues on the header of the next page (which it
reads: size 24), and for every amount of fuel `markValidObject` produces no result;
the candidate is never rejected. -/
theorem c19_walk_leaves_the_page :
    load64 pageStartRoot 8184 = some seg1Data ∧
    ADDR_TO_PAGE seg1Data = seg1Data ∧
    load32 pageStartRoot (seg1Data + PAGE_SIZE) = some 24 ∧
    (∀ fuel, retrieveWalk pageStartRoot seg1Data seg1Data (fuel + 1) seg1Data =
      retrieveWalk pageStartRoot seg1Data seg1Data fuel (seg1Data + PAGE_SIZE)) ∧
    (∀ fuel, retrieveObjectHeader fuel pageStartRoot 0 seg1Data seg1 = none) ∧
    (∀ fuel, markValidObject fuel pageStartRoot 8184 = none) := by
  have h1 : load64 pageStartRoot 8184 = some seg1Data := by decide!
  have h2 : findSegment pageStartRoot seg1Data pageStartRoot.Segments = some seg1 := by decide!
  have h3 : getBigAlloc pageStartRoot seg1 = 0 := by decide!
  have h4 : load16 pageStartRoot (getSizeMetadata seg1Data) = some 0 := by decide!
  have h5 : ADDR_TO_PAGE seg1Data = seg1Data := by decide!
  have h6 : load32 pageStartRoot seg1Data = some 4096 := by decide!
  have h7 : load32 pageStartRoot (seg1Data + PAGE_SIZE) = some 24 := by decide!
  have h8 : seg1Data < ADDR_TO_PAGE seg1Data + OBJ_HEADER_SIZE := by decide!
  have h9 : seg1Data ≤ ADDR_TO_PAGE seg1Data + PAGE_SIZE := by decide!
  refine ⟨h1, h5, h7, ?_, ?_, ?_⟩
  · intro fuel
    have hw : ¬ (seg1Data ≤ seg1Data + 4096 + 24 ∧ seg1Data ≥ seg1Data + 4096 + OBJ_HEADER_SIZE) := by
      decide!
    have hp : seg1Data ≤ seg1Data + PAGE_SIZE := by decide!
    have e : seg1Data + 4096 = seg1Data + PAGE_SIZE := rfl
    simp only [retrieveWalk, Option.bind_eq_bind, h6, Option.some_bind, e, h7]
    rw [← e]
    simp [hw, hp]
  · intro fuel
    exact retrieveObjectHeader_stuck fuel pageStartRoot seg1Data seg1 0 4096 h4 (by decide) h8 h9
      (by rw [h5]; exact h6)
  · intro fuel
    exact markValidObject_stuck fuel pageStartRoot 8184 seg1Data seg1 0 4096 h1 h2 h3 h4 (by decide)
      h8 h9 (by rw [h5]; exact h6)
/-- C20 (the large-segment backward walk finds the object's header), evaluated on a
candidate that the code mishandles.  The large segment `seg2` holds one object `A` of two
pages that an earlier cycle freed (status `FREE`, both counters `PAGE_SIZE`), and the
global word holds `w = AllocPtr`, which is accepted (`DataPtr <= w <= AllocPtr`, the
counter of its page is 0).  The backward walk meets no counter equal to 1 in the data
area, goes on through the entries of the metadata pages and stops at entry 16, where the
table overlaps the `BigAlloc` flag (value 1): `retrieveObjectHeader` returns
`seg2 + 16 * PAGE_SIZE`, an address inside the metadata area.  The cycle then writes
`MARK` into the word at `seg2 + 65540`, which is the counter of page 32770, and puts
that address on the Unscanned list. -/
theorem c20_backward_walk_stops_in_metadata :
    (freedLargeRoot.bind fun s0 => (_runGC 5 gcEnv s0).map fun s1 =>
      [getDataPtr s0 seg2, getAllocPtr s0 seg2, read64 s0.mem 8184,
       read32 s0.mem (seg2Data + 4), read16 s0.mem (getSizeMetadata seg2Data),
       read16 s0.mem (getSizeMetadata (seg2Data + PAGE_SIZE)),
       read16 s0.mem (getSizeMetadata (seg2Data + 8192)), read16 s0.mem (seg2 + 2 * 16),
       (match retrieveObjectHeader 5 s0 1 (seg2Data + 8192) seg2 with
        | some (some h) => h
        | _ => 0),
       read16 s0.mem (seg2 + 2 * 32770), read16 s1.mem (seg2 + 2 * 32770)]
      ++ s1.nodes.map UnscannedListNode.Object)
      = some [seg2Data, seg2Data + 8192, seg2Data + 8192, FREE, PAGE_SIZE, PAGE_SIZE, 0, 1,
        seg2 + 16 * PAGE_SIZE, 0, MARK, seg1Data, seg2 + 16 * PAGE_SIZE] := by
  unfold freedLargeRoot
  simp only [← _runGCFast_eq]
  decide!
/-- C16 (hole creation).  In a segment with `AllocPtr < CommitPtr` (`AllocPtr` 8-aligned
in the data area, `CommitPtr` page-aligned and less than a page above it), with the
first 8 bytes at `AllocPtr` and the counter of its page accessible and the counter able
to absorb the hole, `createHole` returns; afterwards the header at the old `AllocPtr` has
`Size = CommitPtr - AllocPtr` and status `FREE`, `AllocPtr = CommitPtr`, `CommitPtr` is
unchanged, the counter of the hole's page has grown by exactly the hole size, and
`NumBytesFreed` and `NumBytesAllocated` are unchanged. -/
theorem c16_hole_creation (s : State) (g : Nat)
    (h1 : getAllocPtr s g < getCommitPtr s g)
    (hA8 : getAllocPtr s g % 8 = 0) (hCp : getCommitPtr s g % PAGE_SIZE = 0)
    (hP : getCommitPtr s g - getAllocPtr s g < PAGE_SIZE)
    (hseg : g % SEGMENT_SIZE = 0) (hd : g + METADATA_SIZE ≤ getAllocPtr s g)
    (hR : getCommitPtr s g ≤ g + SEGMENT_SIZE) (hw : g + SEGMENT_SIZE < WORD)
    (a1 : accessible s (getAllocPtr s g) 8 = true)
    (a3 : accessible s (getSizeMetadata (getAllocPtr s g)) 2 = true)
    (hc : counterOf s.mem (getAllocPtr s g) + (getCommitPtr s g - getAllocPtr s g)
      ≤ PAGE_SIZE) :
    ∃ s', createHole s g = some s' ∧
      hSize s'.mem (getAllocPtr s g) = getCommitPtr s g - getAllocPtr s g ∧
      hStatus s'.mem (getAllocPtr s g) = FREE ∧
      getAllocPtr s' g = getCommitPtr s g ∧ getCommitPtr s' g = getCommitPtr s g ∧
      counterOf s'.mem (getAllocPtr s g) =
        counterOf s.mem (getAllocPtr s g) + (getCommitPtr s g - getAllocPtr s g) ∧
      s'.NumBytesFreed = s.NumBytesFreed ∧ s'.NumBytesAllocated = s.NumBytesAllocated := by
  simp only [getAllocPtr, getCommitPtr, counterOf] at *
  have hP4 : PAGE_SIZE = 4096 := rfl
  have hS4 : SEGMENT_SIZE = 4294967296 := rfl
  have hM := METADATA_SIZE_eq
  rw [hP4] at hCp hP hc
  rw [hS4] at hseg hR hw
  rw [hM] at hd
  have hW : WORD = 18446744073709551616 := rfl
  rw [hW] at hw
  have hlt : read64 s.mem g < g + 4294967296 := by omega
  obtain ⟨c1, c2⟩ := getSizeMetadata_data g (read64 s.mem g) (by rw [hS4]; exact hseg)
    (by rw [hM]; exact hd) (by rw [hS4]; exact hlt) (by rw [hS4, hW]; omega)
  rw [hM] at c2
  have a1' : accessible s (read64 s.mem g) 4 = true ∧
      accessible s (read64 s.mem g + 4) 4 = true := by
    simp only [accessible, hP4, Bool.and_eq_true, Bool.not_eq_true'] at a1 ⊢
    have e1 : (read64 s.mem g + 4 - 1) / 4096 = read64 s.mem g / 4096 := by
      clear * - hA8; omega
    have e2 : (read64 s.mem g + 4) / 4096 = read64 s.mem g / 4096 := by
      clear * - hA8; omega
    have e3 : (read64 s.mem g + 4 + 4 - 1) / 4096 = read64 s.mem g / 4096 := by
      clear * - hA8; omega
    rw [e1, e2, e3]
    exact ⟨⟨a1.1, a1.1⟩, a1.1, a1.1⟩
  have h8 : 8 ≤ read64 s.mem (g + 8) - read64 s.mem g := by clear * - h1 hA8 hCp; omega
  obtain ⟨s', hs'⟩ := createHole_some s g h1 h8 (by rw [hP4]; omega) (by omega)
    (by rw [hW]; omega) (Or.inr (by omega)) (by omega) a1'.1 a1'.2 a3 (by rw [hP4]; exact hc)
  obtain ⟨_, na', _, e⟩ := createHole_inv hs' h1 (by rw [hP4]; omega) (by omega)
  have eK : read16 (write64 (write32 (write32 s.mem (read64 s.mem g)
      (read64 s.mem (g + 8) - read64 s.mem g)) (read64 s.mem g + 4) 0) g
      (read64 s.mem (g + 8))) (getSizeMetadata (read64 s.mem g)) =
      read16 s.mem (getSizeMetadata (read64 s.mem g)) := by
    apply read16_congr
    intro x hx1 hx2
    rw [write64_ne _ g _ x (by omega), write32_ne _ (read64 s.mem g + 4) 0 x (by omega),
      write32_ne _ (read64 s.mem g) _ x (by omega)]
  rw [eK] at e
  refine ⟨s', hs', ?_⟩
  subst e
  refine ⟨holeMem_size _ _ _ _ _ _ _ (by omega) (by omega) (by omega), holeMem_status _ _ _ _ _ _ _,
    holeMem_alloc _ _ _ _ _ _ _ (by omega) (by omega) (read64_lt _ _), ?_,
    holeMem_counter _ _ _ _ _ _ _ (Or.inl (by omega)) (by omega), rfl, rfl⟩
  apply read64_congr
  intro x hx1 hx2
  exact holeMem_get _ _ _ _ _ _ _ x (by omega) (by omega) (by omega)

/-- Witness of C16: after a 3000-byte allocation in a fresh process the rest of the page
is `PAGE_SIZE - 3000 - 16 = 1080` bytes; `createHole` turns it into a hole of that size,
and so does the 2000-byte request that does not fit. -/
theorem c16_hole_creation_witness :
    (getAllocPtr after3000 seg1 = seg1Data + 3016 ∧ getCommitPtr after3000 seg1 = seg1Data + 4096 ∧
      ((_mymalloc 1 gcEnv 2000 after3000).map fun r =>
        [hSize r.2.mem (seg1Data + 3016), hStatus r.2.mem (seg1Data + 3016),
          counterOf r.2.mem (seg1Data + 3016), r.1]) =
        some [1080, FREE, 1080, seg1Data + 4096 + 16]) ∧
    ∃ s', createHole after3000 seg1 = some s' ∧
      hSize s'.mem (getAllocPtr after3000 seg1) =
        getCommitPtr after3000 seg1 - getAllocPtr after3000 seg1 ∧
      hStatus s'.mem (getAllocPtr after3000 seg1) = FREE ∧
      getAllocPtr s' seg1 = getCommitPtr after3000 seg1 ∧
      getCommitPtr s' seg1 = getCommitPtr after3000 seg1 ∧
      counterOf s'.mem (getAllocPtr after3000 seg1) =
        counterOf after3000.mem (getAllocPtr after3000 seg1) +
          (getCommitPtr after3000 seg1 - getAllocPtr after3000 seg1) ∧
      s'.NumBytesFreed = after3000.NumBytesFreed ∧
      s'.NumBytesAllocated = after3000.NumBytesAllocated :=
  ⟨⟨by decide!, by decide!, by decide!⟩,
    c16_hole_creation after3000 seg1 (by decide!) (by decide!) (by decide!) (by decide!)
      (by decide!) (by decide!) (by decide!) (by decide!) (by decide!) (by decide!) (by decide!)⟩
/-- C17 (pages with no survivor become fully free), as the code has it: the sweep of one
page.  Let `P` be a page of the data area of the small segment `seg` that starts below
`AllocPtr`, and let `lim = min(P + PAGE_SIZE, AllocPtr)`.  Let the page be parseable from
`P` to `lim` with `t` the total size of its objects that are not `FREE`, let no object of
the page be marked (every status is UNMARKED or `FREE`), let the counter of the page plus
`t` be at most `PAGE_SIZE` (what the `assert` of `myfree` demands), let the counter be
accessible and let the page be accessible unless its counter is `PAGE_SIZE`.  Then
`traversePageForNormalAllocation` returns; afterwards every object of the page is `FREE`
with its size unchanged, `NumBytesFreed` and the counter have grown by `t`, and
`AllocPtr` is unchanged.  If the counter was the total size of the `FREE` objects and
holes of the page (`counter + t = lim - P`), it is now `lim - P`, the total size of all
objects and holes of the page: `PAGE_SIZE` exactly when the page lies completely below
`AllocPtr`, and less for the page that contains `AllocPtr`. -/
theorem c17_swept_page_counter (s : State) (seg P t : Nat)
    (hseg : seg % SEGMENT_SIZE = 0) (hw : seg + SEGMENT_SIZE < WORD)
    (hP : P % PAGE_SIZE = 0) (hP1 : seg + METADATA_SIZE ≤ P) (hP2 : P < getAllocPtr s seg)
    (hA : getAllocPtr s seg ≤ seg + SEGMENT_SIZE)
    (ht : Tiled s.mem P (min (P + PAGE_SIZE) (getAllocPtr s seg)) t)
    (hst : ∀ h, IsHeader s.mem P (min (P + PAGE_SIZE) (getAllocPtr s seg)) h →
      hStatus s.mem h = 0 ∨ hStatus s.mem h = FREE)
    (hc : counterOf s.mem P + t ≤ PAGE_SIZE)
    (hm : accessible s (getSizeMetadata P) 2 = true)
    (hacc : counterOf s.mem P ≠ PAGE_SIZE → s.noaccess (P / PAGE_SIZE) = false) :
    ∃ s', traversePageForNormalAllocation s P (getSizeMetadata P) seg = some s' ∧
      (∀ h, IsHeader s.mem P (min (P + PAGE_SIZE) (getAllocPtr s seg)) h →
        hStatus s'.mem h = FREE ∧ hSize s'.mem h = hSize s.mem h) ∧
      counterOf s'.mem P = counterOf s.mem P + t ∧
      (counterOf s.mem P + t = min (P + PAGE_SIZE) (getAllocPtr s seg) - P →
        (counterOf s'.mem P = PAGE_SIZE ↔ P + PAGE_SIZE ≤ getAllocPtr s seg)) ∧
      getAllocPtr s' seg = getAllocPtr s seg ∧
      s'.NumBytesFreed = s.NumBytesFreed + (t : Int) :=
  traversePage_frees s seg P t hseg hw hP hP1 hP2 hA ht hst hc hm hacc

/-- Witness of C17: the scenario of the claim.  After a 3000-byte and a 2000-byte
allocation (`holePages`) the first page holds the 3016-byte object, UNMARKED, and the
hole of 1080 bytes, `FREE`, with counter 1080; the page lies completely below `AllocPtr`
and its sweep leaves the counter `PAGE_SIZE`.  The whole run: with a third, reachable
5000-byte allocation (so that the cycle has something to mark) the collection cycle
returns; both small objects and the hole are `FREE`, the counter of the first page is
`PAGE_SIZE` and the counter of the second page, which contains `AllocPtr`, is 2016, the
size of its only object. -/
theorem c17_swept_page_counter_witness :
    (getAllocPtr holePages seg1 = seg1Data + 4096 + 2016 ∧
      hSize holePages.mem seg1Data = 3016 ∧ hStatus holePages.mem seg1Data = 0 ∧
      hSize holePages.mem (seg1Data + 3016) = 1080 ∧
      hStatus holePages.mem (seg1Data + 3016) = FREE ∧
      counterOf holePages.mem seg1Data = 1080 ∧
      counterOf holePages.mem seg1Data + 3016 =
        min (seg1Data + PAGE_SIZE) (getAllocPtr holePages seg1) - seg1Data ∧
      seg1Data + PAGE_SIZE ≤ getAllocPtr holePages seg1) ∧
    (∃ s', traversePageForNormalAllocation holePages seg1Data (getSizeMetadata seg1Data) seg1 =
        some s' ∧
      (∀ h, IsHeader holePages.mem seg1Data
          (min (seg1Data + PAGE_SIZE) (getAllocPtr holePages seg1)) h →
        hStatus s'.mem h = FREE ∧ hSize s'.mem h = hSize holePages.mem h) ∧
      counterOf s'.mem seg1Data = counterOf holePages.mem seg1Data + 3016 ∧
      (counterOf holePages.mem seg1Data + 3016 =
          min (seg1Data + PAGE_SIZE) (getAllocPtr holePages seg1) - seg1Data →
        (counterOf s'.mem seg1Data = PAGE_SIZE ↔
          seg1Data + PAGE_SIZE ≤ getAllocPtr holePages seg1)) ∧
      getAllocPtr s' seg1 = getAllocPtr holePages seg1 ∧
      s'.NumBytesFreed = holePages.NumBytesFreed + ((3016 : Nat) : Int)) ∧
    (holePagesRootLarge.bind fun s0 => (_runGC 5 gcEnv s0).map fun s1 =>
      [getAllocPtr s0 seg1, hSize s0.mem seg1Data, hStatus s0.mem seg1Data,
       hSize s0.mem (seg1Data + 3016), hStatus s0.mem (seg1Data + 3016),
       hSize s0.mem (seg1Data + 4096), hStatus s0.mem (seg1Data + 4096),
       counterOf s0.mem seg1Data, counterOf s0.mem (seg1Data + 4096),
       hStatus s1.mem seg1Data, hStatus s1.mem (seg1Data + 3016),
       hStatus s1.mem (seg1Data + 4096),
       counterOf s1.mem seg1Data, counterOf s1.mem (seg1Data + 4096), getAllocPtr s1 seg1])
      = some [seg1Data + 4096 + 2016, 3016, 0, 1080, FREE, 2016, 0, 1080, 0,
        FREE, FREE, FREE, PAGE_SIZE, 2016, seg1Data + 4096 + 2016] :=
  ⟨⟨by decide!, by decide!, by decide!, by decide!, by decide!, by decide!, by decide!,
      by decide!⟩,
    c17_swept_page_counter holePages seg1 seg1Data 3016 (by decide) (by decide) (by decide)
      (by decide) (by decide!) (by decide!) holePages_firstPage.1 holePages_firstPage.2
      (by decide!) (by decide!) (fun _ => by decide!),
    by unfold holePagesRootLarge; simp only [← _runGCFast_eq]; decide!⟩

/-- C17 refuted as stated: in the state after a 3000-byte and a 2000-byte allocation no
object is marked; after `sweep` the second page, which holds the 2016-byte object (now
`FREE`), has counter 2016, not `PAGE_SIZE`. -/
theorem c17_last_page_counter_not_page_size :
    ((sweep holePages).map fun s1 =>
      [hSize s1.mem (seg1Data + 4096), hStatus s1.mem (seg1Data + 4096),
       counterOf s1.mem seg1Data, counterOf s1.mem (seg1Data + 4096)])
      = some [2016, FREE, PAGE_SIZE, 2016] ∧ 2016 ≠ PAGE_SIZE := by
  decide!
/-- C12 (interior-pointer classification in a small segment).  Let the candidate word
`W`, read at `ptr`, be accepted for the small segment `seg`, let the counter of its page
be readable and not `PAGE_SIZE`, let the page be accessible, and let `h` be a header met
when walking from the first byte of the page by the header sizes, with
`h + 16 <= W < h + Size`.  Then, with enough fuel for the walk, `retrieveObjectHeader`
returns `h`; if the status of `h` is `UNMARKED`, `markValidObject` sets it to `MARK`
(changing nothing else in memory), appends a node for `h` to the Unscanned list, makes it
the tail and increments `unscannedListCount`; appended means that the walk from `Head`
along `Next`, whenever it ends at `Tail` before, afterwards yields the same nodes followed
by the new node, which holds `h` (for an absent or empty list: the new node alone).  If
the status is anything else (`MARK`, `FREE`), `markValidObject` returns the state
unchanged. -/
theorem c12_interior_pointer (s : State) (ptr W seg c lim h : Nat)
    (hl : load64 s ptr = some W) (hf : findSegment s W s.Segments = some seg)
    (hb : getBigAlloc s seg = 0)
    (hc : load16 s (getSizeMetadata W) = some c) (hne : c ≠ PAGE_SIZE)
    (hna : s.noaccess (ADDR_TO_PAGE W / PAGE_SIZE) = false)
    (hh : IsHeader s.mem (ADDR_TO_PAGE W) lim h)
    (h1 : h + 16 ≤ W) (h2 : W < h + hSize s.mem h)
    (hU : ∀ U t, s.Unscanned = some U → U.Tail = some t → t < s.nodes.length) :
    ∃ f0, ∀ fuel, f0 ≤ fuel →
      retrieveObjectHeader fuel s 0 W seg = some (some h) ∧
      (hStatus s.mem h = 0 → ∃ s', markValidObject fuel s ptr = some s' ∧
        s'.mem = write32 s.mem (h + 4) MARK ∧ hStatus s'.mem h = MARK ∧
        s'.nodes.map UnscannedListNode.Object = s.nodes.map UnscannedListNode.Object ++ [h] ∧
        (∃ U', s'.Unscanned = some U' ∧ U'.Tail = some s.nodes.length) ∧
        s'.unscannedListCount = s.unscannedListCount + 1 ∧
        (∀ (k : Nat) (cells : List (Nat × Nat)),
          listCells s.nodes k (listHead s) = some cells →
          (cells.getLast?).map Prod.fst = listTail s →
          listCells s'.nodes (k + 1) (listHead s') = some (cells ++ [(s.nodes.length, h)]))) ∧
      (hStatus s.mem h ≠ 0 → markValidObject fuel s ptr = some s) := by
  have hW : W < WORD := by
    obtain ⟨e, _⟩ := load64_inv hl
    rw [e]; exact read64_lt _ _
  have eP := ADDR_TO_PAGE_eq W hW
  have hr := IsHeader_range hh
  have hPm : ADDR_TO_PAGE W % PAGE_SIZE = 0 := by
    rw [eP]; simp only [PAGE_SIZE]; omega
  have hPle : W < ADDR_TO_PAGE W + PAGE_SIZE := by
    rw [eP]; simp only [PAGE_SIZE]; omega
  obtain ⟨f0, hf0⟩ := retrieveObjectHeader_finds s W seg c lim h hc hne (le_of_lt hPle) hh
    (fun x hx1 hx2 => accessible_in_page s _ x 4 hPm hna hx1 (by omega) (by omega))
    (by simp only [OBJ_HEADER_SIZE]; exact h1) (le_of_lt h2)
  refine ⟨f0, ?_⟩
  intro fuel hfuel
  have hret := hf0 fuel hfuel
  have hacc : accessible s (h + 4) 4 = true :=
    accessible_in_page s _ (h + 4) 4 hPm hna (by omega) (by omega) (by omega)
  have hfound := markValidObject_found fuel s ptr W seg h hl hf (by rw [hb]; exact hret) hacc hU
  refine ⟨hret, ?_, hfound.2⟩
  intro h0
  obtain ⟨s', q1, q2, q3, q4, q5, q6⟩ := hfound.1 h0
  refine ⟨s', q1, q2, q3, q4, q5, q6, ?_⟩
  have e := markValidObject_marks fuel s ptr W seg h hl hf (by rw [hb]; exact hret) hacc h0
  rw [q1] at e
  obtain ⟨s1, ha1, e1⟩ := Option.bind_eq_some.1 e.symm
  have e2 := (Option.some.inj e1).symm
  subst e2
  exact @addToUnscannedList_cells { s with mem := write32 s.mem (h + 4) MARK } s1 h ha1

/-- Witness of C12: a 256-byte object at `p` and the candidate `p + 40` in the global
word; the object is `UNMARKED`. -/
theorem c12_interior_pointer_witness :
    (load64 interiorRoot 8184 = some (seg1Data + 16 + 40) ∧
      hSize interiorRoot.mem seg1Data = 272 ∧ hStatus interiorRoot.mem seg1Data = 0) ∧
    ∃ f0, ∀ fuel, f0 ≤ fuel →
      retrieveObjectHeader fuel interiorRoot 0 (seg1Data + 16 + 40) seg1 = some (some seg1Data) ∧
      (hStatus interiorRoot.mem seg1Data = 0 →
        ∃ s', markValidObject fuel interiorRoot 8184 = some s' ∧
        s'.mem = write32 interiorRoot.mem (seg1Data + 4) MARK ∧ hStatus s'.mem seg1Data = MARK ∧
        s'.nodes.map UnscannedListNode.Object =
          interiorRoot.nodes.map UnscannedListNode.Object ++ [seg1Data] ∧
        (∃ U', s'.Unscanned = some U' ∧ U'.Tail = some interiorRoot.nodes.length) ∧
        s'.unscannedListCount = interiorRoot.unscannedListCount + 1 ∧
        (∀ (k : Nat) (cells : List (Nat × Nat)),
          listCells interiorRoot.nodes k (listHead interiorRoot) = some cells →
          (cells.getLast?).map Prod.fst = listTail interiorRoot →
          listCells s'.nodes (k + 1) (listHead s') =
            some (cells ++ [(interiorRoot.nodes.length, seg1Data)]))) ∧
      (hStatus interiorRoot.mem seg1Data ≠ 0 →
        markValidObject fuel interiorRoot 8184 = some interiorRoot) :=
  ⟨⟨by decide!, by decide!, by decide!⟩,
    c12_interior_pointer interiorRoot 8184 (seg1Data + 16 + 40) seg1 0 (seg1Data + 272) seg1Data
      (by decide!) (by decide!) (by decide!) (by decide!) (by decide) (by decide!)
      ((show ADDR_TO_PAGE (seg1Data + 16 + 40) = seg1Data by decide!) ▸
        IsHeader.here seg1Data (seg1Data + 272) (by decide))
      (by decide) (by decide!)
      (fun U t hu _ => by
        have h0 : interiorRoot.Unscanned.isNone = true := by decide!
        rw [hu] at h0
        exact absurd h0 (by simp))⟩
/-- C13 (one-past-the-end pointers are accepted), for the objects whose end is on their
own page.  Let the candidate word `W`, read at `ptr`, be accepted for the small segment
`seg`, let the counter of its page be readable and not `PAGE_SIZE`, let the page be
accessible, and let `h` be a header of at least 16 bytes met when walking from the first
byte of the page of `W` by the header sizes, with `W = h + Size` (so the object does not
end at the end of its page).  Then, with enough fuel for the walk,
`retrieveObjectHeader` returns `h`, and `markValidObject` marks `h` and appends it to
the Unscanned list when it is `UNMARKED` and changes nothing otherwise. -/
theorem c13_one_past_the_end (s : State) (ptr W seg c lim h : Nat)
    (hl : load64 s ptr = some W) (hf : findSegment s W s.Segments = some seg)
    (hb : getBigAlloc s seg = 0)
    (hc : load16 s (getSizeMetadata W) = some c) (hne : c ≠ PAGE_SIZE)
    (hna : s.noaccess (ADDR_TO_PAGE W / PAGE_SIZE) = false)
    (hh : IsHeader s.mem (ADDR_TO_PAGE W) lim h)
    (h1 : 16 ≤ hSize s.mem h) (h2 : W = h + hSize s.mem h)
    (hU : ∀ U t, s.Unscanned = some U → U.Tail = some t → t < s.nodes.length) :
    ∃ f0, ∀ fuel, f0 ≤ fuel →
      retrieveObjectHeader fuel s 0 W seg = some (some h) ∧
      (hStatus s.mem h = 0 → ∃ s', markValidObject fuel s ptr = some s' ∧
        s'.mem = write32 s.mem (h + 4) MARK ∧ hStatus s'.mem h = MARK ∧
        s'.nodes.map UnscannedListNode.Object = s.nodes.map UnscannedListNode.Object ++ [h] ∧
        (∃ U', s'.Unscanned = some U' ∧ U'.Tail = some s.nodes.length) ∧
        s'.unscannedListCount = s.unscannedListCount + 1) ∧
      (hStatus s.mem h ≠ 0 → markValidObject fuel s ptr = some s) := by
  have hW : W < WORD := by
    obtain ⟨e, _⟩ := load64_inv hl
    rw [e]; exact read64_lt _ _
  have eP := ADDR_TO_PAGE_eq W hW
  have hr := IsHeader_range hh
  have hPm : ADDR_TO_PAGE W % PAGE_SIZE = 0 := by
    rw [eP]; simp only [PAGE_SIZE]; omega
  have hPle : W < ADDR_TO_PAGE W + PAGE_SIZE := by
    rw [eP]; simp only [PAGE_SIZE]; omega
  obtain ⟨f0, hf0⟩ := retrieveObjectHeader_finds s W seg c lim h hc hne (le_of_lt hPle) hh
    (fun x hx1 hx2 => accessible_in_page s _ x 4 hPm hna hx1 (by omega) (by omega))
    (by simp only [OBJ_HEADER_SIZE]; omega) (le_of_eq h2)
  refine ⟨f0, ?_⟩
  intro fuel hfuel
  have hret := hf0 fuel hfuel
  have hacc : accessible s (h + 4) 4 = true :=
    accessible_in_page s _ (h + 4) 4 hPm hna (by omega) (by omega) (by omega)
  exact ⟨hret, markValidObject_found fuel s ptr W seg h hl hf (by rw [hb]; exact hret) hacc hU⟩

/-- Witness of C13: a 272-byte object at the start of a page and the candidate
`h + 272` in the global word. -/
theorem c13_one_past_the_end_witness :
    (load64 onePastRoot 8184 = some (seg1Data + 272) ∧
      hSize onePastRoot.mem seg1Data = 272 ∧ hStatus onePastRoot.mem seg1Data = 0) ∧
    ∃ f0, ∀ fuel, f0 ≤ fuel →
      retrieveObjectHeader fuel onePastRoot 0 (seg1Data + 272) seg1 = some (some seg1Data) ∧
      (hStatus onePastRoot.mem seg1Data = 0 →
        ∃ s', markValidObject fuel onePastRoot 8184 = some s' ∧
        s'.mem = write32 onePastRoot.mem (seg1Data + 4) MARK ∧ hStatus s'.mem seg1Data = MARK ∧
        s'.nodes.map UnscannedListNode.Object =
          onePastRoot.nodes.map UnscannedListNode.Object ++ [seg1Data] ∧
        (∃ U', s'.Unscanned = some U' ∧ U'.Tail = some onePastRoot.nodes.length) ∧
        s'.unscannedListCount = onePastRoot.unscannedListCount + 1) ∧
      (hStatus onePastRoot.mem seg1Data ≠ 0 →
        markValidObject fuel onePastRoot 8184 = some onePastRoot) :=
  ⟨⟨by decide!, by decide!, by decide!⟩,
    c13_one_past_the_end onePastRoot 8184 (seg1Data + 272) seg1 0 (seg1Data + 272) seg1Data
      (by decide!) (by decide!) (by decide!) (by decide!) (by decide) (by decide!)
      ((show ADDR_TO_PAGE (seg1Data + 272) = seg1Data by decide!) ▸
        IsHeader.here seg1Data (seg1Data + 272) (by decide))
      (by decide!) (by decide!)
      (fun U t hu _ => by
        have h0 : onePastRoot.Unscanned.isNone = true := by decide!
        rw [hu] at h0
        exact absurd h0 (by simp))⟩

/-- C13 refuted as stated: an object that ends at the end of its page.  The first page of
the small segment is filled by one `UNMARKED` 4096-byte object with header `h = seg1Data`,
and the global word holds `w = h + Size`, which is accepted for the segment
(`w <= AllocPtr`).  `w` is the first byte of the next page, so the classifier walks that
page, on which no position is accepted for `w`: for every amount of fuel
`retrieveObjectHeader` and `markValidObject` produce no result, and `w` is not classified
as referring to `h`. -/
theorem c13_object_at_page_end :
    hSize pageEndRoot.mem seg1Data = 4096 ∧ hStatus pageEndRoot.mem seg1Data = 0 ∧
    load64 pageEndRoot 8184 = some (seg1Data + 4096) ∧
    findSegment pageEndRoot (seg1Data + 4096) pageEndRoot.Segments = some seg1 ∧
    ADDR_TO_PAGE (seg1Data + 4096) = seg1Data + 4096 ∧
    (∀ fuel, retrieveObjectHeader fuel pageEndRoot 0 (seg1Data + 4096) seg1 = none) ∧
    (∀ fuel, markValidObject fuel pageEndRoot 8184 = none) := by
  have h1 : load64 pageEndRoot 8184 = some (seg1Data + 4096) := by decide!
  have h2 : findSegment pageEndRoot (seg1Data + 4096) pageEndRoot.Segments = some seg1 := by
    decide!
  have h3 : getBigAlloc pageEndRoot seg1 = 0 := by decide!
  have h4 : load16 pageEndRoot (getSizeMetadata (seg1Data + 4096)) = some 0 := by decide!
  have h5 : ADDR_TO_PAGE (seg1Data + 4096) = seg1Data + 4096 := by decide!
  have h6 : load32 pageEndRoot (ADDR_TO_PAGE (seg1Data + 4096)) = some 24 := by decide!
  have h8 : seg1Data + 4096 < ADDR_TO_PAGE (seg1Data + 4096) + OBJ_HEADER_SIZE := by decide!
  have h9 : seg1Data + 4096 ≤ ADDR_TO_PAGE (seg1Data + 4096) + PAGE_SIZE := by decide!
  refine ⟨by decide!, by decide!, h1, h2, h5, ?_, ?_⟩
  · intro fuel
    exact retrieveObjectHeader_stuck fuel pageEndRoot (seg1Data + 4096) seg1 0 24 h4 (by decide)
      h8 h9 h6
  · intro fuel
    exact markValidObject_stuck fuel pageEndRoot 8184 (seg1Data + 4096) seg1 0 24 h1 h2 h3 h4
      (by decide) h8 h9 h6
/-- C14 (GC trigger policy), evaluated on a run that the code mishandles.  A fresh
process allocates 8 bytes (the object `X` of 24 bytes, which nothing refers to) and then
requests 32 MiB.  The running total is `t = 24`, below the threshold, and the aligned
size is `a = round_up(n, 8) + 16 = 33554448`, so `t + a` reaches the threshold and the
claim has `checkAndRunGC(a)` reset the total, run one full cycle and let the allocation
proceed.  In the code `checkAndRunGC` is the call of `_runGC` on the state with the total
reset to 0, and that call does not return: no object is marked, the Unscanned list has
never been created, and `scanner` reads `Unscanned->Head` through the `NULL` pointer.
For every amount of fuel neither `checkAndRunGC` nor `_mymalloc` produces a result: the
cycle is not completed and the allocation does not proceed. -/
theorem c14_triggered_cycle_faults :
    Reachable oneSmall ∧ oneSmall.TotalAlloc = 24 ∧ oneSmall.NumGCTriggered = 0 ∧
    oneSmall.Unscanned = none ∧ hStatus oneSmall.mem seg1Data = 0 ∧
    (Align 33554432 8 + OBJ_HEADER_SIZE) % WORD = roundUp 33554432 8 + 16 ∧
    roundUp 33554432 8 + 16 = 33554448 ∧
    oneSmall.TotalAlloc < GC_THRESHOLD ∧
    GC_THRESHOLD ≤ oneSmall.TotalAlloc + (roundUp 33554432 8 + 16) ∧
    ∀ fuel,
      checkAndRunGC fuel gcEnv oneSmall (roundUp 33554432 8 + 16) =
        _runGC fuel gcEnv { oneSmall with TotalAlloc := 0 } ∧
      _runGC fuel gcEnv { oneSmall with TotalAlloc := 0 } = none ∧
      checkAndRunGC fuel gcEnv oneSmall (roundUp 33554432 8 + 16) = none ∧
      _mymalloc fuel gcEnv 33554432 oneSmall = none := by
  have ht : oneSmall.TotalAlloc < GC_THRESHOLD := by decide!
  have hge : GC_THRESHOLD ≤ oneSmall.TotalAlloc + (roundUp 33554432 8 + 16) := by decide!
  have hA : (Align 33554432 8 + OBJ_HEADER_SIZE) % WORD = roundUp 33554432 8 + 16 := by decide!
  have hgc : ∀ fuel, _runGC fuel gcEnv { oneSmall with TotalAlloc := 0 } = none := fun fuel =>
    _runGC_absent fuel gcEnv { oneSmall with TotalAlloc := 0 } 16384 16 rfl (by decide!)
      (by decide!)
  have hck : ∀ fuel, checkAndRunGC fuel gcEnv oneSmall (roundUp 33554432 8 + 16) =
      _runGC fuel gcEnv { oneSmall with TotalAlloc := 0 } := fun fuel =>
    ((checkAndRunGC_policy fuel gcEnv oneSmall 33554432 ht (by decide)).2.2.2 hge).1
  refine ⟨Reachable_oneSmall, by decide!, by decide!, by decide!, by decide!, hA, by decide,
    ht, hge, ?_⟩
  intro fuel
  refine ⟨hck fuel, hgc fuel, (hck fuel).trans (hgc fuel), ?_⟩
  cases fuel with
  | zero => rfl
  | succ k =>
    unfold _mymalloc
    simp only [Option.bind_eq_bind, hA]
    rw [(hck k).trans (hgc k)]
    rfl
/-- C18 (the mark worklist is drained to empty: `scanner` terminates for every state in
which the list exists), evaluated on a state that the code mishandles.  The small object
`X` (header at `seg1Data`, size 24) is marked and is the one node of the Unscanned list;
its payload word holds `seg1Data + 8`, an address inside the header of `X`.  `scanner`
passes the address of the payload to `markValidObject`, whose walk over the page never
returns for this candidate: for every amount of fuel `scanner` produces no result, and
the list is not drained. -/
theorem c18_scanner_does_not_return :
    headerPointerMarked.Unscanned = some { Head := some 0, Tail := some 0 } ∧
    headerPointerMarked.nodes = [{ Object := seg1Data, Next := none }] ∧
    load32 headerPointerMarked seg1Data = some 24 ∧
    load32 headerPointerMarked (seg1Data + 4) = some MARK ∧
    load64 headerPointerMarked (seg1Data + OBJ_HEADER_SIZE) = some (seg1Data + 8) ∧
    (∀ fuel, markValidObject fuel headerPointerMarked (seg1Data + OBJ_HEADER_SIZE) = none) ∧
    (∀ fuel, scanner fuel headerPointerMarked = none) := by
  have hU : headerPointerMarked.Unscanned = some { Head := some 0, Tail := some 0 } := by decide!
  have hN : headerPointerMarked.nodes = [{ Object := seg1Data, Next := none }] := by decide!
  have hS : load32 headerPointerMarked seg1Data = some 24 := by decide!
  have hM : load32 headerPointerMarked (seg1Data + 4) = some MARK := by decide!
  have h1 : load64 headerPointerMarked (seg1Data + OBJ_HEADER_SIZE) = some (seg1Data + 8) := by
    decide!
  have h2 : findSegment headerPointerMarked (seg1Data + 8) headerPointerMarked.Segments =
      some seg1 := by decide!
  have h3 : getBigAlloc headerPointerMarked seg1 = 0 := by decide!
  have h4 : load16 headerPointerMarked (getSizeMetadata (seg1Data + 8)) = some 0 := by decide!
  have h5 : ADDR_TO_PAGE (seg1Data + 8) = seg1Data := by decide!
  have h8 : seg1Data + 8 < ADDR_TO_PAGE (seg1Data + 8) + OBJ_HEADER_SIZE := by decide!
  have h9 : seg1Data + 8 ≤ ADDR_TO_PAGE (seg1Data + 8) + PAGE_SIZE := by decide!
  have hm : ∀ fuel, markValidObject fuel headerPointerMarked (seg1Data + OBJ_HEADER_SIZE) =
      none := fun fuel =>
    markValidObject_stuck fuel headerPointerMarked (seg1Data + OBJ_HEADER_SIZE) (seg1Data + 8)
      seg1 0 24 h1 h2 h3 h4 (by decide) h8 h9 (by rw [h5]; exact hS)
  refine ⟨hU, hN, hS, hM, h1, hm, ?_⟩
  exact scanner_stuck headerPointerMarked _ 0 { Object := seg1Data, Next := none } 24 hU rfl
    (by rw [hN]; rfl) hS (by decide) hm
/-- C9 (accounting invariant).  In every reachable state (a fresh process followed by any
sequence of `_mymalloc` calls, collection cycles and writes of the program to its own
data and to object payloads) `NumBytesAllocated - NumBytesFreed` is the sum of the header
`Size` over the objects of all segments whose status is not `FREE`, computed by walking
`[DataPtr, AllocPtr)` of each segment; and `createHole` on a small segment of such a
state changes neither `NumBytesAllocated` nor `NumBytesFreed`. -/
theorem c9_accounting_invariant (s : State) (hr : Reachable s) :
    s.NumBytesAllocated - s.NumBytesFreed = (liveBytes s : Int) ∧
    ∀ g ∈ s.Segments, getBigAlloc s g = 0 → ∀ s', createHole s g = some s' →
      s'.NumBytesAllocated = s.NumBytesAllocated ∧ s'.NumBytesFreed = s.NumBytesFreed := by
  obtain ⟨tot, hI⟩ := Reachable_Inv hr
  refine ⟨by rw [liveBytes_eq hI]; exact hI.account, ?_⟩
  intro g hg hf s' hc
  obtain ⟨_, _, _, _, a, b⟩ := createHole_spec (hI.segInv g hg) hf (le_of_lt (hI.gap g hg hf)) hc
  exact ⟨a, b⟩

/-- Witness of C9: the state after a 3000-byte, a 2000-byte and a 5000-byte allocation
(objects of 3016, 2016 and 8192 bytes and a hole of 1080 bytes) and a collection cycle
that frees the two small objects: 13224 bytes allocated, 5032 freed. -/
theorem c9_accounting_invariant_witness :
    (holePagesSwept.NumBytesAllocated = 13224 ∧ holePagesSwept.NumBytesFreed = 5032) ∧
    (holePagesSwept.NumBytesAllocated - holePagesSwept.NumBytesFreed =
        (liveBytes holePagesSwept : Int) ∧
      ∀ g ∈ holePagesSwept.Segments, getBigAlloc holePagesSwept g = 0 →
        ∀ s', createHole holePagesSwept g = some s' →
          s'.NumBytesAllocated = holePagesSwept.NumBytesAllocated ∧
          s'.NumBytesFreed = holePagesSwept.NumBytesFreed) :=
  ⟨⟨holePagesSwept_facts.2.2.1, holePagesSwept_facts.2.2.2.1⟩,
    c9_accounting_invariant holePagesSwept Reachable_holePagesSwept⟩

/-- C10 (segment pointer-order invariant).  For every segment of every reachable state,
`DataPtr <= AllocPtr <= CommitPtr <= ReservePtr` and `ReservePtr - base = SEGMENT_SIZE`;
in a small segment moreover `CommitPtr - AllocPtr < PAGE_SIZE` and `CommitPtr` is
page-aligned.  Reachable states are closed under `_mymalloc` (with `BigAlloc`,
`createHole`, `extendCommitSpace`, `allocateSegment`) and under collection cycles (with
`sweep`), so each of them preserves the order. -/
theorem c10_pointer_order (s : State) (hr : Reachable s) (g : Nat) (hg : g ∈ s.Segments) :
    getDataPtr s g ≤ getAllocPtr s g ∧ getAllocPtr s g ≤ getCommitPtr s g ∧
    getCommitPtr s g ≤ getReservePtr s g ∧ getReservePtr s g - g = SEGMENT_SIZE ∧
    (getBigAlloc s g = 0 →
      getCommitPtr s g - getAllocPtr s g < PAGE_SIZE ∧ getCommitPtr s g % PAGE_SIZE = 0) := by
  obtain ⟨tot, hI⟩ := Reachable_Inv hr
  have hG := (hI.segInv g hg).1
  simp only [getDataPtr, getAllocPtr, getCommitPtr, getReservePtr, getBigAlloc]
  rw [hG.data, hG.reserve]
  exact ⟨hG.dataAlloc, hG.allocCommit, hG.commitReserve, by omega,
    fun hf => ⟨hI.gap g hg hf, hG.commitPage⟩⟩

/-- Witness of C10: the small segment of the state after three allocations and a
collection cycle. -/
theorem c10_pointer_order_witness :
    seg1 ∈ holePagesSwept.Segments ∧
    (getDataPtr holePagesSwept seg1 ≤ getAllocPtr holePagesSwept seg1 ∧
      getAllocPtr holePagesSwept seg1 ≤ getCommitPtr holePagesSwept seg1 ∧
      getCommitPtr holePagesSwept seg1 ≤ getReservePtr holePagesSwept seg1 ∧
      getReservePtr holePagesSwept seg1 - seg1 = SEGMENT_SIZE ∧
      (getBigAlloc holePagesSwept seg1 = 0 →
        getCommitPtr holePagesSwept seg1 - getAllocPtr holePagesSwept seg1 < PAGE_SIZE ∧
        getCommitPtr holePagesSwept seg1 % PAGE_SIZE = 0)) :=
  ⟨by rw [holePagesSwept_facts.1]; decide,
    c10_pointer_order holePagesSwept Reachable_holePagesSwept seg1
      (by rw [holePagesSwept_facts.1]; decide)⟩

/-- C11 (page parseability invariant).  In every reachable state, for every small segment
and every page that starts in `[DataPtr, AllocPtr)` (whatever its counter), the walk from
the first byte `P` of the page by the header sizes is a tiling of
`[P, min(P + PAGE_SIZE, AllocPtr))`: every `Size` is at least 8, no object crosses a page
boundary and the walk lands exactly on `min(page_end, AllocPtr)`; and every header it
visits is one of the headers of the segment, those met when walking from `DataPtr`, which
are the objects written by `_mymalloc` and the holes written by `createHole`. -/
theorem c11_page_parseable (s : State) (hr : Reachable s) (g : Nat) (hg : g ∈ s.Segments)
    (hf : getBigAlloc s g = 0) (P : Nat) (hP : P % PAGE_SIZE = 0)
    (h1 : getDataPtr s g ≤ P) (h2 : P < getAllocPtr s g) :
    (∃ t, Tiled s.mem P (min (P + PAGE_SIZE) (getAllocPtr s g)) t) ∧
    ∀ h, IsHeader s.mem P (min (P + PAGE_SIZE) (getAllocPtr s g)) h →
      IsHeader s.mem (getDataPtr s g) (getAllocPtr s g) h := by
  obtain ⟨tot, hI⟩ := Reachable_Inv hr
  have hSI := hI.segInv g hg
  have hT : Tiled s.mem (g + METADATA_SIZE) (read64 s.mem g) (tot g) := hSI.2.1 hf
  simp only [getDataPtr, getAllocPtr] at h1 h2 ⊢
  rw [hSI.1.data] at h1 ⊢
  have hPh := Tiled_page_start hT P hP h1 h2
  obtain ⟨t1, t2, _, p2, _⟩ := Tiled_split hT hPh
  refine ⟨Tiled_page p2 P hP (le_refl _) (Nat.le_add_right _ _), ?_⟩
  intro h hh
  exact IsHeader_sub (Tiled_chain hT) hPh hh (Nat.min_le_right _ _)

/-- Witness of C11: the second page of the small segment after three allocations and a
collection cycle; it holds one freed object of 2016 bytes and `AllocPtr` lies in it. -/
theorem c11_page_parseable_witness :
    (seg1 ∈ holePagesSwept.Segments ∧ getAllocPtr holePagesSwept seg1 = seg1Data + 4096 + 2016) ∧
    ((∃ t, Tiled holePagesSwept.mem (seg1Data + 4096)
        (min (seg1Data + 4096 + PAGE_SIZE) (getAllocPtr holePagesSwept seg1)) t) ∧
      ∀ h, IsHeader holePagesSwept.mem (seg1Data + 4096)
          (min (seg1Data + 4096 + PAGE_SIZE) (getAllocPtr holePagesSwept seg1)) h →
        IsHeader holePagesSwept.mem (getDataPtr holePagesSwept seg1)
          (getAllocPtr holePagesSwept seg1) h) :=
  ⟨⟨by rw [holePagesSwept_facts.1]; decide, holePagesSwept_facts.2.2.2.2.2.2⟩,
    c11_page_parseable holePagesSwept Reachable_holePagesSwept seg1
      (by rw [holePagesSwept_facts.1]; decide) holePagesSwept_facts.2.2.2.2.1
      (seg1Data + 4096) (by decide)
      (by rw [holePagesSwept_facts.2.2.2.2.2.1]; decide)
      (by rw [holePagesSwept_facts.2.2.2.2.2.2]; decide)⟩

/-- C15 (threshold scenario), with the count that the code has.  A fresh process makes
successive calls `_mymalloc(n)` with `1 <= n <= 4080`; each adds the aligned size
`a = round_up(n, 8) + 16` (header included) to the running total.  Every call for which
the total stays below 32 MiB returns and runs no cycle (`NumGCTriggered` stays 0, the
total after `k` calls is `k * a`).  The call number `k + 1` with
`k * a < 32 MiB <= (k + 1) * a`, that is number `ceil(32 MiB / a)`, is the first that runs
a cycle: its `checkAndRunGC` is one call of `_runGC` with the total reset to 0, and when
it returns `NumGCTriggered` is exactly 1.  For objects of 64 bytes (`n = 48`, `a = 64`)
this is call 524288; for requests of 64 bytes (`a = 80`) it is call 419431. -/
theorem c15_threshold_scenario (m : Mem) (Base : Nat) (rest : List Nat) (env : RootEnv)
    (fuel n : Nat) (hb : MmapOK [] (Base :: rest)) (hn1 : 1 ≤ n) (hn2 : n ≤ 4080) :
    (∀ k, k * (roundUp n 8 + 16) < GC_THRESHOLD →
      ∃ s, mallocMany (fuel + 1) env n k (initState m (Base :: rest)) = some s ∧
        s.NumGCTriggered = 0 ∧ s.TotalAlloc = k * (roundUp n 8 + 16)) ∧
    (∀ k s, k * (roundUp n 8 + 16) < GC_THRESHOLD →
      GC_THRESHOLD ≤ (k + 1) * (roundUp n 8 + 16) →
      mallocMany (fuel + 1) env n k (initState m (Base :: rest)) = some s →
      checkAndRunGC fuel env s (roundUp n 8 + 16) =
        _runGC fuel env { s with TotalAlloc := 0 } ∧
      ∀ p s', _mymalloc (fuel + 1) env n s = some (p, s') → s'.NumGCTriggered = 1) := by
  have hbel := mallocMany_below m Base rest env fuel n hb hn1 hn2
  refine ⟨?_, ?_⟩
  · intro k hk
    obtain ⟨s, h1, h2, h3, _⟩ := hbel k hk
    exact ⟨s, h1, h2, h3⟩
  · intro k s hk1 hk2 hm
    obtain ⟨s0, h1, h2, h3, h4, _⟩ := hbel k hk1
    rw [hm] at h1
    have es : s = s0 := Option.some.inj h1
    subst es
    exact threshold_call fuel env n s h4 h2 hn1 hn2 (by rw [h3]; exact hk1)
      (by rw [h3]; rw [Nat.add_mul, Nat.one_mul] at hk2; exact hk2)

/-- Witness of C15: objects of 64 bytes (requests of 48 bytes) in the fresh process of the
examples; the call that runs the first cycle is number 524288. -/
theorem c15_threshold_scenario_witness :
    (roundUp 48 8 + 16 = 64 ∧ 524287 * (roundUp 48 8 + 16) < GC_THRESHOLD ∧
      GC_THRESHOLD ≤ (524287 + 1) * (roundUp 48 8 + 16)) ∧
    ((∀ k, k * (roundUp 48 8 + 16) < GC_THRESHOLD →
      ∃ s, mallocMany (0 + 1) gcEnv 48 k
          (initState (write32 { init := fun _ => 0, stores := [] } 16388 MAGIC_ADDR)
            (0x7f0000001000 :: [0x7e0000001000, 0x7d0000001000])) = some s ∧
        s.NumGCTriggered = 0 ∧ s.TotalAlloc = k * (roundUp 48 8 + 16)) ∧
    (∀ k s, k * (roundUp 48 8 + 16) < GC_THRESHOLD →
      GC_THRESHOLD ≤ (k + 1) * (roundUp 48 8 + 16) →
      mallocMany (0 + 1) gcEnv 48 k
          (initState (write32 { init := fun _ => 0, stores := [] } 16388 MAGIC_ADDR)
            (0x7f0000001000 :: [0x7e0000001000, 0x7d0000001000])) = some s →
      checkAndRunGC 0 gcEnv s (roundUp 48 8 + 16) =
        _runGC 0 gcEnv { s with TotalAlloc := 0 } ∧
      ∀ p s', _mymalloc (0 + 1) gcEnv 48 s = some (p, s') → s'.NumGCTriggered = 1)) :=
  ⟨⟨by decide, by decide, by decide⟩,
    c15_threshold_scenario _ _ _ gcEnv 0 48 freshState_mmap (by decide) (by decide)⟩

/-- C15 refuted as stated: with requests of 64 bytes every allocation adds 80 bytes to
the running total, so the first 419430 allocations run no cycle and allocation 419431,
not 524288, runs the first one. -/
theorem c15_first_cycle_at_419431 :
    roundUp 64 8 + 16 = 80 ∧ 419431 < 524288 ∧
    ∀ fuel, ∃ s, mallocMany (fuel + 1) gcEnv 64 419430 freshState = some s ∧
      s.NumGCTriggered = 0 ∧ s.TotalAlloc = 419430 * 80 ∧
      checkAndRunGC fuel gcEnv s 80 = _runGC fuel gcEnv { s with TotalAlloc := 0 } ∧
      ∀ p s', _mymalloc (fuel + 1) gcEnv 64 s = some (p, s') → s'.NumGCTriggered = 1 := by
  refine ⟨by decide, by decide, ?_⟩
  intro fuel
  obtain ⟨s, h1, h2, h3, h4, _⟩ := mallocMany_below _ _ _ gcEnv fuel 64 freshState_mmap
    (by decide) (by decide) 419430 (by decide)
  have e : roundUp 64 8 + 16 = 80 := by decide
  rw [e] at h3
  have := threshold_call fuel gcEnv 64 s h4 h2 (by decide) (by decide)
    (by rw [h3]; decide) (by rw [h3]; decide)
  rw [e] at this
  exact ⟨s, h1, h2, h3, this.1, this.2⟩

/-- C22 (a collection cycle that marks nothing), refuted.  Take any state in which the
`Unscanned` list has not been created (no object was ever marked), with the stack
information of the thread available and no candidate in the three root ranges.  Then
`_runGC` does not return: root scanning leaves the list absent and `scanner` reads
`Unscanned->Head` through the `NULL` pointer.  The cycle does not get to `sweep`, so no
UNMARKED object is freed.  `scanner` returns in no state without the list. -/
theorem c22_cycle_without_marks_faults (fuel : Nat) (env : RootEnv) (s : State)
    (Base Size : Nat) (hstack : env.stack = some (Base, Size)) (hU : s.Unscanned = none)
    (hroots : rootsNoCandidate env s = true) :
    _runGC fuel env s = none ∧
      ∀ s' : State, s'.Unscanned = none → scanner fuel s' = none :=
  ⟨_runGC_absent fuel env s Base Size hstack hU hroots, fun s' h => scanner_absent fuel s' h⟩

/-- Witness of C22: a fresh process after `_mymalloc(8)`.  The state is reachable, the
list is absent, the one object (24 bytes, header at the first data byte) is UNMARKED and
no root refers to it; the cycle does not return, whatever the fuel. -/
theorem c22_cycle_without_marks_faults_witness :
    Reachable oneSmall ∧ oneSmall.Unscanned = none ∧ oneSmall.Segments = [seg1] ∧
    getAllocPtr oneSmall seg1 = seg1Data + 24 ∧
    hSize oneSmall.mem seg1Data = 24 ∧ hStatus oneSmall.mem seg1Data = 0 ∧
    rootsNoCandidate gcEnv oneSmall = true ∧
    ∀ fuel, _runGC fuel gcEnv oneSmall = none ∧
      ∀ s' : State, s'.Unscanned = none → scanner fuel s' = none :=
  ⟨Reachable_oneSmall, by decide!, by decide!, by decide!, by decide!, by decide!, by decide!,
    fun fuel => c22_cycle_without_marks_faults fuel gcEnv oneSmall 16384 16 rfl (by decide!)
      (by decide!)⟩

/-- C21 (allocations never overlap).  Let `hist` be the history of a process that has
reached the state `s` by calls of `_mymalloc`, collection cycles and writes of the
program: every address `p` that `_mymalloc` returned, with the state of its return, in
which the header size `sp` is read.  Then (1) any two recorded objects `[p - 16, p - 16
+ sp)` and `[q - 16, q - 16 + sq)` are apart: one ends at or before the start of the
other, whether the earlier one is still live or was freed since; (2) each recorded object
has `p >= 16` and lay inside `[DataPtr, CommitPtr)` of one segment of the state of its
return; (3) the object that one more call returns is apart from every other object and
hole of every segment, that is from every other header met when walking a segment from
`DataPtr` to `AllocPtr`. -/
theorem c21_allocations_never_overlap (s : State) (hist : List (Nat × State))
    (h : History s hist) :
    hist.Pairwise (fun e e' => objEnd e ≤ objStart e' ∨ objEnd e' ≤ objStart e) ∧
    (∀ e ∈ hist, OBJ_HEADER_SIZE ≤ e.1 ∧ ∃ g ∈ e.2.Segments,
      getDataPtr e.2 g ≤ objStart e ∧ objEnd e ≤ getCommitPtr e.2 g) ∧
    (∀ (fuel : Nat) (env : RootEnv) (n p : Nat) (s' : State), n < WORD →
      _mymalloc fuel env n s = some (p, s') →
      ∀ g ∈ s'.Segments, ∀ hd, IsHeader s'.mem (getDataPtr s' g) (getAllocPtr s' g) hd →
        hd ≠ p - OBJ_HEADER_SIZE →
        hd + hSize s'.mem hd ≤ objStart (p, s') ∨ objEnd (p, s') ≤ hd) := by
  obtain ⟨⟨tot, hI⟩, hpw, hin, _⟩ := History_inv h
  exact ⟨hpw, hin, fun fuel env n p s' _ hm => _mymalloc_apart hI hm⟩

/-- Witness of C21: a fresh process allocates 3000 bytes, 2000 bytes (the rest of the
first page becomes a hole) and 5000 bytes (a large object), stores the address of the
large object in a global variable, runs a collection cycle that frees the two small
objects, and allocates 1000 bytes.  The four objects, newest first, are the ranges
listed; the freed bytes are not used again. -/
theorem c21_allocations_never_overlap_witness :
    fourAllocs.2.map (fun e => (objStart e, objEnd e)) =
      [(seg1Data + 4096 + 2016, seg1Data + 4096 + 2016 + 1016), (seg2Data, seg2Data + 8192),
        (seg1Data + 4096, seg1Data + 4096 + 2016), (seg1Data, seg1Data + 3016)] ∧
    fourAllocs.1.NumGCTriggered = 1 ∧
    (fourAllocs.2.Pairwise (fun e e' => objEnd e ≤ objStart e' ∨ objEnd e' ≤ objStart e) ∧
    (∀ e ∈ fourAllocs.2, OBJ_HEADER_SIZE ≤ e.1 ∧ ∃ g ∈ e.2.Segments,
      getDataPtr e.2 g ≤ objStart e ∧ objEnd e ≤ getCommitPtr e.2 g) ∧
    (∀ (fuel : Nat) (env : RootEnv) (n p : Nat) (s' : State), n < WORD →
      _mymalloc fuel env n fourAllocs.1 = some (p, s') →
      ∀ g ∈ s'.Segments, ∀ hd, IsHeader s'.mem (getDataPtr s' g) (getAllocPtr s' g) hd →
        hd ≠ p - OBJ_HEADER_SIZE →
        hd + hSize s'.mem hd ≤ objStart (p, s') ∨ objEnd (p, s') ≤ hd)) :=
  ⟨by unfold fourAllocs; simp only [← _runGCFast_eq]; decide!,
    by unfold fourAllocs; simp only [← _runGCFast_eq]; decide!,
    c21_allocations_never_overlap fourAllocs.1 fourAllocs.2 History_fourAllocs⟩

end SafeGC
